import Mathlib

/-!
# Fakewire link layer: framing codec and exchange

A shallow embedding of the byte-level escape codec (`src/fsw/fakewire/codec.c`,
`src/ext/package/apps/src/fakewire_codec.h`), of the exchange state machine
(`src/ext/package/apps/src/fakewire_exc.c`) and of the ring buffer
(`src/ext/package/apps/src/ringbuf.c`).

Conventions of the embedding:

* a `uint8_t` is a `Nat` below 256; a byte array is a `List Nat`;
* a `uint32_t` that the C code fills or reads through a `uint8_t*` is kept as its four
  bytes in memory order, so `htobe32`/`be32toh` become conversions between a number and
  its big-endian byte list;
* a function that can hit an `assert` returns `Option`, `none` standing for the abort;
* the receiver callbacks (`recv_data`, `recv_ctrl`) and the encoder sink (`output_cb`)
  are recorded as the list of calls made, in order;
* `size_t` counters that count bytes of in-memory objects are plain naturals: they stay
  far below `2^64`, so no wrap-around is modelled for them; the unwrapped indices of the
  ring buffer do wrap, and are kept modulo `2^64`.
-/

namespace Fakewire

/-! ## Control symbols (`fw_ctrl_t`) -/

abbrev FWC_NONE : Nat := 0
abbrev FWC_HANDSHAKE_1 : Nat := 0x80
abbrev FWC_HANDSHAKE_2 : Nat := 0x81
abbrev FWC_START_PACKET : Nat := 0x82
abbrev FWC_END_PACKET : Nat := 0x83
abbrev FWC_ERROR_PACKET : Nat := 0x84
abbrev FWC_FLOW_CONTROL : Nat := 0x85
abbrev FWC_ESCAPE_SYM : Nat := 0x86
/-- Alias of `FWC_ESCAPE_SYM`: the escape symbol itself is never passed to an upper layer. -/
abbrev FWC_CODEC_ERROR : Nat := FWC_ESCAPE_SYM

abbrev FSW_ENCODING_BUF_SIZE : Nat := 1024

/-- `fakewire_is_special(uint8_t ch)`: `ch >= FWC_HANDSHAKE_1 && ch <= FWC_ESCAPE_SYM`. -/
def fakewire_is_special (ch : Nat) : Bool :=
  decide (FWC_HANDSHAKE_1 ≤ ch) && decide (ch ≤ FWC_ESCAPE_SYM)

/-- `fakewire_is_parametrized(fw_ctrl_t ch)`: asserts that `ch` is special, then tests for a
handshake. The `fw_ctrl_t` is converted to `uint8_t` where it is passed to
`fakewire_is_special`. -/
def fakewire_is_parametrized (ch : Nat) : Option Bool :=
  if fakewire_is_special (ch % 256) then some (ch == FWC_HANDSHAKE_1 || ch == FWC_HANDSHAKE_2)
  else none

/-! ## Memory helpers -/

/-- `memcpy(dst + off, src, n)` on byte lists. -/
def memcpy (dst : List Nat) (off : Nat) (src : List Nat) (n : Nat) : List Nat :=
  dst.take off ++ src.take n ++ dst.drop (off + n)

/-- `buf[i] = v`; a store outside the array is an abort. -/
def store (buf : List Nat) (i : Nat) (v : Nat) : Option (List Nat) :=
  if i < buf.length then some (buf.set i v) else none

/-- The four bytes, in memory order, of `htobe32(p)`. -/
def htobe32 (p : Nat) : List Nat :=
  [p / 2 ^ 24 % 256, p / 2 ^ 16 % 256, p / 2 ^ 8 % 256, p % 256]

/-- The value `be32toh(x)` of a `uint32_t` whose bytes in memory are `m`. -/
def be32toh (m : List Nat) : Nat :=
  m.getD 0 0 * 2 ^ 24 + m.getD 1 0 * 2 ^ 16 + m.getD 2 0 * 2 ^ 8 + m.getD 3 0

/-! ## Decoder -/

/-- One call made on the receiver (`fw_receiver_t`). -/
inductive fw_event where
  | recv_data (bytes_in : List Nat)
  | recv_ctrl (symbol : Nat) (param : Nat) (recv_timestamp_ns : Nat)
deriving DecidableEq, Repr

structure fw_decoder_t where
  in_escape : Bool
  recv_current : Nat
  recv_count : Nat
  recv_param : List Nat
  recv_timestamp_ns : Nat
deriving DecidableEq, Repr

/-- `fakewire_dec_raw_data`: returns the decoder and the receiver calls made. -/
def fakewire_dec_raw_data (fwd : fw_decoder_t) (bytes_in : List Nat) :
    Option (fw_decoder_t × List fw_event) :=
  if bytes_in.length = 0 then none
  else if fwd.recv_current ≠ FWC_NONE then
    match fakewire_is_parametrized fwd.recv_current with
    | some true =>
      if fwd.recv_count < 4 then
        let count :=
          if bytes_in.length + fwd.recv_count > 4 then 4 - fwd.recv_count else bytes_in.length
        let recv_param := memcpy fwd.recv_param fwd.recv_count bytes_in count
        let recv_count := fwd.recv_count + count
        let rest := bytes_in.drop count
        let fwd1 : fw_decoder_t := { fwd with recv_param := recv_param, recv_count := recv_count }
        let r : fw_decoder_t × List fw_event :=
          if recv_count = 4 then
            ({ fwd1 with recv_current := FWC_NONE },
              [fw_event.recv_ctrl fwd.recv_current (be32toh recv_param) fwd.recv_timestamp_ns])
          else (fwd1, [])
        if rest.length > 0 then some (r.1, r.2 ++ [fw_event.recv_data rest]) else some r
      else none
    | _ => none
  else some (fwd, [fw_event.recv_data bytes_in])

/-- `fakewire_dec_raw_ctrl`: returns the decoder and the receiver calls made. -/
def fakewire_dec_raw_ctrl (fwd : fw_decoder_t) (symbol : Nat) (recv_timestamp_ns : Nat) :
    Option (fw_decoder_t × List fw_event) :=
  let pre : Option (fw_decoder_t × List fw_event) :=
    if fwd.recv_current ≠ FWC_NONE then
      match fakewire_is_parametrized fwd.recv_current with
      | some true =>
        some ({ fwd with recv_current := FWC_NONE },
          [fw_event.recv_ctrl FWC_CODEC_ERROR 0 fwd.recv_timestamp_ns])
      | _ => none
    else some (fwd, [])
  match pre with
  | none => none
  | some (fwd1, ev1) =>
    match fakewire_is_parametrized symbol with
    | none => none
    | some true =>
      some ({ fwd1 with recv_current := symbol, recv_count := 0,
                        recv_timestamp_ns := recv_timestamp_ns }, ev1)
    | some false => some (fwd1, ev1 ++ [fw_event.recv_ctrl symbol 0 recv_timestamp_ns])

/-- The locals of `fakewire_dec_decode` that live across loop iterations. -/
structure dec_locals where
  fwd : fw_decoder_t
  databuf : List Nat
  db_index : Nat
deriving DecidableEq, Repr

/-- One iteration of the `for` loop of `fakewire_dec_decode` on `cur_byte`. -/
def fakewire_dec_decode_step (recv_timestamp_ns : Nat) (s : dec_locals) (cur_byte : Nat) :
    Option (dec_locals × List fw_event) :=
  -- if (fwd->in_escape) { ... }: (in_escape, cur_byte, is_decoded, ctrl_char)
  let a : Bool × Nat × Bool × Nat :=
    if s.fwd.in_escape then
      let decoded := (cur_byte ^^^ 0x10) % 256
      if fakewire_is_special decoded then (false, decoded, true, FWC_NONE)
      else (false, cur_byte, false, FWC_ESCAPE_SYM)
    else (s.fwd.in_escape, cur_byte, false, FWC_NONE)
  let cur_byte1 := a.2.1
  let is_decoded := a.2.2.1
  -- if (!is_decoded && fakewire_is_special(cur_byte)) { ... }: (in_escape, ctrl_char, consumed)
  let b : Bool × Nat × Bool :=
    if !is_decoded && fakewire_is_special cur_byte1 then
      if cur_byte1 = FWC_ESCAPE_SYM then (true, a.2.2.2, true)
      else (a.1, cur_byte1, true)
    else (a.1, a.2.2.2, false)
  let in_escape2 := b.1
  let ctrl_char := b.2.1
  let consumed := b.2.2
  let fwd1 : fw_decoder_t := { s.fwd with in_escape := in_escape2 }
  -- transmit data as necessary
  let flushed : Option (fw_decoder_t × Nat × List fw_event) :=
    if (ctrl_char ≠ FWC_NONE ∧ s.db_index > 0) ∨ s.db_index ≥ 256 then
      match fakewire_dec_raw_data fwd1 (s.databuf.take s.db_index) with
      | none => none
      | some (f, ev) => some (f, 0, ev)
    else some (fwd1, s.db_index, [])
  match flushed with
  | none => none
  | some (fwd2, db_index2, ev2) =>
    -- transmit control characters
    let ctl : Option (fw_decoder_t × List fw_event) :=
      if ctrl_char ≠ FWC_NONE then fakewire_dec_raw_ctrl fwd2 ctrl_char recv_timestamp_ns
      else some (fwd2, [])
    match ctl with
    | none => none
    | some (fwd3, ev3) =>
      -- append new data to buffer
      if consumed then some ({ fwd := fwd3, databuf := s.databuf, db_index := db_index2 }, ev2 ++ ev3)
      else
        match store s.databuf db_index2 cur_byte1 with
        | none => none
        | some databuf' =>
          some ({ fwd := fwd3, databuf := databuf', db_index := db_index2 + 1 }, ev2 ++ ev3)

/-- The `for` loop of `fakewire_dec_decode` over the bytes that remain. -/
def fakewire_dec_decode_loop (recv_timestamp_ns : Nat) :
    List Nat → dec_locals → Option (dec_locals × List fw_event)
  | [], s => some (s, [])
  | cur_byte :: rest, s =>
    match fakewire_dec_decode_step recv_timestamp_ns s cur_byte with
    | none => none
    | some (s1, ev1) =>
      match fakewire_dec_decode_loop recv_timestamp_ns rest s1 with
      | none => none
      | some (s2, ev2) => some (s2, ev1 ++ ev2)

/-- `fakewire_dec_decode`. The local `databuf[256]` starts with unspecified content, which
is never read before it is written; it is taken as zeroes. -/
def fakewire_dec_decode (fwd : fw_decoder_t) (bytes_in : List Nat) (recv_timestamp_ns : Nat) :
    Option (fw_decoder_t × List fw_event) :=
  if bytes_in.length = 0 then none
  else
    match fakewire_dec_decode_loop recv_timestamp_ns bytes_in
        { fwd := fwd, databuf := List.replicate 256 0, db_index := 0 } with
    | none => none
    | some (s, ev) =>
      if s.db_index > 0 then
        match fakewire_dec_raw_data s.fwd (s.databuf.take s.db_index) with
        | none => none
        | some (fwd2, ev2) => some (fwd2, ev ++ ev2)
      else some (s.fwd, ev)

/-! ## Encoder -/

structure fw_encoder_t where
  enc_buffer : List Nat
  enc_idx : Nat
deriving DecidableEq, Repr

/-- The locals `temp`, `j`, `total` of `fakewire_enc_encode_data`. -/
structure enc_locals where
  temp : List Nat
  j : Nat
  total : Nat
deriving DecidableEq, Repr

/-- The `for` loop of `fakewire_enc_encode_data`; the second component lists the buffers
handed to `output_cb`, in order. -/
def fakewire_enc_encode_data_loop : List Nat → enc_locals → Option (enc_locals × List (List Nat))
  | [], s => some (s, [])
  | byte :: rest, s =>
    -- if our buffer fills up, drain it to the output
    let drained : enc_locals × List (List Nat) :=
      if s.j > FSW_ENCODING_BUF_SIZE - 2 then
        ({ s with total := s.total + s.j, j := 0 }, [s.temp.take s.j])
      else (s, [])
    let s1 := drained.1
    let esc : Option (enc_locals × Nat) :=
      if fakewire_is_special byte then
        match store s1.temp s1.j FWC_ESCAPE_SYM with
        | none => none
        | some t => some ({ s1 with temp := t, j := s1.j + 1 }, (byte ^^^ 0x10) % 256)
      else some (s1, byte)
    match esc with
    | none => none
    | some (s2, byte2) =>
      match store s2.temp s2.j byte2 with
      | none => none
      | some t =>
        match fakewire_enc_encode_data_loop rest { s2 with temp := t, j := s2.j + 1 } with
        | none => none
        | some (s3, out) => some (s3, drained.2 ++ out)

/-- `fakewire_enc_encode_data`: the encoder afterwards and the buffers handed to the sink. -/
def fakewire_enc_encode_data (fwe : fw_encoder_t) (bytes_in : List Nat) :
    Option (fw_encoder_t × List (List Nat)) :=
  if bytes_in.length = 0 then none
  else
    match fakewire_enc_encode_data_loop bytes_in
        { temp := fwe.enc_buffer, j := fwe.enc_idx, total := 0 } with
    | none => none
    | some (s, out) =>
      let total := s.total + s.j - fwe.enc_idx
      if total ≥ bytes_in.length ∧ total ≤ bytes_in.length * 2 then
        some ({ enc_buffer := s.temp, enc_idx := s.j }, out)
      else none

/-- `fakewire_enc_encode_ctrl`. The symbol is a `fw_ctrl_t`; it is converted to `uint8_t`
where it is passed to `fakewire_is_special` and where it is stored. -/
def fakewire_enc_encode_ctrl (fwe : fw_encoder_t) (symbol : Nat) (param : Nat) :
    Option (fw_encoder_t × List (List Nat)) :=
  if ¬ (fakewire_is_special (symbol % 256) ∧ symbol ≠ FWC_ESCAPE_SYM) then none
  else if ¬ (param = 0 ∨ fakewire_is_parametrized symbol = some true) then none
  else
    let drained : fw_encoder_t × List (List Nat) :=
      if fwe.enc_idx > FSW_ENCODING_BUF_SIZE - 1 then
        ({ fwe with enc_idx := 0 }, [fwe.enc_buffer.take fwe.enc_idx])
      else (fwe, [])
    let fwe1 := drained.1
    match store fwe1.enc_buffer fwe1.enc_idx (symbol % 256) with
    | none => none
    | some t =>
      let fwe2 : fw_encoder_t := { enc_buffer := t, enc_idx := fwe1.enc_idx + 1 }
      match fakewire_is_parametrized symbol with
      | none => none
      | some true =>
        match fakewire_enc_encode_data fwe2 (htobe32 param) with
        | none => none
        | some (fwe3, out) => some (fwe3, drained.2 ++ out)
      | some false => some (fwe2, drained.2)

/-- `fakewire_enc_flush`. -/
def fakewire_enc_flush (fwe : fw_encoder_t) : fw_encoder_t × List (List Nat) :=
  if fwe.enc_idx > 0 then ({ fwe with enc_idx := 0 }, [fwe.enc_buffer.take fwe.enc_idx])
  else (fwe, [])

/-- An encoder as `fakewire_enc_init` leaves it: a fresh buffer of
`FSW_ENCODING_BUF_SIZE` bytes with unspecified content, and `enc_idx = 0`. -/
def enc_initialised (fwe : fw_encoder_t) : Prop :=
  fwe.enc_buffer.length = FSW_ENCODING_BUF_SIZE ∧ fwe.enc_idx = 0

instance (fwe : fw_encoder_t) : Decidable (enc_initialised fwe) := by
  unfold enc_initialised
  infer_instance

/-! ## Exchange (`fakewire_exc.c`)

The fields and states below are the ones `fakewire_exc.c` uses (the header that declares
`fw_exchange_t` and `fw_exchange_state` for it is `fakewire_exc.h`); the states are taken in
the order `INVALID`, `DISCONNECTED`, `CONNECTING`, `HANDSHAKING`, `OPERATING`.
The mutex, the condition variable, the thread handle, the label and the I/O port carry no
protocol state and are left out. Each function below is one critical section (a stretch of
code that runs with the mutex held).

The client's receive buffer is borrowed by the exchange while it is registered:
`inbound_buffer` holds the pointer together with the current content of the array it points
to, and `none` is `NULL`. -/

inductive fw_exchange_state where
  | FW_EXC_INVALID
  | FW_EXC_DISCONNECTED
  | FW_EXC_CONNECTING
  | FW_EXC_HANDSHAKING
  | FW_EXC_OPERATING
deriving DecidableEq, Repr

open fw_exchange_state

structure fw_exchange_t where
  state : fw_exchange_state
  tx_busy : Bool
  detaching : Bool
  send_handshake_id : List Nat
  recv_handshake_id : List Nat
  is_recv_handshake_id : Bool
  send_secondary_handshake : Bool
  recv_handshake_offset : Nat
  inbound_buffer : Option (Nat × List Nat)
  inbound_buffer_offset : Nat
  inbound_buffer_max : Nat
  inbound_read_done : Bool
  has_sent_fct : Bool
  remote_sent_fct : Bool
  recv_in_progress : Bool
deriving DecidableEq, Repr

/-- `fakewire_exc_check_invariants`: `state >= FW_EXC_DISCONNECTED && state <= FW_EXC_OPERATING`. -/
def fakewire_exc_check_invariants (fwe : fw_exchange_t) : Bool :=
  decide (fwe.state ≠ FW_EXC_INVALID)

/-- `fakewire_exc_reset`. -/
def fakewire_exc_reset (fwe : fw_exchange_t) : fw_exchange_t :=
  { fwe with
    state := FW_EXC_CONNECTING
    send_handshake_id := [0, 0, 0, 0]
    is_recv_handshake_id := false
    send_secondary_handshake := false
    recv_handshake_id := [0, 0, 0, 0]
    recv_handshake_offset := 0
    inbound_buffer := none
    inbound_read_done := false
    has_sent_fct := false
    remote_sent_fct := false
    recv_in_progress := false }

/-- `fakewire_exc_on_recv_data`. -/
def fakewire_exc_on_recv_data (fwe : fw_exchange_t) (bytes_in : List Nat) :
    Option fw_exchange_t :=
  if bytes_in.length = 0 then none
  else if !fakewire_exc_check_invariants fwe then none
  else if fwe.state = FW_EXC_DISCONNECTED then some fwe
  else if fwe.is_recv_handshake_id then
    if ¬ (fwe.state = FW_EXC_CONNECTING ∨ fwe.state = FW_EXC_HANDSHAKING) then none
    else if ¬ (fwe.recv_handshake_offset < 4) then none
    else if bytes_in.length > 4 - fwe.recv_handshake_offset then some (fakewire_exc_reset fwe)
    else
      let fwe1 : fw_exchange_t :=
        { fwe with
          recv_handshake_id :=
            memcpy fwe.recv_handshake_id fwe.recv_handshake_offset bytes_in bytes_in.length
          recv_handshake_offset := fwe.recv_handshake_offset + bytes_in.length }
      if ¬ (fwe1.recv_handshake_offset ≤ 4) then none
      else if fwe1.recv_handshake_offset = 4 then
        let fwe2 : fw_exchange_t := { fwe1 with is_recv_handshake_id := false }
        if fwe2.state = FW_EXC_CONNECTING then
          some { fwe2 with send_secondary_handshake := true }
        else if fwe2.state ≠ FW_EXC_HANDSHAKING then none
        else if fwe2.recv_handshake_id = fwe2.send_handshake_id then
          some { fwe2 with state := FW_EXC_OPERATING }
        else some (fakewire_exc_reset fwe2)
      else some fwe1
  else if fwe.state = FW_EXC_OPERATING then
    if !fwe.recv_in_progress then some (fakewire_exc_reset fwe)
    else
      match fwe.inbound_buffer with
      | none => none
      | some (ptr, content) =>
        if fwe.inbound_read_done then none
        else if ¬ (fwe.inbound_buffer_offset ≤ fwe.inbound_buffer_max) then none
        else
          let copy_n0 := fwe.inbound_buffer_max - fwe.inbound_buffer_offset
          let copy_n := if copy_n0 > bytes_in.length then bytes_in.length else copy_n0
          let content1 :=
            if copy_n > 0 then memcpy content fwe.inbound_buffer_offset bytes_in copy_n
            else content
          some { fwe with
            inbound_buffer := some (ptr, content1)
            inbound_buffer_offset := fwe.inbound_buffer_offset + bytes_in.length }
  else if fwe.inbound_buffer ≠ none then none
  else some (fakewire_exc_reset fwe)

/-- `fakewire_exc_on_recv_ctrl`. -/
def fakewire_exc_on_recv_ctrl (fwe : fw_exchange_t) (symbol : Nat) : Option fw_exchange_t :=
  if !fakewire_exc_check_invariants fwe then none
  else if fwe.state = FW_EXC_DISCONNECTED then some fwe
  else if fwe.is_recv_handshake_id then some (fakewire_exc_reset fwe)
  else if fwe.state = FW_EXC_CONNECTING then
    if symbol = FWC_HANDSHAKE_1 then
      some { fwe with
        is_recv_handshake_id := true
        recv_handshake_offset := 0
        send_secondary_handshake := false }
    else if symbol = FWC_HANDSHAKE_2 then some (fakewire_exc_reset fwe)
    else if symbol = FWC_START_PACKET ∨ symbol = FWC_END_PACKET ∨ symbol = FWC_ERROR_PACKET ∨
        symbol = FWC_FLOW_CONTROL ∨ symbol = FWC_ESCAPE_SYM then some (fakewire_exc_reset fwe)
    else none
  else if fwe.state = FW_EXC_HANDSHAKING then
    if symbol = FWC_HANDSHAKE_1 then some (fakewire_exc_reset fwe)
    else if symbol = FWC_HANDSHAKE_2 then
      some { fwe with is_recv_handshake_id := true, recv_handshake_offset := 0 }
    else if symbol = FWC_START_PACKET ∨ symbol = FWC_END_PACKET ∨ symbol = FWC_ERROR_PACKET ∨
        symbol = FWC_FLOW_CONTROL ∨ symbol = FWC_ESCAPE_SYM then some (fakewire_exc_reset fwe)
    else none
  else if fwe.state = FW_EXC_OPERATING then
    if symbol = FWC_HANDSHAKE_1 then
      some { fakewire_exc_reset fwe with is_recv_handshake_id := true, recv_handshake_offset := 0 }
    else if symbol = FWC_HANDSHAKE_2 then some (fakewire_exc_reset fwe)
    else if symbol = FWC_START_PACKET then
      if !fwe.has_sent_fct then some (fakewire_exc_reset fwe)
      else if fwe.inbound_buffer = none then none
      else if fwe.inbound_read_done then none
      else if fwe.recv_in_progress then none
      else some { fwe with has_sent_fct := false, recv_in_progress := true }
    else if symbol = FWC_END_PACKET then
      if !fwe.recv_in_progress then some (fakewire_exc_reset fwe)
      else if fwe.inbound_buffer = none then none
      else if fwe.inbound_read_done then none
      else some { fwe with inbound_read_done := true, recv_in_progress := false }
    else if symbol = FWC_ERROR_PACKET then
      if !fwe.recv_in_progress then some (fakewire_exc_reset fwe)
      else if fwe.inbound_buffer = none then none
      else if fwe.inbound_read_done then none
      else some { fwe with inbound_buffer_offset := 0 }
    else if symbol = FWC_FLOW_CONTROL then
      if fwe.remote_sent_fct then some (fakewire_exc_reset fwe)
      else some { fwe with remote_sent_fct := true }
    else if symbol = FWC_ESCAPE_SYM then some (fakewire_exc_reset fwe)
    else none
  else none

/-- The receiver `fwe->link_interface` that `fakewire_exc_init` installs: the decoder's
`recv_data` calls reach `fakewire_exc_on_recv_data` and its `recv_ctrl` calls reach
`fakewire_exc_on_recv_ctrl`, whose signature in this file takes the symbol only. The list
is the sequence of calls the decoder makes, in order. -/
def link_interface_deliver : fw_exchange_t → List fw_event → Option fw_exchange_t
  | fwe, [] => some fwe
  | fwe, fw_event.recv_data bytes_in :: rest =>
    match fakewire_exc_on_recv_data fwe bytes_in with
    | none => none
    | some fwe1 => link_interface_deliver fwe1 rest
  | fwe, fw_event.recv_ctrl symbol _ _ :: rest =>
    match fakewire_exc_on_recv_ctrl fwe symbol with
    | none => none
    | some fwe1 => link_interface_deliver fwe1 rest

/-- Where a thread inside `fakewire_exc_read` stands when it gives up the mutex. -/
inductive read_pc where
  -- blocked in the `cond_wait` of the outer loop (not OPERATING, or a buffer is registered)
  | wait_outer
  -- blocked in the `cond_wait` of the inner loop, its buffer registered
  | wait_inner
  -- returned `actual_len`; `packet_out` is the content of the caller's array
  | returned (actual_len : Int) (packet_out : List Nat)
  -- returned `-1`: the exchange is DISCONNECTED
  | returned_disconnected
deriving DecidableEq, Repr

/-- `fakewire_exc_read`, from the test of the outer `while` up to the next `cond_wait` or the
return: either the exchange is DISCONNECTED, or the thread waits, or it zeroes its array
`packet_out` of `packet_max` bytes, registers it, and waits in the inner loop (whose
condition holds right after the registration). -/
def fakewire_exc_read_outer (fwe : fw_exchange_t) (packet_out packet_max : Nat) :
    Option (fw_exchange_t × read_pc) :=
  if fwe.state = FW_EXC_DISCONNECTED then some (fwe, read_pc.returned_disconnected)
  else if !fakewire_exc_check_invariants fwe then none
  else if fwe.state ≠ FW_EXC_OPERATING ∨ fwe.inbound_buffer ≠ none then
    some (fwe, read_pc.wait_outer)
  else if fwe.recv_in_progress then none
  else if fwe.has_sent_fct then none
  else
    some ({ fwe with
      inbound_buffer := some (packet_out, List.replicate packet_max 0)
      inbound_buffer_offset := 0
      inbound_buffer_max := packet_max
      inbound_read_done := false }, read_pc.wait_inner)

/-- `fakewire_exc_read`, woken up in the inner `cond_wait`: the inner loop test, then the
completion of the read, or the way back to the top of the outer loop after a reset. -/
def fakewire_exc_read_inner (fwe : fw_exchange_t) (packet_out packet_max : Nat) :
    Option (fw_exchange_t × read_pc) :=
  match fwe.inbound_buffer with
  | some (ptr, content) =>
    if fwe.state = FW_EXC_OPERATING ∧ ptr = packet_out then
      if !fwe.inbound_read_done then some (fwe, read_pc.wait_inner)
      else if fwe.inbound_buffer_max ≠ packet_max then none
      else
        let actual_len : Int := fwe.inbound_buffer_offset
        if actual_len < 0 then none
        else
          some ({ fwe with inbound_buffer := none, inbound_read_done := false },
            read_pc.returned actual_len content)
    else fakewire_exc_read_outer fwe packet_out packet_max
  | none => fakewire_exc_read_outer fwe packet_out packet_max

/-- Modelled from the spec: the write side of the link (`fakewire_link_interface`), whose
code is not part of the sources at hand. §4.3 "Outbound protocol": the writer "emits
through the encoder `START_PACKET`, data payload, `END_PACKET`, and flushes". A `recv_ctrl`
call is `fakewire_enc_encode_ctrl` with parameter 0, a `recv_data` call is
`fakewire_enc_encode_data`. The result is the byte sequence handed to the sink. This is the
stretch of `fakewire_exc_write` between its two critical sections. -/
def fakewire_exc_write_transmit (enc : fw_encoder_t) (packet_in : List Nat) :
    Option (List Nat) :=
  match fakewire_enc_encode_ctrl enc FWC_START_PACKET 0 with
  | none => none
  | some (enc1, out1) =>
    match fakewire_enc_encode_data enc1 packet_in with
    | none => none
    | some (enc2, out2) =>
      match fakewire_enc_encode_ctrl enc2 FWC_END_PACKET 0 with
      | none => none
      | some (enc3, out3) => some (out1 ++ out2 ++ out3 ++ (fakewire_enc_flush enc3).2).flatten

/-- The decoder calls for one packet: `START_PACKET`, the payload as the given data runs,
`END_PACKET`. -/
def packet_events (runs : List (List Nat)) (ts : Nat) : List fw_event :=
  fw_event.recv_ctrl FWC_START_PACKET 0 ts ::
    (runs.map fw_event.recv_data ++ [fw_event.recv_ctrl FWC_END_PACKET 0 ts])

/-! ## Exchange: lifecycle, writer and flow-TX critical sections -/

/-- `fakewire_exc_init`: the structure is zeroed and the state set to DISCONNECTED. -/
def fakewire_exc_init : fw_exchange_t :=
  { state := FW_EXC_DISCONNECTED, tx_busy := false, detaching := false,
    send_handshake_id := [0, 0, 0, 0], recv_handshake_id := [0, 0, 0, 0],
    is_recv_handshake_id := false, send_secondary_handshake := false,
    recv_handshake_offset := 0, inbound_buffer := none, inbound_buffer_offset := 0,
    inbound_buffer_max := 0, inbound_read_done := false, has_sent_fct := false,
    remote_sent_fct := false, recv_in_progress := false }

/-- `fakewire_exc_attach`; `link_ok` tells whether `fakewire_link_init` succeeded. The result
is the exchange and the value returned. -/
def fakewire_exc_attach (fwe : fw_exchange_t) (link_ok : Bool) : Option (fw_exchange_t × Int) :=
  if fwe.state ≠ FW_EXC_DISCONNECTED then none
  else if fwe.detaching then none
  else if !link_ok then some (fwe, -1)
  else some (fakewire_exc_reset fwe, 0)

/-- `fakewire_exc_detach`, its first critical section: up to the `mutex_unlock` before
`thread_join`. -/
def fakewire_exc_detach_begin (fwe : fw_exchange_t) : Option fw_exchange_t :=
  if !fakewire_exc_check_invariants fwe then none
  else if fwe.state = FW_EXC_DISCONNECTED then none
  else if fwe.detaching then none
  else some { fwe with state := FW_EXC_DISCONNECTED, detaching := true }

/-- `fakewire_exc_detach`, its second critical section, entered once the flow-TX thread has
been joined and run once `tx_busy` is clear (`while (fwe->tx_busy) cond_wait`). -/
def fakewire_exc_detach_end (fwe : fw_exchange_t) : Option fw_exchange_t :=
  if fwe.state ≠ FW_EXC_DISCONNECTED then none
  else if !fwe.detaching then none
  else some { fwe with detaching := false }

/-- Where a thread inside `fakewire_exc_write` stands when it gives up the mutex. -/
inductive write_pc where
  -- blocked in `cond_wait`: not OPERATING, or no credit, or the wire is busy
  | waiting
  -- the wire is claimed; `START_PACKET`, the payload and `END_PACKET` are being sent
  | transmitting
  -- returned `-1`: the exchange is DISCONNECTED
  | returned_disconnected
deriving DecidableEq, Repr

/-- `fakewire_exc_write`, its first critical section: the test of the wait loop, then either
the failure on DISCONNECTED, the wait, or the claim of the wire. -/
def fakewire_exc_write_begin (fwe : fw_exchange_t) : Option (fw_exchange_t × write_pc) :=
  if fwe.state ≠ FW_EXC_OPERATING ∨ fwe.remote_sent_fct = false ∨ fwe.tx_busy = true then
    if !fakewire_exc_check_invariants fwe then none
    else if fwe.state = FW_EXC_DISCONNECTED then some (fwe, write_pc.returned_disconnected)
    else some (fwe, write_pc.waiting)
  else some ({ fwe with tx_busy := true, remote_sent_fct := false }, write_pc.transmitting)

/-- `fakewire_exc_write`, its second critical section, after the packet has been sent; the
value returned is then 0. -/
def fakewire_exc_write_end (fwe : fw_exchange_t) : Option fw_exchange_t :=
  if !fwe.tx_busy then none else some { fwe with tx_busy := false }

/-- Where the flow-TX thread stands when it gives up the mutex. -/
inductive flowtx_pc where
  -- no flow-TX thread has been created yet
  | not_started
  -- at the top of the loop, or blocked in the wait at its bottom
  | idle
  -- inside `fakewire_exc_send_handshake` for `HANDSHAKE_2` with this ID, mutex released
  | tx_secondary (handshake_id : List Nat)
  -- inside `fakewire_exc_send_handshake` for `HANDSHAKE_1`, mutex released
  | tx_primary
  -- sending `FLOW_CONTROL`, mutex released
  | tx_fct
  -- the loop has ended and the thread can be joined
  | exited
deriving DecidableEq, Repr

/-- The last `if` of the flow-TX loop body, up to its `mutex_unlock`: a credit is extended
when state = OPERATING, a buffer is registered, and `tx_busy`, `has_sent_fct`,
`recv_in_progress` and `inbound_read_done` are all clear; otherwise the thread goes to wait. -/
def fakewire_exc_flowtx_fct (fwe : fw_exchange_t) : fw_exchange_t × flowtx_pc :=
  if fwe.state = FW_EXC_OPERATING ∧ fwe.inbound_buffer ≠ none ∧ fwe.tx_busy = false ∧
      fwe.has_sent_fct = false ∧ fwe.recv_in_progress = false ∧
      fwe.inbound_read_done = false then
    ({ fwe with tx_busy := true, has_sent_fct := true }, flowtx_pc.tx_fct)
  else (fwe, flowtx_pc.idle)

/-- The primary handshake ID, as the bytes in memory of
`htonl(0x80000000 + (0x7FFFFFFF & (uint32_t) clock))`. -/
def primary_handshake_id (clock : Nat) : List Nat :=
  htobe32 (0x80000000 + (0x7FFFFFFF &&& (clock % 2 ^ 32)))

/-- The flow-TX loop from its `while` test to the next `mutex_unlock`. `expired` is the
outcome of `now >= next_handshake` and `clock` the value of the monotonic clock read for
the handshake ID. -/
def fakewire_exc_flowtx_top (fwe : fw_exchange_t) (expired : Bool) (clock : Nat) :
    Option (fw_exchange_t × flowtx_pc) :=
  if fwe.state = FW_EXC_DISCONNECTED then some (fwe, flowtx_pc.exited)
  else if !fakewire_exc_check_invariants fwe then none
  else if (fwe.state = FW_EXC_CONNECTING ∨ fwe.state = FW_EXC_HANDSHAKING) ∧
      fwe.tx_busy = false then
    if fwe.send_secondary_handshake then
      if fwe.state ≠ FW_EXC_CONNECTING then none
      else some ({ fwe with tx_busy := true }, flowtx_pc.tx_secondary fwe.recv_handshake_id)
    else if expired then
      some ({ fwe with send_handshake_id := primary_handshake_id clock,
                       state := FW_EXC_HANDSHAKING, tx_busy := true }, flowtx_pc.tx_primary)
    else some (fakewire_exc_flowtx_fct fwe)
  else some (fakewire_exc_flowtx_fct fwe)

/-- The flow-TX loop after `HANDSHAKE_2` with `handshake_id` has been sent: from the
`mutex_lock` at the end of `fakewire_exc_send_handshake` to the next `mutex_unlock`. -/
def fakewire_exc_flowtx_secondary_sent (fwe : fw_exchange_t) (handshake_id : List Nat) :
    Option (fw_exchange_t × flowtx_pc) :=
  if !fwe.tx_busy then none
  else
    let fwe1 : fw_exchange_t := { fwe with tx_busy := false }
    let fwe2 : fw_exchange_t :=
      if !fwe1.send_secondary_handshake then fwe1
      else if handshake_id ≠ fwe1.recv_handshake_id then fwe1
      else if fwe1.state ≠ FW_EXC_CONNECTING then fwe1
      else { fwe1 with state := FW_EXC_OPERATING, send_secondary_handshake := false }
    some (fakewire_exc_flowtx_fct fwe2)

/-- The flow-TX loop after `HANDSHAKE_1` has been sent, up to the next `mutex_unlock`. -/
def fakewire_exc_flowtx_primary_sent (fwe : fw_exchange_t) :
    Option (fw_exchange_t × flowtx_pc) :=
  if !fwe.tx_busy then none
  else some (fakewire_exc_flowtx_fct { fwe with tx_busy := false })

/-- The flow-TX loop after `FLOW_CONTROL` has been sent, up to the wait. -/
def fakewire_exc_flowtx_fct_sent (fwe : fw_exchange_t) : Option (fw_exchange_t × flowtx_pc) :=
  if !fwe.tx_busy then none
  else some ({ fwe with tx_busy := false }, flowtx_pc.idle)

/-- The value `fakewire_exc_read` returns once it stands at `pc`: `actual_len`, which is
`-1` when the outer loop ended on DISCONNECTED; `none` while the call is still waiting. -/
def read_pc.returned_value : read_pc → Option Int
  | read_pc.returned actual_len _ => some actual_len
  | read_pc.returned_disconnected => some (-1)
  | _ => none

/-- The value `fakewire_exc_write` returns out of its first critical section: `-1` when the
wait loop finds the exchange DISCONNECTED; `none` while the call waits or transmits. -/
def write_pc.returned_value : write_pc → Option Int
  | write_pc.returned_disconnected => some (-1)
  | _ => none

/-- `fakewire_exc_write` from the `mutex_lock` of its second critical section to its
`return 0`: the exchange afterwards and the value returned. -/
def fakewire_exc_write_finish (fwe : fw_exchange_t) : Option (fw_exchange_t × Int) :=
  match fakewire_exc_write_end fwe with
  | none => none
  | some fwe1 => some (fwe1, 0)

/-- `handshake_period`: `(rand() % (7 * ms)) + 3 * ms` with `uint64_t ms = 1000 * 1000`.
`rand` is the `int` that `rand()` returned; it is converted to `uint64_t` for the `%`. -/
def handshake_period (rand : Int) : Nat :=
  let ms : Nat := 1000 * 1000 % 2 ^ 64
  ((rand % 2 ^ 64).toNat % (7 * ms % 2 ^ 64) + 3 * ms % 2 ^ 64) % 2 ^ 64

/-! ## The exchange with its threads

The exchange structure together with what the threads that share it are doing. One step is
one critical section of one thread. `writers_tx` counts the client writes that stand
between their two critical sections. `pkts_started` and `fcts_rcvd` are history counters,
not fields of the C structure: the client packets whose transmission has been started, and
the `FLOW_CONTROL` symbols delivered to `fakewire_exc_on_recv_ctrl`. -/

structure exc_sys where
  fwe : fw_exchange_t
  flowtx : flowtx_pc
  writers_tx : Nat
  pkts_started : Nat
  fcts_rcvd : Nat
deriving DecidableEq, Repr

inductive exc_action where
  | attach (link_ok : Bool)
  | detach_begin
  | detach_end
  | recv_ctrl (symbol : Nat)
  | recv_data (bytes_in : List Nat)
  | flowtx_top (expired : Bool) (clock : Nat)
  | flowtx_sent
  | read_outer (packet_out packet_max : Nat)
  | read_inner (packet_out packet_max : Nat)
  | write_begin
  | write_end
deriving DecidableEq, Repr

/-- The exchange and its threads right after `fakewire_exc_init`. -/
def exc_sys_init : exc_sys :=
  { fwe := fakewire_exc_init, flowtx := flowtx_pc.not_started, writers_tx := 0,
    pkts_started := 0, fcts_rcvd := 0 }

/-- Whether the flow-TX thread is between claiming and releasing the wire. -/
def flowtx_pc.sending : flowtx_pc → Bool
  | flowtx_pc.tx_secondary _ => true
  | flowtx_pc.tx_primary => true
  | flowtx_pc.tx_fct => true
  | _ => false

/-- One step of the exchange with its threads; `none` when the step aborts on an assertion
or cannot be taken in this situation (a thread that is not at that point, a join or a wait
that has not been satisfied). -/
def exc_step (s : exc_sys) : exc_action → Option exc_sys
  | exc_action.attach link_ok =>
    match fakewire_exc_attach s.fwe link_ok with
    | none => none
    | some (fwe1, _) =>
      if link_ok then some { s with fwe := fwe1, flowtx := flowtx_pc.idle }
      else some { s with fwe := fwe1 }
  | exc_action.detach_begin =>
    match fakewire_exc_detach_begin s.fwe with
    | none => none
    | some fwe1 => some { s with fwe := fwe1 }
  | exc_action.detach_end =>
    if s.flowtx ≠ flowtx_pc.exited ∨ s.fwe.tx_busy = true then none
    else
      match fakewire_exc_detach_end s.fwe with
      | none => none
      | some fwe1 => some { s with fwe := fwe1 }
  | exc_action.recv_ctrl symbol =>
    match fakewire_exc_on_recv_ctrl s.fwe symbol with
    | none => none
    | some fwe1 =>
      some { s with fwe := fwe1,
                    fcts_rcvd := if symbol = FWC_FLOW_CONTROL then s.fcts_rcvd + 1
                                 else s.fcts_rcvd }
  | exc_action.recv_data bytes_in =>
    match fakewire_exc_on_recv_data s.fwe bytes_in with
    | none => none
    | some fwe1 => some { s with fwe := fwe1 }
  | exc_action.flowtx_top expired clock =>
    if s.flowtx ≠ flowtx_pc.idle then none
    else
      match fakewire_exc_flowtx_top s.fwe expired clock with
      | none => none
      | some (fwe1, pc) => some { s with fwe := fwe1, flowtx := pc }
  | exc_action.flowtx_sent =>
    match s.flowtx with
    | flowtx_pc.tx_secondary handshake_id =>
      match fakewire_exc_flowtx_secondary_sent s.fwe handshake_id with
      | none => none
      | some (fwe1, pc) => some { s with fwe := fwe1, flowtx := pc }
    | flowtx_pc.tx_primary =>
      match fakewire_exc_flowtx_primary_sent s.fwe with
      | none => none
      | some (fwe1, pc) => some { s with fwe := fwe1, flowtx := pc }
    | flowtx_pc.tx_fct =>
      match fakewire_exc_flowtx_fct_sent s.fwe with
      | none => none
      | some (fwe1, pc) => some { s with fwe := fwe1, flowtx := pc }
    | _ => none
  | exc_action.read_outer packet_out packet_max =>
    match fakewire_exc_read_outer s.fwe packet_out packet_max with
    | none => none
    | some (fwe1, _) => some { s with fwe := fwe1 }
  | exc_action.read_inner packet_out packet_max =>
    match fakewire_exc_read_inner s.fwe packet_out packet_max with
    | none => none
    | some (fwe1, _) => some { s with fwe := fwe1 }
  | exc_action.write_begin =>
    match fakewire_exc_write_begin s.fwe with
    | none => none
    | some (fwe1, write_pc.transmitting) =>
      some { s with fwe := fwe1, writers_tx := s.writers_tx + 1,
                    pkts_started := s.pkts_started + 1 }
    | some (fwe1, _) => some { s with fwe := fwe1 }
  | exc_action.write_end =>
    if s.writers_tx = 0 then none
    else
      match fakewire_exc_write_end s.fwe with
      | none => none
      | some fwe1 => some { s with fwe := fwe1, writers_tx := s.writers_tx - 1 }

/-- The steps of a schedule taken one after the other. -/
def exc_run : exc_sys → List exc_action → Option exc_sys
  | s, [] => some s
  | s, a :: rest =>
    match exc_step s a with
    | none => none
    | some s1 => exc_run s1 rest

/-- The number of threads that stand between claiming and releasing the wire. -/
def tx_holders (s : exc_sys) : Nat :=
  s.writers_tx + (if s.flowtx.sending then 1 else 0)

/-! ## Invariants of the exchange with its threads -/

/-- What `fakewire_exc_reset` is said to leave behind: CONNECTING, no secondary owed, no
handshake ID awaited, no buffer registered, and the four flow flags clear. -/
def reset_cleared (fwe : fw_exchange_t) : Prop :=
  fwe.state = FW_EXC_CONNECTING ∧ fwe.send_secondary_handshake = false ∧
    fwe.is_recv_handshake_id = false ∧ fwe.inbound_buffer = none ∧
    fwe.inbound_read_done = false ∧ fwe.has_sent_fct = false ∧
    fwe.remote_sent_fct = false ∧ fwe.recv_in_progress = false

/-- Relations between the fields of the exchange structure that every step keeps. -/
def flags_inv (fwe : fw_exchange_t) : Prop :=
  fwe.state ≠ FW_EXC_INVALID ∧
    (fwe.detaching = true → fwe.state = FW_EXC_DISCONNECTED) ∧
    (fwe.has_sent_fct = true → fwe.inbound_buffer ≠ none ∧ fwe.inbound_read_done = false) ∧
    (fwe.recv_in_progress = true →
      fwe.inbound_buffer ≠ none ∧ fwe.inbound_read_done = false ∧ fwe.has_sent_fct = false) ∧
    (fwe.state = FW_EXC_CONNECTING ∨ fwe.state = FW_EXC_HANDSHAKING →
      fwe.remote_sent_fct = false ∧ fwe.has_sent_fct = false ∧ fwe.recv_in_progress = false ∧
        fwe.inbound_read_done = false ∧ fwe.inbound_buffer = none) ∧
    (fwe.is_recv_handshake_id = true →
      fwe.state ≠ FW_EXC_OPERATING ∧ fwe.recv_handshake_offset < 4 ∧
        fwe.send_secondary_handshake = false) ∧
    (fwe.send_secondary_handshake = true →
      fwe.state ≠ FW_EXC_HANDSHAKING ∧ fwe.state ≠ FW_EXC_OPERATING) ∧
    fwe.recv_handshake_id.length = 4

/-- The flow-TX thread runs only while the exchange is attached or being detached, and
`tx_busy` is set exactly when one thread stands between claiming and releasing the wire. -/
def thread_inv (s : exc_sys) : Prop :=
  (s.fwe.state = FW_EXC_DISCONNECTED ∧ s.fwe.detaching = false →
      s.flowtx = flowtx_pc.not_started ∨ s.flowtx = flowtx_pc.exited) ∧
    tx_holders s ≤ 1 ∧ (s.fwe.tx_busy = true ↔ tx_holders s = 1)

/-- The packets started, plus the credit still held, never exceed the `FLOW_CONTROL`
symbols received. -/
def credit_inv (s : exc_sys) : Prop :=
  s.pkts_started + (if s.fwe.remote_sent_fct then 1 else 0) ≤ s.fcts_rcvd

/-- The three invariants together. -/
def sys_inv (s : exc_sys) : Prop :=
  flags_inv s.fwe ∧ thread_inv s ∧ credit_inv s

/-- The exchange when the last of the four handshake ID bytes has been stored. -/
def latch_id (fwe : fw_exchange_t) (id : List Nat) : fw_exchange_t :=
  { fwe with recv_handshake_id := id, recv_handshake_offset := 4,
             is_recv_handshake_id := false }

/-! ## Some schedules -/

/-- Attach alone: the exchange is CONNECTING and flow-TX has been started. -/
def sched_attached : List exc_action :=
  [exc_action.attach true]

/-- Attach, then a primary handshake sent at clock value 1 (ID `0x80000001`): the exchange
is HANDSHAKING and no handshake ID is awaited. -/
def sched_handshaking : List exc_action :=
  [exc_action.attach true, exc_action.flowtx_top true 1, exc_action.flowtx_sent]

/-- Attach, then `HANDSHAKE_1` is received and its ID bytes have not arrived yet: the
exchange is CONNECTING and awaits a handshake ID. -/
def sched_awaiting_id : List exc_action :=
  [exc_action.attach true, exc_action.recv_ctrl FWC_HANDSHAKE_1]

/-- Attach, a primary handshake sent at clock value 1 (ID `0x80000001`), and the peer's
`HANDSHAKE_2` with the same ID: the exchange is OPERATING. -/
def sched_operating : List exc_action :=
  [exc_action.attach true, exc_action.flowtx_top true 1, exc_action.flowtx_sent,
    exc_action.recv_ctrl FWC_HANDSHAKE_2, exc_action.recv_data [0x80, 0, 0, 1]]

/-- As `sched_operating`, then a credit is received and a client write claims the wire. -/
def sched_one_write : List exc_action :=
  sched_operating ++ [exc_action.recv_ctrl FWC_FLOW_CONTROL, exc_action.write_begin]

/-- As `sched_operating`, then a credit is received, a read registers a 4-byte buffer,
flow-TX extends a credit for it, and the exchange is detached (flow-TX ends, detach
completes). -/
def sched_detached : List exc_action :=
  sched_operating ++
    [exc_action.recv_ctrl FWC_FLOW_CONTROL, exc_action.read_outer 0 4,
      exc_action.flowtx_top false 0, exc_action.flowtx_sent, exc_action.detach_begin,
      exc_action.flowtx_top false 0, exc_action.detach_end]

/-- As `sched_operating`, then a credit is received, a read registers a 4-byte buffer and
flow-TX extends a credit for it: the exchange is OPERATING with `remote_sent_fct` and
`has_sent_fct` set. -/
def sched_credited : List exc_action :=
  sched_operating ++
    [exc_action.recv_ctrl FWC_FLOW_CONTROL, exc_action.read_outer 0 4,
      exc_action.flowtx_top false 0, exc_action.flowtx_sent]

/-- As `sched_operating`, then the first critical section of a detach, after which flow-TX
finds the exchange DISCONNECTED and ends: the detach is at its second critical section. -/
def sched_detaching : List exc_action :=
  sched_operating ++ [exc_action.detach_begin, exc_action.flowtx_top false 0]

/-- Attach, then `HANDSHAKE_1` is received, and before its ID bytes arrive the handshake
timer expires and flow-TX sends a primary handshake (clock value 1): the exchange is
HANDSHAKING while a handshake ID is still awaited. -/
def sched_handshaking_awaiting : List exc_action :=
  [exc_action.attach true, exc_action.recv_ctrl FWC_HANDSHAKE_1, exc_action.flowtx_top true 1,
    exc_action.flowtx_sent]

/-- Attach, then `HANDSHAKE_1` with ID bytes `1, 2, 3, 4` is received and flow-TX starts
sending the secondary handshake. -/
def sched_secondary : List exc_action :=
  [exc_action.attach true, exc_action.recv_ctrl FWC_HANDSHAKE_1, exc_action.recv_data [1, 2],
    exc_action.recv_data [3, 4], exc_action.flowtx_top false 0]

/-- Attach, `HANDSHAKE_1` with ID bytes `1, 2, 3, 4` is received (a secondary handshake is
owed), and the exchange is detached before flow-TX sends it. -/
def sched_secondary_detached : List exc_action :=
  [exc_action.attach true, exc_action.recv_ctrl FWC_HANDSHAKE_1,
    exc_action.recv_data [1, 2, 3, 4], exc_action.detach_begin, exc_action.flowtx_top false 0,
    exc_action.detach_end]

/-- As `sched_operating`, then a read registers a 4-byte buffer and flow-TX claims the wire
to send `FLOW_CONTROL`. -/
def sched_fct_sending : List exc_action :=
  sched_operating ++ [exc_action.read_outer 0 4, exc_action.flowtx_top false 0]

/-- As `sched_fct_sending`, then the `FLOW_CONTROL` is out, and `START_PACKET` and two data
bytes are received: a packet is being received into the registered buffer. -/
def sched_receiving : List exc_action :=
  sched_fct_sending ++
    [exc_action.flowtx_sent, exc_action.recv_ctrl FWC_START_PACKET, exc_action.recv_data [5, 6]]

/-! ## Credits sent, counted along a run -/

/-- Whether the step from `s` to `s1` is flow-TX claiming the wire to send `FLOW_CONTROL`. -/
def fct_emitted (s s1 : exc_sys) : Bool :=
  decide (s.flowtx ≠ flowtx_pc.tx_fct) && decide (s1.flowtx = flowtx_pc.tx_fct)

/-- The number of `FLOW_CONTROL` symbols flow-TX has sent for the buffer that is registered:
the count starts again at 0 whenever no buffer is registered. -/
def fcts_for_buffer_step (n : Nat) (s s1 : exc_sys) : Nat :=
  if s1.fwe.inbound_buffer = none then 0
  else if fct_emitted s s1 then n + 1
  else n

/-- A schedule run from `s`, with the count of `fcts_for_buffer_step` carried along. -/
def exc_run_counting : exc_sys → Nat → List exc_action → Option (exc_sys × Nat)
  | s, n, [] => some (s, n)
  | s, n, a :: rest =>
    match exc_step s a with
    | none => none
    | some s1 => exc_run_counting s1 (fcts_for_buffer_step n s s1) rest

/-- What a critical section that sends no credit does to the receive flags, from `fwe` to
`fwe1` under the action `a`: `has_sent_fct` is not newly set; unless the buffer is or was
absent, or a packet is being or has been received, the three flags stay as they were; and
`has_sent_fct` is cleared only by a `START_PACKET` that starts the reception, or by a reset
(after which `HANDSHAKE_1` in OPERATING awaits its ID). -/
def credit_kept (fwe fwe1 : fw_exchange_t) (a : exc_action) : Prop :=
  (fwe1.has_sent_fct = true → fwe.has_sent_fct = true) ∧
    (fwe1.inbound_buffer = none ∨ fwe.inbound_buffer = none ∨
      fwe1.recv_in_progress = true ∨ fwe1.inbound_read_done = true ∨
      (fwe1.has_sent_fct = fwe.has_sent_fct ∧
        fwe1.recv_in_progress = fwe.recv_in_progress ∧
        fwe1.inbound_read_done = fwe.inbound_read_done)) ∧
    (fwe.has_sent_fct = true → fwe1.has_sent_fct = false →
      (a = exc_action.recv_ctrl FWC_START_PACKET ∧ fwe1.recv_in_progress = true ∧
          fwe1.state = FW_EXC_OPERATING) ∨
        fwe1 = fakewire_exc_reset fwe ∨
        fwe1 = { fakewire_exc_reset fwe with
          is_recv_handshake_id := true, recv_handshake_offset := 0 })

/-! ## The wire format as the specification words it, and what is observed of a run -/

/-- Spec-side wire form of one data byte (§4.2, §6): a byte in `0x80..0x86` is written as
`ESCAPE_SYM, byte XOR 0x10`, any other byte as itself. -/
def wire_escape_byte (b : Nat) : List Nat :=
  if 0x80 ≤ b ∧ b ≤ 0x86 then [0x86, b ^^^ 0x10] else [b]

/-- Spec-side wire form of a data byte sequence: each byte escaped, in order. -/
def wire_escape (B : List Nat) : List Nat :=
  B.flatMap wire_escape_byte

/-- The concatenation of the byte runs delivered through `recv_data`. -/
def data_of : List fw_event → List Nat
  | [] => []
  | fw_event.recv_data bs :: rest => bs ++ data_of rest
  | fw_event.recv_ctrl _ _ _ :: rest => data_of rest

/-- The control events delivered through `recv_ctrl`, in order. -/
def ctrl_of : List fw_event → List fw_event
  | [] => []
  | fw_event.recv_data _ :: rest => ctrl_of rest
  | fw_event.recv_ctrl c p t :: rest => fw_event.recv_ctrl c p t :: ctrl_of rest

/-- Everything the sink receives from `fakewire_enc_encode_data` followed by
`fakewire_enc_flush`, as one byte sequence. -/
def enc_data_then_flush (fwe : fw_encoder_t) (bytes_in : List Nat) : Option (List Nat) :=
  match fakewire_enc_encode_data fwe bytes_in with
  | none => none
  | some (fwe1, out) => some (out ++ (fakewire_enc_flush fwe1).2).flatten

/-- Everything the sink receives from `fakewire_enc_encode_ctrl` followed by
`fakewire_enc_flush`, as one byte sequence. -/
def enc_ctrl_then_flush (fwe : fw_encoder_t) (symbol param : Nat) : Option (List Nat) :=
  match fakewire_enc_encode_ctrl fwe symbol param with
  | none => none
  | some (fwe1, out) => some (out ++ (fakewire_enc_flush fwe1).2).flatten

/-- The exchange in the middle of a packet: OPERATING, a receive in progress into the
registered array `content` of `inbound_buffer_max` bytes, `inbound_buffer_offset` within it. -/
def receiving (fwe : fw_exchange_t) (ptr : Nat) (content : List Nat) : Prop :=
  fwe.state = FW_EXC_OPERATING ∧ fwe.is_recv_handshake_id = false ∧
    fwe.recv_in_progress = true ∧ fwe.inbound_read_done = false ∧
    fwe.inbound_buffer = some (ptr, content) ∧ content.length = fwe.inbound_buffer_max ∧
    fwe.inbound_buffer_offset ≤ fwe.inbound_buffer_max

instance (fwe : fw_exchange_t) (ptr : Nat) (content : List Nat) :
    Decidable (receiving fwe ptr content) := by
  unfold receiving
  infer_instance

/-- The exchange with the content of the registered array and the receive offset replaced. -/
def set_inbound (fwe : fw_exchange_t) (buf : Option (Nat × List Nat)) (off : Nat) :
    fw_exchange_t :=
  { fwe with inbound_buffer := buf, inbound_buffer_offset := off }

/-- An initialised encoder whose fresh buffer happens to hold zeroes. -/
def enc_fresh : fw_encoder_t :=
  { enc_buffer := List.replicate FSW_ENCODING_BUF_SIZE 0, enc_idx := 0 }

/-- A decoder that is not in an escape and has no parametrized symbol pending. -/
def dec_idle : fw_decoder_t :=
  { in_escape := false, recv_current := FWC_NONE, recv_count := 0, recv_param := [0, 0, 0, 0],
    recv_timestamp_ns := 0 }

/-! ## Decoder: chunks, traces, and the two halves of one loop iteration -/

/-- What the receiver observes of a list of events, one item per data byte and one per
control event: the boundaries between data runs are forgotten, everything else is kept in
order. -/
inductive fw_token where
  | byte (b : Nat)
  | ctrl (symbol : Nat) (param : Nat) (recv_timestamp_ns : Nat)
deriving DecidableEq, Repr

/-- The observation of a list of receiver calls. -/
def trace_of : List fw_event → List fw_token
  | [] => []
  | fw_event.recv_data bs :: rest => bs.map fw_token.byte ++ trace_of rest
  | fw_event.recv_ctrl c p t :: rest => fw_token.ctrl c p t :: trace_of rest

/-- Successive calls of `fakewire_dec_decode`, one per chunk, each chunk with its
timestamp; the receiver calls of all of them, in order. -/
def fakewire_dec_decode_chunks :
    fw_decoder_t → List (List Nat × Nat) → Option (fw_decoder_t × List fw_event)
  | fwd, [] => some (fwd, [])
  | fwd, (bytes_in, ts) :: rest =>
    match fakewire_dec_decode fwd bytes_in ts with
    | none => none
    | some (fwd1, ev1) =>
      match fakewire_dec_decode_chunks fwd1 rest with
      | none => none
      | some (fwd2, ev2) => some (fwd2, ev1 ++ ev2)

/-- A decoder as the code leaves it between calls: `recv_param` is a `uint32_t`, and either
no parametrized symbol is pending, or a handshake symbol is pending with fewer than 4 of its
parameter bytes stored. -/
def dec_wf (fwd : fw_decoder_t) : Prop :=
  fwd.recv_param.length = 4 ∧
    (fwd.recv_current = FWC_NONE ∨
      ((fwd.recv_current = FWC_HANDSHAKE_1 ∨ fwd.recv_current = FWC_HANDSHAKE_2) ∧
        fwd.recv_count < 4))

instance (fwd : fw_decoder_t) : Decidable (dec_wf fwd) := by
  unfold dec_wf
  infer_instance

/-- The first half of the loop body of `fakewire_dec_decode`, its two `if`s on the escape
state and on special bytes: `in_escape`, `ctrl_char`, `consumed` and `cur_byte` after
them. -/
def dec_classify (in_escape : Bool) (cur_byte : Nat) : Bool × Nat × Bool × Nat :=
  let a : Bool × Nat × Bool × Nat :=
    if in_escape then
      let decoded := (cur_byte ^^^ 0x10) % 256
      if fakewire_is_special decoded then (false, decoded, true, FWC_NONE)
      else (false, cur_byte, false, FWC_ESCAPE_SYM)
    else (in_escape, cur_byte, false, FWC_NONE)
  let cur_byte1 := a.2.1
  let is_decoded := a.2.2.1
  let b : Bool × Nat × Bool :=
    if !is_decoded && fakewire_is_special cur_byte1 then
      if cur_byte1 = FWC_ESCAPE_SYM then (true, a.2.2.2, true)
      else (a.1, cur_byte1, true)
    else (a.1, a.2.2.2, false)
  (b.1, b.2.1, b.2.2, cur_byte1)

/-- The second half of the loop body of `fakewire_dec_decode`: the data flush, the control
symbol, and the byte appended to `databuf`. -/
def dec_emit (recv_timestamp_ns : Nat) (fwd1 : fw_decoder_t) (databuf : List Nat)
    (db_index : Nat) (ctrl_char : Nat) (consumed : Bool) (cur_byte1 : Nat) :
    Option (dec_locals × List fw_event) :=
  let flushed : Option (fw_decoder_t × Nat × List fw_event) :=
    if (ctrl_char ≠ FWC_NONE ∧ db_index > 0) ∨ db_index ≥ 256 then
      match fakewire_dec_raw_data fwd1 (databuf.take db_index) with
      | none => none
      | some (f, ev) => some (f, 0, ev)
    else some (fwd1, db_index, [])
  match flushed with
  | none => none
  | some (fwd2, db_index2, ev2) =>
    let ctl : Option (fw_decoder_t × List fw_event) :=
      if ctrl_char ≠ FWC_NONE then fakewire_dec_raw_ctrl fwd2 ctrl_char recv_timestamp_ns
      else some (fwd2, [])
    match ctl with
    | none => none
    | some (fwd3, ev3) =>
      if consumed then some ({ fwd := fwd3, databuf := databuf, db_index := db_index2 }, ev2 ++ ev3)
      else
        match store databuf db_index2 cur_byte1 with
        | none => none
        | some databuf' =>
          some ({ fwd := fwd3, databuf := databuf', db_index := db_index2 + 1 }, ev2 ++ ev3)

/-- The data that is still in `databuf` handed to `fakewire_dec_raw_data`, as the end of
`fakewire_dec_decode` does. -/
def dec_settle (s : dec_locals) : Option (fw_decoder_t × List fw_event) :=
  if s.db_index > 0 then fakewire_dec_raw_data s.fwd (s.databuf.take s.db_index)
  else some (s.fwd, [])

/-- The loop body of `fakewire_dec_decode` after its data flush: the control symbol, and the
byte appended to `databuf`; `ev2` are the receiver calls of the flush. -/
def dec_emit_tail (recv_timestamp_ns : Nat) (fwd2 : fw_decoder_t) (databuf : List Nat)
    (db_index2 : Nat) (ev2 : List fw_event) (ctrl_char : Nat) (consumed : Bool)
    (cur_byte1 : Nat) : Option (dec_locals × List fw_event) :=
  let ctl : Option (fw_decoder_t × List fw_event) :=
    if ctrl_char ≠ FWC_NONE then fakewire_dec_raw_ctrl fwd2 ctrl_char recv_timestamp_ns
    else some (fwd2, [])
  match ctl with
  | none => none
  | some (fwd3, ev3) =>
    if consumed then some ({ fwd := fwd3, databuf := databuf, db_index := db_index2 }, ev2 ++ ev3)
    else
      match store databuf db_index2 cur_byte1 with
      | none => none
      | some databuf' =>
        some ({ fwd := fwd3, databuf := databuf', db_index := db_index2 + 1 }, ev2 ++ ev3)

/-- A chunk cut into chunks of one byte, each with the timestamp of the chunk. -/
def one_by_one (bytes_in : List Nat) (recv_timestamp_ns : Nat) : List (List Nat × Nat) :=
  bytes_in.map (fun b => ([b], recv_timestamp_ns))

/-- A decoder outside an escape with no parametrized symbol pending. -/
def dec_nothing_pending (fwd : fw_decoder_t) : Prop :=
  fwd.in_escape = false ∧ fwd.recv_current = FWC_NONE ∧ fwd.recv_param.length = 4

instance (fwd : fw_decoder_t) : Decidable (dec_nothing_pending fwd) := by
  unfold dec_nothing_pending
  infer_instance

/-- Every chunk of a list of chunks cut into chunks of one byte, each byte with the
timestamp of the chunk it came in. -/
def one_by_one_chunks : List (List Nat × Nat) → List (List Nat × Nat)
  | [] => []
  | (bytes_in, ts) :: rest => one_by_one bytes_in ts ++ one_by_one_chunks rest

/-- One call on the encoder. -/
inductive enc_call where
  | data (bytes_in : List Nat)
  | ctrl (symbol : Nat) (param : Nat)
  | flush
deriving DecidableEq, Repr

/-- One call on the encoder: the encoder afterwards and the buffers handed to the sink. -/
def enc_do (fwe : fw_encoder_t) : enc_call → Option (fw_encoder_t × List (List Nat))
  | enc_call.data bytes_in => fakewire_enc_encode_data fwe bytes_in
  | enc_call.ctrl symbol param => fakewire_enc_encode_ctrl fwe symbol param
  | enc_call.flush => some (fakewire_enc_flush fwe)

/-- A sequence of calls on the encoder: the encoder afterwards and the buffers handed to the
sink, in order. -/
def enc_run : fw_encoder_t → List enc_call → Option (fw_encoder_t × List (List Nat))
  | fwe, [] => some (fwe, [])
  | fwe, c :: rest =>
    match enc_do fwe c with
    | none => none
    | some (fwe1, out1) =>
      match enc_run fwe1 rest with
      | none => none
      | some (fwe2, out2) => some (fwe2, out1 ++ out2)

/-- The calls the encoder permits: data that is not empty, a handshake symbol with a 32-bit
parameter, or one of the other four symbols with parameter 0. -/
def enc_call_ok : enc_call → Prop
  | enc_call.data bytes_in => bytes_in ≠ []
  | enc_call.ctrl symbol param =>
    ((symbol = FWC_HANDSHAKE_1 ∨ symbol = FWC_HANDSHAKE_2) ∧ param < 2 ^ 32) ∨
      ((symbol = FWC_START_PACKET ∨ symbol = FWC_END_PACKET ∨ symbol = FWC_ERROR_PACKET ∨
        symbol = FWC_FLOW_CONTROL) ∧ param = 0)
  | enc_call.flush => True

/-- Spec-side wire form of a sequence of encoder calls: data escaped, a symbol as its byte,
followed for a handshake symbol by its escaped big-endian parameter. -/
def wire_of_calls : List enc_call → List Nat
  | [] => []
  | enc_call.data bytes_in :: rest => wire_escape bytes_in ++ wire_of_calls rest
  | enc_call.ctrl symbol param :: rest =>
    (if symbol = FWC_HANDSHAKE_1 ∨ symbol = FWC_HANDSHAKE_2 then
      symbol :: wire_escape (htobe32 param) else [symbol]) ++ wire_of_calls rest
  | enc_call.flush :: rest => wire_of_calls rest

/-- What a receiver is to observe of a sequence of encoder calls decoded with timestamp
`recv_timestamp_ns`. -/
def tokens_of_calls (recv_timestamp_ns : Nat) : List enc_call → List fw_token
  | [] => []
  | enc_call.data bytes_in :: rest =>
    bytes_in.map fw_token.byte ++ tokens_of_calls recv_timestamp_ns rest
  | enc_call.ctrl symbol param :: rest =>
    fw_token.ctrl symbol param recv_timestamp_ns :: tokens_of_calls recv_timestamp_ns rest
  | enc_call.flush :: rest => tokens_of_calls recv_timestamp_ns rest

/-! ## Ring buffer (`ringbuf.c`) -/

/-- The ring buffer `ringbuf_t`. An element, `elem_size` bytes that are only ever copied
together, is one value of `memory`, so `memory` lists the whole elements that fit into the
allocated block; `read_idx` and `write_idx` are the unwrapped `size_t` indices, kept modulo
`2^64`. -/
structure ringbuf_t where
  memory : List Nat
  capacity : Nat
  read_idx : Nat
  write_idx : Nat
deriving DecidableEq, Repr

/-- `ringbuf_init`. `malloc_ok` tells whether `malloc` returns a block rather than `NULL`.
The block has `capacity * elem_size` bytes, a product of `size_t` values that wraps modulo
`2^64`, and so room for that many bytes divided by `elem_size` whole elements; its
unspecified content is taken as zeroes. -/
def ringbuf_init (capacity elem_size : Nat) (malloc_ok : Bool) : Option ringbuf_t :=
  if ¬ (capacity &&& ((capacity + 2 ^ 64 - 1) % 2 ^ 64) = 0) then none
  else if ¬ ((capacity <<< 1) % 2 ^ 64 ≠ 0) then none
  else if ¬ (elem_size ≥ 1) then none
  else
    -- rb->memory = malloc(capacity * elem_size);
    let bytes := (capacity * elem_size) % 2 ^ 64
    -- assert(rb->memory != NULL);
    if ¬ (malloc_ok = true) then none
    else some { memory := List.replicate (bytes / elem_size) 0, capacity := capacity,
                read_idx := 0, write_idx := 0 }

/-- `mask`: an unwrapped index as an offset into `memory`. -/
def mask (rb : ringbuf_t) (index : Nat) : Nat :=
  index &&& ((rb.capacity + 2 ^ 64 - 1) % 2 ^ 64)

/-- `ringbuf_size_locked`. -/
def ringbuf_size_locked (rb : ringbuf_t) : Option Nat :=
  let size := (rb.write_idx + 2 ^ 64 - rb.read_idx) % 2 ^ 64
  if size ≤ rb.capacity then some size else none

/-- `ringbuf_space_locked`. -/
def ringbuf_space_locked (rb : ringbuf_t) : Option Nat :=
  match ringbuf_size_locked rb with
  | none => none
  | some size => some (rb.capacity - size)

/-- `ringbuf_write` without `RB_BLOCKING`, with `elem_count` the length of `data_in`:
the buffer afterwards and the count returned. -/
def ringbuf_write (rb : ringbuf_t) (data_in : List Nat) : Option (ringbuf_t × Nat) :=
  match ringbuf_space_locked rb with
  | none => none
  | some space =>
    let elem_count := if data_in.length > space then space else data_in.length
    let written : Option ringbuf_t :=
      if elem_count > 0 then
        let tail_write_index := mask rb rb.write_idx
        let tail_write_count :=
          if tail_write_index + elem_count > rb.capacity then rb.capacity - tail_write_index
          else elem_count
        if ¬ (tail_write_count ≤ elem_count) then none
        else
          let memory1 := memcpy rb.memory tail_write_index data_in tail_write_count
          let head_write_count := elem_count - tail_write_count
          let memory2 :=
            if head_write_count > 0 then
              memcpy memory1 0 (data_in.drop tail_write_count) head_write_count
            else memory1
          some { rb with memory := memory2, write_idx := (rb.write_idx + elem_count) % 2 ^ 64 }
      else some rb
    match written with
    | none => none
    | some rb1 =>
      match ringbuf_space_locked rb1 with
      | none => none
      | some space1 => if space1 + elem_count = space then some (rb1, elem_count) else none

/-- `ringbuf_read` without `RB_BLOCKING`: the buffer afterwards and the elements copied to
`data_out`, whose number is the count returned. -/
def ringbuf_read (rb : ringbuf_t) (elem_count : Nat) : Option (ringbuf_t × List Nat) :=
  match ringbuf_size_locked rb with
  | none => none
  | some size =>
    let elem_count1 := if elem_count > size then size else elem_count
    let done : Option (ringbuf_t × List Nat) :=
      if elem_count1 > 0 then
        let tail_read_index := mask rb rb.read_idx
        let tail_read_count :=
          if tail_read_index + elem_count1 > rb.capacity then rb.capacity - tail_read_index
          else elem_count1
        if ¬ (tail_read_count ≤ elem_count1) then none
        else
          let data_out1 := (rb.memory.drop tail_read_index).take tail_read_count
          let head_read_count := elem_count1 - tail_read_count
          let data_out2 :=
            if head_read_count > 0 then data_out1 ++ rb.memory.take head_read_count
            else data_out1
          some ({ rb with read_idx := (rb.read_idx + elem_count1) % 2 ^ 64 }, data_out2)
      else some (rb, [])
    match done with
    | none => none
    | some (rb1, data_out) =>
      match ringbuf_size_locked rb1 with
      | none => none
      | some size1 => if size1 + elem_count1 = size then some (rb1, data_out) else none

/-- A ring buffer as `ringbuf_init` and the two operations leave it. -/
def ringbuf_wf (rb : ringbuf_t) : Prop :=
  (∃ e, e < 63 ∧ rb.capacity = 2 ^ e) ∧ rb.memory.length = rb.capacity ∧
    rb.read_idx < 2 ^ 64 ∧ rb.write_idx < 2 ^ 64 ∧
    (rb.write_idx + 2 ^ 64 - rb.read_idx) % 2 ^ 64 ≤ rb.capacity

/-- The queue a ring buffer holds: the elements from the read index up to the write index,
oldest first, each at the offset that `mask` gives for its unwrapped index. -/
def ringbuf_contents (rb : ringbuf_t) : List Nat :=
  (List.range ((rb.write_idx + 2 ^ 64 - rb.read_idx) % 2 ^ 64)).map
    (fun i => rb.memory.getD (mask rb ((rb.read_idx + i) % 2 ^ 64)) 0)

/-- Spec-side bounded FIFO queue of capacity `C`: a write appends as many of the elements
as there is room for, and returns their number. -/
def fifo_write (C : Nat) (q data_in : List Nat) : List Nat × Nat :=
  (q ++ data_in.take (min data_in.length (C - q.length)), min data_in.length (C - q.length))

/-- Spec-side bounded FIFO queue: a read of `n` elements removes and returns the oldest
`min n size` of them. -/
def fifo_read (q : List Nat) (n : Nat) : List Nat × List Nat :=
  (q.drop (min n q.length), q.take (min n q.length))

/-! ## Basic facts -/

theorem is_special_iff (b : Nat) : fakewire_is_special b = true ↔ 0x80 ≤ b ∧ b ≤ 0x86 := by
  simp [fakewire_is_special]

theorem is_special_false_iff (b : Nat) :
    fakewire_is_special b = false ↔ ¬ (0x80 ≤ b ∧ b ≤ 0x86) := by
  rw [← is_special_iff]; simp

theorem special_xor (b : Nat) (h : fakewire_is_special b = true) :
    (b ^^^ 0x10) % 256 = b ^^^ 0x10 ∧ fakewire_is_special (b ^^^ 0x10) = false ∧
      ((b ^^^ 0x10) ^^^ 0x10) % 256 = b := by
  obtain ⟨h1, h2⟩ := (is_special_iff b).1 h
  interval_cases b <;> decide

theorem wire_escape_byte_special (b : Nat) (h : fakewire_is_special b = true) :
    wire_escape_byte b = [0x86, b ^^^ 0x10] := by
  have := (is_special_iff b).1 h
  simp [wire_escape_byte, this]

theorem wire_escape_byte_plain (b : Nat) (h : fakewire_is_special b = false) :
    wire_escape_byte b = [b] := by
  have := (is_special_false_iff b).1 h
  simp only [wire_escape_byte]
  rw [if_neg this]

theorem wire_escape_cons (b : Nat) (B : List Nat) :
    wire_escape (b :: B) = wire_escape_byte b ++ wire_escape B := by
  simp [wire_escape]

theorem wire_escape_length (B : List Nat) :
    B.length ≤ (wire_escape B).length ∧ (wire_escape B).length ≤ B.length * 2 := by
  induction B with
  | nil => simp [wire_escape]
  | cons b B ih =>
    rw [wire_escape_cons]
    cases h : fakewire_is_special b
    · rw [wire_escape_byte_plain b h]; simp; omega
    · rw [wire_escape_byte_special b h]; simp; omega

theorem store_some (buf : List Nat) (i v : Nat) (h : i < buf.length) :
    store buf i v = some (buf.set i v) := by
  simp [store, h]

theorem take_succ_set (buf : List Nat) (i v : Nat) (h : i < buf.length) :
    (buf.set i v).take (i + 1) = buf.take i ++ [v] := by
  induction buf generalizing i with
  | nil => simp at h
  | cons x xs ih =>
    cases i with
    | zero => simp
    | succ n =>
      simp only [List.length_cons, Nat.add_lt_add_iff_right] at h
      simp [ih n h]

/-! ## Encoder: what reaches the sink -/

/-- The encoder loop never aborts on a buffer of `FSW_ENCODING_BUF_SIZE` bytes; what it has
drained plus what is left in the buffer is the old buffer content followed by the escaped
input, and `total + j` grows by the number of bytes produced. -/
theorem enc_loop_spec (B : List Nat) (s : enc_locals)
    (hlen : s.temp.length = FSW_ENCODING_BUF_SIZE) (hj : s.j ≤ FSW_ENCODING_BUF_SIZE) :
    ∃ s1 out, fakewire_enc_encode_data_loop B s = some (s1, out) ∧
      s1.temp.length = FSW_ENCODING_BUF_SIZE ∧ s1.j ≤ FSW_ENCODING_BUF_SIZE ∧
      out.flatten ++ s1.temp.take s1.j = s.temp.take s.j ++ wire_escape B ∧
      s1.total + s1.j = s.total + s.j + (wire_escape B).length := by
  induction B generalizing s with
  | nil => exact ⟨s, [], rfl, hlen, hj, by simp [wire_escape], by simp [wire_escape]⟩
  | cons b B ih =>
    obtain ⟨temp, j, total⟩ := s
    simp only [FSW_ENCODING_BUF_SIZE] at hlen hj ih ⊢
    rw [wire_escape_cons]
    by_cases hd : j > 1024 - 2
    · cases hs : fakewire_is_special b
      · have h0 : 0 < temp.length := by omega
        obtain ⟨s1, out, he, h1, h2, h3, h4⟩ :=
          ih ⟨temp.set 0 b, 1, total + j⟩ (by simpa using hlen) (by simp)
        refine ⟨s1, [temp.take j] ++ out, ?_, h1, h2, ?_, ?_⟩
        · simp [fakewire_enc_encode_data_loop, hd, hs, store, h0, he]
        · simp only [List.flatten_append, List.flatten_cons, List.flatten_nil, List.append_nil,
            List.append_assoc, h3, wire_escape_byte_plain b hs]
          rw [take_succ_set _ _ _ h0]; simp
        · rw [h4, wire_escape_byte_plain b hs]; simp; omega
      · have h0 : 0 < temp.length := by omega
        have h1' : 1 < (temp.set 0 0x86).length := by simp; omega
        obtain ⟨s1, out, he, h1, h2, h3, h4⟩ :=
          ih ⟨(temp.set 0 0x86).set 1 ((b ^^^ 0x10) % 256), 2, total + j⟩
            (by simpa using hlen) (by simp)
        refine ⟨s1, [temp.take j] ++ out, ?_, h1, h2, ?_, ?_⟩
        · simp only [List.length_set] at h1'
          simp [fakewire_enc_encode_data_loop, hd, hs, store, h0, h1', he]
        · simp only [List.flatten_append, List.flatten_cons, List.flatten_nil, List.append_nil,
            List.append_assoc, h3, wire_escape_byte_special b hs]
          rw [take_succ_set _ 1 _ h1', take_succ_set _ 0 _ h0, (special_xor b hs).1]; simp
        · rw [h4, wire_escape_byte_special b hs]; simp; omega
    · cases hs : fakewire_is_special b
      · have h0 : j < temp.length := by omega
        obtain ⟨s1, out, he, h1, h2, h3, h4⟩ :=
          ih ⟨temp.set j b, j + 1, total⟩ (by simpa using hlen) (by simp; omega)
        refine ⟨s1, out, ?_, h1, h2, ?_, ?_⟩
        · simp [fakewire_enc_encode_data_loop, hd, hs, store, h0, he]
        · simp only [h3, wire_escape_byte_plain b hs]
          rw [take_succ_set _ _ _ h0]; simp
        · rw [h4, wire_escape_byte_plain b hs]; simp; omega
      · have h0 : j < temp.length := by omega
        have h1' : j + 1 < (temp.set j 0x86).length := by simp; omega
        obtain ⟨s1, out, he, h1, h2, h3, h4⟩ :=
          ih ⟨(temp.set j 0x86).set (j + 1) ((b ^^^ 0x10) % 256), j + 1 + 1, total⟩
            (by simpa using hlen) (by simp; omega)
        refine ⟨s1, out, ?_, h1, h2, ?_, ?_⟩
        · simp only [List.length_set] at h1'
          simp [fakewire_enc_encode_data_loop, hd, hs, store, h0, h1', he]
        · simp only [h3, wire_escape_byte_special b hs]
          rw [take_succ_set _ _ _ h1', take_succ_set _ _ _ h0, (special_xor b hs).1]; simp
        · rw [h4, wire_escape_byte_special b hs]; simp; omega

theorem enc_flush_spec (fwe : fw_encoder_t) :
    (fakewire_enc_flush fwe).2.flatten = fwe.enc_buffer.take fwe.enc_idx ∧
      (fakewire_enc_flush fwe).1.enc_idx = 0 ∧
      (fakewire_enc_flush fwe).1.enc_buffer = fwe.enc_buffer := by
  unfold fakewire_enc_flush
  by_cases h : fwe.enc_idx > 0
  · simp [h]
  · have h0 : fwe.enc_idx = 0 := by omega
    simp [h0]

/-- On a well-formed encoder `fakewire_enc_encode_data` never aborts (neither on a store nor
on its closing byte-count assertion) and appends exactly the escaped input. -/
theorem enc_data_spec (fwe : fw_encoder_t) (B : List Nat) (hB : B ≠ [])
    (hlen : fwe.enc_buffer.length = FSW_ENCODING_BUF_SIZE)
    (hidx : fwe.enc_idx ≤ FSW_ENCODING_BUF_SIZE) :
    ∃ fwe1 out, fakewire_enc_encode_data fwe B = some (fwe1, out) ∧
      fwe1.enc_buffer.length = FSW_ENCODING_BUF_SIZE ∧ fwe1.enc_idx ≤ FSW_ENCODING_BUF_SIZE ∧
      out.flatten ++ fwe1.enc_buffer.take fwe1.enc_idx =
        fwe.enc_buffer.take fwe.enc_idx ++ wire_escape B := by
  obtain ⟨s1, out, he, h1, h2, h3, h4⟩ :=
    enc_loop_spec B ⟨fwe.enc_buffer, fwe.enc_idx, 0⟩ hlen hidx
  have hl := wire_escape_length B
  have hne : B.length ≠ 0 := by simpa using hB
  simp only [Nat.zero_add] at h4
  have ht : s1.total + s1.j - fwe.enc_idx = (wire_escape B).length := by omega
  refine ⟨⟨s1.temp, s1.j⟩, out, ?_, h1, h2, h3⟩
  simp only [fakewire_enc_encode_data, hne, if_false, he, ht]
  simp [hl.1, hl.2]

theorem enc_data_then_flush_spec (fwe : fw_encoder_t) (B : List Nat) (hB : B ≠ [])
    (hlen : fwe.enc_buffer.length = FSW_ENCODING_BUF_SIZE)
    (hidx : fwe.enc_idx ≤ FSW_ENCODING_BUF_SIZE) :
    enc_data_then_flush fwe B = some (fwe.enc_buffer.take fwe.enc_idx ++ wire_escape B) := by
  obtain ⟨fwe1, out, he, _, _, h3⟩ := enc_data_spec fwe B hB hlen hidx
  simp only [enc_data_then_flush, he, List.flatten_append, (enc_flush_spec fwe1).1, h3]

theorem is_parametrized_handshake (symbol : Nat)
    (h : symbol = FWC_HANDSHAKE_1 ∨ symbol = FWC_HANDSHAKE_2) :
    fakewire_is_special (symbol % 256) = true ∧ symbol ≠ FWC_ESCAPE_SYM ∧
      fakewire_is_parametrized symbol = some true ∧ symbol % 256 = symbol := by
  rcases h with h | h <;> subst h <;> decide

theorem is_parametrized_plain (symbol : Nat)
    (h : symbol = FWC_START_PACKET ∨ symbol = FWC_END_PACKET ∨ symbol = FWC_ERROR_PACKET ∨
      symbol = FWC_FLOW_CONTROL) :
    fakewire_is_special (symbol % 256) = true ∧ symbol ≠ FWC_ESCAPE_SYM ∧
      fakewire_is_parametrized symbol = some false ∧ symbol % 256 = symbol := by
  rcases h with h | h | h | h <;> subst h <;> decide

/-- The symbol byte `fakewire_enc_encode_ctrl` stores, after its drain-when-full step. -/
theorem enc_ctrl_store (fwe : fw_encoder_t)
    (hlen : fwe.enc_buffer.length = FSW_ENCODING_BUF_SIZE)
    (hidx : fwe.enc_idx ≤ FSW_ENCODING_BUF_SIZE) (symbol : Nat) :
    ∃ t i out, i < FSW_ENCODING_BUF_SIZE ∧ t.length = FSW_ENCODING_BUF_SIZE ∧
      (if fwe.enc_idx > FSW_ENCODING_BUF_SIZE - 1 then
          (({ fwe with enc_idx := 0 } : fw_encoder_t), [fwe.enc_buffer.take fwe.enc_idx])
        else (fwe, [])) = (⟨fwe.enc_buffer, i⟩, out) ∧
      store fwe.enc_buffer i symbol = some t ∧
      out.flatten ++ t.take (i + 1) = fwe.enc_buffer.take fwe.enc_idx ++ [symbol] := by
  obtain ⟨buf, idx⟩ := fwe
  simp only [FSW_ENCODING_BUF_SIZE] at hlen hidx ⊢
  by_cases hd : idx > 1024 - 1
  · have h0 : 0 < buf.length := by omega
    refine ⟨buf.set 0 symbol, 0, [buf.take idx], by omega, by simpa using hlen, ?_,
      store_some _ _ _ h0, ?_⟩
    · simp [hd]
    · rw [take_succ_set _ _ _ h0]; simp
  · have h0 : idx < buf.length := by omega
    refine ⟨buf.set idx symbol, idx, [], by omega, by simpa using hlen, ?_,
      store_some _ _ _ h0, ?_⟩
    · simp [hd]
    · rw [take_succ_set _ _ _ h0]; simp

/-- A non-parametrized symbol with parameter 0 is appended as its one byte. -/
theorem enc_ctrl_plain_spec (fwe : fw_encoder_t) (symbol : Nat)
    (hsym : symbol = FWC_START_PACKET ∨ symbol = FWC_END_PACKET ∨ symbol = FWC_ERROR_PACKET ∨
      symbol = FWC_FLOW_CONTROL)
    (hlen : fwe.enc_buffer.length = FSW_ENCODING_BUF_SIZE)
    (hidx : fwe.enc_idx ≤ FSW_ENCODING_BUF_SIZE) :
    ∃ fwe1 out, fakewire_enc_encode_ctrl fwe symbol 0 = some (fwe1, out) ∧
      fwe1.enc_buffer.length = FSW_ENCODING_BUF_SIZE ∧ fwe1.enc_idx ≤ FSW_ENCODING_BUF_SIZE ∧
      out.flatten ++ fwe1.enc_buffer.take fwe1.enc_idx =
        fwe.enc_buffer.take fwe.enc_idx ++ [symbol] := by
  obtain ⟨hs, hne, hp, hm⟩ := is_parametrized_plain symbol hsym
  obtain ⟨t, i, out, hi, ht, hdr, hst, hcat⟩ := enc_ctrl_store fwe hlen hidx (symbol % 256)
  rw [hm] at hcat
  refine ⟨⟨t, i + 1⟩, out, ?_, ht, by simp only; omega, hcat⟩
  simp only [fakewire_enc_encode_ctrl, hs, hne, hp, hdr, hst]
  simp
  exact hne

/-- A handshake symbol is appended as its byte followed by the escaped big-endian bytes of
the parameter. -/
theorem enc_ctrl_param_spec (fwe : fw_encoder_t) (symbol param : Nat)
    (hsym : symbol = FWC_HANDSHAKE_1 ∨ symbol = FWC_HANDSHAKE_2)
    (hlen : fwe.enc_buffer.length = FSW_ENCODING_BUF_SIZE)
    (hidx : fwe.enc_idx ≤ FSW_ENCODING_BUF_SIZE) :
    ∃ fwe1 out, fakewire_enc_encode_ctrl fwe symbol param = some (fwe1, out) ∧
      fwe1.enc_buffer.length = FSW_ENCODING_BUF_SIZE ∧ fwe1.enc_idx ≤ FSW_ENCODING_BUF_SIZE ∧
      out.flatten ++ fwe1.enc_buffer.take fwe1.enc_idx =
        fwe.enc_buffer.take fwe.enc_idx ++ [symbol] ++ wire_escape (htobe32 param) := by
  obtain ⟨hs, hne, hp, hm⟩ := is_parametrized_handshake symbol hsym
  obtain ⟨t, i, out, hi, ht, hdr, hst, hcat⟩ := enc_ctrl_store fwe hlen hidx (symbol % 256)
  rw [hm] at hcat
  obtain ⟨fwe3, out3, he, h1, h2, h3⟩ :=
    enc_data_spec ⟨t, i + 1⟩ (htobe32 param) (by simp [htobe32]) ht (by simp only; omega)
  refine ⟨fwe3, out ++ out3, ?_, h1, h2, ?_⟩
  · simp only [fakewire_enc_encode_ctrl, hs, hne, hp, hdr, hst, he]
    simp
    exact hne
  · simp only [List.flatten_append, List.append_assoc, h3]
    rw [← List.append_assoc, hcat]; simp

theorem enc_ctrl_then_flush_plain (fwe : fw_encoder_t) (symbol : Nat)
    (hsym : symbol = FWC_START_PACKET ∨ symbol = FWC_END_PACKET ∨ symbol = FWC_ERROR_PACKET ∨
      symbol = FWC_FLOW_CONTROL)
    (hlen : fwe.enc_buffer.length = FSW_ENCODING_BUF_SIZE)
    (hidx : fwe.enc_idx ≤ FSW_ENCODING_BUF_SIZE) :
    enc_ctrl_then_flush fwe symbol 0 = some (fwe.enc_buffer.take fwe.enc_idx ++ [symbol]) := by
  obtain ⟨fwe1, out, he, _, _, h3⟩ := enc_ctrl_plain_spec fwe symbol hsym hlen hidx
  simp only [enc_ctrl_then_flush, he, List.flatten_append, (enc_flush_spec fwe1).1, h3]

theorem enc_ctrl_then_flush_param (fwe : fw_encoder_t) (symbol param : Nat)
    (hsym : symbol = FWC_HANDSHAKE_1 ∨ symbol = FWC_HANDSHAKE_2)
    (hlen : fwe.enc_buffer.length = FSW_ENCODING_BUF_SIZE)
    (hidx : fwe.enc_idx ≤ FSW_ENCODING_BUF_SIZE) :
    enc_ctrl_then_flush fwe symbol param =
      some (fwe.enc_buffer.take fwe.enc_idx ++ [symbol] ++ wire_escape (htobe32 param)) := by
  obtain ⟨fwe1, out, he, _, _, h3⟩ := enc_ctrl_param_spec fwe symbol param hsym hlen hidx
  simp only [enc_ctrl_then_flush, he, List.flatten_append, (enc_flush_spec fwe1).1, h3]

/-! ## Decoder: the loop on escaped data -/

theorem dec_loop_cons_some (ts : Nat) (x : Nat) (rest : List Nat) (s s1 s2 : dec_locals)
    (ev1 ev2 : List fw_event) (h1 : fakewire_dec_decode_step ts s x = some (s1, ev1))
    (h2 : fakewire_dec_decode_loop ts rest s1 = some (s2, ev2)) :
    fakewire_dec_decode_loop ts (x :: rest) s = some (s2, ev1 ++ ev2) := by
  simp [fakewire_dec_decode_loop, h1, h2]

/-- A plain data byte, with room left in `databuf`: it is stored, nothing is emitted. -/
theorem dec_step_plain (ts rc cnt rts : Nat) (prm buf : List Nat) (idx b : Nat)
    (hb : fakewire_is_special b = false) (hidx : idx < 256) (hlen : buf.length = 256) :
    fakewire_dec_decode_step ts ⟨⟨false, rc, cnt, prm, rts⟩, buf, idx⟩ b =
      some (⟨⟨false, rc, cnt, prm, rts⟩, buf.set idx b, idx + 1⟩, []) := by
  have h1 : ¬ (256 ≤ idx) := by omega
  have h2 : idx < buf.length := by omega
  simp [fakewire_dec_decode_step, hb, h1, store, h2]

/-- The escape symbol, with room left in `databuf`: only `in_escape` is set. -/
theorem dec_step_esc (ts rc cnt rts : Nat) (prm buf : List Nat) (idx : Nat) (hidx : idx < 256) :
    fakewire_dec_decode_step ts ⟨⟨false, rc, cnt, prm, rts⟩, buf, idx⟩ FWC_ESCAPE_SYM =
      some (⟨⟨true, rc, cnt, prm, rts⟩, buf, idx⟩, []) := by
  have h1 : ¬ (256 ≤ idx) := by omega
  have h3 : fakewire_is_special 134 = true := by decide
  simp [fakewire_dec_decode_step, h1, h3]

/-- The byte after a valid escape, with room left in `databuf`: the original byte is
stored and `in_escape` cleared. -/
theorem dec_step_unesc (ts rc cnt rts : Nat) (prm buf : List Nat) (idx b : Nat)
    (hb : fakewire_is_special b = true) (hidx : idx < 256) (hlen : buf.length = 256) :
    fakewire_dec_decode_step ts ⟨⟨true, rc, cnt, prm, rts⟩, buf, idx⟩ (b ^^^ 0x10) =
      some (⟨⟨false, rc, cnt, prm, rts⟩, buf.set idx b, idx + 1⟩, []) := by
  have h1 : ¬ (256 ≤ idx) := by omega
  have h2 : idx < buf.length := by omega
  have hx := (special_xor b hb).2.2
  simp only [Nat.reduceXor] at hx
  simp [fakewire_dec_decode_step, hx, hb, h1, store, h2]

/-- A plain data byte arriving on a full `databuf` with no symbol pending: the 256 bytes
are delivered first. -/
theorem dec_step_plain_full (ts cnt rts : Nat) (prm buf : List Nat) (b : Nat)
    (hb : fakewire_is_special b = false) (hlen : buf.length = 256) :
    fakewire_dec_decode_step ts ⟨⟨false, FWC_NONE, cnt, prm, rts⟩, buf, 256⟩ b =
      some (⟨⟨false, FWC_NONE, cnt, prm, rts⟩, buf.set 0 b, 1⟩,
        [fw_event.recv_data (buf.take 256)]) := by
  simp [fakewire_dec_decode_step, hb, store, hlen, fakewire_dec_raw_data]

/-- The escape symbol arriving on a full `databuf` with no symbol pending. -/
theorem dec_step_esc_full (ts cnt rts : Nat) (prm buf : List Nat) (hlen : buf.length = 256) :
    fakewire_dec_decode_step ts ⟨⟨false, FWC_NONE, cnt, prm, rts⟩, buf, 256⟩ FWC_ESCAPE_SYM =
      some (⟨⟨true, FWC_NONE, cnt, prm, rts⟩, buf, 0⟩,
        [fw_event.recv_data (buf.take 256)]) := by
  have h3 : fakewire_is_special 134 = true := by decide
  simp [fakewire_dec_decode_step, h3, hlen, fakewire_dec_raw_data]

/-- With room for the whole of `B` in `databuf`, decoding the escaped form of `B` stores
`B` and emits nothing, whatever symbol is pending. -/
theorem dec_loop_escape_room (ts rc cnt rts : Nat) (prm : List Nat) (B buf : List Nat)
    (idx : Nat) (hlen : buf.length = 256) (hroom : idx + B.length ≤ 256) :
    ∃ buf1, fakewire_dec_decode_loop ts (wire_escape B) ⟨⟨false, rc, cnt, prm, rts⟩, buf, idx⟩ =
        some (⟨⟨false, rc, cnt, prm, rts⟩, buf1, idx + B.length⟩, []) ∧
      buf1.length = 256 ∧ buf1.take (idx + B.length) = buf.take idx ++ B := by
  induction B generalizing buf idx with
  | nil => exact ⟨buf, by simp [wire_escape, fakewire_dec_decode_loop], hlen, by simp⟩
  | cons b B ih =>
    simp only [List.length_cons] at hroom
    have hidx : idx < 256 := by omega
    have h2 : idx < buf.length := by omega
    have hadd : idx + 1 + B.length = idx + (B.length + 1) := by omega
    obtain ⟨buf1, he, hl1, ht1⟩ := ih (buf.set idx b) (idx + 1) (by simpa using hlen) (by omega)
    rw [hadd] at he ht1
    refine ⟨buf1, ?_, hl1, ?_⟩
    · rw [wire_escape_cons]
      cases hs : fakewire_is_special b
      · rw [wire_escape_byte_plain b hs]
        exact dec_loop_cons_some _ _ _ _ _ _ _ _
          (dec_step_plain ts rc cnt rts prm buf idx b hs hidx hlen) he
      · rw [wire_escape_byte_special b hs]
        exact dec_loop_cons_some _ _ _ _ _ _ _ _ (dec_step_esc ts rc cnt rts prm buf idx hidx)
          (dec_loop_cons_some _ _ _ _ _ _ _ _
            (dec_step_unesc ts rc cnt rts prm buf idx b hs hidx hlen) he)
    · simp only [List.length_cons, ht1, take_succ_set _ _ _ h2]
      simp

/-- With no symbol pending, decoding the escaped form of `B` delivers `B` as data (in runs
of 256 bytes, the rest staying in `databuf`) and no control event. -/
theorem dec_loop_escape_data (ts cnt rts : Nat) (prm : List Nat) (B buf : List Nat) (idx : Nat)
    (hlen : buf.length = 256) (hidx : idx ≤ 256) :
    ∃ buf1 idx1 ev,
      fakewire_dec_decode_loop ts (wire_escape B) ⟨⟨false, FWC_NONE, cnt, prm, rts⟩, buf, idx⟩ =
        some (⟨⟨false, FWC_NONE, cnt, prm, rts⟩, buf1, idx1⟩, ev) ∧
      buf1.length = 256 ∧ idx1 ≤ 256 ∧ (B ≠ [] → 0 < idx1) ∧ ctrl_of ev = [] ∧
      data_of ev ++ buf1.take idx1 = buf.take idx ++ B := by
  induction B generalizing buf idx with
  | nil =>
    exact ⟨buf, idx, [], by simp [wire_escape, fakewire_dec_decode_loop], hlen, hidx,
      by simp, rfl, by simp [data_of]⟩
  | cons b B ih =>
    rw [wire_escape_cons]
    by_cases hfull : idx < 256
    · have h2 : idx < buf.length := by omega
      obtain ⟨buf1, idx1, ev, he, hl1, hi1, hp1, hc1, hd1⟩ :=
        ih (buf.set idx b) (idx + 1) (by simpa using hlen) (by omega)
      have hpos : 0 < idx1 := by
        cases B with
        | nil =>
          simp only [wire_escape, List.flatMap_nil, fakewire_dec_decode_loop, Option.some.injEq,
            Prod.mk.injEq, dec_locals.mk.injEq] at he
          omega
        | cons c C => exact hp1 (by simp)
      refine ⟨buf1, idx1, ev, ?_, hl1, hi1, fun _ => hpos, hc1, ?_⟩
      · cases hs : fakewire_is_special b
        · rw [wire_escape_byte_plain b hs]
          exact dec_loop_cons_some _ _ _ _ _ _ _ _
            (dec_step_plain ts FWC_NONE cnt rts prm buf idx b hs hfull hlen) he
        · rw [wire_escape_byte_special b hs]
          exact dec_loop_cons_some _ _ _ _ _ _ _ _
            (dec_step_esc ts FWC_NONE cnt rts prm buf idx hfull)
            (dec_loop_cons_some _ _ _ _ _ _ _ _
              (dec_step_unesc ts FWC_NONE cnt rts prm buf idx b hs hfull hlen) he)
      · rw [hd1, take_succ_set _ _ _ h2]; simp
    · have hi : idx = 256 := by omega
      subst hi
      have h0 : 0 < buf.length := by omega
      obtain ⟨buf1, idx1, ev, he, hl1, hi1, hp1, hc1, hd1⟩ :=
        ih (buf.set 0 b) 1 (by simpa using hlen) (by omega)
      have hpos : 0 < idx1 := by
        cases B with
        | nil =>
          simp only [wire_escape, List.flatMap_nil, fakewire_dec_decode_loop, Option.some.injEq,
            Prod.mk.injEq, dec_locals.mk.injEq] at he
          omega
        | cons c C => exact hp1 (by simp)
      refine ⟨buf1, idx1, fw_event.recv_data (buf.take 256) :: ev, ?_, hl1, hi1, fun _ => hpos,
        by simpa [ctrl_of] using hc1, ?_⟩
      · cases hs : fakewire_is_special b
        · rw [wire_escape_byte_plain b hs]
          exact dec_loop_cons_some _ _ _ _ _ _ _ _
            (dec_step_plain_full ts cnt rts prm buf b hs hlen) he
        · rw [wire_escape_byte_special b hs]
          exact dec_loop_cons_some _ _ _ _ _ _ _ _ (dec_step_esc_full ts cnt rts prm buf hlen)
            (dec_loop_cons_some _ _ _ _ _ _ _ _
              (dec_step_unesc ts FWC_NONE cnt rts prm buf 0 b hs (by omega) hlen) he)
      · simp only [data_of, List.append_assoc, hd1]
        rw [take_succ_set _ 0 _ h0]; simp

theorem data_of_append (xs ys : List fw_event) : data_of (xs ++ ys) = data_of xs ++ data_of ys := by
  induction xs with
  | nil => rfl
  | cons x xs ih => cases x <;> simp [data_of, ih]

theorem ctrl_of_append (xs ys : List fw_event) : ctrl_of (xs ++ ys) = ctrl_of xs ++ ctrl_of ys := by
  induction xs with
  | nil => rfl
  | cons x xs ih => cases x <;> simp [ctrl_of, ih]

theorem enc_fresh_initialised : enc_initialised enc_fresh := by
  simp [enc_initialised, enc_fresh]

theorem be32toh_htobe32 (p : Nat) (hp : p < 2 ^ 32) : be32toh (htobe32 p) = p := by
  simp only [be32toh, htobe32, List.getD_cons_zero, List.getD_cons_succ]
  omega

/-- Decoding the escaped form of a non-empty `B` on a decoder with nothing pending delivers
exactly `B` as data and no control event, and leaves the decoder as it was. -/
theorem dec_decode_escape_data (ts cnt rts : Nat) (prm : List Nat) (B : List Nat) (hB : B ≠ []) :
    ∃ ev, fakewire_dec_decode ⟨false, FWC_NONE, cnt, prm, rts⟩ (wire_escape B) ts =
        some (⟨false, FWC_NONE, cnt, prm, rts⟩, ev) ∧
      data_of ev = B ∧ ctrl_of ev = [] := by
  obtain ⟨buf1, idx1, ev, he, hl1, hi1, hp1, hc1, hd1⟩ :=
    dec_loop_escape_data ts cnt rts prm B (List.replicate 256 0) 0 (List.length_replicate 256 0)
      (by omega)
  have hpos := hp1 hB
  have hne : (wire_escape B).length ≠ 0 := by
    have := (wire_escape_length B).1
    have : B.length ≠ 0 := by simpa using hB
    omega
  have htl : (buf1.take idx1).length ≠ 0 := by simp [hl1]; omega
  refine ⟨ev ++ [fw_event.recv_data (buf1.take idx1)], ?_, ?_, ?_⟩
  · simp only [fakewire_dec_decode, hne, if_false, he, hpos, if_true, fakewire_dec_raw_data, htl]
    simp
  · simpa [data_of_append, data_of] using hd1
  · simp [ctrl_of_append, ctrl_of, hc1]

/-- A handshake symbol arriving with `databuf` empty and nothing pending: it becomes the
pending symbol, with the timestamp of this call latched; nothing is emitted yet. -/
theorem dec_step_handshake (ts cnt rts : Nat) (prm buf : List Nat) (symbol : Nat)
    (hsym : symbol = FWC_HANDSHAKE_1 ∨ symbol = FWC_HANDSHAKE_2) :
    fakewire_dec_decode_step ts ⟨⟨false, FWC_NONE, cnt, prm, rts⟩, buf, 0⟩ symbol =
      some (⟨⟨false, symbol, 0, prm, ts⟩, buf, 0⟩, []) := by
  rcases hsym with h | h <;> subst h <;>
    simp [fakewire_dec_decode_step, fakewire_dec_raw_ctrl, fakewire_is_special,
      fakewire_is_parametrized, FWC_HANDSHAKE_1, FWC_HANDSHAKE_2, FWC_ESCAPE_SYM, FWC_NONE]

/-- The four parameter bytes arriving in one run for a pending handshake symbol: the symbol
is reported with the big-endian value of the bytes and the latched timestamp. -/
theorem dec_raw_data_param (ie : Bool) (symbol rts p : Nat) (prm : List Nat)
    (hsym : symbol = FWC_HANDSHAKE_1 ∨ symbol = FWC_HANDSHAKE_2) (hp : p < 2 ^ 32) :
    ∃ prm1, fakewire_dec_raw_data ⟨ie, symbol, 0, prm, rts⟩ (htobe32 p) =
      some (⟨ie, FWC_NONE, 4, prm1, rts⟩, [fw_event.recv_ctrl symbol p rts]) := by
  have hv : be32toh (memcpy prm 0 (htobe32 p) 4) = p := by
    have := be32toh_htobe32 p hp
    simpa [be32toh, htobe32, memcpy] using this
  refine ⟨memcpy prm 0 (htobe32 p) 4, ?_⟩
  have hl : (htobe32 p).length = 4 := rfl
  rcases hsym with h | h <;> subst h <;>
    simp [fakewire_dec_raw_data, hl, fakewire_is_parametrized, fakewire_is_special, hv,
      FWC_HANDSHAKE_1, FWC_HANDSHAKE_2, FWC_ESCAPE_SYM, FWC_NONE]

/-- Decoding a handshake symbol followed by the escaped big-endian bytes of `p`. -/
theorem dec_decode_handshake (ts cnt rts : Nat) (prm : List Nat) (symbol p : Nat)
    (hsym : symbol = FWC_HANDSHAKE_1 ∨ symbol = FWC_HANDSHAKE_2) (hp : p < 2 ^ 32) :
    ∃ prm1, fakewire_dec_decode ⟨false, FWC_NONE, cnt, prm, rts⟩
        (symbol :: wire_escape (htobe32 p)) ts =
      some (⟨false, FWC_NONE, 4, prm1, ts⟩, [fw_event.recv_ctrl symbol p ts]) := by
  obtain ⟨buf1, he, hl1, ht1⟩ :=
    dec_loop_escape_room ts symbol 0 ts prm (htobe32 p) (List.replicate 256 0) 0
      (List.length_replicate 256 0) (by simp [htobe32])
  obtain ⟨prm1, hr⟩ := dec_raw_data_param false symbol ts p prm hsym hp
  have hloop := dec_loop_cons_some ts symbol _ _ _ _ _ _
    (dec_step_handshake ts cnt rts prm (List.replicate 256 0) symbol hsym) he
  have hl : (htobe32 p).length = 4 := rfl
  simp only [hl, Nat.zero_add, List.take_zero, List.nil_append] at ht1 hloop
  refine ⟨prm1, ?_⟩
  simp only [fakewire_dec_decode, List.length_cons, hloop, ht1, hr]
  simp

/-- How `fakewire_dec_decode` ends when its loop leaves bytes in `databuf`. -/
theorem dec_decode_of_loop (fwd fwd2 : fw_decoder_t) (bytes_in : List Nat) (ts : Nat)
    (s : dec_locals) (ev ev2 : List fw_event) (hne : bytes_in ≠ [])
    (hloop : fakewire_dec_decode_loop ts bytes_in
      { fwd := fwd, databuf := List.replicate 256 0, db_index := 0 } = some (s, ev))
    (hidx : 0 < s.db_index)
    (hraw : fakewire_dec_raw_data s.fwd (s.databuf.take s.db_index) = some (fwd2, ev2)) :
    fakewire_dec_decode fwd bytes_in ts = some (fwd2, ev ++ ev2) := by
  have : bytes_in.length ≠ 0 := by simpa using hne
  simp only [fakewire_dec_decode, this, if_false, hloop, hidx, if_true, hraw]

/-- A byte that is no valid escape, after the escape symbol, with nothing pending and
`databuf` empty: `CODEC_ERROR` is reported, `in_escape` is cleared when the byte is not
special itself, and the byte is then stored as data. -/
theorem dec_step_illegal_escape (ts cnt rts : Nat) (prm buf : List Nat) (b : Nat)
    (hb : fakewire_is_special b = false) (hx : fakewire_is_special ((b ^^^ 0x10) % 256) = false)
    (hlen : buf.length = 256) :
    fakewire_dec_decode_step ts ⟨⟨true, FWC_NONE, cnt, prm, rts⟩, buf, 0⟩ b =
      some (⟨⟨false, FWC_NONE, cnt, prm, rts⟩, buf.set 0 b, 1⟩,
        [fw_event.recv_ctrl FWC_CODEC_ERROR 0 ts]) := by
  have hs : fakewire_is_special 134 = true := by decide
  have hl : 0 < buf.length := by omega
  simp [fakewire_dec_decode_step, fakewire_dec_raw_ctrl, fakewire_is_parametrized, store, hl, hb, hx,
    hs, FWC_HANDSHAKE_1, FWC_HANDSHAKE_2, FWC_ESCAPE_SYM, FWC_NONE]

/-- The two raw bytes `0x86, 0x00` on a decoder with nothing pending: the invalid escape is
reported as `CODEC_ERROR`, and the byte after the escape is then delivered as data. -/
theorem dec_decode_illegal_escape (ts cnt rts : Nat) (prm : List Nat) :
    fakewire_dec_decode ⟨false, FWC_NONE, cnt, prm, rts⟩ [0x86, 0x00] ts =
      some (⟨false, FWC_NONE, cnt, prm, rts⟩,
        [fw_event.recv_ctrl FWC_CODEC_ERROR 0 ts, fw_event.recv_data [0x00]]) := by
  have hlen : (List.replicate 256 0).length = 256 := List.length_replicate 256 0
  have hl : 0 < (List.replicate 256 0).length := by omega
  have h1 := dec_step_esc ts FWC_NONE cnt rts prm (List.replicate 256 0) 0 (by omega)
  have h2 := dec_step_illegal_escape ts cnt rts prm (List.replicate 256 0) 0x00 (by decide)
    (by decide) hlen
  have h3 := dec_loop_cons_some ts _ _ _ _ _ _ _ h1
    (dec_loop_cons_some ts _ [] _ _ _ _ [] h2 rfl)
  have h4 : ((List.replicate 256 0).set 0 0).take (0 + 1) = [0] := by
    rw [take_succ_set _ _ _ hl]; rfl
  have h5 : fakewire_dec_raw_data ⟨false, FWC_NONE, cnt, prm, rts⟩
      (((List.replicate 256 0).set 0 0).take 1) =
      some (⟨false, FWC_NONE, cnt, prm, rts⟩, [fw_event.recv_data [0x00]]) := by
    rw [h4]
    simp [fakewire_dec_raw_data]
  exact dec_decode_of_loop _ _ _ ts _ _ _ (by simp) h3 (by simp) h5

/-- An invalid escape reported to an exchange that is attached resets it. -/
theorem on_recv_ctrl_codec_error (fwe : fw_exchange_t)
    (hst : fwe.state = FW_EXC_CONNECTING ∨ fwe.state = FW_EXC_HANDSHAKING ∨
      fwe.state = FW_EXC_OPERATING) :
    fakewire_exc_on_recv_ctrl fwe FWC_CODEC_ERROR = some (fakewire_exc_reset fwe) := by
  cases hr : fwe.is_recv_handshake_id <;> rcases hst with h | h | h <;>
    simp [fakewire_exc_on_recv_ctrl, fakewire_exc_check_invariants, h, hr]

/-- Data arriving right after a reset resets the exchange again. -/
theorem on_recv_data_after_reset (fwe : fw_exchange_t) (bytes_in : List Nat)
    (hne : bytes_in ≠ []) :
    fakewire_exc_on_recv_data (fakewire_exc_reset fwe) bytes_in =
      some (fakewire_exc_reset (fakewire_exc_reset fwe)) := by
  have : bytes_in.length ≠ 0 := by simpa using hne
  simp [fakewire_exc_on_recv_data, fakewire_exc_check_invariants, fakewire_exc_reset, this]

/-- `link_interface_deliver` over two call sequences in a row. -/
theorem deliver_append (fwe : fw_exchange_t) (xs ys : List fw_event) :
    link_interface_deliver fwe (xs ++ ys) =
      match link_interface_deliver fwe xs with
      | none => none
      | some fwe1 => link_interface_deliver fwe1 ys := by
  induction xs generalizing fwe with
  | nil => rfl
  | cons x xs ih =>
    cases x with
    | recv_data bytes_in =>
      simp only [List.cons_append, link_interface_deliver]
      cases fakewire_exc_on_recv_data fwe bytes_in with
      | none => rfl
      | some fwe1 => exact ih fwe1
    | recv_ctrl symbol param t =>
      simp only [List.cons_append, link_interface_deliver]
      cases fakewire_exc_on_recv_ctrl fwe symbol with
      | none => rfl
      | some fwe1 => exact ih fwe1

/-- A data run that fits into the rest of the registered array is copied to
`inbound_buffer_offset`, which advances by the length of the run. -/
theorem on_recv_data_fits (fwe : fw_exchange_t) (ptr : Nat) (content r : List Nat)
    (h : receiving fwe ptr content) (hr : r ≠ [])
    (hfit : fwe.inbound_buffer_offset + r.length ≤ fwe.inbound_buffer_max) :
    ∃ content1, fakewire_exc_on_recv_data fwe r =
        some (set_inbound fwe (some (ptr, content1)) (fwe.inbound_buffer_offset + r.length)) ∧
      content1.length = fwe.inbound_buffer_max ∧
      content1.take (fwe.inbound_buffer_offset + r.length) =
        content.take fwe.inbound_buffer_offset ++ r := by
  obtain ⟨h1, h2, h3, h4, h5, h6, h7⟩ := h
  have hlen : r.length ≠ 0 := by simpa using hr
  have hpos : 0 < r.length := Nat.pos_of_ne_zero hlen
  refine ⟨memcpy content fwe.inbound_buffer_offset r r.length, ?_, ?_, ?_⟩
  · by_cases hc : fwe.inbound_buffer_max - fwe.inbound_buffer_offset > r.length
    · simp [fakewire_exc_on_recv_data, fakewire_exc_check_invariants, h1, h2, h3, h4, h5, h7, hlen,
        hc, hpos, set_inbound]
    · have he : fwe.inbound_buffer_max - fwe.inbound_buffer_offset = r.length := by omega
      simp [fakewire_exc_on_recv_data, fakewire_exc_check_invariants, h1, h2, h3, h4, h5, h7, hlen,
        he, hpos, set_inbound]
  · simp only [memcpy, List.length_append, List.length_take, List.length_drop, h6]
    omega
  · have hk : (content.take fwe.inbound_buffer_offset ++ r.take r.length).length =
        fwe.inbound_buffer_offset + r.length := by
      simp only [List.length_append, List.length_take, h6]; omega
    simp only [memcpy]
    rw [← hk, List.take_left]
    simp

theorem set_inbound_receiving (fwe : fw_exchange_t) (ptr : Nat) (content c1 : List Nat) (off : Nat)
    (h : receiving fwe ptr content) (hl : c1.length = fwe.inbound_buffer_max)
    (ho : off ≤ fwe.inbound_buffer_max) :
    receiving (set_inbound fwe (some (ptr, c1)) off) ptr c1 :=
  ⟨h.1, h.2.1, h.2.2.1, h.2.2.2.1, rfl, hl, ho⟩

/-- Data runs that together fit into the rest of the registered array are stored one after
the other. -/
theorem deliver_runs_fit (runs : List (List Nat)) (fwe : fw_exchange_t) (ptr : Nat)
    (content : List Nat) (h : receiving fwe ptr content) (hr : ∀ r ∈ runs, r ≠ [])
    (hfit : fwe.inbound_buffer_offset + runs.flatten.length ≤ fwe.inbound_buffer_max) :
    ∃ content1, link_interface_deliver fwe (runs.map fw_event.recv_data) =
        some (set_inbound fwe (some (ptr, content1))
          (fwe.inbound_buffer_offset + runs.flatten.length)) ∧
      content1.length = fwe.inbound_buffer_max ∧
      content1.take (fwe.inbound_buffer_offset + runs.flatten.length) =
        content.take fwe.inbound_buffer_offset ++ runs.flatten := by
  induction runs generalizing fwe content with
  | nil =>
    obtain ⟨h1, h2, h3, h4, h5, h6, h7⟩ := h
    refine ⟨content, ?_, h6, by simp⟩
    cases fwe
    simp only at h5
    simp [link_interface_deliver, h5, set_inbound]
  | cons r runs ih =>
    simp only [List.flatten_cons, List.length_append] at hfit
    obtain ⟨c1, he1, hl1, ht1⟩ :=
      on_recv_data_fits fwe ptr content r h (hr r (List.mem_cons_self _ _)) (by omega)
    obtain ⟨c2, he2, hl2, ht2⟩ :=
      ih (set_inbound fwe (some (ptr, c1)) (fwe.inbound_buffer_offset + r.length)) c1
        (set_inbound_receiving fwe ptr content c1 _ h hl1 (by omega))
        (fun x hx => hr x (List.mem_cons_of_mem _ hx))
        (by simp only [set_inbound]; omega)
    refine ⟨c2, ?_, hl2, ?_⟩
    · simp only [List.map_cons, link_interface_deliver, he1, he2]
      simp [set_inbound, Nat.add_assoc]
    · simp only [set_inbound] at ht2
      simp only [List.flatten_cons, List.length_append, ← Nat.add_assoc, ht2, ht1,
        List.append_assoc]

/-! ## Claims on the codec -/

/-- C1 (framing round-trip): for every non-empty byte sequence `B`, the bytes that
`fakewire_enc_encode_data` followed by `fakewire_enc_flush` hand to the sink of an
initialised (empty) encoder, decoded in one `fakewire_dec_decode` call by a decoder that is
not in an escape and has no parametrized symbol pending, are delivered as data events whose
concatenation is exactly `B`, with no control event. -/
theorem C1_framing_round_trip (fwe : fw_encoder_t) (fwd : fw_decoder_t) (B : List Nat) (ts : Nat)
    (hB : B ≠ []) (henc : enc_initialised fwe)
    (hesc : fwd.in_escape = false) (hpend : fwd.recv_current = FWC_NONE) :
    ∃ W fwd1 ev, enc_data_then_flush fwe B = some W ∧
      fakewire_dec_decode fwd W ts = some (fwd1, ev) ∧ data_of ev = B ∧ ctrl_of ev = [] := by
  obtain ⟨hlen, hidx⟩ := henc
  obtain ⟨ie, rc, cnt, prm, rts⟩ := fwd
  simp only at hesc hpend
  subst hesc hpend
  obtain ⟨ev, hd, h1, h2⟩ := dec_decode_escape_data ts cnt rts prm B hB
  refine ⟨wire_escape B, _, ev, ?_, hd, h1, h2⟩
  rw [enc_data_then_flush_spec fwe B hB hlen (by omega), hidx]
  simp

/-- C1 at a concrete input: the payload `[0x86, 0x41]` through a fresh encoder and an idle decoder. -/
theorem C1_framing_round_trip_witness :
    ([0x86, 0x41] : List Nat) ≠ [] ∧ enc_initialised enc_fresh ∧
      ∃ W fwd1 ev, enc_data_then_flush enc_fresh [0x86, 0x41] = some W ∧
        fakewire_dec_decode dec_idle W 7 = some (fwd1, ev) ∧ data_of ev = [0x86, 0x41] ∧
        ctrl_of ev = [] :=
  ⟨by decide, enc_fresh_initialised,
    C1_framing_round_trip enc_fresh dec_idle [0x86, 0x41] 7 (by decide) enc_fresh_initialised
      rfl rfl⟩

/-- C2 (data escaping): for every non-empty byte sequence `B`, `fakewire_enc_encode_data`
followed by `fakewire_enc_flush` on an initialised encoder hands the sink, in order, for
each byte `b` of `B` the two bytes `[0x86, b XOR 0x10]` if `0x80 <= b <= 0x86` and the
single byte `b` otherwise; a 1-byte input `b` in `0x80..0x86` yields exactly
`[0x86, b XOR 0x10]`. -/
theorem C2_encode_data_escapes (fwe : fw_encoder_t) (B : List Nat) (hB : B ≠ [])
    (henc : enc_initialised fwe) :
    enc_data_then_flush fwe B =
        some (B.flatMap fun b => if 0x80 ≤ b ∧ b ≤ 0x86 then [0x86, b ^^^ 0x10] else [b]) ∧
      ∀ b, 0x80 ≤ b → b ≤ 0x86 → enc_data_then_flush fwe [b] = some [0x86, b ^^^ 0x10] := by
  obtain ⟨hlen, hidx⟩ := henc
  constructor
  · rw [enc_data_then_flush_spec fwe B hB hlen (by omega), hidx]
    rfl
  · intro b h1 h2
    rw [enc_data_then_flush_spec fwe [b] (by simp) hlen (by omega), hidx]
    simp [wire_escape, wire_escape_byte, h1, h2]

/-- C2 at a concrete input: the payload `[0x01, 0x86, 0x80]` on a fresh encoder. -/
theorem C2_encode_data_escapes_witness :
    ([0x01, 0x86, 0x80] : List Nat) ≠ [] ∧ enc_initialised enc_fresh ∧
      (enc_data_then_flush enc_fresh [0x01, 0x86, 0x80] =
          some ([0x01, 0x86, 0x80].flatMap
            fun b => if 0x80 ≤ b ∧ b ≤ 0x86 then [0x86, b ^^^ 0x10] else [b]) ∧
        ∀ b, 0x80 ≤ b → b ≤ 0x86 →
          enc_data_then_flush enc_fresh [b] = some [0x86, b ^^^ 0x10]) :=
  ⟨by decide, enc_fresh_initialised,
    C2_encode_data_escapes enc_fresh [0x01, 0x86, 0x80] (by decide) enc_fresh_initialised⟩

/-- C3 (control symbols on the wire): on an initialised encoder, `fakewire_enc_encode_ctrl`
followed by `fakewire_enc_flush` writes a non-parametrized symbol (START_PACKET,
END_PACKET, ERROR_PACKET, FLOW_CONTROL) as exactly its one byte, and a parametrized symbol
(HANDSHAKE_1, HANDSHAKE_2) with parameter `p` as its byte followed by the four big-endian
bytes of `p`, each passed through data escaping. -/
theorem C3_encode_ctrl_wire (fwe : fw_encoder_t) (henc : enc_initialised fwe) :
    (∀ symbol, symbol = FWC_START_PACKET ∨ symbol = FWC_END_PACKET ∨
        symbol = FWC_ERROR_PACKET ∨ symbol = FWC_FLOW_CONTROL →
        enc_ctrl_then_flush fwe symbol 0 = some [symbol]) ∧
      (∀ symbol p, symbol = FWC_HANDSHAKE_1 ∨ symbol = FWC_HANDSHAKE_2 →
        enc_ctrl_then_flush fwe symbol p =
          some (symbol :: ([p / 2 ^ 24 % 256, p / 2 ^ 16 % 256, p / 2 ^ 8 % 256, p % 256].flatMap
            fun b => if 0x80 ≤ b ∧ b ≤ 0x86 then [0x86, b ^^^ 0x10] else [b]))) := by
  obtain ⟨hlen, hidx⟩ := henc
  constructor
  · intro symbol hs
    rw [enc_ctrl_then_flush_plain fwe symbol hs hlen (by omega), hidx]
    simp
  · intro symbol p hs
    rw [enc_ctrl_then_flush_param fwe symbol p hs hlen (by omega), hidx]
    simp [wire_escape, wire_escape_byte, htobe32]

/-- C3 at concrete inputs: `FLOW_CONTROL`, and `HANDSHAKE_2` with a parameter two of whose bytes
need escaping. -/
theorem C3_encode_ctrl_wire_witness :
    enc_initialised enc_fresh ∧
      enc_ctrl_then_flush enc_fresh FWC_FLOW_CONTROL 0 = some [0x85] ∧
      enc_ctrl_then_flush enc_fresh FWC_HANDSHAKE_2 0x01860384 =
        some [0x81, 0x01, 0x86, 0x96, 0x03, 0x86, 0x94] :=
  ⟨enc_fresh_initialised,
    (C3_encode_ctrl_wire enc_fresh enc_fresh_initialised).1 FWC_FLOW_CONTROL (by decide),
    by
      rw [(C3_encode_ctrl_wire enc_fresh enc_fresh_initialised).2 FWC_HANDSHAKE_2 0x01860384
        (by decide)]
      decide⟩

/-- C4 as stated fails at `p = 0x80000001`: the first parameter byte `0x80` is escaped, so
`0x80` is followed by five wire bytes, and the bytes sent are not
`[0x80, 0x80, 0x00, 0x00, 0x01]`. -/
theorem C4_counterexample :
    enc_ctrl_then_flush enc_fresh FWC_HANDSHAKE_1 0x80000001 =
        some [0x80, 0x86, 0x90, 0x00, 0x00, 0x01] ∧
      enc_ctrl_then_flush enc_fresh FWC_HANDSHAKE_1 0x80000001 ≠
        some [0x80, 0x80, 0x00, 0x00, 0x01] ∧
      ¬ ∃ w : List Nat, w.length = 4 ∧
        enc_ctrl_then_flush enc_fresh FWC_HANDSHAKE_1 0x80000001 = some (0x80 :: w) := by
  have h : enc_ctrl_then_flush enc_fresh FWC_HANDSHAKE_1 0x80000001 =
      some [0x80, 0x86, 0x90, 0x00, 0x00, 0x01] := by
    rw [enc_ctrl_then_flush_param enc_fresh FWC_HANDSHAKE_1 0x80000001 (by decide)
      enc_fresh_initialised.1 (by simp [enc_fresh])]
    decide
  refine ⟨h, ?_, ?_⟩
  · rw [h]; decide
  · rintro ⟨w, hw, he⟩
    rw [h] at he
    simp only [Option.some.injEq, List.cons.injEq, true_and] at he
    rw [← he] at hw
    simp at hw

/-- C4, as amended: for every 32-bit parameter `p`, on an initialised encoder
`encode_ctrl(HANDSHAKE_1, p)` followed by flush yields the byte `0x80` followed by the
data-escaped form of the four big-endian bytes of `p`: between 4 and 8 wire bytes, exactly
the 4 big-endian bytes when none of them lies in `0x80..0x86`, and in every case the bytes
that are escaped carry `p` in big-endian order. For `p = 0x80000001` the bytes sent are
`[0x80, 0x86, 0x90, 0x00, 0x00, 0x01]`. -/
theorem C4_handshake_wire_bytes (fwe : fw_encoder_t) (p : Nat) (henc : enc_initialised fwe)
    (hp : p < 2 ^ 32) :
    ∃ bytes w, bytes = [p / 2 ^ 24 % 256, p / 2 ^ 16 % 256, p / 2 ^ 8 % 256, p % 256] ∧
      bytes.getD 0 0 * 2 ^ 24 + bytes.getD 1 0 * 2 ^ 16 + bytes.getD 2 0 * 2 ^ 8 +
        bytes.getD 3 0 = p ∧
      enc_ctrl_then_flush fwe FWC_HANDSHAKE_1 p = some (0x80 :: w) ∧
      w = wire_escape bytes ∧ 4 ≤ w.length ∧ w.length ≤ 8 ∧
      ((∀ b ∈ bytes, ¬ (0x80 ≤ b ∧ b ≤ 0x86)) → w = bytes) ∧
      (p = 0x80000001 → w = [0x86, 0x90, 0x00, 0x00, 0x01]) := by
  obtain ⟨hlen, hidx⟩ := henc
  refine ⟨htobe32 p, wire_escape (htobe32 p), rfl, be32toh_htobe32 p hp, ?_, rfl, ?_, ?_, ?_, ?_⟩
  · rw [enc_ctrl_then_flush_param fwe FWC_HANDSHAKE_1 p (by decide) hlen (by omega), hidx]
    simp
  · exact (wire_escape_length (htobe32 p)).1
  · exact (wire_escape_length (htobe32 p)).2
  · intro h
    generalize htobe32 p = bs at h
    induction bs with
    | nil => rfl
    | cons b bs ih =>
      rw [wire_escape_cons, ih (fun c hc => h c (List.mem_cons_of_mem _ hc))]
      have := h b (List.mem_cons_self _ _)
      simp only [wire_escape_byte]
      rw [if_neg this]; rfl
  · intro h
    subst h
    decide

/-- C4 as amended, at `p = 0x12345678` on a fresh encoder. -/
theorem C4_handshake_wire_bytes_witness :
    enc_initialised enc_fresh ∧ (0x12345678 : Nat) < 2 ^ 32 ∧
      ∃ bytes w, bytes = [0x12345678 / 2 ^ 24 % 256, 0x12345678 / 2 ^ 16 % 256,
          0x12345678 / 2 ^ 8 % 256, 0x12345678 % 256] ∧
        bytes.getD 0 0 * 2 ^ 24 + bytes.getD 1 0 * 2 ^ 16 + bytes.getD 2 0 * 2 ^ 8 +
          bytes.getD 3 0 = 0x12345678 ∧
        enc_ctrl_then_flush enc_fresh FWC_HANDSHAKE_1 0x12345678 = some (0x80 :: w) ∧
        w = wire_escape bytes ∧ 4 ≤ w.length ∧ w.length ≤ 8 ∧
        ((∀ b ∈ bytes, ¬ (0x80 ≤ b ∧ b ≤ 0x86)) → w = bytes) ∧
        (0x12345678 = 0x80000001 → w = [0x86, 0x90, 0x00, 0x00, 0x01]) :=
  ⟨enc_fresh_initialised, by decide,
    C4_handshake_wire_bytes enc_fresh 0x12345678 enc_fresh_initialised (by decide)⟩

/-- C5 (parametrized symbol round-trip): for every 32-bit `p` and each parametrized symbol
`s` (HANDSHAKE_1 or HANDSHAKE_2), the bytes that `encode_ctrl(s, p)` followed by flush hand
to the sink of an initialised encoder, decoded by a decoder that is not in an escape and has
nothing pending, produce exactly one receiver call, `recv_ctrl(s, p)` (so no data event),
and leave the decoder not in an escape with nothing pending. -/
theorem C5_handshake_round_trip (fwe : fw_encoder_t) (fwd : fw_decoder_t) (symbol p ts : Nat)
    (hsym : symbol = FWC_HANDSHAKE_1 ∨ symbol = FWC_HANDSHAKE_2) (hp : p < 2 ^ 32)
    (henc : enc_initialised fwe)
    (hesc : fwd.in_escape = false) (hpend : fwd.recv_current = FWC_NONE) :
    ∃ W fwd1, enc_ctrl_then_flush fwe symbol p = some W ∧
      fakewire_dec_decode fwd W ts = some (fwd1, [fw_event.recv_ctrl symbol p ts]) ∧
      fwd1.in_escape = false ∧ fwd1.recv_current = FWC_NONE := by
  obtain ⟨hlen, hidx⟩ := henc
  obtain ⟨ie, rc, cnt, prm, rts⟩ := fwd
  simp only at hesc hpend
  subst hesc hpend
  obtain ⟨prm1, hd⟩ := dec_decode_handshake ts cnt rts prm symbol p hsym hp
  refine ⟨symbol :: wire_escape (htobe32 p), _, ?_, hd, rfl, rfl⟩
  rw [enc_ctrl_then_flush_param fwe symbol p hsym hlen (by omega), hidx]
  simp

/-- C5 at a concrete input: `HANDSHAKE_2` with `p = 0x80000001`, whose first byte is escaped. -/
theorem C5_handshake_round_trip_witness :
    (FWC_HANDSHAKE_2 = FWC_HANDSHAKE_1 ∨ FWC_HANDSHAKE_2 = FWC_HANDSHAKE_2) ∧
      (0x80000001 : Nat) < 2 ^ 32 ∧ enc_initialised enc_fresh ∧
      ∃ W fwd1, enc_ctrl_then_flush enc_fresh FWC_HANDSHAKE_2 0x80000001 = some W ∧
        fakewire_dec_decode dec_idle W 7 =
          some (fwd1, [fw_event.recv_ctrl FWC_HANDSHAKE_2 0x80000001 7]) ∧
        fwd1.in_escape = false ∧ fwd1.recv_current = FWC_NONE :=
  ⟨by decide, by decide, enc_fresh_initialised,
    C5_handshake_round_trip enc_fresh dec_idle FWC_HANDSHAKE_2 0x80000001 7 (by decide)
      (by decide) enc_fresh_initialised rfl rfl⟩

/-- C6, the code at the failing inputs: a decoder that is in an escape and receives the
control byte `0x82` (`0x82 XOR 0x10 = 0x92` is not special) reports `START_PACKET` and no
`CODEC_ERROR`; one that receives `0x86` (`0x86 XOR 0x10 = 0x96`) does report `CODEC_ERROR`
but is in an escape again afterwards. -/
theorem C6_invalid_escape_then_symbol :
    fakewire_dec_decode { dec_idle with in_escape := true } [0x82] 7 =
        some (dec_idle, [fw_event.recv_ctrl FWC_START_PACKET 0 7]) ∧
      fakewire_dec_decode { dec_idle with in_escape := true } [0x86] 7 =
        some ({ dec_idle with in_escape := true }, [fw_event.recv_ctrl FWC_CODEC_ERROR 0 7]) := by
  decide

/-! ## Claims on the exchange -/

/-- C7 (illegal-escape scenario): decoding the raw bytes `[0x86, 0x00]` on a decoder that is
not in an escape and has nothing pending emits a `CODEC_ERROR` control event, and an
exchange in CONNECTING, HANDSHAKING or OPERATING that is delivered all the events the
decoder produces for these two bytes ends in state CONNECTING. -/
theorem C7_illegal_escape_resets (fwd : fw_decoder_t) (fwe : fw_exchange_t) (ts : Nat)
    (hesc : fwd.in_escape = false) (hpend : fwd.recv_current = FWC_NONE)
    (hst : fwe.state = FW_EXC_CONNECTING ∨ fwe.state = FW_EXC_HANDSHAKING ∨
      fwe.state = FW_EXC_OPERATING) :
    ∃ fwd1 ev fwe1, fakewire_dec_decode fwd [0x86, 0x00] ts = some (fwd1, ev) ∧
      fw_event.recv_ctrl FWC_CODEC_ERROR 0 ts ∈ ev ∧
      link_interface_deliver fwe ev = some fwe1 ∧ fwe1.state = FW_EXC_CONNECTING := by
  obtain ⟨ie, rc, cnt, prm, rts⟩ := fwd
  simp only at hesc hpend
  subst hesc hpend
  refine ⟨_, _, fakewire_exc_reset (fakewire_exc_reset fwe),
    dec_decode_illegal_escape ts cnt rts prm, by simp, ?_, rfl⟩
  simp only [link_interface_deliver, on_recv_ctrl_codec_error fwe hst,
    on_recv_data_after_reset fwe [0x00] (by simp)]

/-- C7 at a concrete input: an OPERATING exchange holding a credit. -/
theorem C7_illegal_escape_resets_witness :
    ∃ fwd1 ev fwe1, fakewire_dec_decode dec_idle [0x86, 0x00] 7 = some (fwd1, ev) ∧
      fw_event.recv_ctrl FWC_CODEC_ERROR 0 7 ∈ ev ∧
      link_interface_deliver
        { state := FW_EXC_OPERATING, tx_busy := false, detaching := false,
          send_handshake_id := [0x80, 0, 0, 1], recv_handshake_id := [0, 0, 0, 0],
          is_recv_handshake_id := false, send_secondary_handshake := false,
          recv_handshake_offset := 4, inbound_buffer := none, inbound_buffer_offset := 0,
          inbound_buffer_max := 0, inbound_read_done := false, has_sent_fct := false,
          remote_sent_fct := true, recv_in_progress := false } ev = some fwe1 ∧
      fwe1.state = FW_EXC_CONNECTING :=
  C7_illegal_escape_resets dec_idle _ 7 rfl rfl (Or.inr (Or.inr rfl))

/-- C8 (packet on the wire): for every non-empty payload `P`, the bytes a client write hands
to the wire through an initialised encoder (`START_PACKET`, then `P` through data encoding,
then `END_PACKET`, flushed) are exactly `[0x82] ++ escape(P) ++ [0x83]`, `escape` being the
per-byte data escaping; for `P = [0x48, 0x69]` this is `[0x82, 0x48, 0x69, 0x83]` and for
`P = [0x86]` it is `[0x82, 0x86, 0x96, 0x83]`. -/
theorem C8_write_wire_bytes (enc : fw_encoder_t) (henc : enc_initialised enc) :
    (∀ P : List Nat, P ≠ [] →
        fakewire_exc_write_transmit enc P = some ([0x82] ++ wire_escape P ++ [0x83])) ∧
      fakewire_exc_write_transmit enc [0x48, 0x69] = some [0x82, 0x48, 0x69, 0x83] ∧
      fakewire_exc_write_transmit enc [0x86] = some [0x82, 0x86, 0x96, 0x83] := by
  obtain ⟨hlen, hidx⟩ := henc
  have key : ∀ P : List Nat, P ≠ [] →
      fakewire_exc_write_transmit enc P = some ([0x82] ++ wire_escape P ++ [0x83]) := by
    intro P hP
    obtain ⟨e1, o1, he1, hl1, hi1, hc1⟩ :=
      enc_ctrl_plain_spec enc FWC_START_PACKET (by decide) hlen (by omega)
    obtain ⟨e2, o2, he2, hl2, hi2, hc2⟩ := enc_data_spec e1 P hP hl1 hi1
    obtain ⟨e3, o3, he3, hl3, hi3, hc3⟩ :=
      enc_ctrl_plain_spec e2 FWC_END_PACKET (by decide) hl2 hi2
    simp only [fakewire_exc_write_transmit, he1, he2, he3, List.flatten_append,
      (enc_flush_spec e3).1, List.append_assoc, hc3]
    rw [← List.append_assoc o2.flatten, hc2, List.append_assoc, ← List.append_assoc o1.flatten,
      hc1, hidx]
    simp
  refine ⟨key, ?_, ?_⟩
  · rw [key _ (by simp)]; decide
  · rw [key _ (by simp)]; decide

/-- C8 at concrete inputs on a fresh encoder. -/
theorem C8_write_wire_bytes_witness :
    enc_initialised enc_fresh ∧
      fakewire_exc_write_transmit enc_fresh [0x01, 0x80] =
        some ([0x82] ++ wire_escape [0x01, 0x80] ++ [0x83]) ∧
      fakewire_exc_write_transmit enc_fresh [0x86] = some [0x82, 0x86, 0x96, 0x83] :=
  ⟨enc_fresh_initialised,
    (C8_write_wire_bytes enc_fresh enc_fresh_initialised).1 [0x01, 0x80] (by decide),
    (C8_write_wire_bytes enc_fresh enc_fresh_initialised).2.2⟩

/-- C9, the code at a failing input: a 3-byte packet delivered as the runs `[1, 2]` and
`[3]` into a registered 1-byte buffer with a credit extended. The first run is accepted and
takes `inbound_buffer_offset` to 2, past `inbound_buffer_max = 1`; the second run then
fails `assert(fwe->inbound_buffer_offset <= fwe->inbound_buffer_max)`, so the packet is
never completed and no read returns 3. -/
theorem C9_truncated_second_run_aborts :
    link_interface_deliver
        { state := FW_EXC_OPERATING, tx_busy := false, detaching := false,
          send_handshake_id := [0x80, 0, 0, 1], recv_handshake_id := [0, 0, 0, 0],
          is_recv_handshake_id := false, send_secondary_handshake := false,
          recv_handshake_offset := 4, inbound_buffer := some (0, [0]),
          inbound_buffer_offset := 0, inbound_buffer_max := 1, inbound_read_done := false,
          has_sent_fct := true, remote_sent_fct := false, recv_in_progress := false }
        (packet_events [[1, 2], [3]] 7) = none ∧
      (link_interface_deliver
        { state := FW_EXC_OPERATING, tx_busy := false, detaching := false,
          send_handshake_id := [0x80, 0, 0, 1], recv_handshake_id := [0, 0, 0, 0],
          is_recv_handshake_id := false, send_secondary_handshake := false,
          recv_handshake_offset := 4, inbound_buffer := some (0, [0]),
          inbound_buffer_offset := 0, inbound_buffer_max := 1, inbound_read_done := false,
          has_sent_fct := true, remote_sent_fct := false, recv_in_progress := false }
        [fw_event.recv_ctrl FWC_START_PACKET 0 7, fw_event.recv_data [1, 2]]).map
          (fun fwe => (fwe.inbound_buffer, fwe.inbound_buffer_offset)) =
        some (some (0, [1]), 2) := by
  decide

/-- C10 (reception within capacity): in OPERATING with a client buffer of capacity `N`
registered by read (`inbound_buffer_offset = 0`, `inbound_read_done = false`) and a credit
extended (`has_sent_fct`; no receive is in progress yet and no handshake ID is awaited, as
in every OPERATING state in which a credit is outstanding), receiving `START_PACKET`, then
non-empty data runs totalling `L <= N` bytes in any split, then `END_PACKET`, makes the
waiting read return length `L` with the first `L` bytes of the buffer equal to the packet,
and leaves the exchange OPERATING with no registered buffer, `inbound_read_done` false and
`recv_in_progress` false. -/
theorem C10_receive_within_capacity (fwe : fw_exchange_t) (packet_out : Nat)
    (content : List Nat) (runs : List (List Nat)) (ts : Nat)
    (hst : fwe.state = FW_EXC_OPERATING) (hid : fwe.is_recv_handshake_id = false)
    (hbuf : fwe.inbound_buffer = some (packet_out, content))
    (hmax : fwe.inbound_buffer_max = content.length)
    (hoff : fwe.inbound_buffer_offset = 0) (hdone : fwe.inbound_read_done = false)
    (hfct : fwe.has_sent_fct = true) (hrip : fwe.recv_in_progress = false)
    (hruns : ∀ r ∈ runs, r ≠ []) (hL : runs.flatten.length ≤ content.length) :
    ∃ fwe1 fwe2 content2,
      link_interface_deliver fwe (packet_events runs ts) = some fwe1 ∧
      fakewire_exc_read_inner fwe1 packet_out content.length =
        some (fwe2, read_pc.returned runs.flatten.length content2) ∧
      content2.length = content.length ∧
      content2.take runs.flatten.length = runs.flatten ∧
      fwe2.state = FW_EXC_OPERATING ∧ fwe2.inbound_buffer = none ∧
      fwe2.inbound_read_done = false ∧ fwe2.recv_in_progress = false := by
  have hstart : fakewire_exc_on_recv_ctrl fwe FWC_START_PACKET =
      some { fwe with has_sent_fct := false, recv_in_progress := true } := by
    simp [fakewire_exc_on_recv_ctrl, fakewire_exc_check_invariants, hst, hid, hbuf, hdone, hfct,
      hrip]
  obtain ⟨c1, he1, hl1, ht1⟩ :=
    deliver_runs_fit runs { fwe with has_sent_fct := false, recv_in_progress := true }
      packet_out content ⟨hst, hid, rfl, hdone, hbuf, hmax.symm, by simp only [hoff]; omega⟩
      hruns (by simp only [hoff, hmax]; omega)
  simp only [hoff, Nat.zero_add, List.take_zero, List.nil_append] at ht1
  simp only at hl1
  have hnn : ¬ ((runs.flatten.length : Int) < 0) := by omega
  refine ⟨{ fwe with has_sent_fct := false, recv_in_progress := false, inbound_read_done := true,
                      inbound_buffer := some (packet_out, c1),
                      inbound_buffer_offset := runs.flatten.length },
    { fwe with has_sent_fct := false, recv_in_progress := false, inbound_read_done := false,
               inbound_buffer := none, inbound_buffer_offset := runs.flatten.length },
    c1, ?_, ?_, by rw [hl1, hmax], ht1, hst, rfl, rfl, rfl⟩
  · simp only [packet_events, link_interface_deliver, hstart, deliver_append, he1]
    simp [fakewire_exc_on_recv_ctrl, fakewire_exc_check_invariants, hst, hid, hoff, set_inbound,
      hdone]
  · simp only [fakewire_exc_read_inner, hst, hmax, hnn]
    simp

/-- C10 at a concrete input: the packet `[0x48, 0x69]` in two runs into a 3-byte buffer. -/
theorem C10_receive_within_capacity_witness :
    ∃ fwe1 fwe2 content2,
      link_interface_deliver
        { state := FW_EXC_OPERATING, tx_busy := false, detaching := false,
          send_handshake_id := [0x80, 0, 0, 1], recv_handshake_id := [0, 0, 0, 0],
          is_recv_handshake_id := false, send_secondary_handshake := false,
          recv_handshake_offset := 4, inbound_buffer := some (0, [0, 0, 0]),
          inbound_buffer_offset := 0, inbound_buffer_max := 3, inbound_read_done := false,
          has_sent_fct := true, remote_sent_fct := false, recv_in_progress := false }
        (packet_events [[0x48], [0x69]] 7) = some fwe1 ∧
      fakewire_exc_read_inner fwe1 0 ([0, 0, 0] : List Nat).length =
        some (fwe2, read_pc.returned ([[0x48], [0x69]] : List (List Nat)).flatten.length
          content2) ∧
      content2.length = ([0, 0, 0] : List Nat).length ∧
      content2.take ([[0x48], [0x69]] : List (List Nat)).flatten.length =
        ([[0x48], [0x69]] : List (List Nat)).flatten ∧
      fwe2.state = FW_EXC_OPERATING ∧ fwe2.inbound_buffer = none ∧
      fwe2.inbound_read_done = false ∧ fwe2.recv_in_progress = false :=
  C10_receive_within_capacity _ 0 [0, 0, 0] [[0x48], [0x69]] 7 rfl rfl rfl rfl rfl rfl rfl rfl
    (by decide) (by decide)

/-! ## Invariants: what each critical section keeps -/

/-- What `fakewire_exc_on_recv_ctrl` can do when it does not abort: nothing (DISCONNECTED), a
reset, or one of the seven permitted transitions. -/
theorem on_recv_ctrl_cases (fwe fwe1 : fw_exchange_t) (symbol : Nat)
    (h : fakewire_exc_on_recv_ctrl fwe symbol = some fwe1) :
    fwe.state ≠ FW_EXC_INVALID ∧
    ((fwe.state = FW_EXC_DISCONNECTED ∧ fwe1 = fwe) ∨
     (fwe.state ≠ FW_EXC_DISCONNECTED ∧ fwe1 = fakewire_exc_reset fwe) ∨
     (fwe.state = FW_EXC_CONNECTING ∧ fwe.is_recv_handshake_id = false ∧
        symbol = FWC_HANDSHAKE_1 ∧
        fwe1 = { fwe with is_recv_handshake_id := true, recv_handshake_offset := 0, send_secondary_handshake := false }) ∨
     (fwe.state = FW_EXC_HANDSHAKING ∧ fwe.is_recv_handshake_id = false ∧
        symbol = FWC_HANDSHAKE_2 ∧
        fwe1 = { fwe with is_recv_handshake_id := true, recv_handshake_offset := 0 }) ∨
     (fwe.state = FW_EXC_OPERATING ∧ fwe.is_recv_handshake_id = false ∧
        symbol = FWC_HANDSHAKE_1 ∧
        fwe1 = { fakewire_exc_reset fwe with is_recv_handshake_id := true, recv_handshake_offset := 0 }) ∨
     (fwe.state = FW_EXC_OPERATING ∧ fwe.is_recv_handshake_id = false ∧
        symbol = FWC_START_PACKET ∧ fwe.has_sent_fct = true ∧ fwe.inbound_buffer ≠ none ∧
        fwe.inbound_read_done = false ∧ fwe.recv_in_progress = false ∧
        fwe1 = { fwe with has_sent_fct := false, recv_in_progress := true }) ∨
     (fwe.state = FW_EXC_OPERATING ∧ fwe.is_recv_handshake_id = false ∧
        symbol = FWC_END_PACKET ∧ fwe.recv_in_progress = true ∧ fwe.inbound_buffer ≠ none ∧
        fwe.inbound_read_done = false ∧
        fwe1 = { fwe with inbound_read_done := true, recv_in_progress := false }) ∨
     (fwe.state = FW_EXC_OPERATING ∧ fwe.is_recv_handshake_id = false ∧
        symbol = FWC_ERROR_PACKET ∧ fwe.recv_in_progress = true ∧ fwe.inbound_buffer ≠ none ∧
        fwe.inbound_read_done = false ∧
        fwe1 = { fwe with inbound_buffer_offset := 0 }) ∨
     (fwe.state = FW_EXC_OPERATING ∧ fwe.is_recv_handshake_id = false ∧
        symbol = FWC_FLOW_CONTROL ∧ fwe.remote_sent_fct = false ∧
        fwe1 = { fwe with remote_sent_fct := true })) := by
  obtain ⟨st, txb, det, sid, rid, isr, ss, off, buf, boff, bmax, done, hs, rs, rip⟩ := fwe
  cases st <;> cases isr <;>
    simp only [fakewire_exc_on_recv_ctrl, fakewire_exc_check_invariants, ne_eq, reduceCtorEq,
      not_true_eq_false, not_false_eq_true, decide_True, decide_False, Bool.not_true, Bool.not_false,
      if_true, if_false, Bool.false_eq_true] at h
  all_goals first
    | (injection h with h; subst h; simp [fakewire_exc_reset])
    | (split_ifs at h <;> injection h with h <;> subst h <;> simp_all [fakewire_exc_reset])

/-- What `fakewire_exc_on_recv_data` can do when it does not abort: nothing (DISCONNECTED), a
reset, storing handshake ID bytes (with the two ways of completing the ID), or storing
packet bytes. -/
theorem on_recv_data_cases (fwe fwe1 : fw_exchange_t) (bytes_in : List Nat)
    (h : fakewire_exc_on_recv_data fwe bytes_in = some fwe1) :
    bytes_in ≠ [] ∧ fwe.state ≠ FW_EXC_INVALID ∧
    ((fwe.state = FW_EXC_DISCONNECTED ∧ fwe1 = fwe) ∨
     (fwe.state ≠ FW_EXC_DISCONNECTED ∧ fwe1 = fakewire_exc_reset fwe) ∨
     (fwe.is_recv_handshake_id = true ∧
        (fwe.state = FW_EXC_CONNECTING ∨ fwe.state = FW_EXC_HANDSHAKING) ∧
        fwe.recv_handshake_offset + bytes_in.length < 4 ∧
        fwe1 = { fwe with
          recv_handshake_id :=
            memcpy fwe.recv_handshake_id fwe.recv_handshake_offset bytes_in bytes_in.length
          recv_handshake_offset := fwe.recv_handshake_offset + bytes_in.length }) ∨
     (fwe.is_recv_handshake_id = true ∧ fwe.state = FW_EXC_CONNECTING ∧
        fwe.recv_handshake_offset + bytes_in.length = 4 ∧
        fwe1 = { fwe with
          recv_handshake_id :=
            memcpy fwe.recv_handshake_id fwe.recv_handshake_offset bytes_in bytes_in.length
          recv_handshake_offset := fwe.recv_handshake_offset + bytes_in.length
          is_recv_handshake_id := false
          send_secondary_handshake := true }) ∨
     (fwe.is_recv_handshake_id = true ∧ fwe.state = FW_EXC_HANDSHAKING ∧
        fwe.recv_handshake_offset + bytes_in.length = 4 ∧
        memcpy fwe.recv_handshake_id fwe.recv_handshake_offset bytes_in bytes_in.length =
          fwe.send_handshake_id ∧
        fwe1 = { fwe with
          recv_handshake_id :=
            memcpy fwe.recv_handshake_id fwe.recv_handshake_offset bytes_in bytes_in.length
          recv_handshake_offset := fwe.recv_handshake_offset + bytes_in.length
          is_recv_handshake_id := false
          state := FW_EXC_OPERATING }) ∨
     (fwe.is_recv_handshake_id = false ∧ fwe.state = FW_EXC_OPERATING ∧
        fwe.recv_in_progress = true ∧ fwe.inbound_read_done = false ∧
        ∃ ptr content content1, fwe.inbound_buffer = some (ptr, content) ∧
          fwe1 = { fwe with
            inbound_buffer := some (ptr, content1)
            inbound_buffer_offset := fwe.inbound_buffer_offset + bytes_in.length })) := by
  obtain ⟨st, txb, det, sid, rid, isr, ss, off, buf, boff, bmax, done, hs, rs, rip⟩ := fwe
  have hne : bytes_in ≠ [] := by
    intro hb
    simp [fakewire_exc_on_recv_data, hb] at h
  have hlen : bytes_in.length ≠ 0 := by simpa using hne
  refine ⟨hne, ?_⟩
  rcases buf with _ | ⟨ptr, content⟩ <;> cases st <;> cases isr <;>
    simp only [fakewire_exc_on_recv_data, fakewire_exc_check_invariants, ne_eq, reduceCtorEq,
      not_true_eq_false, not_false_eq_true, decide_True, decide_False, Bool.not_true, Bool.not_false,
      if_true, if_false, Bool.false_eq_true, hlen, or_true, true_or, or_false, false_or] at h
  all_goals first
    | (injection h with h; subst h; simp [fakewire_exc_reset])
    | (split_ifs at h <;> injection h with h <;> subst h <;> simp_all [fakewire_exc_reset] <;>
        omega)

/-- `fakewire_exc_on_recv_ctrl` keeps the field invariant, `tx_busy` and `detaching`, and
grants a credit only on `FLOW_CONTROL`. -/
theorem on_recv_ctrl_keeps (fwe fwe1 : fw_exchange_t) (symbol : Nat)
    (h : fakewire_exc_on_recv_ctrl fwe symbol = some fwe1) (hi : flags_inv fwe) :
    flags_inv fwe1 ∧ fwe1.tx_busy = fwe.tx_busy ∧ fwe1.detaching = fwe.detaching ∧
      (fwe1.state = FW_EXC_DISCONNECTED ↔ fwe.state = FW_EXC_DISCONNECTED) ∧
      (fwe1.remote_sent_fct = true →
        fwe.remote_sent_fct = true ∨ symbol = FWC_FLOW_CONTROL) := by
  obtain ⟨hv, hc⟩ := on_recv_ctrl_cases fwe fwe1 symbol h
  obtain ⟨st, txb, det, sid, rid, isr, ss, off, buf, boff, bmax, done, hs, rs, rip⟩ := fwe
  simp only [flags_inv] at hi ⊢
  simp only at hv hc hi
  rcases hc with ⟨h1, h2⟩ | ⟨h1, h2⟩ | ⟨h1, h2, h3, h4⟩ | ⟨h1, h2, h3, h4⟩ | ⟨h1, h2, h3, h4⟩ |
    ⟨h1, h2, h3, h4, h5, h6, h7, h8⟩ | ⟨h1, h2, h3, h4, h5, h6, h7⟩ |
    ⟨h1, h2, h3, h4, h5, h6, h7⟩ | ⟨h1, h2, h3, h4, h5⟩
  all_goals subst_vars
  all_goals simp_all [fakewire_exc_reset]

theorem memcpy_length (dst src : List Nat) (off n : Nat) (hd : dst.length = 4)
    (h1 : off + n ≤ 4) (h2 : n ≤ src.length) : (memcpy dst off src n).length = 4 := by
  simp only [memcpy, List.length_append, List.length_take, List.length_drop, hd]
  omega

/-- `fakewire_exc_on_recv_data` keeps the field invariant, `tx_busy` and `detaching`, and
grants no credit. -/
theorem on_recv_data_keeps (fwe fwe1 : fw_exchange_t) (bytes_in : List Nat)
    (h : fakewire_exc_on_recv_data fwe bytes_in = some fwe1) (hi : flags_inv fwe) :
    flags_inv fwe1 ∧ fwe1.tx_busy = fwe.tx_busy ∧ fwe1.detaching = fwe.detaching ∧
      (fwe1.state = FW_EXC_DISCONNECTED ↔ fwe.state = FW_EXC_DISCONNECTED) ∧
      (fwe1.remote_sent_fct = true → fwe.remote_sent_fct = true) := by
  obtain ⟨hne, hv, hc⟩ := on_recv_data_cases fwe fwe1 bytes_in h
  obtain ⟨st, txb, det, sid, rid, isr, ss, off, buf, boff, bmax, done, hs, rs, rip⟩ := fwe
  simp only [flags_inv] at hi ⊢
  simp only at hv hc hi
  rcases hc with ⟨h1, h2⟩ | ⟨h1, h2⟩ | ⟨h1, h2, h3, h4⟩ | ⟨h1, h2, h3, h4⟩ |
    ⟨h1, h2, h3, h4, h5⟩ | ⟨h1, h2, h3, h4, ptr, content, content1, h5, h6⟩
  · subst_vars; simp_all
  · subst_vars; simp_all [fakewire_exc_reset]
  · have hl := memcpy_length rid bytes_in off bytes_in.length hi.2.2.2.2.2.2.2 (by omega)
      (Nat.le_refl _)
    subst_vars; simp_all
  · have hl := memcpy_length rid bytes_in off bytes_in.length hi.2.2.2.2.2.2.2 (by omega)
      (Nat.le_refl _)
    subst_vars; simp_all
  · have hl := memcpy_length rid bytes_in off bytes_in.length hi.2.2.2.2.2.2.2 (by omega)
      (Nat.le_refl _)
    subst_vars; simp_all
  · subst_vars; simp_all

/-- The two steps of `fakewire_exc_read` keep the field invariant and touch neither the
state nor `tx_busy`, `detaching` or the credit. -/
theorem read_outer_keeps (fwe fwe1 : fw_exchange_t) (packet_out packet_max : Nat) (pc : read_pc)
    (h : fakewire_exc_read_outer fwe packet_out packet_max = some (fwe1, pc))
    (hi : flags_inv fwe) :
    flags_inv fwe1 ∧ fwe1.tx_busy = fwe.tx_busy ∧ fwe1.detaching = fwe.detaching ∧
      fwe1.state = fwe.state ∧ fwe1.remote_sent_fct = fwe.remote_sent_fct := by
  obtain ⟨st, txb, det, sid, rid, isr, ss, off, buf, boff, bmax, done, hs, rs, rip⟩ := fwe
  simp only [flags_inv] at hi ⊢
  simp only [fakewire_exc_read_outer] at h
  split_ifs at h <;> injection h with h <;> injection h with h h' <;> subst h <;> simp_all

theorem read_inner_keeps (fwe fwe1 : fw_exchange_t) (packet_out packet_max : Nat) (pc : read_pc)
    (h : fakewire_exc_read_inner fwe packet_out packet_max = some (fwe1, pc))
    (hi : flags_inv fwe) :
    flags_inv fwe1 ∧ fwe1.tx_busy = fwe.tx_busy ∧ fwe1.detaching = fwe.detaching ∧
      fwe1.state = fwe.state ∧ fwe1.remote_sent_fct = fwe.remote_sent_fct := by
  cases hb : fwe.inbound_buffer with
  | none =>
    simp only [fakewire_exc_read_inner, hb] at h
    exact read_outer_keeps fwe fwe1 packet_out packet_max pc h hi
  | some pr =>
    obtain ⟨ptr, content⟩ := pr
    simp only [fakewire_exc_read_inner, hb] at h
    split_ifs at h with h1 h2 h3 h4
    · injection h with h; injection h with h h'; subst h
      exact ⟨hi, rfl, rfl, rfl, rfl⟩
    · injection h with h; injection h with h h'; subst h
      obtain ⟨st, txb, det, sid, rid, isr, ss, off, buf, boff, bmax, done, hs, rs, rip⟩ := fwe
      simp only [flags_inv] at hi ⊢
      simp_all
    · exact read_outer_keeps fwe fwe1 packet_out packet_max pc h hi

/-- The credit step of flow-TX keeps the field invariant; it either claims the free wire or
changes nothing. -/
theorem flowtx_fct_keeps (fwe : fw_exchange_t) (hi : flags_inv fwe) :
    flags_inv (fakewire_exc_flowtx_fct fwe).1 ∧
      (fakewire_exc_flowtx_fct fwe).1.detaching = fwe.detaching ∧
      (fakewire_exc_flowtx_fct fwe).1.state = fwe.state ∧
      (fakewire_exc_flowtx_fct fwe).1.remote_sent_fct = fwe.remote_sent_fct ∧
      (((fakewire_exc_flowtx_fct fwe).2 = flowtx_pc.tx_fct ∧ fwe.tx_busy = false ∧
          (fakewire_exc_flowtx_fct fwe).1.tx_busy = true) ∨
        ((fakewire_exc_flowtx_fct fwe).2 = flowtx_pc.idle ∧
          (fakewire_exc_flowtx_fct fwe).1 = fwe)) := by
  obtain ⟨st, txb, det, sid, rid, isr, ss, off, buf, boff, bmax, done, hs, rs, rip⟩ := fwe
  simp only [flags_inv] at hi ⊢
  simp only [fakewire_exc_flowtx_fct]
  split_ifs with hc
  · simp_all
  · simp_all

/-- The top of the flow-TX loop keeps the field invariant; it ends the thread on
DISCONNECTED, claims the free wire, or leaves `tx_busy` alone. -/
theorem flowtx_top_keeps (fwe fwe1 : fw_exchange_t) (expired : Bool) (clock : Nat)
    (pc : flowtx_pc) (h : fakewire_exc_flowtx_top fwe expired clock = some (fwe1, pc))
    (hi : flags_inv fwe) :
    flags_inv fwe1 ∧ fwe1.detaching = fwe.detaching ∧
      fwe1.remote_sent_fct = fwe.remote_sent_fct ∧
      (fwe1.state = FW_EXC_DISCONNECTED ↔ fwe.state = FW_EXC_DISCONNECTED) ∧
      ((pc = flowtx_pc.exited ∧ fwe.state = FW_EXC_DISCONNECTED ∧ fwe1 = fwe) ∨
        (pc.sending = true ∧ fwe.tx_busy = false ∧ fwe1.tx_busy = true ∧
          fwe.state ≠ FW_EXC_DISCONNECTED) ∨
        (pc = flowtx_pc.idle ∧ fwe1 = fwe ∧ fwe.state ≠ FW_EXC_DISCONNECTED)) := by
  have hf := flowtx_fct_keeps fwe hi
  simp only [fakewire_exc_flowtx_top] at h
  split_ifs at h with h1 h2 h3 h4 h5 h6
  · injection h with h; injection h with h h'; subst h h'
    exact ⟨hi, rfl, rfl, Iff.rfl, Or.inl ⟨rfl, h1, rfl⟩⟩
  · injection h with h; injection h with h h'; subst h h'
    obtain ⟨st, txb, det, sid, rid, isr, ss, off, buf, boff, bmax, done, hs, rs, rip⟩ := fwe
    simp only [flags_inv] at hi ⊢
    simp_all [flowtx_pc.sending]
  · injection h with h; injection h with h h'; subst h h'
    obtain ⟨st, txb, det, sid, rid, isr, ss, off, buf, boff, bmax, done, hs, rs, rip⟩ := fwe
    simp only [flags_inv] at hi ⊢
    simp only [primary_handshake_id] at *
    rcases h3 with ⟨h3 | h3, h3b⟩ <;> simp_all [flowtx_pc.sending]
  · injection h with h
    rw [h] at hf
    simp only at hf
    obtain ⟨f1, f2, f3, f4, f5⟩ := hf
    refine ⟨f1, f2, f4, by rw [f3], ?_⟩
    rcases f5 with ⟨g1, g2, g3⟩ | ⟨g1, g2⟩
    · exact Or.inr (Or.inl ⟨by rw [g1]; rfl, g2, g3, h1⟩)
    · exact Or.inr (Or.inr ⟨g1, g2, h1⟩)
  · injection h with h
    rw [h] at hf
    simp only at hf
    obtain ⟨f1, f2, f3, f4, f5⟩ := hf
    refine ⟨f1, f2, f4, by rw [f3], ?_⟩
    rcases f5 with ⟨g1, g2, g3⟩ | ⟨g1, g2⟩
    · exact Or.inr (Or.inl ⟨by rw [g1]; rfl, g2, g3, h1⟩)
    · exact Or.inr (Or.inr ⟨g1, g2, h1⟩)

/-- What flow-TX does after a send keeps the field invariant; the wire was claimed, and
afterwards it is either claimed again for a credit or free. -/
theorem flowtx_after_keeps (fwe fwe2 : fw_exchange_t) (hi : flags_inv fwe2)
    (h2 : fwe2.tx_busy = false) (hd : fwe2.detaching = fwe.detaching)
    (hr : fwe2.remote_sent_fct = fwe.remote_sent_fct)
    (hs : fwe2.state = FW_EXC_DISCONNECTED ↔ fwe.state = FW_EXC_DISCONNECTED) :
    flags_inv (fakewire_exc_flowtx_fct fwe2).1 ∧
      (fakewire_exc_flowtx_fct fwe2).1.detaching = fwe.detaching ∧
      (fakewire_exc_flowtx_fct fwe2).1.remote_sent_fct = fwe.remote_sent_fct ∧
      ((fakewire_exc_flowtx_fct fwe2).1.state = FW_EXC_DISCONNECTED ↔
        fwe.state = FW_EXC_DISCONNECTED) ∧
      (((fakewire_exc_flowtx_fct fwe2).2 = flowtx_pc.tx_fct ∧
          (fakewire_exc_flowtx_fct fwe2).1.tx_busy = true) ∨
        ((fakewire_exc_flowtx_fct fwe2).2 = flowtx_pc.idle ∧
          (fakewire_exc_flowtx_fct fwe2).1.tx_busy = false)) := by
  obtain ⟨f1, f2, f3, f4, f5⟩ := flowtx_fct_keeps fwe2 hi
  refine ⟨f1, f2.trans hd, f4.trans hr, by rw [f3]; exact hs, ?_⟩
  rcases f5 with ⟨g1, _, g3⟩ | ⟨g1, g2⟩
  · exact Or.inl ⟨g1, g3⟩
  · exact Or.inr ⟨g1, by rw [g2]; exact h2⟩

theorem flowtx_secondary_sent_keeps (fwe fwe1 : fw_exchange_t) (handshake_id : List Nat)
    (pc : flowtx_pc) (h : fakewire_exc_flowtx_secondary_sent fwe handshake_id = some (fwe1, pc))
    (hi : flags_inv fwe) :
    flags_inv fwe1 ∧ fwe1.detaching = fwe.detaching ∧
      fwe1.remote_sent_fct = fwe.remote_sent_fct ∧
      (fwe1.state = FW_EXC_DISCONNECTED ↔ fwe.state = FW_EXC_DISCONNECTED) ∧
      fwe.tx_busy = true ∧
      ((pc = flowtx_pc.tx_fct ∧ fwe1.tx_busy = true) ∨
        (pc = flowtx_pc.idle ∧ fwe1.tx_busy = false)) := by
  cases hb : fwe.tx_busy with
  | false => simp [fakewire_exc_flowtx_secondary_sent, hb] at h
  | true =>
    simp only [fakewire_exc_flowtx_secondary_sent, hb, Bool.not_true, Bool.false_eq_true,
      if_false, Option.some.injEq] at h
    have key : ∀ fwe2 : fw_exchange_t, flags_inv fwe2 → fwe2.tx_busy = false →
        fwe2.detaching = fwe.detaching → fwe2.remote_sent_fct = fwe.remote_sent_fct →
        (fwe2.state = FW_EXC_DISCONNECTED ↔ fwe.state = FW_EXC_DISCONNECTED) →
        fakewire_exc_flowtx_fct fwe2 = (fwe1, pc) →
        flags_inv fwe1 ∧ fwe1.detaching = fwe.detaching ∧
          fwe1.remote_sent_fct = fwe.remote_sent_fct ∧
          (fwe1.state = FW_EXC_DISCONNECTED ↔ fwe.state = FW_EXC_DISCONNECTED) ∧
          true = true ∧
          ((pc = flowtx_pc.tx_fct ∧ fwe1.tx_busy = true) ∨
            (pc = flowtx_pc.idle ∧ fwe1.tx_busy = false)) := by
      intro fwe2 g1 g2 g3 g4 g5 g6
      have := flowtx_after_keeps fwe fwe2 g1 g2 g3 g4 g5
      rw [g6] at this
      exact ⟨this.1, this.2.1, this.2.2.1, this.2.2.2.1, rfl, this.2.2.2.2⟩
    refine key _ ?_ ?_ ?_ ?_ ?_ h
    all_goals
      obtain ⟨st, txb, det, sid, rid, isr, ss, off, buf, boff, bmax, done, hs, rs, rip⟩ := fwe
      simp only [flags_inv] at hi ⊢
      split_ifs <;> simp_all

theorem flowtx_primary_sent_keeps (fwe fwe1 : fw_exchange_t) (pc : flowtx_pc)
    (h : fakewire_exc_flowtx_primary_sent fwe = some (fwe1, pc)) (hi : flags_inv fwe) :
    flags_inv fwe1 ∧ fwe1.detaching = fwe.detaching ∧
      fwe1.remote_sent_fct = fwe.remote_sent_fct ∧
      (fwe1.state = FW_EXC_DISCONNECTED ↔ fwe.state = FW_EXC_DISCONNECTED) ∧
      fwe.tx_busy = true ∧
      ((pc = flowtx_pc.tx_fct ∧ fwe1.tx_busy = true) ∨
        (pc = flowtx_pc.idle ∧ fwe1.tx_busy = false)) := by
  cases hb : fwe.tx_busy with
  | false => simp [fakewire_exc_flowtx_primary_sent, hb] at h
  | true =>
    simp only [fakewire_exc_flowtx_primary_sent, hb, Bool.not_true, Bool.false_eq_true,
      if_false, Option.some.injEq] at h
    have := flowtx_after_keeps fwe { fwe with tx_busy := false } hi rfl rfl rfl Iff.rfl
    rw [h] at this
    exact ⟨this.1, this.2.1, this.2.2.1, this.2.2.2.1, rfl, this.2.2.2.2⟩

theorem flowtx_fct_sent_keeps (fwe fwe1 : fw_exchange_t) (pc : flowtx_pc)
    (h : fakewire_exc_flowtx_fct_sent fwe = some (fwe1, pc)) (hi : flags_inv fwe) :
    flags_inv fwe1 ∧ fwe1.detaching = fwe.detaching ∧
      fwe1.remote_sent_fct = fwe.remote_sent_fct ∧
      (fwe1.state = FW_EXC_DISCONNECTED ↔ fwe.state = FW_EXC_DISCONNECTED) ∧
      fwe.tx_busy = true ∧
      ((pc = flowtx_pc.tx_fct ∧ fwe1.tx_busy = true) ∨
        (pc = flowtx_pc.idle ∧ fwe1.tx_busy = false)) := by
  cases hb : fwe.tx_busy with
  | false => simp [fakewire_exc_flowtx_fct_sent, hb] at h
  | true =>
    simp only [fakewire_exc_flowtx_fct_sent, hb, Bool.not_true, Bool.false_eq_true,
      if_false, Option.some.injEq, Prod.mk.injEq] at h
    obtain ⟨h1, h2⟩ := h
    subst h1 h2
    exact ⟨hi, rfl, rfl, Iff.rfl, rfl, Or.inr ⟨rfl, rfl⟩⟩

/-- The first critical section of a write keeps the field invariant; it claims the free
wire and spends the credit, in OPERATING, or changes nothing. -/
theorem write_begin_keeps (fwe fwe1 : fw_exchange_t) (pc : write_pc)
    (h : fakewire_exc_write_begin fwe = some (fwe1, pc)) (hi : flags_inv fwe) :
    flags_inv fwe1 ∧ fwe1.detaching = fwe.detaching ∧ fwe1.state = fwe.state ∧
      ((pc = write_pc.transmitting ∧ fwe.state = FW_EXC_OPERATING ∧ fwe.tx_busy = false ∧
          fwe1.tx_busy = true ∧ fwe.remote_sent_fct = true ∧ fwe1.remote_sent_fct = false) ∨
        (pc ≠ write_pc.transmitting ∧ fwe1 = fwe)) := by
  obtain ⟨st, txb, det, sid, rid, isr, ss, off, buf, boff, bmax, done, hs, rs, rip⟩ := fwe
  simp only [flags_inv] at hi ⊢
  simp only [fakewire_exc_write_begin] at h
  split_ifs at h <;> injection h with h <;> injection h with h h' <;> subst h h' <;> simp_all

theorem write_end_keeps (fwe fwe1 : fw_exchange_t)
    (h : fakewire_exc_write_end fwe = some fwe1) (hi : flags_inv fwe) :
    flags_inv fwe1 ∧ fwe1.detaching = fwe.detaching ∧ fwe1.state = fwe.state ∧
      fwe1.remote_sent_fct = fwe.remote_sent_fct ∧ fwe.tx_busy = true ∧
      fwe1.tx_busy = false := by
  cases hb : fwe.tx_busy with
  | false => simp [fakewire_exc_write_end, hb] at h
  | true =>
    simp only [fakewire_exc_write_end, hb, Bool.not_true, Bool.false_eq_true, if_false,
      Option.some.injEq] at h
    subst h
    exact ⟨hi, rfl, rfl, rfl, rfl, rfl⟩

/-- A reset keeps the field invariant when no detach is under way. -/
theorem reset_keeps (fwe : fw_exchange_t) (hd : fwe.detaching = false) :
    flags_inv (fakewire_exc_reset fwe) := by
  simp [flags_inv, fakewire_exc_reset, hd]

theorem attach_keeps (fwe fwe1 : fw_exchange_t) (link_ok : Bool) (r : Int)
    (h : fakewire_exc_attach fwe link_ok = some (fwe1, r)) (hi : flags_inv fwe) :
    flags_inv fwe1 ∧ fwe1.detaching = false ∧ fwe.detaching = false ∧
      fwe.state = FW_EXC_DISCONNECTED ∧ fwe1.tx_busy = fwe.tx_busy ∧
      ((link_ok = false ∧ fwe1 = fwe) ∨
        (link_ok = true ∧ fwe1.state = FW_EXC_CONNECTING ∧ fwe1.remote_sent_fct = false)) := by
  simp only [fakewire_exc_attach] at h
  split_ifs at h with h1 h2 h3
  · injection h with h; injection h with h h'; subst h
    have hd : fwe.detaching = false := by simpa using h2
    exact ⟨hi, hd, hd, by simpa using h1, rfl, Or.inl ⟨by simpa using h3, rfl⟩⟩
  · injection h with h; injection h with h h'; subst h
    have hd : fwe.detaching = false := by simpa using h2
    exact ⟨reset_keeps fwe hd, hd, hd, by simpa using h1, rfl,
      Or.inr ⟨by simpa using h3, rfl, rfl⟩⟩

theorem detach_begin_keeps (fwe fwe1 : fw_exchange_t)
    (h : fakewire_exc_detach_begin fwe = some fwe1) (hi : flags_inv fwe) :
    flags_inv fwe1 ∧ fwe1.detaching = true ∧ fwe1.state = FW_EXC_DISCONNECTED ∧
      fwe1.tx_busy = fwe.tx_busy ∧ fwe1.remote_sent_fct = fwe.remote_sent_fct := by
  obtain ⟨st, txb, det, sid, rid, isr, ss, off, buf, boff, bmax, done, hs, rs, rip⟩ := fwe
  simp only [flags_inv] at hi ⊢
  simp only [fakewire_exc_detach_begin] at h
  split_ifs at h
  injection h with h
  subst h
  simp_all

theorem detach_end_keeps (fwe fwe1 : fw_exchange_t)
    (h : fakewire_exc_detach_end fwe = some fwe1) (hi : flags_inv fwe) :
    flags_inv fwe1 ∧ fwe1.detaching = false ∧ fwe1.state = FW_EXC_DISCONNECTED ∧
      fwe.state = FW_EXC_DISCONNECTED ∧
      fwe1.tx_busy = fwe.tx_busy ∧ fwe1.remote_sent_fct = fwe.remote_sent_fct := by
  obtain ⟨st, txb, det, sid, rid, isr, ss, off, buf, boff, bmax, done, hs, rs, rip⟩ := fwe
  simp only [flags_inv] at hi ⊢
  simp only [fakewire_exc_detach_end] at h
  split_ifs at h
  injection h with h
  subst h
  simp_all

/-- A step that leaves `tx_busy`, `detaching`, and whether the state is DISCONNECTED as they
were, and the threads where they stand, keeps the thread invariant. -/
theorem thread_inv_frame (fwe fwe1 : fw_exchange_t) (pc : flowtx_pc) (w pk fc pk1 fc1 : Nat)
    (hi : thread_inv ⟨fwe, pc, w, pk, fc⟩) (htx : fwe1.tx_busy = fwe.tx_busy)
    (hd : fwe1.detaching = fwe.detaching)
    (hs : fwe1.state = FW_EXC_DISCONNECTED ↔ fwe.state = FW_EXC_DISCONNECTED) :
    thread_inv ⟨fwe1, pc, w, pk1, fc1⟩ := by
  simp only [thread_inv, tx_holders] at hi ⊢
  rw [htx, hd, hs]
  exact hi

/-- The flow-TX thread releasing the wire, or claiming it again at once for a credit. -/
theorem thread_inv_flowtx_sent (fwe fwe1 : fw_exchange_t) (pc pc1 : flowtx_pc)
    (w pk fc pk1 fc1 : Nat) (hi : thread_inv ⟨fwe, pc, w, pk, fc⟩) (hpc : pc.sending = true)
    (hd : fwe1.detaching = fwe.detaching)
    (hs : fwe1.state = FW_EXC_DISCONNECTED ↔ fwe.state = FW_EXC_DISCONNECTED)
    (h : (pc1 = flowtx_pc.tx_fct ∧ fwe1.tx_busy = true) ∨
      (pc1 = flowtx_pc.idle ∧ fwe1.tx_busy = false)) :
    thread_inv ⟨fwe1, pc1, w, pk1, fc1⟩ := by
  simp only [thread_inv, tx_holders, hpc, if_true] at hi ⊢
  obtain ⟨i1, i2, i3⟩ := hi
  have hw : w = 0 := by omega
  subst hw
  have hnd : ¬ (fwe.state = FW_EXC_DISCONNECTED ∧ fwe.detaching = false) := by
    intro hc
    rcases i1 hc with h1 | h1 <;> rw [h1] at hpc <;> simp [flowtx_pc.sending] at hpc
  rw [hd, hs]
  rcases h with ⟨h1, h2⟩ | ⟨h1, h2⟩
  · subst h1
    exact ⟨fun hc => absurd hc hnd, by simp [flowtx_pc.sending], by simp [flowtx_pc.sending, h2]⟩
  · subst h1
    exact ⟨fun hc => absurd hc hnd, by simp [flowtx_pc.sending], by simp [flowtx_pc.sending, h2]⟩

/-- Every step keeps the field invariant, the thread invariant and the credit invariant. -/
theorem step_inv (s s1 : exc_sys) (a : exc_action) (hi : sys_inv s)
    (h : exc_step s a = some s1) : sys_inv s1 := by
  obtain ⟨fwe, pc, w, pk, fc⟩ := s
  obtain ⟨hf, ht, hc⟩ := hi
  simp only at hf
  cases a with
  | attach link_ok =>
    simp only [exc_step] at h
    cases ha : fakewire_exc_attach fwe link_ok with
    | none => simp [ha] at h
    | some r =>
      obtain ⟨fwe1, rv⟩ := r
      obtain ⟨k1, k2, k3, k4, k5, k6⟩ := attach_keeps fwe fwe1 link_ok rv ha hf
      simp only [ha] at h
      rcases k6 with ⟨l1, l2⟩ | ⟨l1, l2, l3⟩
      · subst l1 l2
        simp only [Bool.false_eq_true, if_false, Option.some.injEq] at h
        subst h
        exact ⟨hf, ht, hc⟩
      · subst l1
        simp only [if_true, Option.some.injEq] at h
        subst h
        refine ⟨k1, ?_, ?_⟩
        · simp only [thread_inv, tx_holders] at ht ⊢
          obtain ⟨i1, i2, i3⟩ := ht
          have hns : pc.sending = false := by
            rcases i1 ⟨k4, k3⟩ with h1 | h1 <;> rw [h1] <;> rfl
          simp only [hns, Bool.false_eq_true, if_false] at i2 i3
          simp only [l2, k5, flowtx_pc.sending, Bool.false_eq_true, if_false]
          exact ⟨fun hc => by simp at hc, i2, i3⟩
        · simp only [credit_inv, l3, Bool.false_eq_true, if_false] at hc ⊢
          omega
  | detach_begin =>
    simp only [exc_step] at h
    cases ha : fakewire_exc_detach_begin fwe with
    | none => simp [ha] at h
    | some fwe1 =>
      obtain ⟨k1, k2, k3, k4, k5⟩ := detach_begin_keeps fwe fwe1 ha hf
      simp only [ha, Option.some.injEq] at h
      subst h
      refine ⟨k1, ?_, ?_⟩
      · simp only [thread_inv, tx_holders] at ht ⊢
        simp only [k2, k3, k4]
        exact ⟨fun hc => by simp at hc, ht.2.1, ht.2.2⟩
      · simp only [credit_inv, k5] at hc ⊢
        exact hc
  | detach_end =>
    simp only [exc_step] at h
    split_ifs at h with hg
    cases ha : fakewire_exc_detach_end fwe with
    | none => simp [ha] at h
    | some fwe1 =>
      obtain ⟨k1, k2, k3, k4, k5, k6⟩ := detach_end_keeps fwe fwe1 ha hf
      simp only [ha, Option.some.injEq] at h
      subst h
      have hpc : pc = flowtx_pc.exited := by
        by_contra hne
        exact hg (Or.inl hne)
      refine ⟨k1, ?_, ?_⟩
      · simp only [thread_inv, tx_holders] at ht ⊢
        simp only [k2, k3, k5]
        exact ⟨fun _ => Or.inr hpc, ht.2.1, ht.2.2⟩
      · simp only [credit_inv, k6] at hc ⊢
        exact hc
  | recv_ctrl symbol =>
    simp only [exc_step] at h
    cases ha : fakewire_exc_on_recv_ctrl fwe symbol with
    | none => simp [ha] at h
    | some fwe1 =>
      obtain ⟨k1, k2, k3, k4, k5⟩ := on_recv_ctrl_keeps fwe fwe1 symbol ha hf
      simp only [ha, Option.some.injEq] at h
      subst h
      refine ⟨k1, thread_inv_frame fwe fwe1 pc w pk fc _ _ ht k2 k3 k4, ?_⟩
      simp only [credit_inv] at hc ⊢
      cases hr : fwe.remote_sent_fct <;> cases hr1 : fwe1.remote_sent_fct <;>
        simp only [hr, hr1, if_true, Bool.false_eq_true, if_false] at hc k5 ⊢ <;>
        split_ifs with hs <;> first
          | omega
          | (exfalso; simp [hs] at k5)
  | recv_data bytes_in =>
    simp only [exc_step] at h
    cases ha : fakewire_exc_on_recv_data fwe bytes_in with
    | none => simp [ha] at h
    | some fwe1 =>
      obtain ⟨k1, k2, k3, k4, k5⟩ := on_recv_data_keeps fwe fwe1 bytes_in ha hf
      simp only [ha, Option.some.injEq] at h
      subst h
      refine ⟨k1, thread_inv_frame fwe fwe1 pc w pk fc _ _ ht k2 k3 k4, ?_⟩
      simp only [credit_inv] at hc ⊢
      cases hr : fwe.remote_sent_fct <;> cases hr1 : fwe1.remote_sent_fct <;>
        simp only [hr, hr1, if_true, Bool.false_eq_true, if_false] at hc k5 ⊢ <;>
        first
          | omega
          | (exfalso; simp at k5)
  | flowtx_top expired clock =>
    simp only [exc_step] at h
    split_ifs at h with hg
    cases ha : fakewire_exc_flowtx_top fwe expired clock with
    | none => simp [ha] at h
    | some r =>
      obtain ⟨fwe1, pc1⟩ := r
      obtain ⟨k1, k2, k3, k4, k5⟩ := flowtx_top_keeps fwe fwe1 expired clock pc1 ha hf
      simp only [ha, Option.some.injEq] at h
      subst h
      have hpc : pc = flowtx_pc.idle := by
        by_contra hne
        exact hg hne
      subst hpc
      refine ⟨k1, ?_, ?_⟩
      · simp only [thread_inv, tx_holders] at ht ⊢
        obtain ⟨i1, i2, i3⟩ := ht
        simp only [flowtx_pc.sending, Bool.false_eq_true, if_false] at i2 i3
        rcases k5 with ⟨l1, l2, l3⟩ | ⟨l1, l2, l3, l4⟩ | ⟨l1, l2, l3⟩
        · subst l1 l3
          exact ⟨fun _ => Or.inr rfl, by simpa [flowtx_pc.sending] using i2,
            by simpa [flowtx_pc.sending] using i3⟩
        · have hw : w = 0 := by
            by_contra hne
            have : w = 1 := by omega
            have := i3.2 (by omega)
            rw [l2] at this
            simp at this
          subst hw
          simp only [l1, if_true, l3, k4]
          exact ⟨fun hc => absurd hc.1 l4, by omega, by simp⟩
        · subst l1 l2
          simp only [flowtx_pc.sending, Bool.false_eq_true, if_false]
          exact ⟨fun hc => absurd hc.1 l3, i2, i3⟩
      · simp only [credit_inv, k3] at hc ⊢
        exact hc
  | flowtx_sent =>
    simp only [exc_step] at h
    cases hpc : pc with
    | tx_secondary handshake_id =>
      simp only [hpc] at h
      cases ha : fakewire_exc_flowtx_secondary_sent fwe handshake_id with
      | none => simp [ha] at h
      | some r =>
        obtain ⟨fwe1, pc1⟩ := r
        obtain ⟨k1, k2, k3, k4, k5, k6⟩ :=
          flowtx_secondary_sent_keeps fwe fwe1 handshake_id pc1 ha hf
        simp only [ha, Option.some.injEq] at h
        subst h
        refine ⟨k1, thread_inv_flowtx_sent fwe fwe1 pc pc1 w pk fc _ _ ht
          (by rw [hpc]; rfl) k2 k4 k6, ?_⟩
        simp only [credit_inv, k3] at hc ⊢
        exact hc
    | tx_primary =>
      simp only [hpc] at h
      cases ha : fakewire_exc_flowtx_primary_sent fwe with
      | none => simp [ha] at h
      | some r =>
        obtain ⟨fwe1, pc1⟩ := r
        obtain ⟨k1, k2, k3, k4, k5, k6⟩ := flowtx_primary_sent_keeps fwe fwe1 pc1 ha hf
        simp only [ha, Option.some.injEq] at h
        subst h
        refine ⟨k1, thread_inv_flowtx_sent fwe fwe1 pc pc1 w pk fc _ _ ht
          (by rw [hpc]; rfl) k2 k4 k6, ?_⟩
        simp only [credit_inv, k3] at hc ⊢
        exact hc
    | tx_fct =>
      simp only [hpc] at h
      cases ha : fakewire_exc_flowtx_fct_sent fwe with
      | none => simp [ha] at h
      | some r =>
        obtain ⟨fwe1, pc1⟩ := r
        obtain ⟨k1, k2, k3, k4, k5, k6⟩ := flowtx_fct_sent_keeps fwe fwe1 pc1 ha hf
        simp only [ha, Option.some.injEq] at h
        subst h
        refine ⟨k1, thread_inv_flowtx_sent fwe fwe1 pc pc1 w pk fc _ _ ht
          (by rw [hpc]; rfl) k2 k4 k6, ?_⟩
        simp only [credit_inv, k3] at hc ⊢
        exact hc
    | not_started => simp [hpc] at h
    | idle => simp [hpc] at h
    | exited => simp [hpc] at h
  | read_outer packet_out packet_max =>
    simp only [exc_step] at h
    cases ha : fakewire_exc_read_outer fwe packet_out packet_max with
    | none => simp [ha] at h
    | some r =>
      obtain ⟨fwe1, rpc⟩ := r
      obtain ⟨k1, k2, k3, k4, k5⟩ := read_outer_keeps fwe fwe1 packet_out packet_max rpc ha hf
      simp only [ha, Option.some.injEq] at h
      subst h
      refine ⟨k1, thread_inv_frame fwe fwe1 pc w pk fc _ _ ht k2 k3 (by rw [k4]), ?_⟩
      simp only [credit_inv, k5] at hc ⊢
      exact hc
  | read_inner packet_out packet_max =>
    simp only [exc_step] at h
    cases ha : fakewire_exc_read_inner fwe packet_out packet_max with
    | none => simp [ha] at h
    | some r =>
      obtain ⟨fwe1, rpc⟩ := r
      obtain ⟨k1, k2, k3, k4, k5⟩ := read_inner_keeps fwe fwe1 packet_out packet_max rpc ha hf
      simp only [ha, Option.some.injEq] at h
      subst h
      refine ⟨k1, thread_inv_frame fwe fwe1 pc w pk fc _ _ ht k2 k3 (by rw [k4]), ?_⟩
      simp only [credit_inv, k5] at hc ⊢
      exact hc
  | write_begin =>
    simp only [exc_step] at h
    cases ha : fakewire_exc_write_begin fwe with
    | none => simp [ha] at h
    | some r =>
      obtain ⟨fwe1, wpc⟩ := r
      obtain ⟨k1, k2, k3, k4⟩ := write_begin_keeps fwe fwe1 wpc ha hf
      simp only [ha] at h
      rcases k4 with ⟨l1, l2, l3, l4, l5, l6⟩ | ⟨l1, l2⟩
      · subst l1
        simp only [Option.some.injEq] at h
        subst h
        refine ⟨k1, ?_, ?_⟩
        · simp only [thread_inv, tx_holders] at ht ⊢
          obtain ⟨i1, i2, i3⟩ := ht
          have h0 : w + (if pc.sending = true then 1 else 0) = 0 := by
            by_contra hne
            have := i3.2 (by omega)
            rw [l3] at this
            simp at this
          simp only [k2, k3, l4]
          refine ⟨fun hc => ?_, by omega, by simp; omega⟩
          rw [l2] at hc
          simp at hc
        · simp only [credit_inv, l5, l6, if_true, Bool.false_eq_true, if_false] at hc ⊢
          omega
      · subst l2
        cases wpc with
        | transmitting => exact absurd rfl l1
        | waiting =>
          simp only [Option.some.injEq] at h
          subst h
          exact ⟨hf, ht, hc⟩
        | returned_disconnected =>
          simp only [Option.some.injEq] at h
          subst h
          exact ⟨hf, ht, hc⟩
  | write_end =>
    simp only [exc_step] at h
    split_ifs at h with hg
    cases ha : fakewire_exc_write_end fwe with
    | none => simp [ha] at h
    | some fwe1 =>
      obtain ⟨k1, k2, k3, k4, k5, k6⟩ := write_end_keeps fwe fwe1 ha hf
      simp only [ha, Option.some.injEq] at h
      subst h
      refine ⟨k1, ?_, ?_⟩
      · simp only [thread_inv, tx_holders] at ht ⊢
        obtain ⟨i1, i2, i3⟩ := ht
        simp only at hg
        have hs : pc.sending = false := by
          cases hps : pc.sending with
          | false => rfl
          | true => simp only [hps, if_true] at i2; omega
        simp only [hs, Bool.false_eq_true, if_false] at i1 i2 i3 ⊢
        have hw : w = 1 := by omega
        subst hw
        simp only [k2, k3, k6]
        exact ⟨fun hc => i1 hc, by omega, by simp⟩
      · simp only [credit_inv, k4] at hc ⊢
        exact hc

theorem init_inv : sys_inv exc_sys_init := by
  simp [sys_inv, flags_inv, thread_inv, credit_inv, tx_holders, exc_sys_init, fakewire_exc_init,
    flowtx_pc.sending]

/-- The invariants hold after every schedule that starts from a state where they hold. -/
theorem run_inv (acts : List exc_action) (s s1 : exc_sys) (hi : sys_inv s)
    (h : exc_run s acts = some s1) : sys_inv s1 := by
  induction acts generalizing s with
  | nil =>
    simp only [exc_run, Option.some.injEq] at h
    subst h
    exact hi
  | cons a rest ih =>
    simp only [exc_run] at h
    cases hs : exc_step s a with
    | none => simp [hs] at h
    | some s2 =>
      simp only [hs] at h
      exact ih s2 (step_inv s s2 a hi hs) h

/-- The invariants hold in every state reachable from `fakewire_exc_init`. -/
theorem reachable_inv (acts : List exc_action) (s : exc_sys)
    (h : exc_run exc_sys_init acts = some s) : sys_inv s :=
  run_inv acts exc_sys_init s init_inv h

/-! ## Handshake ID bytes -/

theorem memcpy_take (dst src : List Nat) (off : Nat) (h : off ≤ dst.length) :
    (memcpy dst off src src.length).take (off + src.length) = dst.take off ++ src := by
  have hk : (dst.take off ++ src.take src.length).length = off + src.length := by
    simp only [List.length_append, List.length_take]; omega
  simp only [memcpy]
  rw [← hk, List.take_left]
  simp

theorem memcpy_full (dst src : List Nat) (off : Nat) (hd : dst.length = 4)
    (h : off + src.length = 4) : memcpy dst off src src.length = dst.take off ++ src := by
  have h1 := memcpy_take dst src off (by omega)
  have h2 := memcpy_length dst src off src.length hd (by omega) (Nat.le_refl _)
  rw [h, ← h2, List.take_length] at h1
  exact h1

/-- The exchange once a handshake ID awaited in CONNECTING or HANDSHAKING is complete. -/
theorem on_recv_data_id_last (fwe : fw_exchange_t) (r : List Nat)
    (hr : fwe.is_recv_handshake_id = true)
    (hst : fwe.state = FW_EXC_CONNECTING ∨ fwe.state = FW_EXC_HANDSHAKING)
    (hl : fwe.recv_handshake_id.length = 4) (hne : r ≠ [])
    (hoff : fwe.recv_handshake_offset + r.length = 4) :
    fakewire_exc_on_recv_data fwe r =
      some (if fwe.state = FW_EXC_CONNECTING then
          { latch_id fwe (fwe.recv_handshake_id.take fwe.recv_handshake_offset ++ r) with
            send_secondary_handshake := true }
        else if fwe.recv_handshake_id.take fwe.recv_handshake_offset ++ r =
            fwe.send_handshake_id then
          { latch_id fwe (fwe.recv_handshake_id.take fwe.recv_handshake_offset ++ r) with
            state := FW_EXC_OPERATING }
        else fakewire_exc_reset fwe) := by
  have hlen : r.length ≠ 0 := by simpa using hne
  have hm := memcpy_full fwe.recv_handshake_id r fwe.recv_handshake_offset hl hoff
  obtain ⟨st, txb, det, sid, rid, isr, ss, off, buf, boff, bmax, done, hs, rs, rip⟩ := fwe
  simp only at hr hst hl hoff hm
  subst hr
  have h1 : off < 4 := by omega
  have h2 : ¬ (r.length > 4 - off) := by omega
  rcases hst with h | h <;> subst h
  · simp [fakewire_exc_on_recv_data, fakewire_exc_check_invariants, hlen, h1, h2, hoff, hm,
      latch_id, fakewire_exc_reset]
  · simp [fakewire_exc_on_recv_data, fakewire_exc_check_invariants, hlen, h1, h2, hoff, hm,
      latch_id, fakewire_exc_reset]
    split_ifs <;> rfl

theorem on_recv_data_id_part (fwe : fw_exchange_t) (r : List Nat)
    (hr : fwe.is_recv_handshake_id = true)
    (hst : fwe.state = FW_EXC_CONNECTING ∨ fwe.state = FW_EXC_HANDSHAKING)
    (hne : r ≠ []) (hoff : fwe.recv_handshake_offset + r.length < 4) :
    fakewire_exc_on_recv_data fwe r =
      some { fwe with
        recv_handshake_id :=
          memcpy fwe.recv_handshake_id fwe.recv_handshake_offset r r.length
        recv_handshake_offset := fwe.recv_handshake_offset + r.length } := by
  have hlen : r.length ≠ 0 := by simpa using hne
  obtain ⟨st, txb, det, sid, rid, isr, ss, off, buf, boff, bmax, done, hs, rs, rip⟩ := fwe
  simp only at hr hst hoff
  subst hr
  have h1 : off < 4 := by omega
  have h2 : ¬ (r.length > 4 - off) := by omega
  have h3 : ¬ (off + r.length = 4) := by omega
  have h4 : off + r.length ≤ 4 := by omega
  rcases hst with h | h <;> subst h <;>
    simp [fakewire_exc_on_recv_data, fakewire_exc_check_invariants, hlen, h1, h2, h3, h4]

/-- The four bytes of a handshake ID, delivered in any split into non-empty runs, are
collected and then acted upon: a secondary is owed (CONNECTING), or the ID is compared with
`send_handshake_id` (HANDSHAKING). -/
theorem deliver_id_runs (runs : List (List Nat)) (fwe : fw_exchange_t)
    (hr : fwe.is_recv_handshake_id = true)
    (hst : fwe.state = FW_EXC_CONNECTING ∨ fwe.state = FW_EXC_HANDSHAKING)
    (hl : fwe.recv_handshake_id.length = 4) (hne : ∀ r ∈ runs, r ≠ [])
    (hoff : fwe.recv_handshake_offset + runs.flatten.length = 4)
    (hpos : fwe.recv_handshake_offset < 4) :
    link_interface_deliver fwe (runs.map fw_event.recv_data) =
      some (if fwe.state = FW_EXC_CONNECTING then
          { latch_id fwe (fwe.recv_handshake_id.take fwe.recv_handshake_offset ++ runs.flatten)
            with send_secondary_handshake := true }
        else if fwe.recv_handshake_id.take fwe.recv_handshake_offset ++ runs.flatten =
            fwe.send_handshake_id then
          { latch_id fwe (fwe.recv_handshake_id.take fwe.recv_handshake_offset ++ runs.flatten)
            with state := FW_EXC_OPERATING }
        else fakewire_exc_reset fwe) := by
  induction runs generalizing fwe with
  | nil => simp at hoff; omega
  | cons r rest ih =>
    have hrne : r ≠ [] := hne r (List.mem_cons_self _ _)
    have hrl : 0 < r.length := List.length_pos.2 hrne
    simp only [List.flatten_cons, List.length_append] at hoff
    cases rest with
    | nil =>
      simp only [List.flatten_nil, List.length_nil, Nat.add_zero] at hoff
      simp only [List.map_cons, List.map_nil, link_interface_deliver,
        on_recv_data_id_last fwe r hr hst hl hrne hoff, List.flatten_cons, List.flatten_nil,
        List.append_nil]
    | cons r2 rest2 =>
      have hr2 : 0 < r2.length :=
        List.length_pos.2 (hne r2 (List.mem_cons_of_mem _ (List.mem_cons_self _ _)))
      simp only [List.flatten_cons, List.length_append] at hoff
      have hpart := on_recv_data_id_part fwe r hr hst hrne (by omega)
      have hl1 := memcpy_length fwe.recv_handshake_id r fwe.recv_handshake_offset r.length hl
        (by omega) (Nat.le_refl _)
      have ht1 := memcpy_take fwe.recv_handshake_id r fwe.recv_handshake_offset (by omega)
      have := ih { fwe with
          recv_handshake_id :=
            memcpy fwe.recv_handshake_id fwe.recv_handshake_offset r r.length
          recv_handshake_offset := fwe.recv_handshake_offset + r.length } hr hst hl1
        (fun x hx => hne x (List.mem_cons_of_mem _ hx))
        (by simp only [List.flatten_cons, List.length_append]; omega) (by simp only; omega)
      simp only [ht1] at this
      simp only [List.map_cons, link_interface_deliver, hpart]
      simp only [List.map_cons, link_interface_deliver] at this
      rw [this]
      simp only [List.flatten_cons, List.append_assoc, latch_id, fakewire_exc_reset]

theorem reset_is_cleared (fwe : fw_exchange_t) : reset_cleared (fakewire_exc_reset fwe) := by
  simp [reset_cleared, fakewire_exc_reset]

/-! ## Claims on the exchange and its threads -/

/-- C11 (credit safety): in every state reachable from init through any interleaving of
attach, detach, received events, flow-TX steps and client calls, the number of client
packets whose transmission has been started does not exceed the number of `FLOW_CONTROL`
symbols received, and at most one client write stands between claiming the wire and
releasing it after `END_PACKET`. A write starts a packet only when state = OPERATING,
`remote_sent_fct` is set and `tx_busy` is clear; starting it clears `remote_sent_fct` and
sets `tx_busy`; while a write holds the wire no other write starts a packet; and no other
step starts one. -/
theorem C11_credit_safety (acts : List exc_action) (s : exc_sys)
    (h : exc_run exc_sys_init acts = some s) :
    s.pkts_started ≤ s.fcts_rcvd ∧ s.writers_tx ≤ 1 ∧
      (∀ s1, exc_step s exc_action.write_begin = some s1 →
        s1.pkts_started ≠ s.pkts_started →
        s.fwe.state = FW_EXC_OPERATING ∧ s.fwe.remote_sent_fct = true ∧
          s.fwe.tx_busy = false ∧ s.writers_tx = 0 ∧ s1.pkts_started = s.pkts_started + 1 ∧
          s1.fwe.remote_sent_fct = false ∧ s1.fwe.tx_busy = true ∧ s1.writers_tx = 1) ∧
      (∀ a s1, exc_step s a = some s1 → s1.pkts_started ≠ s.pkts_started →
        a = exc_action.write_begin) := by
  obtain ⟨hf, ht, hc⟩ := reachable_inv acts s h
  obtain ⟨fwe, pc, w, pk, fc⟩ := s
  simp only [thread_inv, tx_holders, credit_inv] at ht hc
  simp only
  refine ⟨?_, by omega, ?_, ?_⟩
  · split_ifs at hc <;> omega
  · intro s1 hs hne
    simp only [exc_step] at hs
    cases ha : fakewire_exc_write_begin fwe with
    | none => simp [ha] at hs
    | some r =>
      obtain ⟨fwe1, wpc⟩ := r
      obtain ⟨k1, k2, k3, k4⟩ := write_begin_keeps fwe fwe1 wpc ha hf
      simp only [ha] at hs
      rcases k4 with ⟨l1, l2, l3, l4, l5, l6⟩ | ⟨l1, l2⟩
      · subst l1
        simp only [Option.some.injEq] at hs
        subst hs
        have h0 : w + (if pc.sending = true then 1 else 0) = 0 := by
          by_contra hn
          have := ht.2.2.2 (by omega)
          rw [l3] at this
          simp at this
        exact ⟨l2, l5, l3, by omega, rfl, l6, l4, by simp only; omega⟩
      · cases wpc with
        | transmitting => exact absurd rfl l1
        | waiting =>
          simp only [Option.some.injEq] at hs
          subst hs
          exact absurd rfl hne
        | returned_disconnected =>
          simp only [Option.some.injEq] at hs
          subst hs
          exact absurd rfl hne
  · intro a s1 hs hne
    cases a with
    | write_begin => rfl
    | attach link_ok =>
      exfalso
      simp only [exc_step] at hs
      cases ha : fakewire_exc_attach fwe link_ok with
      | none => simp [ha] at hs
      | some r =>
        obtain ⟨fwe1, rv⟩ := r
        simp only [ha] at hs
        split_ifs at hs <;> (simp only [Option.some.injEq] at hs; subst hs; exact hne rfl)
    | detach_begin =>
      exfalso
      simp only [exc_step] at hs
      cases ha : fakewire_exc_detach_begin fwe with
      | none => simp [ha] at hs
      | some fwe1 =>
        simp only [ha, Option.some.injEq] at hs; subst hs; exact hne rfl
    | detach_end =>
      exfalso
      simp only [exc_step] at hs
      split_ifs at hs
      cases ha : fakewire_exc_detach_end fwe with
      | none => simp [ha] at hs
      | some fwe1 =>
        simp only [ha, Option.some.injEq] at hs; subst hs; exact hne rfl
    | recv_ctrl symbol =>
      exfalso
      simp only [exc_step] at hs
      cases ha : fakewire_exc_on_recv_ctrl fwe symbol with
      | none => simp [ha] at hs
      | some fwe1 =>
        simp only [ha, Option.some.injEq] at hs; subst hs; exact hne rfl
    | recv_data bytes_in =>
      exfalso
      simp only [exc_step] at hs
      cases ha : fakewire_exc_on_recv_data fwe bytes_in with
      | none => simp [ha] at hs
      | some fwe1 =>
        simp only [ha, Option.some.injEq] at hs; subst hs; exact hne rfl
    | flowtx_top expired clock =>
      exfalso
      simp only [exc_step] at hs
      split_ifs at hs
      cases ha : fakewire_exc_flowtx_top fwe expired clock with
      | none => simp [ha] at hs
      | some r =>
        simp only [ha, Option.some.injEq] at hs; subst hs; exact hne rfl
    | flowtx_sent =>
      exfalso
      simp only [exc_step] at hs
      cases pc with
      | tx_secondary handshake_id =>
        simp only at hs
        cases ha : fakewire_exc_flowtx_secondary_sent fwe handshake_id with
        | none => simp [ha] at hs
        | some r => simp only [ha, Option.some.injEq] at hs; subst hs; exact hne rfl
      | tx_primary =>
        simp only at hs
        cases ha : fakewire_exc_flowtx_primary_sent fwe with
        | none => simp [ha] at hs
        | some r => simp only [ha, Option.some.injEq] at hs; subst hs; exact hne rfl
      | tx_fct =>
        simp only at hs
        cases ha : fakewire_exc_flowtx_fct_sent fwe with
        | none => simp [ha] at hs
        | some r => simp only [ha, Option.some.injEq] at hs; subst hs; exact hne rfl
      | not_started => simp at hs
      | idle => simp at hs
      | exited => simp at hs
    | read_outer packet_out packet_max =>
      exfalso
      simp only [exc_step] at hs
      cases ha : fakewire_exc_read_outer fwe packet_out packet_max with
      | none => simp [ha] at hs
      | some r => simp only [ha, Option.some.injEq] at hs; subst hs; exact hne rfl
    | read_inner packet_out packet_max =>
      exfalso
      simp only [exc_step] at hs
      cases ha : fakewire_exc_read_inner fwe packet_out packet_max with
      | none => simp [ha] at hs
      | some r => simp only [ha, Option.some.injEq] at hs; subst hs; exact hne rfl
    | write_end =>
      exfalso
      simp only [exc_step] at hs
      split_ifs at hs
      cases ha : fakewire_exc_write_end fwe with
      | none => simp [ha] at hs
      | some fwe1 => simp only [ha, Option.some.injEq] at hs; subst hs; exact hne rfl

/-- C11 on a concrete schedule: attach, primary handshake answered, one credit received, one
write started. -/
theorem C11_credit_safety_witness :
    ∃ s, exc_run exc_sys_init sched_one_write = some s ∧
      s.pkts_started ≤ s.fcts_rcvd ∧ s.writers_tx ≤ 1 ∧
      (∀ s1, exc_step s exc_action.write_begin = some s1 →
        s1.pkts_started ≠ s.pkts_started →
        s.fwe.state = FW_EXC_OPERATING ∧ s.fwe.remote_sent_fct = true ∧
          s.fwe.tx_busy = false ∧ s.writers_tx = 0 ∧ s1.pkts_started = s.pkts_started + 1 ∧
          s1.fwe.remote_sent_fct = false ∧ s1.fwe.tx_busy = true ∧ s1.writers_tx = 1) ∧
      (∀ a s1, exc_step s a = some s1 → s1.pkts_started ≠ s.pkts_started →
        a = exc_action.write_begin) := by
  obtain ⟨s, hs⟩ : ∃ s, exc_run exc_sys_init sched_one_write = some s := ⟨_, rfl⟩
  exact ⟨s, hs, C11_credit_safety sched_one_write s hs⟩

/-- C12 (single-owner TX): in every reachable state at most one transmitter (a client write,
a handshake send or an FCT send) stands between claiming and releasing the wire, and
`tx_busy` is set exactly when one does. A step that adds a holder finds `tx_busy` clear and
sets it; a step that clears `tx_busy` is a holder releasing the wire; and a reset, like every
received event, leaves `tx_busy` and the holders as they are. -/
theorem C12_single_owner_tx (acts : List exc_action) (s : exc_sys)
    (h : exc_run exc_sys_init acts = some s) :
    tx_holders s ≤ 1 ∧ (s.fwe.tx_busy = true ↔ tx_holders s = 1) ∧
      (∀ a s1, exc_step s a = some s1 → tx_holders s < tx_holders s1 →
        s.fwe.tx_busy = false ∧ s1.fwe.tx_busy = true) ∧
      (∀ a s1, exc_step s a = some s1 → s.fwe.tx_busy = true → s1.fwe.tx_busy = false →
        tx_holders s1 + 1 = tx_holders s) ∧
      (fakewire_exc_reset s.fwe).tx_busy = s.fwe.tx_busy ∧
      (∀ symbol s1, exc_step s (exc_action.recv_ctrl symbol) = some s1 →
        s1.fwe.tx_busy = s.fwe.tx_busy ∧ tx_holders s1 = tx_holders s) ∧
      (∀ bytes_in s1, exc_step s (exc_action.recv_data bytes_in) = some s1 →
        s1.fwe.tx_busy = s.fwe.tx_busy ∧ tx_holders s1 = tx_holders s) := by
  have hi := reachable_inv acts s h
  obtain ⟨hf, ht, hc⟩ := hi
  refine ⟨ht.2.1, ht.2.2, ?_, ?_, rfl, ?_, ?_⟩
  · intro a s1 hs hlt
    obtain ⟨_, ht1, _⟩ := step_inv s s1 a ⟨hf, ht, hc⟩ hs
    have h0 : tx_holders s = 0 := by have := ht1.2.1; omega
    have h1 : tx_holders s1 = 1 := by have := ht1.2.1; omega
    refine ⟨?_, ht1.2.2.2 h1⟩
    cases hb : s.fwe.tx_busy with
    | false => rfl
    | true => have := ht.2.2.1 hb; omega
  · intro a s1 hs hb hb1
    obtain ⟨_, ht1, _⟩ := step_inv s s1 a ⟨hf, ht, hc⟩ hs
    have h1 := ht.2.2.1 hb
    have h2 : tx_holders s1 ≠ 1 := by
      intro hc1
      have := ht1.2.2.2 hc1
      rw [hb1] at this
      exact absurd this (by simp)
    have := ht1.2.1
    omega
  · intro symbol s1 hs
    obtain ⟨fwe, pc, w, pk, fc⟩ := s
    simp only [exc_step] at hs
    cases ha : fakewire_exc_on_recv_ctrl fwe symbol with
    | none => simp [ha] at hs
    | some fwe1 =>
      obtain ⟨k1, k2, k3, k4, k5⟩ := on_recv_ctrl_keeps fwe fwe1 symbol ha hf
      simp only [ha, Option.some.injEq] at hs
      subst hs
      exact ⟨k2, rfl⟩
  · intro bytes_in s1 hs
    obtain ⟨fwe, pc, w, pk, fc⟩ := s
    simp only [exc_step] at hs
    cases ha : fakewire_exc_on_recv_data fwe bytes_in with
    | none => simp [ha] at hs
    | some fwe1 =>
      obtain ⟨k1, k2, k3, k4, k5⟩ := on_recv_data_keeps fwe fwe1 bytes_in ha hf
      simp only [ha, Option.some.injEq] at hs
      subst hs
      exact ⟨k2, rfl⟩

/-- C12 on a concrete schedule, in which a client write holds the wire. -/
theorem C12_single_owner_tx_witness :
    ∃ s, exc_run exc_sys_init sched_one_write = some s ∧
      tx_holders s ≤ 1 ∧ (s.fwe.tx_busy = true ↔ tx_holders s = 1) ∧
      (∀ a s1, exc_step s a = some s1 → tx_holders s < tx_holders s1 →
        s.fwe.tx_busy = false ∧ s1.fwe.tx_busy = true) ∧
      (∀ a s1, exc_step s a = some s1 → s.fwe.tx_busy = true → s1.fwe.tx_busy = false →
        tx_holders s1 + 1 = tx_holders s) ∧
      (fakewire_exc_reset s.fwe).tx_busy = s.fwe.tx_busy ∧
      (∀ symbol s1, exc_step s (exc_action.recv_ctrl symbol) = some s1 →
        s1.fwe.tx_busy = s.fwe.tx_busy ∧ tx_holders s1 = tx_holders s) ∧
      (∀ bytes_in s1, exc_step s (exc_action.recv_data bytes_in) = some s1 →
        s1.fwe.tx_busy = s.fwe.tx_busy ∧ tx_holders s1 = tx_holders s) := by
  obtain ⟨s, hs⟩ : ∃ s, exc_run exc_sys_init sched_one_write = some s := ⟨_, rfl⟩
  exact ⟨s, hs, C12_single_owner_tx sched_one_write s hs⟩

/-- C13 (protocol violation resets): in every reachable state whose state is CONNECTING,
HANDSHAKING or OPERATING, each received event that the transition table does not permit
there makes the callback return with the exchange reset. -/
theorem C13_protocol_violation_resets (acts : List exc_action) (s : exc_sys)
    (h : exc_run exc_sys_init acts = some s)
    (hst : s.fwe.state = FW_EXC_CONNECTING ∨ s.fwe.state = FW_EXC_HANDSHAKING ∨
      s.fwe.state = FW_EXC_OPERATING) :
    (∀ symbol : Nat,
        ((symbol = FWC_HANDSHAKE_2 ∧
            (s.fwe.state = FW_EXC_CONNECTING ∨ s.fwe.state = FW_EXC_OPERATING)) ∨
          (symbol = FWC_HANDSHAKE_1 ∧ s.fwe.state = FW_EXC_HANDSHAKING) ∨
          ((symbol = FWC_START_PACKET ∨ symbol = FWC_END_PACKET ∨ symbol = FWC_ERROR_PACKET ∨
              symbol = FWC_FLOW_CONTROL ∨ symbol = FWC_CODEC_ERROR) ∧
            (s.fwe.state = FW_EXC_CONNECTING ∨ s.fwe.state = FW_EXC_HANDSHAKING)) ∨
          (s.fwe.state = FW_EXC_OPERATING ∧
            (symbol = FWC_CODEC_ERROR ∨
              (symbol = FWC_START_PACKET ∧ s.fwe.has_sent_fct = false) ∨
              ((symbol = FWC_END_PACKET ∨ symbol = FWC_ERROR_PACKET) ∧
                s.fwe.recv_in_progress = false))) ∨
          s.fwe.is_recv_handshake_id = true) →
        fakewire_exc_on_recv_ctrl s.fwe symbol = some (fakewire_exc_reset s.fwe)) ∧
      (∀ bytes_in : List Nat, bytes_in ≠ [] →
        ((s.fwe.state = FW_EXC_OPERATING ∧ s.fwe.recv_in_progress = false) ∨
          (s.fwe.is_recv_handshake_id = true ∧
            bytes_in.length > 4 - s.fwe.recv_handshake_offset) ∨
          ((s.fwe.state = FW_EXC_CONNECTING ∨ s.fwe.state = FW_EXC_HANDSHAKING) ∧
            s.fwe.is_recv_handshake_id = false)) →
        fakewire_exc_on_recv_data s.fwe bytes_in = some (fakewire_exc_reset s.fwe)) ∧
      reset_cleared (fakewire_exc_reset s.fwe) := by
  obtain ⟨hf, _, _⟩ := reachable_inv acts s h
  obtain ⟨fwe, pc, w, pk, fc⟩ := s
  obtain ⟨st, txb, det, sid, rid, isr, ss, off, buf, boff, bmax, done, hs, rs, rip⟩ := fwe
  simp only [flags_inv] at hf
  simp only at hst
  obtain ⟨f1, f2, f3, f4, f5, f6, f7, f8⟩ := hf
  refine ⟨?_, ?_, reset_is_cleared _⟩
  · intro symbol hc
    cases isr
    · simp only [fakewire_exc_on_recv_ctrl, fakewire_exc_check_invariants, FWC_HANDSHAKE_1,
        FWC_HANDSHAKE_2, FWC_START_PACKET, FWC_END_PACKET, FWC_ERROR_PACKET, FWC_FLOW_CONTROL,
        FWC_ESCAPE_SYM, FWC_CODEC_ERROR] at hc ⊢
      rcases hst with hst | hst | hst <;> subst hst <;> simp at hc ⊢
      · rcases hc with hc | hc | hc | hc | hc | hc <;> subst hc <;> simp
      · rcases hc with hc | hc | hc | hc | hc | hc <;> subst hc <;> simp
      · rcases hc with hc | hc | ⟨hc, hh⟩ | ⟨hc | hc, hh⟩ <;> subst hc <;> simp_all
    · have := f6 rfl
      simp only [fakewire_exc_on_recv_ctrl, fakewire_exc_check_invariants]
      rcases hst with hst | hst | hst <;> subst hst <;> simp_all
  · intro bytes_in hne hc
    have hlen : bytes_in.length ≠ 0 := by simpa using hne
    cases isr
    · simp only [fakewire_exc_on_recv_data, fakewire_exc_check_invariants]
      rcases hst with hst | hst | hst <;> subst hst <;> simp_all
    · have := f6 rfl
      simp only [fakewire_exc_on_recv_data, fakewire_exc_check_invariants]
      rcases hst with hst | hst | hst <;> subst hst <;> simp_all

/-- C13 on a concrete schedule that ends in OPERATING. -/
theorem C13_protocol_violation_resets_witness :
    ∃ s, exc_run exc_sys_init sched_operating = some s ∧
      s.fwe.state = FW_EXC_OPERATING ∧
      fakewire_exc_on_recv_ctrl s.fwe FWC_HANDSHAKE_2 = some (fakewire_exc_reset s.fwe) ∧
      fakewire_exc_on_recv_data s.fwe [7] = some (fakewire_exc_reset s.fwe) ∧
      reset_cleared (fakewire_exc_reset s.fwe) := by
  obtain ⟨s, hs⟩ : ∃ s, exc_run exc_sys_init sched_operating = some s := ⟨_, rfl⟩
  have hst : s.fwe.state = FW_EXC_OPERATING := by
    have : (exc_run exc_sys_init sched_operating).map (fun s => s.fwe.state) =
        some FW_EXC_OPERATING := rfl
    rw [hs] at this
    simpa using this
  have hrip : s.fwe.recv_in_progress = false := by
    have : (exc_run exc_sys_init sched_operating).map (fun s => s.fwe.recv_in_progress) =
        some false := rfl
    rw [hs] at this
    simpa using this
  have key := C13_protocol_violation_resets sched_operating s hs (Or.inr (Or.inr hst))
  exact ⟨s, hs, hst, key.1 FWC_HANDSHAKE_2 (Or.inl ⟨rfl, Or.inr hst⟩),
    key.2.1 [7] (by simp) (Or.inl ⟨hst, hrip⟩), key.2.2⟩

/-- C14 (reset): after `fakewire_exc_reset`, from any prior state, the state is CONNECTING
and `send_secondary_handshake`, `is_recv_handshake_id`, `inbound_read_done`, `has_sent_fct`,
`remote_sent_fct` and `recv_in_progress` are all false and no inbound buffer is
registered. -/
theorem C14_reset_clears (fwe : fw_exchange_t) :
    (fakewire_exc_reset fwe).state = FW_EXC_CONNECTING ∧
      (fakewire_exc_reset fwe).send_secondary_handshake = false ∧
      (fakewire_exc_reset fwe).is_recv_handshake_id = false ∧
      (fakewire_exc_reset fwe).inbound_read_done = false ∧
      (fakewire_exc_reset fwe).has_sent_fct = false ∧
      (fakewire_exc_reset fwe).remote_sent_fct = false ∧
      (fakewire_exc_reset fwe).recv_in_progress = false ∧
      (fakewire_exc_reset fwe).inbound_buffer = none :=
  ⟨rfl, rfl, rfl, rfl, rfl, rfl, rfl, rfl⟩

/-- C15 as stated fails: in the HANDSHAKING state reached by `sched_handshaking_awaiting`
the ID sent is `0x80000001`, and `fakewire_exc_reset` replaces it by 0. -/
theorem C15_counterexample :
    (exc_run exc_sys_init sched_handshaking_awaiting).map
        (fun s => (s.fwe.send_handshake_id, (fakewire_exc_reset s.fwe).send_handshake_id)) =
      some ([0x80, 0, 0, 1], [0, 0, 0, 0]) := by
  decide

/-- C15, as amended: `fakewire_exc_reset` sets `send_handshake_id` to 0, whatever its value
before the reset (so the value is kept only when it was 0 already). -/
theorem C15_reset_zeroes_send_id (fwe : fw_exchange_t) :
    (fakewire_exc_reset fwe).send_handshake_id = [0, 0, 0, 0] ∧
      be32toh (fakewire_exc_reset fwe).send_handshake_id = 0 ∧
      ((fakewire_exc_reset fwe).send_handshake_id = fwe.send_handshake_id ↔
        fwe.send_handshake_id = [0, 0, 0, 0]) :=
  ⟨rfl, by simp [fakewire_exc_reset, be32toh], ⟨fun h => h.symm.trans rfl, fun h => h.symm ▸ rfl⟩⟩

/-- C16 as stated fails: `sched_handshaking_awaiting` ends in HANDSHAKING with
`send_handshake_id` holding `0x80000001` while the ID bytes of an earlier `HANDSHAKE_1` are
still awaited; `HANDSHAKE_2` followed by the ID bytes `80 00 00 01` then leaves the exchange
in CONNECTING, not OPERATING. -/
theorem C16_counterexample :
    (exc_run exc_sys_init sched_handshaking_awaiting).map
        (fun s => (s.fwe.state, s.fwe.send_handshake_id,
          (link_interface_deliver s.fwe
            [fw_event.recv_ctrl FWC_HANDSHAKE_2 0 0, fw_event.recv_data [0x80, 0, 0, 1]]).map
              (fun fwe1 => fwe1.state))) =
      some (FW_EXC_HANDSHAKING, [0x80, 0, 0, 1], some FW_EXC_CONNECTING) := by
  decide

/-- C16, as amended: in a reachable state that is HANDSHAKING with no handshake ID awaited,
after `HANDSHAKE_2` followed by its 4 ID bytes, delivered in any split into non-empty data
runs with no other critical section in between, the exchange is OPERATING if the received
ID equals `send_handshake_id`, and otherwise is reset to CONNECTING. -/
theorem C16_handshake_2_in_handshaking (acts : List exc_action) (s : exc_sys)
    (runs : List (List Nat)) (param ts : Nat)
    (h : exc_run exc_sys_init acts = some s)
    (hst : s.fwe.state = FW_EXC_HANDSHAKING) (hr : s.fwe.is_recv_handshake_id = false)
    (hne : ∀ r ∈ runs, r ≠ []) (hlen : runs.flatten.length = 4) :
    ∃ fwe1, link_interface_deliver s.fwe
          (fw_event.recv_ctrl FWC_HANDSHAKE_2 param ts :: runs.map fw_event.recv_data) =
        some fwe1 ∧
      (runs.flatten = s.fwe.send_handshake_id →
        fwe1.state = FW_EXC_OPERATING ∧ fwe1.recv_handshake_id = runs.flatten ∧
          fwe1.send_handshake_id = s.fwe.send_handshake_id ∧
          fwe1.is_recv_handshake_id = false) ∧
      (runs.flatten ≠ s.fwe.send_handshake_id →
        fwe1 = fakewire_exc_reset s.fwe ∧ fwe1.state = FW_EXC_CONNECTING ∧
          reset_cleared fwe1) := by
  obtain ⟨hf, _, _⟩ := reachable_inv acts s h
  obtain ⟨fwe, pc, w, pk, fc⟩ := s
  obtain ⟨st, txb, det, sid, rid, isr, ss, off, buf, boff, bmax, done, hs, rs, rip⟩ := fwe
  simp only [flags_inv] at hf
  simp only at hst hr
  subst hst
  subst hr
  have hl : rid.length = 4 := hf.2.2.2.2.2.2.2
  have hc : fakewire_exc_on_recv_ctrl
      ⟨FW_EXC_HANDSHAKING, txb, det, sid, rid, false, ss, off, buf, boff, bmax, done, hs, rs,
        rip⟩ FWC_HANDSHAKE_2 =
      some ⟨FW_EXC_HANDSHAKING, txb, det, sid, rid, true, ss, 0, buf, boff, bmax, done, hs, rs,
        rip⟩ := by
    simp [fakewire_exc_on_recv_ctrl, fakewire_exc_check_invariants]
  have hd := deliver_id_runs runs
    ⟨FW_EXC_HANDSHAKING, txb, det, sid, rid, true, ss, 0, buf, boff, bmax, done, hs, rs, rip⟩
    rfl (Or.inr rfl) hl hne (by simp only; omega) (by simp only; omega)
  simp only [link_interface_deliver, hc, hd]
  simp only [List.take_zero, List.nil_append, reduceCtorEq, if_false]
  refine ⟨_, rfl, ?_, ?_⟩
  · intro he
    simp [he, latch_id]
  · intro he
    simp [he, fakewire_exc_reset, reset_cleared]

/-- C16 as amended, on a concrete schedule: after a primary handshake with ID `0x80000001`,
`HANDSHAKE_2` and the same ID in two data runs. -/
theorem C16_handshake_2_in_handshaking_witness :
    ∃ s, exc_run exc_sys_init sched_handshaking = some s ∧
      s.fwe.state = FW_EXC_HANDSHAKING ∧ s.fwe.is_recv_handshake_id = false ∧
      ∃ fwe1, link_interface_deliver s.fwe
            (fw_event.recv_ctrl FWC_HANDSHAKE_2 0 0 ::
              [[0x80, 0], [0, 1]].map fw_event.recv_data) =
          some fwe1 ∧
        ([[0x80, 0], [0, 1]].flatten = s.fwe.send_handshake_id →
          fwe1.state = FW_EXC_OPERATING ∧ fwe1.recv_handshake_id = [[0x80, 0], [0, 1]].flatten ∧
            fwe1.send_handshake_id = s.fwe.send_handshake_id ∧
            fwe1.is_recv_handshake_id = false) ∧
        ([[0x80, 0], [0, 1]].flatten ≠ s.fwe.send_handshake_id →
          fwe1 = fakewire_exc_reset s.fwe ∧ fwe1.state = FW_EXC_CONNECTING ∧
            reset_cleared fwe1) := by
  obtain ⟨s, hs⟩ : ∃ s, exc_run exc_sys_init sched_handshaking = some s := ⟨_, rfl⟩
  have hv : (exc_run exc_sys_init sched_handshaking).map
      (fun s => (s.fwe.state, s.fwe.is_recv_handshake_id)) =
      some (FW_EXC_HANDSHAKING, false) := by decide
  rw [hs] at hv
  simp only [Option.map_some', Option.some.injEq, Prod.mk.injEq] at hv
  exact ⟨s, hs, hv.1, hv.2,
    C16_handshake_2_in_handshaking sched_handshaking s [[0x80, 0], [0, 1]] 0 0 hs hv.1 hv.2
      (by decide) (by decide)⟩

/-- C17 as stated fails: after attach and a `HANDSHAKE_1` whose ID bytes have not arrived,
the exchange is CONNECTING; a further `HANDSHAKE_1` followed by the ID bytes `1, 2, 3, 4`
leaves it CONNECTING with `send_secondary_handshake` false and `recv_handshake_id` zero. -/
theorem C17_counterexample :
    (exc_run exc_sys_init sched_awaiting_id).map
        (fun s => (s.fwe.state,
          (link_interface_deliver s.fwe
            [fw_event.recv_ctrl FWC_HANDSHAKE_1 0 0, fw_event.recv_data [1, 2, 3, 4]]).map
              (fun fwe1 => (fwe1.state, fwe1.recv_handshake_id,
                fwe1.send_secondary_handshake)))) =
      some (FW_EXC_CONNECTING, some (FW_EXC_CONNECTING, [0, 0, 0, 0], false)) := by
  decide

/-- C17, as amended: in a reachable state that is CONNECTING with no handshake ID awaited,
`HANDSHAKE_1` cancels a pending secondary, and once its 4 ID bytes have followed (in any
split into non-empty data runs, no other critical section in between) the state is
CONNECTING with `recv_handshake_id` equal to the received ID and `send_secondary_handshake`
true; in a reachable state that is OPERATING, `HANDSHAKE_1` first resets the exchange (flow
and buffer fields cleared) and the ID bytes then lead to the same condition. -/
theorem C17_handshake_1_latched (acts : List exc_action) (s : exc_sys)
    (runs : List (List Nat)) (param ts : Nat)
    (h : exc_run exc_sys_init acts = some s)
    (hst : (s.fwe.state = FW_EXC_CONNECTING ∧ s.fwe.is_recv_handshake_id = false) ∨
      s.fwe.state = FW_EXC_OPERATING)
    (hne : ∀ r ∈ runs, r ≠ []) (hlen : runs.flatten.length = 4) :
    ∃ fwe_mid fwe1,
      fakewire_exc_on_recv_ctrl s.fwe FWC_HANDSHAKE_1 = some fwe_mid ∧
      fwe_mid.state = FW_EXC_CONNECTING ∧ fwe_mid.send_secondary_handshake = false ∧
      (s.fwe.state = FW_EXC_OPERATING →
        fwe_mid = { fakewire_exc_reset s.fwe with
            is_recv_handshake_id := true, recv_handshake_offset := 0 } ∧
          fwe_mid.inbound_buffer = none ∧ fwe_mid.inbound_read_done = false ∧
          fwe_mid.has_sent_fct = false ∧ fwe_mid.remote_sent_fct = false ∧
          fwe_mid.recv_in_progress = false) ∧
      link_interface_deliver s.fwe
          (fw_event.recv_ctrl FWC_HANDSHAKE_1 param ts :: runs.map fw_event.recv_data) =
        some fwe1 ∧
      fwe1.state = FW_EXC_CONNECTING ∧ fwe1.recv_handshake_id = runs.flatten ∧
      fwe1.send_secondary_handshake = true ∧ fwe1.is_recv_handshake_id = false := by
  obtain ⟨hf, _, _⟩ := reachable_inv acts s h
  obtain ⟨fwe, pc, w, pk, fc⟩ := s
  obtain ⟨st, txb, det, sid, rid, isr, ss, off, buf, boff, bmax, done, hs, rs, rip⟩ := fwe
  simp only [flags_inv] at hf
  simp only at hst
  obtain ⟨f1, f2, f3, f4, f5, f6, f7, f8⟩ := hf
  rcases hst with ⟨hst, hr⟩ | hst
  · subst hst
    subst hr
    have hc : fakewire_exc_on_recv_ctrl
        ⟨FW_EXC_CONNECTING, txb, det, sid, rid, false, ss, off, buf, boff, bmax, done, hs, rs,
          rip⟩ FWC_HANDSHAKE_1 =
        some ⟨FW_EXC_CONNECTING, txb, det, sid, rid, true, false, 0, buf, boff, bmax, done, hs,
          rs, rip⟩ := by
      simp [fakewire_exc_on_recv_ctrl, fakewire_exc_check_invariants]
    have hd := deliver_id_runs runs
      ⟨FW_EXC_CONNECTING, txb, det, sid, rid, true, false, 0, buf, boff, bmax, done, hs, rs,
        rip⟩
      rfl (Or.inl rfl) f8 hne (by simp only; omega) (by simp only; omega)
    simp only [link_interface_deliver, hc, hd]
    simp [latch_id]
  · subst hst
    have hr : isr = false := by
      cases isr
      · rfl
      · exact absurd rfl (f6 rfl).1
    subst hr
    have hc : fakewire_exc_on_recv_ctrl
        ⟨FW_EXC_OPERATING, txb, det, sid, rid, false, ss, off, buf, boff, bmax, done, hs, rs,
          rip⟩ FWC_HANDSHAKE_1 =
        some ⟨FW_EXC_CONNECTING, txb, det, [0, 0, 0, 0], [0, 0, 0, 0], true, false, 0, none,
          boff, bmax, false, false, false, false⟩ := by
      simp [fakewire_exc_on_recv_ctrl, fakewire_exc_check_invariants, fakewire_exc_reset]
    have hd := deliver_id_runs runs
      ⟨FW_EXC_CONNECTING, txb, det, [0, 0, 0, 0], [0, 0, 0, 0], true, false, 0, none,
        boff, bmax, false, false, false, false⟩
      rfl (Or.inl rfl) rfl hne (by simp only; omega) (by simp only; omega)
    simp only [link_interface_deliver, hc, hd]
    simp [latch_id, fakewire_exc_reset]

/-- C17 as amended, on a concrete schedule: right after attach, `HANDSHAKE_1` and the ID
bytes `1, 2, 3, 4` in two data runs. -/
theorem C17_handshake_1_latched_witness :
    ∃ s, exc_run exc_sys_init sched_attached = some s ∧
      s.fwe.state = FW_EXC_CONNECTING ∧ s.fwe.is_recv_handshake_id = false ∧
      ∃ fwe_mid fwe1,
        fakewire_exc_on_recv_ctrl s.fwe FWC_HANDSHAKE_1 = some fwe_mid ∧
        fwe_mid.state = FW_EXC_CONNECTING ∧ fwe_mid.send_secondary_handshake = false ∧
        (s.fwe.state = FW_EXC_OPERATING →
          fwe_mid = { fakewire_exc_reset s.fwe with
              is_recv_handshake_id := true, recv_handshake_offset := 0 } ∧
            fwe_mid.inbound_buffer = none ∧ fwe_mid.inbound_read_done = false ∧
            fwe_mid.has_sent_fct = false ∧ fwe_mid.remote_sent_fct = false ∧
            fwe_mid.recv_in_progress = false) ∧
        link_interface_deliver s.fwe
            (fw_event.recv_ctrl FWC_HANDSHAKE_1 0 0 ::
              [[1, 2], [3, 4]].map fw_event.recv_data) =
          some fwe1 ∧
        fwe1.state = FW_EXC_CONNECTING ∧ fwe1.recv_handshake_id = [[1, 2], [3, 4]].flatten ∧
        fwe1.send_secondary_handshake = true ∧ fwe1.is_recv_handshake_id = false := by
  obtain ⟨s, hs⟩ : ∃ s, exc_run exc_sys_init sched_attached = some s := ⟨_, rfl⟩
  have hv : (exc_run exc_sys_init sched_attached).map
      (fun s => (s.fwe.state, s.fwe.is_recv_handshake_id)) =
      some (FW_EXC_CONNECTING, false) := by decide
  rw [hs] at hv
  simp only [Option.map_some', Option.some.injEq, Prod.mk.injEq] at hv
  exact ⟨s, hs, hv.1, hv.2,
    C17_handshake_1_latched sched_attached s [[1, 2], [3, 4]] 0 0 hs (Or.inl ⟨hv.1, hv.2⟩)
      (by decide) (by decide)⟩

/-- C18: in a reachable state in which flow-TX has sent `HANDSHAKE_2` carrying
`handshake_id`, its next critical section runs to its end; it moves the exchange to
OPERATING and clears `send_secondary_handshake` when `send_secondary_handshake` is still
set, the state is still CONNECTING and `recv_handshake_id` still equals `handshake_id`, and
in every other case leaves the state and `send_secondary_handshake` as they are. -/
theorem C18_secondary_reverified (acts : List exc_action) (s : exc_sys)
    (handshake_id : List Nat) (h : exc_run exc_sys_init acts = some s)
    (hpc : s.flowtx = flowtx_pc.tx_secondary handshake_id) :
    ∃ s1, exc_step s exc_action.flowtx_sent = some s1 ∧
      (s.fwe.send_secondary_handshake = true ∧ s.fwe.state = FW_EXC_CONNECTING ∧
          s.fwe.recv_handshake_id = handshake_id →
        s1.fwe.state = FW_EXC_OPERATING ∧ s1.fwe.send_secondary_handshake = false) ∧
      (¬ (s.fwe.send_secondary_handshake = true ∧ s.fwe.state = FW_EXC_CONNECTING ∧
          s.fwe.recv_handshake_id = handshake_id) →
        s1.fwe.state = s.fwe.state ∧
          s1.fwe.send_secondary_handshake = s.fwe.send_secondary_handshake) := by
  obtain ⟨_, ht, _⟩ := reachable_inv acts s h
  clear h
  obtain ⟨fwe, pc, w, pk, fc⟩ := s
  obtain ⟨st, txb, det, sid, rid, isr, ss, off, buf, boff, bmax, done, hs, rs, rip⟩ := fwe
  simp only at hpc
  subst hpc
  simp only [thread_inv, tx_holders, flowtx_pc.sending, if_true] at ht
  have hb : txb = true := ht.2.2.2 (by omega)
  subst hb
  simp only [exc_step, fakewire_exc_flowtx_secondary_sent, fakewire_exc_flowtx_fct]
  clear ht
  have hsymm : rid = handshake_id ↔ handshake_id = rid := eq_comm
  cases ss <;> cases st <;> by_cases hid : handshake_id = rid <;>
    simp [hid, hsymm] <;> split_ifs <;> simp_all

/-- C18 on a concrete schedule: flow-TX has sent `HANDSHAKE_2` with the ID `1, 2, 3, 4`
latched from a `HANDSHAKE_1`. -/
theorem C18_secondary_reverified_witness :
    ∃ s, exc_run exc_sys_init sched_secondary = some s ∧
      s.flowtx = flowtx_pc.tx_secondary [1, 2, 3, 4] ∧
      ∃ s1, exc_step s exc_action.flowtx_sent = some s1 ∧
        (s.fwe.send_secondary_handshake = true ∧ s.fwe.state = FW_EXC_CONNECTING ∧
            s.fwe.recv_handshake_id = [1, 2, 3, 4] →
          s1.fwe.state = FW_EXC_OPERATING ∧ s1.fwe.send_secondary_handshake = false) ∧
        (¬ (s.fwe.send_secondary_handshake = true ∧ s.fwe.state = FW_EXC_CONNECTING ∧
            s.fwe.recv_handshake_id = [1, 2, 3, 4]) →
          s1.fwe.state = s.fwe.state ∧
            s1.fwe.send_secondary_handshake = s.fwe.send_secondary_handshake) := by
  obtain ⟨s, hs⟩ : ∃ s, exc_run exc_sys_init sched_secondary = some s := ⟨_, rfl⟩
  have hv : (exc_run exc_sys_init sched_secondary).map (fun s => s.flowtx) =
      some (flowtx_pc.tx_secondary [1, 2, 3, 4]) := by decide
  rw [hs] at hv
  simp only [Option.map_some', Option.some.injEq] at hv
  exact ⟨s, hs, hv, C18_secondary_reverified sched_secondary s [1, 2, 3, 4] hs hv⟩

/-- C19 (receive-side flags): in every state reachable from init through attach, detach,
received events, flow-TX steps and client read/write, `has_sent_fct` implies that a buffer is
registered and `inbound_read_done` is false; `recv_in_progress` implies that a buffer is
registered, `inbound_read_done` is false and `has_sent_fct` is false; hence no two of
`has_sent_fct`, `recv_in_progress` and `inbound_read_done` are true together. -/
theorem C19_receive_flags (acts : List exc_action) (s : exc_sys)
    (h : exc_run exc_sys_init acts = some s) :
    (s.fwe.has_sent_fct = true →
        s.fwe.inbound_buffer ≠ none ∧ s.fwe.inbound_read_done = false) ∧
      (s.fwe.recv_in_progress = true →
        s.fwe.inbound_buffer ≠ none ∧ s.fwe.inbound_read_done = false ∧
          s.fwe.has_sent_fct = false) ∧
      ¬ (s.fwe.has_sent_fct = true ∧ s.fwe.recv_in_progress = true) ∧
      ¬ (s.fwe.has_sent_fct = true ∧ s.fwe.inbound_read_done = true) ∧
      ¬ (s.fwe.recv_in_progress = true ∧ s.fwe.inbound_read_done = true) := by
  obtain ⟨hf, _, _⟩ := reachable_inv acts s h
  obtain ⟨_, _, h3, h4, _⟩ := hf
  refine ⟨h3, h4, ?_, ?_, ?_⟩
  · rintro ⟨a, b⟩
    have := (h4 b).2.2
    rw [a] at this
    exact absurd this (by simp)
  · rintro ⟨a, b⟩
    have := (h3 a).2
    rw [b] at this
    exact absurd this (by simp)
  · rintro ⟨a, b⟩
    have := (h4 a).2.1
    rw [b] at this
    exact absurd this (by simp)

/-- C19 on a concrete schedule, which ends with a credit extended for a registered buffer. -/
theorem C19_receive_flags_witness :
    ∃ s, exc_run exc_sys_init sched_detached = some s ∧
      (s.fwe.has_sent_fct = true →
        s.fwe.inbound_buffer ≠ none ∧ s.fwe.inbound_read_done = false) ∧
      (s.fwe.recv_in_progress = true →
        s.fwe.inbound_buffer ≠ none ∧ s.fwe.inbound_read_done = false ∧
          s.fwe.has_sent_fct = false) ∧
      ¬ (s.fwe.has_sent_fct = true ∧ s.fwe.recv_in_progress = true) ∧
      ¬ (s.fwe.has_sent_fct = true ∧ s.fwe.inbound_read_done = true) ∧
      ¬ (s.fwe.recv_in_progress = true ∧ s.fwe.inbound_read_done = true) := by
  obtain ⟨s, hs⟩ : ∃ s, exc_run exc_sys_init sched_detached = some s := ⟨_, rfl⟩
  exact ⟨s, hs, C19_receive_flags sched_detached s hs⟩

/-- C20 as stated fails: after `sched_detached` the exchange is DISCONNECTED, the detach is
complete, and `remote_sent_fct` and `has_sent_fct` are still set. -/
theorem C20_counterexample :
    (exc_run exc_sys_init sched_detached).map
        (fun s => (s.fwe.state, s.fwe.detaching, s.fwe.remote_sent_fct, s.fwe.has_sent_fct)) =
      some (FW_EXC_DISCONNECTED, false, true, true) := by
  rfl

/-- C20, as amended: in every state reachable from init through attach, detach, received
events, flow-TX steps and client calls, state = CONNECTING or state = HANDSHAKING implies
that `remote_sent_fct`, `has_sent_fct`, `recv_in_progress` and `inbound_read_done` are all
false; from every such state that is not DISCONNECTED the first critical section of a
detach runs, sets the state to DISCONNECTED and leaves the four flags as they were. -/
theorem C20_flags_clear_while_connecting (acts : List exc_action) (s : exc_sys)
    (h : exc_run exc_sys_init acts = some s) :
    (s.fwe.state = FW_EXC_CONNECTING ∨ s.fwe.state = FW_EXC_HANDSHAKING →
        s.fwe.remote_sent_fct = false ∧ s.fwe.has_sent_fct = false ∧
          s.fwe.recv_in_progress = false ∧ s.fwe.inbound_read_done = false) ∧
      (s.fwe.state ≠ FW_EXC_DISCONNECTED →
        ∃ s1, exc_step s exc_action.detach_begin = some s1 ∧
          s1.fwe.state = FW_EXC_DISCONNECTED ∧
          s1.fwe.remote_sent_fct = s.fwe.remote_sent_fct ∧
          s1.fwe.has_sent_fct = s.fwe.has_sent_fct ∧
          s1.fwe.recv_in_progress = s.fwe.recv_in_progress ∧
          s1.fwe.inbound_read_done = s.fwe.inbound_read_done) := by
  obtain ⟨hf, _, _⟩ := reachable_inv acts s h
  obtain ⟨f1, f2, _, _, h5, _⟩ := hf
  refine ⟨fun hs => ⟨(h5 hs).1, (h5 hs).2.1, (h5 hs).2.2.1, (h5 hs).2.2.2.1⟩, ?_⟩
  intro hst
  obtain ⟨fwe, pc, w, pk, fc⟩ := s
  obtain ⟨st, txb, det, sid, rid, isr, ss, off, buf, boff, bmax, done, hs, rs, rip⟩ := fwe
  simp only at hst f1 f2
  have hd : det = false := by
    cases det
    · rfl
    · exact absurd (f2 rfl) hst
  subst hd
  refine ⟨⟨⟨FW_EXC_DISCONNECTED, txb, true, sid, rid, isr, ss, off, buf, boff, bmax, done, hs,
    rs, rip⟩, pc, w, pk, fc⟩, ?_, rfl, rfl, rfl, rfl, rfl⟩
  simp [exc_step, fakewire_exc_detach_begin, fakewire_exc_check_invariants, f1, hst]

/-- C20 as amended, on two concrete schedules: right after attach the exchange is
CONNECTING and the four flags are false; after `sched_credited` the exchange is OPERATING
with `remote_sent_fct` and `has_sent_fct` set, and the first critical section of a detach
leaves it DISCONNECTED with both still set. -/
theorem C20_flags_clear_while_connecting_witness :
    (∃ s, exc_run exc_sys_init sched_attached = some s ∧
      s.fwe.state = FW_EXC_CONNECTING ∧
      s.fwe.remote_sent_fct = false ∧ s.fwe.has_sent_fct = false ∧
      s.fwe.recv_in_progress = false ∧ s.fwe.inbound_read_done = false) ∧
    (∃ s s1, exc_run exc_sys_init sched_credited = some s ∧
      s.fwe.state = FW_EXC_OPERATING ∧
      exc_step s exc_action.detach_begin = some s1 ∧
      s1.fwe.state = FW_EXC_DISCONNECTED ∧
      s1.fwe.remote_sent_fct = true ∧ s1.fwe.has_sent_fct = true) := by
  constructor
  · obtain ⟨s, hs⟩ : ∃ s, exc_run exc_sys_init sched_attached = some s := ⟨_, rfl⟩
    have hv : (exc_run exc_sys_init sched_attached).map (fun s => s.fwe.state) =
        some FW_EXC_CONNECTING := by decide
    rw [hs] at hv
    simp only [Option.map_some', Option.some.injEq] at hv
    have key := (C20_flags_clear_while_connecting sched_attached s hs).1 (Or.inl hv)
    exact ⟨s, hs, hv, key⟩
  · obtain ⟨s, hs⟩ : ∃ s, exc_run exc_sys_init sched_credited = some s := ⟨_, rfl⟩
    have hv : (exc_run exc_sys_init sched_credited).map
        (fun s => (s.fwe.state, s.fwe.remote_sent_fct, s.fwe.has_sent_fct)) =
        some (FW_EXC_OPERATING, true, true) := by decide
    rw [hs] at hv
    simp only [Option.map_some', Option.some.injEq, Prod.mk.injEq] at hv
    obtain ⟨s1, k1, k2, k3, k4, _, _⟩ :=
      (C20_flags_clear_while_connecting sched_credited s hs).2 (by rw [hv.1]; decide)
    exact ⟨s, s1, hs, hv.1, k1, k2, by rw [k3, hv.2.1], by rw [k4, hv.2.2]⟩

/-! ## Credits sent: what each step does to the receive flags -/

/-- The big-endian value of the primary handshake ID generated at clock value `clock`. -/
theorem primary_handshake_id_value (clock : Nat) :
    be32toh (primary_handshake_id clock) = 2 ^ 31 + clock % 2 ^ 31 := by
  have hand : 0x7FFFFFFF &&& (clock % 2 ^ 32) = clock % 2 ^ 31 := by
    have h1 := Nat.and_pow_two_sub_one_eq_mod (clock % 2 ^ 32) 31
    rw [Nat.land_comm] at h1
    have h2 : (2 : Nat) ^ 31 - 1 = 0x7FFFFFFF := by norm_num
    rw [h2] at h1
    rw [h1]
    omega
  simp only [primary_handshake_id, hand]
  have hlt : 0x80000000 + clock % 2 ^ 31 < 2 ^ 32 := by omega
  rw [be32toh_htobe32 _ hlt]
  norm_num

/-- The two outcomes of the credit test of the flow-TX loop. -/
theorem flowtx_fct_cases (fwe : fw_exchange_t) :
    ((fwe.state = FW_EXC_OPERATING ∧ fwe.inbound_buffer ≠ none ∧ fwe.tx_busy = false ∧
        fwe.has_sent_fct = false ∧ fwe.recv_in_progress = false ∧
        fwe.inbound_read_done = false) ∧
      fakewire_exc_flowtx_fct fwe =
        ({ fwe with tx_busy := true, has_sent_fct := true }, flowtx_pc.tx_fct)) ∨
    (¬ (fwe.state = FW_EXC_OPERATING ∧ fwe.inbound_buffer ≠ none ∧ fwe.tx_busy = false ∧
        fwe.has_sent_fct = false ∧ fwe.recv_in_progress = false ∧
        fwe.inbound_read_done = false) ∧
      fakewire_exc_flowtx_fct fwe = (fwe, flowtx_pc.idle)) := by
  by_cases hc : fwe.state = FW_EXC_OPERATING ∧ fwe.inbound_buffer ≠ none ∧
      fwe.tx_busy = false ∧ fwe.has_sent_fct = false ∧ fwe.recv_in_progress = false ∧
      fwe.inbound_read_done = false
  · exact Or.inl ⟨hc, by simp only [fakewire_exc_flowtx_fct, if_pos hc]⟩
  · exact Or.inr ⟨hc, by simp only [fakewire_exc_flowtx_fct, if_neg hc]⟩

/-- What `fakewire_exc_flowtx_top` can do when it does not abort. -/
theorem flowtx_top_cases (fwe fwe1 : fw_exchange_t) (expired : Bool) (clock : Nat)
    (pc : flowtx_pc) (h : fakewire_exc_flowtx_top fwe expired clock = some (fwe1, pc)) :
    (fwe.state = FW_EXC_DISCONNECTED ∧ fwe1 = fwe ∧ pc = flowtx_pc.exited) ∨
    (fwe.state = FW_EXC_CONNECTING ∧ fwe.tx_busy = false ∧
      fwe.send_secondary_handshake = true ∧
      fwe1 = { fwe with tx_busy := true } ∧ pc = flowtx_pc.tx_secondary fwe.recv_handshake_id) ∨
    ((fwe.state = FW_EXC_CONNECTING ∨ fwe.state = FW_EXC_HANDSHAKING) ∧ fwe.tx_busy = false ∧
      fwe.send_secondary_handshake = false ∧ expired = true ∧
      fwe1 = { fwe with send_handshake_id := primary_handshake_id clock,
                        state := FW_EXC_HANDSHAKING, tx_busy := true } ∧
      pc = flowtx_pc.tx_primary) ∨
    (fwe.state ≠ FW_EXC_DISCONNECTED ∧ (fwe1, pc) = fakewire_exc_flowtx_fct fwe) := by
  obtain ⟨st, txb, det, sid, rid, isr, ss, off, buf, boff, bmax, done, hs, rs, rip⟩ := fwe
  simp only [fakewire_exc_flowtx_top, fakewire_exc_check_invariants] at h
  cases st <;> cases txb <;> cases ss <;> cases expired <;> simp at h ⊢ <;>
    first
      | (obtain ⟨h1, h2⟩ := h; subst h1 h2; simp)
      | (rw [← h])

/-- No credit is sent by a step that leaves the flow-TX thread where it is. -/
theorem fct_emitted_same (s s1 : exc_sys) (h : s1.flowtx = s.flowtx) :
    fct_emitted s s1 = false := by
  simp only [fct_emitted, h]
  cases hd : decide (s.flowtx = flowtx_pc.tx_fct) <;> simp_all

/-- A critical section that does not touch the three receive flags. -/
theorem credit_unchanged (fwe fwe1 : fw_exchange_t) (a : exc_action)
    (h1 : fwe1.has_sent_fct = fwe.has_sent_fct)
    (h2 : fwe1.recv_in_progress = fwe.recv_in_progress)
    (h3 : fwe1.inbound_read_done = fwe.inbound_read_done) : credit_kept fwe fwe1 a := by
  refine ⟨fun h => h1 ▸ h, Or.inr (Or.inr (Or.inr (Or.inr ⟨h1, h2, h3⟩))), ?_⟩
  intro ha hb
  rw [h1, ha] at hb
  exact absurd hb (by simp)

/-- A reset sends no credit and forgets the buffer. -/
theorem credit_reset (fwe : fw_exchange_t) (a : exc_action) :
    credit_kept fwe (fakewire_exc_reset fwe) a :=
  ⟨fun h => absurd h (by simp [fakewire_exc_reset]), Or.inl rfl,
    fun _ _ => Or.inr (Or.inl rfl)⟩

/-- What a received control symbol does to the receive flags. -/
theorem on_recv_ctrl_credit (fwe fwe1 : fw_exchange_t) (symbol : Nat)
    (h : fakewire_exc_on_recv_ctrl fwe symbol = some fwe1) :
    credit_kept fwe fwe1 (exc_action.recv_ctrl symbol) := by
  obtain ⟨_, hc⟩ := on_recv_ctrl_cases fwe fwe1 symbol h
  rcases hc with ⟨_, e⟩ | ⟨_, e⟩ | ⟨_, _, _, e⟩ | ⟨_, _, _, e⟩ | ⟨_, _, _, e⟩ |
    ⟨hst, _, hsym, _, _, _, _, e⟩ | ⟨_, _, _, _, _, _, e⟩ | ⟨_, _, _, _, _, _, e⟩ |
    ⟨_, _, _, _, e⟩
  · subst e; exact credit_unchanged _ _ _ rfl rfl rfl
  · subst e; exact credit_reset _ _
  · subst e; exact credit_unchanged _ _ _ rfl rfl rfl
  · subst e; exact credit_unchanged _ _ _ rfl rfl rfl
  · subst e
    exact ⟨fun h => absurd h (by simp [fakewire_exc_reset]), Or.inl rfl,
      fun _ _ => Or.inr (Or.inr rfl)⟩
  · subst e
    subst hsym
    exact ⟨fun h => absurd h (by simp), Or.inr (Or.inr (Or.inl rfl)),
      fun _ _ => Or.inl ⟨rfl, rfl, hst⟩⟩
  · subst e
    exact ⟨fun h => h, Or.inr (Or.inr (Or.inr (Or.inl rfl))), fun ha hb => by
      simp only at hb; rw [ha] at hb; exact absurd hb (by simp)⟩
  · subst e; exact credit_unchanged _ _ _ rfl rfl rfl
  · subst e; exact credit_unchanged _ _ _ rfl rfl rfl

/-- What a received data run does to the receive flags. -/
theorem on_recv_data_credit (fwe fwe1 : fw_exchange_t) (bytes_in : List Nat)
    (h : fakewire_exc_on_recv_data fwe bytes_in = some fwe1) :
    credit_kept fwe fwe1 (exc_action.recv_data bytes_in) := by
  obtain ⟨_, _, hc⟩ := on_recv_data_cases fwe fwe1 bytes_in h
  rcases hc with ⟨_, e⟩ | ⟨_, e⟩ | ⟨_, _, _, e⟩ | ⟨_, _, _, e⟩ | ⟨_, _, _, _, e⟩ |
    ⟨_, _, _, _, ptr, content, content1, _, e⟩
  · subst e; exact credit_unchanged _ _ _ rfl rfl rfl
  · subst e; exact credit_reset _ _
  · subst e; exact credit_unchanged _ _ _ rfl rfl rfl
  · subst e; exact credit_unchanged _ _ _ rfl rfl rfl
  · subst e; exact credit_unchanged _ _ _ rfl rfl rfl
  · subst e; exact credit_unchanged _ _ _ rfl rfl rfl

/-- What a critical section of `fakewire_exc_read` that starts at the outer loop does to the
receive flags. -/
theorem read_outer_credit (fwe fwe1 : fw_exchange_t) (packet_out packet_max : Nat)
    (pc : read_pc) (a : exc_action)
    (h : fakewire_exc_read_outer fwe packet_out packet_max = some (fwe1, pc)) :
    credit_kept fwe fwe1 a := by
  simp only [fakewire_exc_read_outer] at h
  split_ifs at h with h1 h2 h3 h4 h5
  · injection h with h; injection h with h h'; subst h
    exact credit_unchanged _ _ _ rfl rfl rfl
  · injection h with h; injection h with h h'; subst h
    exact credit_unchanged _ _ _ rfl rfl rfl
  · injection h with h; injection h with h h'; subst h
    have hb : fwe.inbound_buffer = none := by
      by_contra hn
      exact h3 (Or.inr hn)
    have hs : fwe.has_sent_fct = false := by simpa using h5
    exact ⟨fun hh => by simp only at hh; rw [hs] at hh; exact absurd hh (by simp),
      Or.inr (Or.inl hb), fun ha => by rw [hs] at ha; exact absurd ha (by simp)⟩

/-- What a critical section of `fakewire_exc_read` that starts in the inner wait does to the
receive flags. -/
theorem read_inner_credit (fwe fwe1 : fw_exchange_t) (packet_out packet_max : Nat)
    (pc : read_pc) (a : exc_action) (hi : flags_inv fwe)
    (h : fakewire_exc_read_inner fwe packet_out packet_max = some (fwe1, pc)) :
    credit_kept fwe fwe1 a := by
  cases hb : fwe.inbound_buffer with
  | none =>
    simp only [fakewire_exc_read_inner, hb] at h
    exact read_outer_credit fwe fwe1 packet_out packet_max pc a h
  | some pr =>
    obtain ⟨ptr, content⟩ := pr
    simp only [fakewire_exc_read_inner, hb] at h
    split_ifs at h with h1 h2 h3 h4
    · injection h with h; injection h with h h'; subst h
      exact credit_unchanged _ _ _ rfl rfl rfl
    · injection h with h; injection h with h h'; subst h
      have hd : fwe.inbound_read_done = true := by simpa using h2
      have hs : fwe.has_sent_fct = false := by
        cases hh : fwe.has_sent_fct
        · rfl
        · have := (hi.2.2.1 hh).2
          rw [hd] at this
          exact absurd this (by simp)
      exact ⟨fun hh => hh, Or.inl rfl, fun ha => by rw [hs] at ha; exact absurd ha (by simp)⟩
    · exact read_outer_credit fwe fwe1 packet_out packet_max pc a h

/-- The flow-TX thread after the credit test on `fwe2`, which differs from the exchange `fwe`
of the step at most in `tx_busy`, `state` and `send_secondary_handshake`. -/
theorem flowtx_after_credit (s s1 : exc_sys) (fwe2 fwe1 : fw_exchange_t) (pc : flowtx_pc)
    (a : exc_action) (hpc : s.flowtx ≠ flowtx_pc.tx_fct) (he : s1.fwe = fwe1)
    (hp : s1.flowtx = pc)
    (ha : (∃ e c, a = exc_action.flowtx_top e c) ∨ a = exc_action.flowtx_sent)
    (hb : s.fwe.tx_busy = false ∨ a = exc_action.flowtx_sent)
    (hst : fwe2.state = FW_EXC_OPERATING → fwe2.inbound_buffer ≠ none →
      s.fwe.state = FW_EXC_OPERATING ∧ { fwe2 with tx_busy := true, has_sent_fct := true } =
        ({ s.fwe with tx_busy := true, has_sent_fct := true } : fw_exchange_t))
    (h1 : fwe2.inbound_buffer = s.fwe.inbound_buffer)
    (h2 : fwe2.has_sent_fct = s.fwe.has_sent_fct)
    (h3 : fwe2.recv_in_progress = s.fwe.recv_in_progress)
    (h4 : fwe2.inbound_read_done = s.fwe.inbound_read_done)
    (h : (fwe1, pc) = fakewire_exc_flowtx_fct fwe2) :
    (fct_emitted s s1 = true ∧
      ((∃ e c, a = exc_action.flowtx_top e c) ∨ a = exc_action.flowtx_sent) ∧
      s.fwe.state = FW_EXC_OPERATING ∧ s.fwe.inbound_buffer ≠ none ∧
      s.fwe.has_sent_fct = false ∧ s.fwe.recv_in_progress = false ∧
      s.fwe.inbound_read_done = false ∧
      (s.fwe.tx_busy = false ∨ a = exc_action.flowtx_sent) ∧
      s1.fwe = { s.fwe with tx_busy := true, has_sent_fct := true }) ∨
    (fct_emitted s s1 = false ∧ credit_kept s.fwe s1.fwe a) := by
  rcases flowtx_fct_cases fwe2 with ⟨⟨c1, c2, c3, c4, c5, c6⟩, e⟩ | ⟨_, e⟩
  · rw [e] at h
    simp only [Prod.mk.injEq] at h
    obtain ⟨e1, e2⟩ := h
    obtain ⟨k1, k2⟩ := hst c1 c2
    left
    refine ⟨?_, ha, k1, h1 ▸ c2, h2 ▸ c4, h3 ▸ c5, h4 ▸ c6, hb, ?_⟩
    · simp [fct_emitted, hpc, hp, e2]
    · rw [he, e1, k2]
  · rw [e] at h
    simp only [Prod.mk.injEq] at h
    obtain ⟨e1, e2⟩ := h
    right
    refine ⟨?_, ?_⟩
    · simp [fct_emitted, hp, e2]
    · rw [he, e1]
      exact credit_unchanged _ _ _ h2 h3 h4

/-- Each step either is flow-TX claiming the wire for a credit, from a state that passes the
credit test, or sends no credit and moves the receive flags as `credit_kept` says. -/
theorem step_credit (s s1 : exc_sys) (a : exc_action) (hi : sys_inv s)
    (h : exc_step s a = some s1) :
    (fct_emitted s s1 = true ∧
      ((∃ e c, a = exc_action.flowtx_top e c) ∨ a = exc_action.flowtx_sent) ∧
      s.fwe.state = FW_EXC_OPERATING ∧ s.fwe.inbound_buffer ≠ none ∧
      s.fwe.has_sent_fct = false ∧ s.fwe.recv_in_progress = false ∧
      s.fwe.inbound_read_done = false ∧
      (s.fwe.tx_busy = false ∨ a = exc_action.flowtx_sent) ∧
      s1.fwe = { s.fwe with tx_busy := true, has_sent_fct := true }) ∨
    (fct_emitted s s1 = false ∧ credit_kept s.fwe s1.fwe a) := by
  obtain ⟨hf, ht, _⟩ := hi
  cases a with
  | attach link_ok =>
    right
    simp only [exc_step] at h
    cases ha : fakewire_exc_attach s.fwe link_ok with
    | none => simp [ha] at h
    | some r =>
      obtain ⟨fwe1, rv⟩ := r
      simp only [ha] at h
      simp only [fakewire_exc_attach] at ha
      split_ifs at ha with c1 c2 c3
      · injection ha with ha; injection ha with ha ha'; subst ha
        split_ifs at h with c4
        · simp [c4] at c3
        · simp only [Option.some.injEq] at h
          subst h
          exact ⟨fct_emitted_same _ _ rfl, credit_unchanged _ _ _ rfl rfl rfl⟩
      · injection ha with ha; injection ha with ha ha'; subst ha
        split_ifs at h with c4
        · simp only [Option.some.injEq] at h
          subst h
          exact ⟨by simp [fct_emitted], credit_reset _ _⟩
        · simp only [Option.some.injEq] at h
          subst h
          exact ⟨fct_emitted_same _ _ rfl, credit_reset _ _⟩
  | detach_begin =>
    right
    simp only [exc_step, fakewire_exc_detach_begin] at h
    split_ifs at h
    simp only [Option.some.injEq] at h
    subst h
    exact ⟨fct_emitted_same _ _ rfl, credit_unchanged _ _ _ rfl rfl rfl⟩
  | detach_end =>
    right
    simp only [exc_step, fakewire_exc_detach_end] at h
    split_ifs at h
    simp only [Option.some.injEq] at h
    subst h
    exact ⟨fct_emitted_same _ _ rfl, credit_unchanged _ _ _ rfl rfl rfl⟩
  | recv_ctrl symbol =>
    right
    simp only [exc_step] at h
    cases ha : fakewire_exc_on_recv_ctrl s.fwe symbol with
    | none => simp [ha] at h
    | some fwe1 =>
      simp only [ha, Option.some.injEq] at h
      subst h
      exact ⟨fct_emitted_same _ _ rfl, on_recv_ctrl_credit _ _ _ ha⟩
  | recv_data bytes_in =>
    right
    simp only [exc_step] at h
    cases ha : fakewire_exc_on_recv_data s.fwe bytes_in with
    | none => simp [ha] at h
    | some fwe1 =>
      simp only [ha, Option.some.injEq] at h
      subst h
      exact ⟨fct_emitted_same _ _ rfl, on_recv_data_credit _ _ _ ha⟩
  | read_outer packet_out packet_max =>
    right
    simp only [exc_step] at h
    cases ha : fakewire_exc_read_outer s.fwe packet_out packet_max with
    | none => simp [ha] at h
    | some r =>
      obtain ⟨fwe1, rpc⟩ := r
      simp only [ha, Option.some.injEq] at h
      subst h
      exact ⟨fct_emitted_same _ _ rfl, read_outer_credit _ _ _ _ _ _ ha⟩
  | read_inner packet_out packet_max =>
    right
    simp only [exc_step] at h
    cases ha : fakewire_exc_read_inner s.fwe packet_out packet_max with
    | none => simp [ha] at h
    | some r =>
      obtain ⟨fwe1, rpc⟩ := r
      simp only [ha, Option.some.injEq] at h
      subst h
      exact ⟨fct_emitted_same _ _ rfl, read_inner_credit _ _ _ _ _ _ hf ha⟩
  | write_begin =>
    right
    simp only [exc_step] at h
    cases ha : fakewire_exc_write_begin s.fwe with
    | none => simp [ha] at h
    | some r =>
      obtain ⟨fwe1, wpc⟩ := r
      simp only [ha] at h
      simp only [fakewire_exc_write_begin] at ha
      split_ifs at ha <;> injection ha with ha <;> injection ha with ha ha' <;>
        subst ha ha' <;> simp only [Option.some.injEq] at h <;> subst h <;>
        exact ⟨fct_emitted_same _ _ rfl, credit_unchanged _ _ _ rfl rfl rfl⟩
  | write_end =>
    right
    simp only [exc_step, fakewire_exc_write_end] at h
    split_ifs at h
    simp only [Option.some.injEq] at h
    subst h
    exact ⟨fct_emitted_same _ _ rfl, credit_unchanged _ _ _ rfl rfl rfl⟩
  | flowtx_top expired clock =>
    simp only [exc_step] at h
    split_ifs at h with c0
    have hidle : s.flowtx = flowtx_pc.idle := by simpa using c0
    cases ha : fakewire_exc_flowtx_top s.fwe expired clock with
    | none => simp [ha] at h
    | some r =>
      obtain ⟨fwe1, pc1⟩ := r
      simp only [ha, Option.some.injEq] at h
      subst h
      rcases flowtx_top_cases _ _ _ _ _ ha with ⟨_, e1, e2⟩ | ⟨_, _, _, e1, e2⟩ |
        ⟨_, _, _, _, e1, e2⟩ | ⟨_, e⟩
      · subst e1 e2
        exact Or.inr ⟨by simp [fct_emitted], credit_unchanged _ _ _ rfl rfl rfl⟩
      · subst e1 e2
        exact Or.inr ⟨by simp [fct_emitted], credit_unchanged _ _ _ rfl rfl rfl⟩
      · subst e1 e2
        exact Or.inr ⟨by simp [fct_emitted], credit_unchanged _ _ _ rfl rfl rfl⟩
      · by_cases hb : s.fwe.tx_busy = false
        · exact flowtx_after_credit s { s with fwe := fwe1, flowtx := pc1 } s.fwe fwe1 pc1 _
            (by rw [hidle]; simp) rfl rfl
            (Or.inl ⟨expired, clock, rfl⟩) (Or.inl hb) (fun k _ => ⟨k, rfl⟩) rfl rfl rfl rfl e
        · rcases flowtx_fct_cases s.fwe with ⟨⟨_, _, c3, _⟩, _⟩ | ⟨_, e3⟩
          · exact absurd c3 hb
          · rw [e3] at e
            simp only [Prod.mk.injEq] at e
            obtain ⟨e1, e2⟩ := e
            subst e1 e2
            exact Or.inr ⟨by simp [fct_emitted], credit_unchanged _ _ _ rfl rfl rfl⟩
  | flowtx_sent =>
    simp only [exc_step] at h
    cases hpc : s.flowtx with
    | not_started => simp [hpc] at h
    | idle => simp [hpc] at h
    | exited => simp [hpc] at h
    | tx_fct =>
      simp only [hpc, fakewire_exc_flowtx_fct_sent] at h
      split_ifs at h
      simp only [Option.some.injEq] at h
      subst h
      exact Or.inr ⟨by simp [fct_emitted], credit_unchanged _ _ _ rfl rfl rfl⟩
    | tx_primary =>
      simp only [hpc, fakewire_exc_flowtx_primary_sent] at h
      split_ifs at h
      cases hr : fakewire_exc_flowtx_fct { s.fwe with tx_busy := false } with
      | mk fwe1 pc1 =>
        simp only [hr, Option.some.injEq] at h
        subst h
        exact flowtx_after_credit s _ { s.fwe with tx_busy := false } fwe1 pc1 _
          (by rw [hpc]; simp) rfl rfl (Or.inr rfl) (Or.inr rfl) (fun k _ => ⟨k, rfl⟩)
          rfl rfl rfl rfl hr.symm
    | tx_secondary handshake_id =>
      simp only [hpc, fakewire_exc_flowtx_secondary_sent] at h
      split_ifs at h with c1 c2 c3 c4
      · cases hr : fakewire_exc_flowtx_fct { s.fwe with tx_busy := false } with
        | mk fwe1 pc1 =>
          simp only [hr, Option.some.injEq] at h
          subst h
          exact flowtx_after_credit s _ { s.fwe with tx_busy := false } fwe1 pc1 _
            (by rw [hpc]; simp) rfl rfl (Or.inr rfl) (Or.inr rfl) (fun k _ => ⟨k, rfl⟩)
            rfl rfl rfl rfl hr.symm
      · cases hr : fakewire_exc_flowtx_fct { s.fwe with tx_busy := false } with
        | mk fwe1 pc1 =>
          simp only [hr, Option.some.injEq] at h
          subst h
          exact flowtx_after_credit s _ { s.fwe with tx_busy := false } fwe1 pc1 _
            (by rw [hpc]; simp) rfl rfl (Or.inr rfl) (Or.inr rfl) (fun k _ => ⟨k, rfl⟩)
            rfl rfl rfl rfl hr.symm
      · cases hr : fakewire_exc_flowtx_fct { s.fwe with tx_busy := false } with
        | mk fwe1 pc1 =>
          simp only [hr, Option.some.injEq] at h
          subst h
          exact flowtx_after_credit s _ { s.fwe with tx_busy := false } fwe1 pc1 _
            (by rw [hpc]; simp) rfl rfl (Or.inr rfl) (Or.inr rfl) (fun k _ => ⟨k, rfl⟩)
            rfl rfl rfl rfl hr.symm
      · have hcon : s.fwe.state = FW_EXC_CONNECTING := by simpa using c4
        have hbuf : s.fwe.inbound_buffer = none := (hf.2.2.2.2.1 (Or.inl hcon)).2.2.2.2
        cases hr : fakewire_exc_flowtx_fct { s.fwe with tx_busy := false, state := FW_EXC_OPERATING, send_secondary_handshake := false } with
        | mk fwe1 pc1 =>
          simp only [hr, Option.some.injEq] at h
          subst h
          exact flowtx_after_credit s _ { s.fwe with tx_busy := false, state := FW_EXC_OPERATING, send_secondary_handshake := false } fwe1 pc1 _
            (by rw [hpc]; simp) rfl rfl (Or.inr rfl) (Or.inr rfl)
            (fun _ k => absurd hbuf k) rfl rfl rfl rfl hr.symm

/-- The count of credits sent for the registered buffer stays at most 1, and is 0 while no
buffer is registered or the registered buffer is still waiting for its credit. -/
theorem counting_step (s s1 : exc_sys) (a : exc_action) (n : Nat) (hi : sys_inv s)
    (hn : n ≤ 1 ∧ (s.fwe.inbound_buffer = none ∨ (s.fwe.has_sent_fct = false ∧
      s.fwe.recv_in_progress = false ∧ s.fwe.inbound_read_done = false) → n = 0))
    (h : exc_step s a = some s1) :
    fcts_for_buffer_step n s s1 ≤ 1 ∧
      (s1.fwe.inbound_buffer = none ∨ (s1.fwe.has_sent_fct = false ∧
        s1.fwe.recv_in_progress = false ∧ s1.fwe.inbound_read_done = false) →
        fcts_for_buffer_step n s s1 = 0) := by
  obtain ⟨hn1, hn2⟩ := hn
  rcases step_credit s s1 a hi h with ⟨he, _, _, c2, c3, c4, c5, _, e⟩ | ⟨he, k1, k2, _⟩
  · have h0 : n = 0 := hn2 (Or.inr ⟨c3, c4, c5⟩)
    have hb : s1.fwe.inbound_buffer ≠ none := by rw [e]; exact c2
    have hs : s1.fwe.has_sent_fct = true := by rw [e]
    simp only [fcts_for_buffer_step, hb, he, h0, if_false, if_true]
    refine ⟨Nat.le_refl _, fun hp => ?_⟩
    rcases hp with hp | ⟨hp, _⟩
    · exact hp.elim
    · rw [hs] at hp
      exact absurd hp (by simp)
  · by_cases hb : s1.fwe.inbound_buffer = none
    · simp [fcts_for_buffer_step, hb]
    · simp only [fcts_for_buffer_step, hb, he, if_false, Bool.false_eq_true]
      refine ⟨hn1, fun hp => ?_⟩
      rcases hp with hp | ⟨p1, p2, p3⟩
      · exact hp.elim
      · rcases k2 with k | k | k | k | ⟨q1, q2, q3⟩
        · exact absurd k hb
        · exact hn2 (Or.inl k)
        · rw [p2] at k
          exact absurd k (by simp)
        · rw [p3] at k
          exact absurd k (by simp)
        · exact hn2 (Or.inr ⟨q1 ▸ p1, q2 ▸ p2, q3 ▸ p3⟩)

/-- A run with the credits counted is a run of the exchange, and the count stays at most 1. -/
theorem counting_run (acts : List exc_action) :
    ∀ (s : exc_sys) (n : Nat), sys_inv s →
      (n ≤ 1 ∧ (s.fwe.inbound_buffer = none ∨ (s.fwe.has_sent_fct = false ∧
        s.fwe.recv_in_progress = false ∧ s.fwe.inbound_read_done = false) → n = 0)) →
      ∀ (s1 : exc_sys) (n1 : Nat), exc_run_counting s n acts = some (s1, n1) →
        exc_run s acts = some s1 ∧ sys_inv s1 ∧ n1 ≤ 1 := by
  induction acts with
  | nil =>
    intro s n hi hn s1 n1 h
    simp only [exc_run_counting, Option.some.injEq, Prod.mk.injEq] at h
    obtain ⟨h1, h2⟩ := h
    subst h1 h2
    exact ⟨rfl, hi, hn.1⟩
  | cons a rest ih =>
    intro s n hi hn s1 n1 h
    simp only [exc_run_counting] at h
    cases hs : exc_step s a with
    | none => simp [hs] at h
    | some s2 =>
      simp only [hs] at h
      obtain ⟨r1, r2, r3⟩ := ih s2 (fcts_for_buffer_step n s s2) (step_inv s s2 a hi hs)
        (counting_step s s2 a n hi hn hs) s1 n1 h
      refine ⟨?_, r2, r3⟩
      simp only [exc_run, hs]
      exact r1

/-- On symbols that fit a byte, `fakewire_enc_encode_ctrl` fails exactly on `ESCAPE_SYM`, on
symbols outside `0x80..0x85`, and on a nonzero parameter with a symbol that takes none. -/
theorem enc_ctrl_fails_iff (fwe : fw_encoder_t) (symbol param : Nat)
    (hlen : fwe.enc_buffer.length = FSW_ENCODING_BUF_SIZE)
    (hidx : fwe.enc_idx ≤ FSW_ENCODING_BUF_SIZE) (hsym : symbol < 256) :
    fakewire_enc_encode_ctrl fwe symbol param = none ↔
      (symbol = FWC_ESCAPE_SYM ∨ ¬ (0x80 ≤ symbol ∧ symbol ≤ 0x85) ∨
        (param ≠ 0 ∧ symbol ≠ FWC_HANDSHAKE_1 ∧ symbol ≠ FWC_HANDSHAKE_2)) := by
  have hmod : symbol % 256 = symbol := Nat.mod_eq_of_lt hsym
  by_cases hr : 0x80 ≤ symbol ∧ symbol ≤ 0x85
  · obtain ⟨h1, h2⟩ := hr
    have hcases : symbol = FWC_HANDSHAKE_1 ∨ symbol = FWC_HANDSHAKE_2 ∨
        symbol = FWC_START_PACKET ∨ symbol = FWC_END_PACKET ∨ symbol = FWC_ERROR_PACKET ∨
        symbol = FWC_FLOW_CONTROL := by
      simp only [FWC_HANDSHAKE_1, FWC_HANDSHAKE_2, FWC_START_PACKET, FWC_END_PACKET,
        FWC_ERROR_PACKET, FWC_FLOW_CONTROL]
      omega
    rcases hcases with hc | hc | hc
    · obtain ⟨_, _, he, _⟩ := enc_ctrl_param_spec fwe symbol param (Or.inl hc) hlen hidx
      rw [he]
      subst hc
      simp [FWC_HANDSHAKE_1, FWC_ESCAPE_SYM]
    · obtain ⟨_, _, he, _⟩ := enc_ctrl_param_spec fwe symbol param (Or.inr hc) hlen hidx
      rw [he]
      subst hc
      simp [FWC_HANDSHAKE_2, FWC_ESCAPE_SYM]
    · by_cases hp : param = 0
      · subst hp
        obtain ⟨_, _, he, _⟩ := enc_ctrl_plain_spec fwe symbol hc hlen hidx
        rw [he]
        simp only [FWC_ESCAPE_SYM, FWC_START_PACKET, FWC_END_PACKET, FWC_ERROR_PACKET,
          FWC_FLOW_CONTROL] at hc ⊢
        simp
        omega
      · obtain ⟨hs, hne, hpl, _⟩ := is_parametrized_plain symbol hc
        have hfail : fakewire_enc_encode_ctrl fwe symbol param = none := by
          simp [fakewire_enc_encode_ctrl, hs, hne, hpl, hp]
        rw [hfail]
        simp only [FWC_ESCAPE_SYM, FWC_HANDSHAKE_1, FWC_HANDSHAKE_2, FWC_START_PACKET,
          FWC_END_PACKET, FWC_ERROR_PACKET, FWC_FLOW_CONTROL] at hc ⊢
        simp
        omega
  · have hfail : fakewire_enc_encode_ctrl fwe symbol param = none := by
      have hsp : ¬ (fakewire_is_special (symbol % 256) = true ∧ symbol ≠ FWC_ESCAPE_SYM) := by
        rw [hmod, is_special_iff]
        simp only [FWC_ESCAPE_SYM]
        omega
      simp only [fakewire_enc_encode_ctrl, hsp, not_false_eq_true, if_true]
    rw [hfail]
    simp [hr]

/-! ## Claims on received events, flow-TX and the lifecycle -/

/-- C21 as stated fails: after `sched_secondary_detached` the detach is complete, the state
is DISCONNECTED, and `send_secondary_handshake` is still set. -/
theorem C21_counterexample :
    (exc_run exc_sys_init sched_secondary_detached).map
        (fun s => (s.fwe.state, s.fwe.detaching, s.fwe.send_secondary_handshake)) =
      some (FW_EXC_DISCONNECTED, false, true) := by
  decide

/-- C21, as amended: in every state reachable from init through attach, detach, received
events, flow-TX steps and client calls, `send_secondary_handshake` implies
state = CONNECTING or state = DISCONNECTED; a detach sets the state to DISCONNECTED and
leaves `send_secondary_handshake` as it was. -/
theorem C21_secondary_only_connecting (acts : List exc_action) (s : exc_sys)
    (h : exc_run exc_sys_init acts = some s) :
    (s.fwe.send_secondary_handshake = true →
        s.fwe.state = FW_EXC_CONNECTING ∨ s.fwe.state = FW_EXC_DISCONNECTED) ∧
      (∀ s1, exc_step s exc_action.detach_begin = some s1 →
        s1.fwe.state = FW_EXC_DISCONNECTED ∧
          s1.fwe.send_secondary_handshake = s.fwe.send_secondary_handshake) := by
  obtain ⟨hf, _, _⟩ := reachable_inv acts s h
  obtain ⟨f1, _, _, _, _, _, f7, _⟩ := hf
  refine ⟨fun hs => ?_, ?_⟩
  · have := f7 hs
    cases hst : s.fwe.state <;> simp_all
  · intro s1 hs
    obtain ⟨fwe, pc, w, pk, fc⟩ := s
    simp only [exc_step, fakewire_exc_detach_begin] at hs
    split_ifs at hs
    simp only [Option.some.injEq] at hs
    subst hs
    exact ⟨rfl, rfl⟩

/-- C21 as amended, on a concrete schedule in which a secondary handshake is owed. -/
theorem C21_secondary_only_connecting_witness :
    ∃ s, exc_run exc_sys_init sched_secondary = some s ∧
      (s.fwe.send_secondary_handshake = true →
        s.fwe.state = FW_EXC_CONNECTING ∨ s.fwe.state = FW_EXC_DISCONNECTED) ∧
      (∀ s1, exc_step s exc_action.detach_begin = some s1 →
        s1.fwe.state = FW_EXC_DISCONNECTED ∧
          s1.fwe.send_secondary_handshake = s.fwe.send_secondary_handshake) := by
  obtain ⟨s, hs⟩ : ∃ s, exc_run exc_sys_init sched_secondary = some s := ⟨_, rfl⟩
  exact ⟨s, hs, C21_secondary_only_connecting sched_secondary s hs⟩

/-- C22: in a reachable state that is OPERATING, `FLOW_CONTROL` received while
`remote_sent_fct` is false sets `remote_sent_fct` and changes nothing else (the state stays
OPERATING); `FLOW_CONTROL` received while `remote_sent_fct` is true resets the exchange,
which is then CONNECTING. -/
theorem C22_flow_control_received (acts : List exc_action) (s : exc_sys)
    (h : exc_run exc_sys_init acts = some s) (hst : s.fwe.state = FW_EXC_OPERATING) :
    (s.fwe.remote_sent_fct = false →
        fakewire_exc_on_recv_ctrl s.fwe FWC_FLOW_CONTROL =
            some { s.fwe with remote_sent_fct := true } ∧
          ({ s.fwe with remote_sent_fct := true } : fw_exchange_t).state = FW_EXC_OPERATING) ∧
      (s.fwe.remote_sent_fct = true →
        fakewire_exc_on_recv_ctrl s.fwe FWC_FLOW_CONTROL = some (fakewire_exc_reset s.fwe) ∧
          (fakewire_exc_reset s.fwe).state = FW_EXC_CONNECTING ∧
          (fakewire_exc_reset s.fwe).remote_sent_fct = false) := by
  obtain ⟨hf, _, _⟩ := reachable_inv acts s h
  obtain ⟨fwe, pc, w, pk, fc⟩ := s
  obtain ⟨st, txb, det, sid, rid, isr, ss, off, buf, boff, bmax, done, hs, rs, rip⟩ := fwe
  simp only [flags_inv] at hf
  simp only at hst
  subst hst
  have hr : isr = false := by
    cases isr
    · rfl
    · exact absurd rfl (hf.2.2.2.2.2.1 rfl).1
  subst hr
  refine ⟨fun hrs => ?_, fun hrs => ?_⟩
  · simp only at hrs
    subst hrs
    simp [fakewire_exc_on_recv_ctrl, fakewire_exc_check_invariants]
  · simp only at hrs
    subst hrs
    simp [fakewire_exc_on_recv_ctrl, fakewire_exc_check_invariants, fakewire_exc_reset]

/-- C22 on a concrete schedule that ends in OPERATING with no credit held. -/
theorem C22_flow_control_received_witness :
    ∃ s, exc_run exc_sys_init sched_operating = some s ∧ s.fwe.state = FW_EXC_OPERATING ∧
      (s.fwe.remote_sent_fct = false →
        fakewire_exc_on_recv_ctrl s.fwe FWC_FLOW_CONTROL =
            some { s.fwe with remote_sent_fct := true } ∧
          ({ s.fwe with remote_sent_fct := true } : fw_exchange_t).state = FW_EXC_OPERATING) ∧
      (s.fwe.remote_sent_fct = true →
        fakewire_exc_on_recv_ctrl s.fwe FWC_FLOW_CONTROL = some (fakewire_exc_reset s.fwe) ∧
          (fakewire_exc_reset s.fwe).state = FW_EXC_CONNECTING ∧
          (fakewire_exc_reset s.fwe).remote_sent_fct = false) := by
  obtain ⟨s, hs⟩ : ∃ s, exc_run exc_sys_init sched_operating = some s := ⟨_, rfl⟩
  have hv : (exc_run exc_sys_init sched_operating).map (fun s => s.fwe.state) =
      some FW_EXC_OPERATING := by decide
  rw [hs] at hv
  simp only [Option.map_some', Option.some.injEq] at hv
  exact ⟨s, hs, hv, C22_flow_control_received sched_operating s hs hv⟩

/-- C23: the credit test of the flow-TX loop passes exactly when state = OPERATING, a buffer
is registered, and `tx_busy`, `has_sent_fct`, `recv_in_progress` and `inbound_read_done` are
all false, and passing it sets `tx_busy` and `has_sent_fct` and nothing else. Along every
run from init (`n` counts the credits sent for the buffer that is registered): a step in
which flow-TX claims the wire for `FLOW_CONTROL` is a flow-TX step from a state that is
OPERATING with a buffer registered and the three receive flags clear, the wire being free or
just released by flow-TX itself; when flow-TX is idle and the test holds, its next step
sends the credit; after the emission `tx_busy` is cleared and `has_sent_fct` left as it is;
`has_sent_fct` is cleared only by a `START_PACKET` that starts a reception or by a reset;
and at most one credit is sent per registered buffer. -/
theorem C23_flow_control_emission (acts : List exc_action) (s : exc_sys) (n : Nat)
    (h : exc_run_counting exc_sys_init 0 acts = some (s, n)) :
    (∀ fwe : fw_exchange_t,
        ((fakewire_exc_flowtx_fct fwe).2 = flowtx_pc.tx_fct ↔
          (fwe.state = FW_EXC_OPERATING ∧ fwe.inbound_buffer ≠ none ∧ fwe.tx_busy = false ∧
            fwe.has_sent_fct = false ∧ fwe.recv_in_progress = false ∧
            fwe.inbound_read_done = false)) ∧
        ((fakewire_exc_flowtx_fct fwe).2 = flowtx_pc.tx_fct →
          (fakewire_exc_flowtx_fct fwe).1 = { fwe with tx_busy := true, has_sent_fct := true }) ∧
        ((fakewire_exc_flowtx_fct fwe).2 ≠ flowtx_pc.tx_fct →
          fakewire_exc_flowtx_fct fwe = (fwe, flowtx_pc.idle))) ∧
      (∀ a s1, exc_step s a = some s1 → fct_emitted s s1 = true →
        ((∃ e c, a = exc_action.flowtx_top e c) ∨ a = exc_action.flowtx_sent) ∧
          s.fwe.state = FW_EXC_OPERATING ∧ s.fwe.inbound_buffer ≠ none ∧
          s.fwe.has_sent_fct = false ∧ s.fwe.recv_in_progress = false ∧
          s.fwe.inbound_read_done = false ∧
          (s.fwe.tx_busy = false ∨ a = exc_action.flowtx_sent) ∧
          s1.fwe = { s.fwe with tx_busy := true, has_sent_fct := true }) ∧
      (s.flowtx = flowtx_pc.idle → s.fwe.state = FW_EXC_OPERATING →
        s.fwe.inbound_buffer ≠ none → s.fwe.tx_busy = false → s.fwe.has_sent_fct = false →
        s.fwe.recv_in_progress = false → s.fwe.inbound_read_done = false →
        ∀ e c, ∃ s1, exc_step s (exc_action.flowtx_top e c) = some s1 ∧
          fct_emitted s s1 = true ∧ s1.flowtx = flowtx_pc.tx_fct) ∧
      (s.flowtx = flowtx_pc.tx_fct →
        ∃ s1, exc_step s exc_action.flowtx_sent = some s1 ∧ s.fwe.tx_busy = true ∧
          s1.fwe.tx_busy = false ∧ s1.fwe.has_sent_fct = s.fwe.has_sent_fct ∧
          s1.flowtx = flowtx_pc.idle) ∧
      (∀ a s1, exc_step s a = some s1 → s.fwe.has_sent_fct = true →
        s1.fwe.has_sent_fct = false →
        (a = exc_action.recv_ctrl FWC_START_PACKET ∧ s1.fwe.recv_in_progress = true ∧
            s1.fwe.state = FW_EXC_OPERATING) ∨
          s1.fwe = fakewire_exc_reset s.fwe ∨
          s1.fwe = { fakewire_exc_reset s.fwe with
            is_recv_handshake_id := true, recv_handshake_offset := 0 }) ∧
      n ≤ 1 := by
  obtain ⟨hrun, hi, hn⟩ := counting_run acts exc_sys_init 0 init_inv
    ⟨Nat.zero_le _, fun _ => rfl⟩ s n h
  refine ⟨fun fwe => ?_, fun a s1 hs he => ?_, ?_, ?_, fun a s1 hs h1 h2 => ?_, hn⟩
  · rcases flowtx_fct_cases fwe with ⟨c, e⟩ | ⟨c, e⟩
    · rw [e]
      exact ⟨⟨fun _ => c, fun _ => rfl⟩, fun _ => rfl, fun k => absurd rfl k⟩
    · rw [e]
      exact ⟨⟨fun k => absurd k (by simp), fun k => absurd k c⟩,
        fun k => absurd k (by simp), fun _ => rfl⟩
  · rcases step_credit s s1 a hi hs with ⟨_, k⟩ | ⟨k, _⟩
    · exact k
    · rw [k] at he
      exact absurd he (by simp)
  · intro hidle c1 c2 c3 c4 c5 c6 e c
    obtain ⟨fwe, pc, w, pk, fc⟩ := s
    simp only at hidle c1 c2 c3 c4 c5 c6
    subst hidle
    have hfct : fakewire_exc_flowtx_fct fwe =
        ({ fwe with tx_busy := true, has_sent_fct := true }, flowtx_pc.tx_fct) := by
      rcases flowtx_fct_cases fwe with ⟨_, k⟩ | ⟨k, _⟩
      · exact k
      · exact absurd ⟨c1, c2, c3, c4, c5, c6⟩ k
    have htop : fakewire_exc_flowtx_top fwe e c =
        some ({ fwe with tx_busy := true, has_sent_fct := true }, flowtx_pc.tx_fct) := by
      simp only [fakewire_exc_flowtx_top, fakewire_exc_check_invariants, c1, hfct]
      simp
    refine ⟨⟨{ fwe with tx_busy := true, has_sent_fct := true }, flowtx_pc.tx_fct, w, pk, fc⟩,
      ?_, ?_, rfl⟩
    · simp only [exc_step, htop, ne_eq, not_true_eq_false, if_false]
    · simp [fct_emitted]
  · intro hpc
    obtain ⟨_, ht, _⟩ := hi
    obtain ⟨fwe, pc, w, pk, fc⟩ := s
    simp only at hpc
    subst hpc
    simp only [thread_inv, tx_holders, flowtx_pc.sending, if_true] at ht
    have hb : fwe.tx_busy = true := ht.2.2.2 (by omega)
    refine ⟨⟨{ fwe with tx_busy := false }, flowtx_pc.idle, w, pk, fc⟩, ?_, hb, rfl, rfl, rfl⟩
    simp [exc_step, fakewire_exc_flowtx_fct_sent, hb]
  · rcases step_credit s s1 a hi hs with ⟨_, _, _, _, k, _⟩ | ⟨_, _, _, k⟩
    · rw [h1] at k
      exact absurd k (by simp)
    · exact k h1 h2

/-- C23 on a concrete schedule: flow-TX has claimed the wire to send the credit for a
registered buffer, which is the one credit counted. -/
theorem C23_flow_control_emission_witness :
    ∃ s n, exc_run_counting exc_sys_init 0 sched_fct_sending = some (s, n) ∧
      s.flowtx = flowtx_pc.tx_fct ∧ s.fwe.has_sent_fct = true ∧ n = 1 ∧
      (∃ s1, exc_step s exc_action.flowtx_sent = some s1 ∧ s.fwe.tx_busy = true ∧
        s1.fwe.tx_busy = false ∧ s1.fwe.has_sent_fct = s.fwe.has_sent_fct ∧
        s1.flowtx = flowtx_pc.idle) ∧
      n ≤ 1 := by
  obtain ⟨p, hp⟩ : ∃ p, exc_run_counting exc_sys_init 0 sched_fct_sending = some p := ⟨_, rfl⟩
  have hv : (exc_run_counting exc_sys_init 0 sched_fct_sending).map
      (fun p => (p.1.flowtx, p.1.fwe.has_sent_fct, p.2)) =
      some (flowtx_pc.tx_fct, true, 1) := by decide
  rw [hp] at hv
  obtain ⟨s, n⟩ := p
  simp only [Option.map_some', Option.some.injEq, Prod.mk.injEq] at hv
  have key := C23_flow_control_emission sched_fct_sending s n hp
  exact ⟨s, n, hp, hv.1, hv.2.1, hv.2.2, key.2.2.2.1 hv.1, key.2.2.2.2.2⟩

/-- C24: when flow-TX elects to send a primary handshake (state CONNECTING or HANDSHAKING,
`tx_busy` clear, `send_secondary_handshake` clear, the handshake timer expired), the state
becomes HANDSHAKING and the wire is claimed for `HANDSHAKE_1`; for every clock value `t` the
big-endian value of the bytes of `send_handshake_id`, which are the bytes sent, is below
`2 ^ 32`, has bit 31 set, and has the low 31 bits of `t` as its low 31 bits. -/
theorem C24_primary_handshake_id (fwe : fw_exchange_t) (t : Nat)
    (hst : fwe.state = FW_EXC_CONNECTING ∨ fwe.state = FW_EXC_HANDSHAKING)
    (hb : fwe.tx_busy = false) (hs : fwe.send_secondary_handshake = false) :
    ∃ fwe1, fakewire_exc_flowtx_top fwe true t = some (fwe1, flowtx_pc.tx_primary) ∧
      fwe1.state = FW_EXC_HANDSHAKING ∧ fwe1.tx_busy = true ∧
      fwe1.send_handshake_id = primary_handshake_id t ∧
      fwe1.send_handshake_id.length = 4 ∧
      be32toh fwe1.send_handshake_id < 2 ^ 32 ∧
      be32toh fwe1.send_handshake_id / 2 ^ 31 = 1 ∧
      be32toh fwe1.send_handshake_id % 2 ^ 31 = t % 2 ^ 31 := by
  have hv := primary_handshake_id_value t
  refine ⟨{ fwe with send_handshake_id := primary_handshake_id t,
                     state := FW_EXC_HANDSHAKING, tx_busy := true }, ?_, rfl, rfl, rfl, ?_, ?_, ?_, ?_⟩
  · obtain ⟨st, txb, det, sid, rid, isr, ss, off, buf, boff, bmax, done, hsf, rs, rip⟩ := fwe
    simp only at hst hb hs
    subst hb
    subst hs
    rcases hst with hst | hst <;> subst hst <;>
      simp [fakewire_exc_flowtx_top, fakewire_exc_check_invariants]
  · simp [primary_handshake_id, htobe32]
  · simp only [hv]; omega
  · simp only [hv]; omega
  · simp only [hv]; omega

/-- C24 on a concrete input: the exchange right after a reset, clock value `0x1_8765_4321`. -/
theorem C24_primary_handshake_id_witness :
    ∃ fwe1, fakewire_exc_flowtx_top (fakewire_exc_reset fakewire_exc_init) true 0x187654321 =
        some (fwe1, flowtx_pc.tx_primary) ∧
      fwe1.state = FW_EXC_HANDSHAKING ∧ fwe1.tx_busy = true ∧
      fwe1.send_handshake_id = primary_handshake_id 0x187654321 ∧
      fwe1.send_handshake_id.length = 4 ∧
      be32toh fwe1.send_handshake_id < 2 ^ 32 ∧
      be32toh fwe1.send_handshake_id / 2 ^ 31 = 1 ∧
      be32toh fwe1.send_handshake_id % 2 ^ 31 = 0x187654321 % 2 ^ 31 :=
  C24_primary_handshake_id (fakewire_exc_reset fakewire_exc_init) 0x187654321 (Or.inl rfl) rfl rfl

/-- C25: for every value `rand()` returns, `handshake_period` returns a value `v` with
`3_000_000 <= v < 10_000_000` (nanoseconds). -/
theorem C25_handshake_period_range (rand : Int) :
    3000000 ≤ handshake_period rand ∧ handshake_period rand < 10000000 := by
  simp only [handshake_period]
  norm_num
  omega

/-- C26: in a reachable state that is OPERATING with `recv_in_progress` set, `ERROR_PACKET`
sets `inbound_buffer_offset` to 0 and changes nothing else: `recv_in_progress` stays true,
the buffer stays registered, `inbound_read_done` stays false and the state stays
OPERATING. -/
theorem C26_error_packet_discards (acts : List exc_action) (s : exc_sys)
    (h : exc_run exc_sys_init acts = some s) (hst : s.fwe.state = FW_EXC_OPERATING)
    (hrip : s.fwe.recv_in_progress = true) :
    ∃ fwe1, fakewire_exc_on_recv_ctrl s.fwe FWC_ERROR_PACKET = some fwe1 ∧
      fwe1 = { s.fwe with inbound_buffer_offset := 0 } ∧
      fwe1.inbound_buffer_offset = 0 ∧ fwe1.recv_in_progress = true ∧
      fwe1.inbound_buffer = s.fwe.inbound_buffer ∧ fwe1.inbound_buffer ≠ none ∧
      fwe1.inbound_read_done = false ∧ fwe1.state = FW_EXC_OPERATING := by
  obtain ⟨hf, _, _⟩ := reachable_inv acts s h
  obtain ⟨fwe, pc, w, pk, fc⟩ := s
  obtain ⟨st, txb, det, sid, rid, isr, ss, off, buf, boff, bmax, done, hs, rs, rip⟩ := fwe
  simp only [flags_inv] at hf
  simp only at hst hrip
  subst hst
  subst hrip
  obtain ⟨f1, f2, f3, f4, f5, f6, f7, f8⟩ := hf
  have hr : isr = false := by
    cases isr
    · rfl
    · exact absurd rfl (f6 rfl).1
  subst hr
  obtain ⟨g1, g2, g3⟩ := f4 rfl
  subst g2
  refine ⟨_, ?_, rfl, rfl, rfl, rfl, g1, rfl, rfl⟩
  simp [fakewire_exc_on_recv_ctrl, fakewire_exc_check_invariants, g1]

/-- C26 on a concrete schedule, in which two bytes of a packet have been received. -/
theorem C26_error_packet_discards_witness :
    ∃ s, exc_run exc_sys_init sched_receiving = some s ∧
      s.fwe.state = FW_EXC_OPERATING ∧ s.fwe.recv_in_progress = true ∧
      s.fwe.inbound_buffer_offset = 2 ∧
      ∃ fwe1, fakewire_exc_on_recv_ctrl s.fwe FWC_ERROR_PACKET = some fwe1 ∧
        fwe1 = { s.fwe with inbound_buffer_offset := 0 } ∧
        fwe1.inbound_buffer_offset = 0 ∧ fwe1.recv_in_progress = true ∧
        fwe1.inbound_buffer = s.fwe.inbound_buffer ∧ fwe1.inbound_buffer ≠ none ∧
        fwe1.inbound_read_done = false ∧ fwe1.state = FW_EXC_OPERATING := by
  obtain ⟨s, hs⟩ : ∃ s, exc_run exc_sys_init sched_receiving = some s := ⟨_, rfl⟩
  have hv : (exc_run exc_sys_init sched_receiving).map
      (fun s => (s.fwe.state, s.fwe.recv_in_progress, s.fwe.inbound_buffer_offset)) =
      some (FW_EXC_OPERATING, true, 2) := by decide
  rw [hs] at hv
  simp only [Option.map_some', Option.some.injEq, Prod.mk.injEq] at hv
  exact ⟨s, hs, hv.1, hv.2.1, hv.2.2,
    C26_error_packet_discards sched_receiving s hs hv.1 hv.2.1⟩

/-- C27: on a DISCONNECTED exchange `fakewire_exc_read` returns `-1` and leaves the exchange
as it is (no buffer is registered), and `fakewire_exc_write` returns `-1` and leaves the
exchange as it is (`tx_busy` and `remote_sent_fct` untouched). In a reachable state that is
not DISCONNECTED the first critical section of a write does not return: it waits, or it
claims the wire; and a write that has claimed the wire returns 0. -/
theorem C27_disconnected_calls (acts : List exc_action) (s : exc_sys)
    (packet_out packet_max : Nat) (h : exc_run exc_sys_init acts = some s) :
    (s.fwe.state = FW_EXC_DISCONNECTED →
        fakewire_exc_read_outer s.fwe packet_out packet_max =
            some (s.fwe, read_pc.returned_disconnected) ∧
          fakewire_exc_read_inner s.fwe packet_out packet_max =
            some (s.fwe, read_pc.returned_disconnected) ∧
          read_pc.returned_value read_pc.returned_disconnected = some (-1) ∧
          fakewire_exc_write_begin s.fwe = some (s.fwe, write_pc.returned_disconnected) ∧
          write_pc.returned_value write_pc.returned_disconnected = some (-1)) ∧
      (s.fwe.state ≠ FW_EXC_DISCONNECTED →
        ∃ fwe1 pc, fakewire_exc_write_begin s.fwe = some (fwe1, pc) ∧
          write_pc.returned_value pc = none ∧
          ((pc = write_pc.waiting ∧ fwe1 = s.fwe) ∨
            (pc = write_pc.transmitting ∧ fwe1.tx_busy = true))) ∧
      (0 < s.writers_tx →
        ∃ fwe1, fakewire_exc_write_finish s.fwe = some (fwe1, 0) ∧ fwe1.tx_busy = false) := by
  obtain ⟨hf, ht, _⟩ := reachable_inv acts s h
  obtain ⟨fwe, pc, w, pk, fc⟩ := s
  obtain ⟨st, txb, det, sid, rid, isr, ss, off, buf, boff, bmax, done, hs, rs, rip⟩ := fwe
  simp only [flags_inv] at hf
  simp only [thread_inv, tx_holders] at ht
  refine ⟨fun hst => ?_, fun hst => ?_, fun hw => ?_⟩
  · simp only at hst
    subst hst
    refine ⟨?_, ?_, rfl, ?_, rfl⟩
    · simp [fakewire_exc_read_outer]
    · rcases buf with _ | ⟨ptr, content⟩ <;> simp [fakewire_exc_read_inner, fakewire_exc_read_outer]
    · simp [fakewire_exc_write_begin, fakewire_exc_check_invariants]
  · simp only at hst
    have hinv := hf.1
    simp only at hinv
    by_cases hc : st ≠ FW_EXC_OPERATING ∨ rs = false ∨ txb = true
    · refine ⟨_, write_pc.waiting, ?_, rfl, Or.inl ⟨rfl, rfl⟩⟩
      simp [fakewire_exc_write_begin, fakewire_exc_check_invariants, hc, hinv, hst]
    · have hc1 : st = FW_EXC_OPERATING ∧ rs = true ∧ txb = false := by
        cases rs <;> cases txb <;> simp_all
      obtain ⟨c1, c2, c3⟩ := hc1
      subst c1 c2 c3
      refine ⟨⟨FW_EXC_OPERATING, true, det, sid, rid, isr, ss, off, buf, boff, bmax, done, hs,
        false, rip⟩, write_pc.transmitting, ?_, rfl, Or.inr ⟨rfl, rfl⟩⟩
      simp [fakewire_exc_write_begin]
  · simp only at hw
    have hb : txb = true := ht.2.2.2 (by split_ifs at ht ⊢ <;> omega)
    subst hb
    refine ⟨⟨st, false, det, sid, rid, isr, ss, off, buf, boff, bmax, done, hs, rs, rip⟩, ?_,
      rfl⟩
    simp [fakewire_exc_write_finish, fakewire_exc_write_end]

/-- C27 on a concrete schedule that ends DISCONNECTED, after a detach. -/
theorem C27_disconnected_calls_witness :
    ∃ s, exc_run exc_sys_init sched_detached = some s ∧ s.fwe.state = FW_EXC_DISCONNECTED ∧
      fakewire_exc_read_outer s.fwe 0 4 = some (s.fwe, read_pc.returned_disconnected) ∧
      fakewire_exc_write_begin s.fwe = some (s.fwe, write_pc.returned_disconnected) := by
  obtain ⟨s, hs⟩ : ∃ s, exc_run exc_sys_init sched_detached = some s := ⟨_, rfl⟩
  have hv : (exc_run exc_sys_init sched_detached).map (fun s => s.fwe.state) =
      some FW_EXC_DISCONNECTED := by decide
  rw [hs] at hv
  simp only [Option.map_some', Option.some.injEq] at hv
  have key := (C27_disconnected_calls sched_detached s 0 4 hs).1 hv
  exact ⟨s, hs, hv, key.1, key.2.2.2.1⟩

/-- C28 as stated fails: after `sched_detached` the detach has returned and the state is
DISCONNECTED; a further detach fails the assertion `state != FW_EXC_DISCONNECTED`. -/
theorem C28_counterexample :
    (exc_run exc_sys_init sched_detached).map
        (fun s => (s.fwe.state, s.fwe.detaching, fakewire_exc_detach_begin s.fwe)) =
      some (FW_EXC_DISCONNECTED, false, none) := by
  decide

/-- C28, as amended: detach is not idempotent. In every reachable state that is
DISCONNECTED, detach fails its entry assertion; in every reachable state that is not
DISCONNECTED its first critical section runs and leaves the state DISCONNECTED with
`detaching` set; and in every reachable state in which a detach is in progress, once
flow-TX has ended and `tx_busy` is clear, its second critical section runs and the detach
returns, leaving the state DISCONNECTED with `detaching` clear. -/
theorem C28_detach_once (acts : List exc_action) (s : exc_sys)
    (h : exc_run exc_sys_init acts = some s) :
    (s.fwe.state = FW_EXC_DISCONNECTED →
        fakewire_exc_detach_begin s.fwe = none ∧ exc_step s exc_action.detach_begin = none) ∧
      (s.fwe.state ≠ FW_EXC_DISCONNECTED →
        ∃ s1, exc_step s exc_action.detach_begin = some s1 ∧
          s1.fwe.state = FW_EXC_DISCONNECTED ∧ s1.fwe.detaching = true) ∧
      (s.fwe.detaching = true → s.flowtx = flowtx_pc.exited → s.fwe.tx_busy = false →
        ∃ s1, exc_step s exc_action.detach_end = some s1 ∧
          s1.fwe.state = FW_EXC_DISCONNECTED ∧ s1.fwe.detaching = false) ∧
      (∀ s1, exc_step s exc_action.detach_end = some s1 →
        s1.fwe.state = FW_EXC_DISCONNECTED ∧ s1.fwe.detaching = false) := by
  obtain ⟨hf, _, _⟩ := reachable_inv acts s h
  obtain ⟨fwe, pc, w, pk, fc⟩ := s
  obtain ⟨st, txb, det, sid, rid, isr, ss, off, buf, boff, bmax, done, hs, rs, rip⟩ := fwe
  simp only [flags_inv] at hf
  obtain ⟨f1, f2, _⟩ := hf
  refine ⟨fun hst => ?_, fun hst => ?_, fun hdet hpc htx => ?_, fun s1 hs1 => ?_⟩
  · simp only at hst
    subst hst
    simp [exc_step, fakewire_exc_detach_begin, fakewire_exc_check_invariants]
  · simp only at hst
    have hd : det = false := by
      cases det
      · rfl
      · exact absurd (f2 rfl) hst
    subst hd
    simp [exc_step, fakewire_exc_detach_begin, fakewire_exc_check_invariants, f1, hst]
  · simp only at hdet hpc htx
    have hst : st = FW_EXC_DISCONNECTED := f2 hdet
    subst hdet hpc htx hst
    refine ⟨⟨⟨FW_EXC_DISCONNECTED, false, false, sid, rid, isr, ss, off, buf, boff, bmax, done,
      hs, rs, rip⟩, flowtx_pc.exited, w, pk, fc⟩, ?_, rfl, rfl⟩
    simp [exc_step, fakewire_exc_detach_end]
  · simp only [exc_step, fakewire_exc_detach_end] at hs1
    split_ifs at hs1 with c1 c2 c3
    simp only [Option.some.injEq] at hs1
    subst hs1
    exact ⟨by simpa using c2, rfl⟩

/-- C28 as amended, on three concrete schedules: in OPERATING the first critical section
of a detach runs; after `sched_detaching` (flow-TX ended, the wire free) the second one
runs and the detach returns, leaving the exchange DISCONNECTED; after `sched_detached` a
further detach fails its entry assertion. -/
theorem C28_detach_once_witness :
    (∃ s s1, exc_run exc_sys_init sched_operating = some s ∧
      exc_step s exc_action.detach_begin = some s1 ∧
      s1.fwe.state = FW_EXC_DISCONNECTED ∧ s1.fwe.detaching = true) ∧
    (∃ s s1, exc_run exc_sys_init sched_detaching = some s ∧
      exc_step s exc_action.detach_end = some s1 ∧
      s1.fwe.state = FW_EXC_DISCONNECTED ∧ s1.fwe.detaching = false) ∧
    (∃ s, exc_run exc_sys_init sched_detached = some s ∧
      s.fwe.state = FW_EXC_DISCONNECTED ∧ s.fwe.detaching = false ∧
      fakewire_exc_detach_begin s.fwe = none) := by
  refine ⟨?_, ?_, ?_⟩
  · obtain ⟨s, hs⟩ : ∃ s, exc_run exc_sys_init sched_operating = some s := ⟨_, rfl⟩
    have hv : (exc_run exc_sys_init sched_operating).map (fun s => s.fwe.state) =
        some FW_EXC_OPERATING := by decide
    rw [hs] at hv
    simp only [Option.map_some', Option.some.injEq] at hv
    obtain ⟨s1, k1, k2, k3⟩ :=
      (C28_detach_once sched_operating s hs).2.1 (by rw [hv]; decide)
    exact ⟨s, s1, hs, k1, k2, k3⟩
  · obtain ⟨s, hs⟩ : ∃ s, exc_run exc_sys_init sched_detaching = some s := ⟨_, rfl⟩
    have hv : (exc_run exc_sys_init sched_detaching).map
        (fun s => (s.fwe.detaching, s.flowtx, s.fwe.tx_busy)) =
        some (true, flowtx_pc.exited, false) := by decide
    rw [hs] at hv
    simp only [Option.map_some', Option.some.injEq, Prod.mk.injEq] at hv
    obtain ⟨s1, k1, k2, k3⟩ :=
      (C28_detach_once sched_detaching s hs).2.2.1 hv.1 hv.2.1 hv.2.2
    exact ⟨s, s1, hs, k1, k2, k3⟩
  · obtain ⟨s, hs⟩ : ∃ s, exc_run exc_sys_init sched_detached = some s := ⟨_, rfl⟩
    have hv : (exc_run exc_sys_init sched_detached).map
        (fun s => (s.fwe.state, s.fwe.detaching)) =
        some (FW_EXC_DISCONNECTED, false) := by decide
    rw [hs] at hv
    simp only [Option.map_some', Option.some.injEq, Prod.mk.injEq] at hv
    exact ⟨s, hs, hv.1, hv.2, ((C28_detach_once sched_detached s hs).1 hv.1).1⟩

/-- C29: `fakewire_exc_init` leaves the exchange DISCONNECTED with every flag clear and no
buffer registered. On an exchange that is DISCONNECTED with no detach in progress, an attach
whose link opens resets the exchange (CONNECTING, all reset fields cleared) and returns 0;
an attach whose link fails to open returns `-1` and leaves the exchange as it was. -/
theorem C29_init_and_attach (fwe : fw_exchange_t)
    (hst : fwe.state = FW_EXC_DISCONNECTED) (hd : fwe.detaching = false) :
    fakewire_exc_init.state = FW_EXC_DISCONNECTED ∧
      fakewire_exc_init.tx_busy = false ∧ fakewire_exc_init.detaching = false ∧
      fakewire_exc_init.is_recv_handshake_id = false ∧
      fakewire_exc_init.send_secondary_handshake = false ∧
      fakewire_exc_init.inbound_buffer = none ∧
      fakewire_exc_init.inbound_read_done = false ∧ fakewire_exc_init.has_sent_fct = false ∧
      fakewire_exc_init.remote_sent_fct = false ∧
      fakewire_exc_init.recv_in_progress = false ∧
      fakewire_exc_attach fwe true = some (fakewire_exc_reset fwe, 0) ∧
      (fakewire_exc_reset fwe).state = FW_EXC_CONNECTING ∧
      reset_cleared (fakewire_exc_reset fwe) ∧
      fakewire_exc_attach fwe false = some (fwe, -1) := by
  refine ⟨rfl, rfl, rfl, rfl, rfl, rfl, rfl, rfl, rfl, rfl, ?_, rfl, reset_is_cleared fwe, ?_⟩
  · simp [fakewire_exc_attach, hst, hd]
  · simp [fakewire_exc_attach, hst, hd]

/-- C29 on the exchange that `fakewire_exc_init` creates. -/
theorem C29_init_and_attach_witness :
    fakewire_exc_attach fakewire_exc_init true =
        some (fakewire_exc_reset fakewire_exc_init, 0) ∧
      (fakewire_exc_reset fakewire_exc_init).state = FW_EXC_CONNECTING ∧
      fakewire_exc_attach fakewire_exc_init false = some (fakewire_exc_init, -1) := by
  have key := C29_init_and_attach fakewire_exc_init rfl rfl
  exact ⟨key.2.2.2.2.2.2.2.2.2.2.1, key.2.2.2.2.2.2.2.2.2.2.2.1,
    key.2.2.2.2.2.2.2.2.2.2.2.2.2⟩

/-- C30 (what `fakewire_enc_encode_ctrl` refuses): on an encoder with its 1024-byte buffer
and `enc_idx` at most 1024, for every symbol value below 256, which covers every `fw_ctrl_t`
enumerator, and every parameter: the call fails its precondition check, appending nothing,
exactly when the symbol is `ESCAPE_SYM`, or is outside `0x80..0x85`, or the parameter is
nonzero on a symbol that takes none; for every other symbol and parameter it returns. -/
theorem C30_encode_ctrl_refuses (fwe : fw_encoder_t) (symbol param : Nat)
    (hlen : fwe.enc_buffer.length = FSW_ENCODING_BUF_SIZE)
    (hidx : fwe.enc_idx ≤ FSW_ENCODING_BUF_SIZE) (hsym : symbol < 256) :
    (symbol = FWC_ESCAPE_SYM ∨ ¬ (0x80 ≤ symbol ∧ symbol ≤ 0x85) ∨
        (param ≠ 0 ∧ symbol ≠ FWC_HANDSHAKE_1 ∧ symbol ≠ FWC_HANDSHAKE_2) →
      fakewire_enc_encode_ctrl fwe symbol param = none) ∧
    (¬ (symbol = FWC_ESCAPE_SYM ∨ ¬ (0x80 ≤ symbol ∧ symbol ≤ 0x85) ∨
        (param ≠ 0 ∧ symbol ≠ FWC_HANDSHAKE_1 ∧ symbol ≠ FWC_HANDSHAKE_2)) →
      ∃ fwe1 out, fakewire_enc_encode_ctrl fwe symbol param = some (fwe1, out)) := by
  have key := enc_ctrl_fails_iff fwe symbol param hlen hidx hsym
  refine ⟨key.2, fun hn => ?_⟩
  cases hr : fakewire_enc_encode_ctrl fwe symbol param with
  | none => exact absurd (key.1 hr) hn
  | some r => exact ⟨r.1, r.2, rfl⟩

/-- C30 on a fresh encoder: `ESCAPE_SYM`, the value `0x7f` and `START_PACKET` with
parameter 1 are refused, `START_PACKET` with parameter 0 and `HANDSHAKE_1` with parameter 1
are accepted. -/
theorem C30_encode_ctrl_refuses_witness :
    fakewire_enc_encode_ctrl enc_fresh FWC_ESCAPE_SYM 0 = none ∧
    fakewire_enc_encode_ctrl enc_fresh 0x7f 0 = none ∧
    fakewire_enc_encode_ctrl enc_fresh FWC_START_PACKET 1 = none ∧
    (∃ fwe1 out, fakewire_enc_encode_ctrl enc_fresh FWC_START_PACKET 0 = some (fwe1, out)) ∧
    (∃ fwe1 out, fakewire_enc_encode_ctrl enc_fresh FWC_HANDSHAKE_1 1 = some (fwe1, out)) :=
  ⟨(C30_encode_ctrl_refuses enc_fresh FWC_ESCAPE_SYM 0 (List.length_replicate _ _)
      (Nat.zero_le _) (by decide)).1 (by decide),
    (C30_encode_ctrl_refuses enc_fresh 0x7f 0 (List.length_replicate _ _)
      (Nat.zero_le _) (by decide)).1 (by decide),
    (C30_encode_ctrl_refuses enc_fresh FWC_START_PACKET 1 (List.length_replicate _ _)
      (Nat.zero_le _) (by decide)).1 (by decide),
    (C30_encode_ctrl_refuses enc_fresh FWC_START_PACKET 0 (List.length_replicate _ _)
      (Nat.zero_le _) (by decide)).2 (by decide),
    (C30_encode_ctrl_refuses enc_fresh FWC_HANDSHAKE_1 1 (List.length_replicate _ _)
      (Nat.zero_le _) (by decide)).2 (by decide)⟩

/-! ## Decoder: one call on a chunk and calls of one byte each -/

theorem dec_step_eq (ts : Nat) (s : dec_locals) (b : Nat) :
    fakewire_dec_decode_step ts s b =
      dec_emit ts { s.fwd with in_escape := (dec_classify s.fwd.in_escape b).1 } s.databuf
        s.db_index (dec_classify s.fwd.in_escape b).2.1 (dec_classify s.fwd.in_escape b).2.2.1
        (dec_classify s.fwd.in_escape b).2.2.2 := rfl

theorem trace_of_append (xs ys : List fw_event) :
    trace_of (xs ++ ys) = trace_of xs ++ trace_of ys := by
  induction xs with
  | nil => rfl
  | cons x xs ih =>
    cases x with
    | recv_data bs => simp [trace_of, ih]
    | recv_ctrl c p t => simp [trace_of, ih]

/-- The control symbol that the first half of the loop body raises, if any, is special. -/
theorem dec_classify_ctrl (ie : Bool) (b : Nat) :
    (dec_classify ie b).2.1 = FWC_NONE ∨
      (0x80 ≤ (dec_classify ie b).2.1 ∧ (dec_classify ie b).2.1 ≤ 0x86) := by
  simp only [dec_classify]
  split_ifs with h1 h2 h3 h4 h5 h6 h7 <;>
    first
      | (left; rfl)
      | (right; simp only [FWC_ESCAPE_SYM]; omega)
      | (right; refine (is_special_iff _).1 ?_; simp_all)

/-- `fakewire_dec_raw_data` neither reads nor writes `in_escape`. -/
theorem raw_data_in_escape (fwd : fw_decoder_t) (e : Bool) (X : List Nat) :
    fakewire_dec_raw_data { fwd with in_escape := e } X =
      match fakewire_dec_raw_data fwd X with
      | none => none
      | some (f, ev) => some ({ f with in_escape := e }, ev) := by
  obtain ⟨ie, cur, cnt, prm, rts⟩ := fwd
  simp only [fakewire_dec_raw_data]
  split_ifs <;> first | rfl | (cases fakewire_is_parametrized cur with
    | none => rfl
    | some v => cases v <;> rfl)

/-- With no parametrized symbol pending, the bytes are reported as one data run. -/
theorem raw_data_idle (ie : Bool) (cnt rts : Nat) (prm X : List Nat) (hX : X ≠ []) :
    fakewire_dec_raw_data ⟨ie, FWC_NONE, cnt, prm, rts⟩ X =
      some (⟨ie, FWC_NONE, cnt, prm, rts⟩, [fw_event.recv_data X]) := by
  have hlen : X.length ≠ 0 := by simpa using hX
  simp [fakewire_dec_raw_data, hlen]

/-- Fewer bytes than the pending parameter still needs: they are stored. -/
theorem raw_data_stored (ie : Bool) (cur cnt rts : Nat) (prm X : List Nat) (hX : X ≠ [])
    (hcur : cur = FWC_HANDSHAKE_1 ∨ cur = FWC_HANDSHAKE_2) (hc : cnt + X.length < 4) :
    fakewire_dec_raw_data ⟨ie, cur, cnt, prm, rts⟩ X =
      some (⟨ie, cur, cnt + X.length, memcpy prm cnt X X.length, rts⟩, []) := by
  have hlen : X.length ≠ 0 := by simpa using hX
  have hp : fakewire_is_parametrized cur = some true := (is_parametrized_handshake cur hcur).2.2.1
  have hne : cur ≠ FWC_NONE := by
    rcases hcur with h | h <;> subst h <;> decide
  have h1 : cnt < 4 := by omega
  have h2 : ¬ (X.length + cnt > 4) := by omega
  have h3 : ¬ (cnt + X.length = 4) := by omega
  simp [fakewire_dec_raw_data, hlen, hp, hne, h1, h2, h3]

/-- Enough bytes to complete the pending parameter: the control event is reported, then the
bytes that remain as one data run. -/
theorem raw_data_complete (ie : Bool) (cur cnt rts : Nat) (prm X : List Nat)
    (hcur : cur = FWC_HANDSHAKE_1 ∨ cur = FWC_HANDSHAKE_2) (hc1 : cnt < 4)
    (hc : 4 ≤ cnt + X.length) :
    fakewire_dec_raw_data ⟨ie, cur, cnt, prm, rts⟩ X =
      some (⟨ie, FWC_NONE, 4, memcpy prm cnt X (4 - cnt), rts⟩,
        fw_event.recv_ctrl cur (be32toh (memcpy prm cnt X (4 - cnt))) rts ::
          (if X.drop (4 - cnt) = [] then [] else [fw_event.recv_data (X.drop (4 - cnt))])) := by
  have hlen : X.length ≠ 0 := by omega
  have hp : fakewire_is_parametrized cur = some true := (is_parametrized_handshake cur hcur).2.2.1
  have hne : cur ≠ FWC_NONE := by
    rcases hcur with h | h <;> subst h <;> decide
  by_cases h2 : X.length + cnt > 4
  · have h4 : cnt + (4 - cnt) = 4 := by omega
    have h5 : 0 < (X.drop (4 - cnt)).length := by simp only [List.length_drop]; omega
    have h6 : X.drop (4 - cnt) ≠ [] := List.length_pos.1 h5
    have h7 : 4 - cnt < X.length := by omega
    simp [fakewire_dec_raw_data, hlen, hp, hne, hc1, h2, h4, h6, h7]
  · have h3 : X.length = 4 - cnt := by omega
    have h4 : cnt + X.length = 4 := by omega
    have h6 : X.drop (4 - cnt) = [] := by rw [← h3]; simp
    simp only [fakewire_dec_raw_data, hlen, hp, hne, hc1, h2, h4, h6, if_false, if_true,
      ne_eq, not_false_eq_true, List.length_nil, gt_iff_lt, Nat.lt_irrefl, ← h3]
    simp

/-- Two `memcpy`s that follow each other in a 4-byte destination are one `memcpy` of the
concatenated sources. -/
theorem memcpy_memcpy (prm X Y : List Nat) (cnt c2 : Nat) (hp : prm.length = 4)
    (h : cnt + X.length + c2 ≤ 4) :
    memcpy (memcpy prm cnt X X.length) (cnt + X.length) Y c2 =
      memcpy prm cnt (X ++ Y) (X.length + c2) := by
  have h1 : (prm.take cnt).length = cnt := by simp only [List.length_take]; omega
  have h2 : (prm.take cnt ++ X).length = cnt + X.length := by
    simp only [List.length_append, h1]
  simp only [memcpy, List.take_length, List.take_append, ← List.append_assoc]
  rw [← h2, List.take_left]
  have h3 : cnt + X.length + c2 = (prm.take cnt ++ X).length + c2 := by rw [h2]
  rw [h2, h3, List.drop_append]
  simp only [List.drop_drop, h2]
  congr 1
  rw [show cnt + X.length + c2 = c2 + (cnt + X.length) by omega]
  rw [show cnt + (X.length + c2) = c2 + (cnt + X.length) by omega]

theorem memcpy_len4 (prm X : List Nat) (cnt n : Nat) (hp : prm.length = 4)
    (h : cnt + n ≤ 4) (hn : n ≤ X.length) : (memcpy prm cnt X n).length = 4 := by
  simp only [memcpy, List.length_append, List.length_take, List.length_drop]
  omega

/-- Handing two byte runs to `fakewire_dec_raw_data` one after the other, or both as one
run, leaves the same decoder and the same observation. -/
theorem raw_data_append (fwd : fw_decoder_t) (X Y : List Nat) (hw : dec_wf fwd)
    (hX : X ≠ []) (hY : Y ≠ []) :
    ∃ f1 e1 f e2 e, fakewire_dec_raw_data fwd X = some (f1, e1) ∧ dec_wf f1 ∧
      fakewire_dec_raw_data f1 Y = some (f, e2) ∧
      fakewire_dec_raw_data fwd (X ++ Y) = some (f, e) ∧ dec_wf f ∧
      trace_of e = trace_of (e1 ++ e2) := by
  obtain ⟨ie, cur, cnt, prm, rts⟩ := fwd
  obtain ⟨hp, hw⟩ := hw
  simp only at hp hw
  have hXY : X ++ Y ≠ [] := by simp [hX]
  have hxl : 0 < X.length := List.length_pos.2 hX
  have hyl : 0 < Y.length := List.length_pos.2 hY
  rcases hw with h0 | ⟨hcur, hc⟩
  · subst h0
    refine ⟨_, _, _, _, _, raw_data_idle ie cnt rts prm X hX, ⟨hp, Or.inl rfl⟩,
      raw_data_idle ie cnt rts prm Y hY, raw_data_idle ie cnt rts prm (X ++ Y) hXY,
      ⟨hp, Or.inl rfl⟩, ?_⟩
    simp [trace_of]
  · by_cases hx : cnt + X.length < 4
    · have hl1 : (memcpy prm cnt X X.length).length = 4 :=
        memcpy_len4 prm X cnt X.length hp (by omega) (Nat.le_refl _)
      by_cases hy : cnt + X.length + Y.length < 4
      · have hxy : fakewire_dec_raw_data ⟨ie, cur, cnt, prm, rts⟩ (X ++ Y) =
            some (⟨ie, cur, cnt + X.length + Y.length,
              memcpy (memcpy prm cnt X X.length) (cnt + X.length) Y Y.length, rts⟩, []) := by
          rw [raw_data_stored ie cur cnt rts prm (X ++ Y) hXY hcur
            (by simp only [List.length_append]; omega)]
          simp only [List.length_append, Nat.add_assoc]
          rw [memcpy_memcpy prm X Y cnt Y.length hp (by omega)]
        exact ⟨_, _, _, _, _, raw_data_stored ie cur cnt rts prm X hX hcur hx,
          ⟨hl1, Or.inr ⟨hcur, hx⟩⟩,
          raw_data_stored ie cur (cnt + X.length) rts _ Y hY hcur hy, hxy,
          ⟨memcpy_len4 _ Y _ Y.length hl1 (by omega) (Nat.le_refl _), Or.inr ⟨hcur, hy⟩⟩,
          by simp⟩
      · have hcy : 4 ≤ cnt + X.length + Y.length := by omega
        have h2 := raw_data_complete ie cur (cnt + X.length) rts
          (memcpy prm cnt X X.length) Y hcur hx hcy
        have hxy := raw_data_complete ie cur cnt rts prm (X ++ Y) hcur (by omega)
            (by simp only [List.length_append]; omega)
        have hk : 4 - cnt = X.length + (4 - (cnt + X.length)) := by omega
        have hd : (X ++ Y).drop (4 - cnt) = Y.drop (4 - (cnt + X.length)) := by
          rw [hk, List.drop_append]
        rw [hd, hk, ← memcpy_memcpy prm X Y cnt (4 - (cnt + X.length)) hp (by omega)] at hxy
        exact ⟨_, _, _, _, _, raw_data_stored ie cur cnt rts prm X hX hcur hx,
          ⟨hl1, Or.inr ⟨hcur, hx⟩⟩, h2, hxy,
          ⟨memcpy_len4 _ Y _ _ hl1 (by omega) (by omega), Or.inl rfl⟩, by simp⟩
    · have hcx : 4 ≤ cnt + X.length := by omega
      have hk : 4 - cnt ≤ X.length := by omega
      have hl1 : (memcpy prm cnt X (4 - cnt)).length = 4 :=
        memcpy_len4 prm X cnt (4 - cnt) hp (by omega) hk
      have hxy := raw_data_complete ie cur cnt rts prm (X ++ Y) hcur hc
          (by simp only [List.length_append]; omega)
      have hm : memcpy prm cnt (X ++ Y) (4 - cnt) = memcpy prm cnt X (4 - cnt) := by
        simp only [memcpy, List.take_append_of_le_length hk]
      rw [hm] at hxy
      refine ⟨_, _, _, _, _, raw_data_complete ie cur cnt rts prm X hcur hc hcx,
        ⟨hl1, Or.inl rfl⟩, raw_data_idle ie 4 rts _ Y hY, hxy, ⟨hl1, Or.inl rfl⟩, ?_⟩
      have hd : (X ++ Y).drop (4 - cnt) = X.drop (4 - cnt) ++ Y := by
        rw [List.drop_append_of_le_length hk]
      have hne : X.drop (4 - cnt) ++ Y ≠ [] := by simp [hY]
      rw [hd]
      by_cases hr : X.drop (4 - cnt) = []
      · simp [hr, hY, trace_of]
      · simp [hr, hne, trace_of]

theorem dec_emit_flush (ts : Nat) (fwd1 f0 : fw_decoder_t) (buf : List Nat) (idx cc cb : Nat)
    (consumed : Bool) (e0 : List fw_event)
    (hc : (cc ≠ FWC_NONE ∧ idx > 0) ∨ idx ≥ 256)
    (hr : fakewire_dec_raw_data fwd1 (buf.take idx) = some (f0, e0)) :
    dec_emit ts fwd1 buf idx cc consumed cb = dec_emit_tail ts f0 buf 0 e0 cc consumed cb := by
  simp only [dec_emit, if_pos hc, hr]
  rfl

theorem dec_emit_noflush (ts : Nat) (fwd1 : fw_decoder_t) (buf : List Nat) (idx cc cb : Nat)
    (consumed : Bool) (hc : ¬ ((cc ≠ FWC_NONE ∧ idx > 0) ∨ idx ≥ 256)) :
    dec_emit ts fwd1 buf idx cc consumed cb = dec_emit_tail ts fwd1 buf idx [] cc consumed cb := by
  simp only [dec_emit, if_neg hc]
  rfl

/-- `fakewire_dec_raw_ctrl` on a special symbol returns, and leaves a well-formed decoder
with `in_escape` as it was. -/
theorem raw_ctrl_total (fwd : fw_decoder_t) (cc ts : Nat) (hw : dec_wf fwd)
    (hcc : 0x80 ≤ cc ∧ cc ≤ 0x86) :
    ∃ f ev, fakewire_dec_raw_ctrl fwd cc ts = some (f, ev) ∧ dec_wf f ∧
      f.in_escape = fwd.in_escape := by
  obtain ⟨ie, cur, cnt, prm, rts⟩ := fwd
  obtain ⟨hp, hw⟩ := hw
  simp only at hp hw
  have hccs : cc = 0x80 ∨ cc = 0x81 ∨ cc = 0x82 ∨ cc = 0x83 ∨ cc = 0x84 ∨ cc = 0x85 ∨
      cc = 0x86 := by omega
  rcases hw with h0 | ⟨hcur, hc⟩
  · subst h0
    rcases hccs with h | h | h | h | h | h | h <;> subst h <;>
      simp [fakewire_dec_raw_ctrl, fakewire_is_parametrized, fakewire_is_special, dec_wf, hp,
        FWC_NONE, FWC_HANDSHAKE_1, FWC_HANDSHAKE_2, FWC_ESCAPE_SYM]
  · rcases hcur with h1 | h1 <;> subst h1 <;>
      rcases hccs with h | h | h | h | h | h | h <;> subst h <;>
      simp [fakewire_dec_raw_ctrl, fakewire_is_parametrized, fakewire_is_special, dec_wf, hp,
        FWC_NONE, FWC_HANDSHAKE_1, FWC_HANDSHAKE_2, FWC_ESCAPE_SYM]

/-- `fakewire_dec_raw_data` on a well-formed decoder returns, and leaves a well-formed
decoder with `in_escape` as it was. -/
theorem raw_data_total (fwd : fw_decoder_t) (X : List Nat) (hw : dec_wf fwd) (hX : X ≠ []) :
    ∃ f ev, fakewire_dec_raw_data fwd X = some (f, ev) ∧ dec_wf f ∧
      f.in_escape = fwd.in_escape := by
  obtain ⟨ie, cur, cnt, prm, rts⟩ := fwd
  obtain ⟨hp, hw⟩ := hw
  simp only at hp hw
  have hxl : 0 < X.length := List.length_pos.2 hX
  rcases hw with h0 | ⟨hcur, hc⟩
  · subst h0
    exact ⟨_, _, raw_data_idle ie cnt rts prm X hX, ⟨hp, Or.inl rfl⟩, rfl⟩
  · by_cases hx : cnt + X.length < 4
    · exact ⟨_, _, raw_data_stored ie cur cnt rts prm X hX hcur hx,
        ⟨memcpy_len4 prm X cnt X.length hp (by omega) (Nat.le_refl _), Or.inr ⟨hcur, hx⟩⟩, rfl⟩
    · exact ⟨_, _, raw_data_complete ie cur cnt rts prm X hcur hc (by omega),
        ⟨memcpy_len4 prm X cnt (4 - cnt) hp (by omega) (by omega), Or.inl rfl⟩, rfl⟩

/-- What the loop body does after its flush does not depend on `databuf` or on the flush. -/
theorem dec_emit_tail_spec (ts : Nat) (fwd2 : fw_decoder_t) (cc cb : Nat) (consumed : Bool)
    (hw : dec_wf fwd2) (hcc : cc = FWC_NONE ∨ (0x80 ≤ cc ∧ cc ≤ 0x86)) :
    ∃ f3 ev3, dec_wf f3 ∧ f3.in_escape = fwd2.in_escape ∧
      ∀ (buf : List Nat) (idx2 : Nat) (ev2 : List fw_event), idx2 < buf.length →
        dec_emit_tail ts fwd2 buf idx2 ev2 cc consumed cb =
          some (⟨f3, if consumed then buf else buf.set idx2 cb,
            if consumed then idx2 else idx2 + 1⟩, ev2 ++ ev3) := by
  rcases hcc with h0 | hs
  · subst h0
    refine ⟨fwd2, [], hw, rfl, fun buf idx2 ev2 hi => ?_⟩
    cases consumed <;> simp [dec_emit_tail, store, hi]
  · obtain ⟨f3, ev3, h1, h2, h3⟩ := raw_ctrl_total fwd2 cc ts hw hs
    have hne : cc ≠ FWC_NONE := by simp only [FWC_NONE]; omega
    refine ⟨f3, ev3, h2, h3, fun buf idx2 ev2 hi => ?_⟩
    cases consumed <;> simp [dec_emit_tail, store, hi, hne, h1]

theorem dec_emit_tail_none (ts : Nat) (fwd2 : fw_decoder_t) (cb : Nat) (consumed : Bool)
    (buf : List Nat) (idx2 : Nat) (ev2 : List fw_event) (hi : idx2 < buf.length) :
    dec_emit_tail ts fwd2 buf idx2 ev2 FWC_NONE consumed cb =
      some (⟨fwd2, if consumed then buf else buf.set idx2 cb,
        if consumed then idx2 else idx2 + 1⟩, ev2) := by
  cases consumed <;> simp [dec_emit_tail, store, hi]

theorem settle_zero (f : fw_decoder_t) (buf : List Nat) :
    dec_settle ⟨f, buf, 0⟩ = some (f, []) := by
  simp [dec_settle]

theorem settle_one (f : fw_decoder_t) (buf : List Nat) (cb : Nat) (h : 0 < buf.length) :
    dec_settle ⟨f, buf.set 0 cb, 1⟩ = fakewire_dec_raw_data f [cb] := by
  have := take_succ_set buf 0 cb h
  simp only [Nat.zero_add, List.take_zero, List.nil_append] at this
  simp [dec_settle, this]

/-- One loop iteration started on the buffered state, and the same iteration started after
the buffered data has been handed over, end in states that settle to the same decoder and
the same observation. -/
theorem dec_emit_sim (ts : Nat) (fwd1 : fw_decoder_t) (buf : List Nat) (idx cc cb : Nat)
    (consumed : Bool) (hw : dec_wf fwd1) (hl : buf.length = 256) (hi : idx ≤ 256)
    (hcc : cc = FWC_NONE ∨ (0x80 ≤ cc ∧ cc ≤ 0x86)) :
    ∃ s1 ev f0 e0 s1' ev' f e1 e1',
      dec_emit ts fwd1 buf idx cc consumed cb = some (s1, ev) ∧
      dec_wf s1.fwd ∧ s1.databuf.length = 256 ∧ s1.db_index ≤ 256 ∧
      dec_settle ⟨fwd1, buf, idx⟩ = some (f0, e0) ∧ dec_wf f0 ∧
      f0.in_escape = fwd1.in_escape ∧
      dec_emit ts f0 (List.replicate 256 0) 0 cc consumed cb = some (s1', ev') ∧
      dec_settle s1 = some (f, e1) ∧ dec_settle s1' = some (f, e1') ∧ dec_wf f ∧
      trace_of (ev ++ e1) = trace_of (e0 ++ ev' ++ e1') := by
  have hz : (List.replicate 256 0).length = 256 := List.length_replicate _ _
  have hnf0 : ∀ c : Nat, ¬ ((c ≠ FWC_NONE ∧ 0 > 0) ∨ 0 ≥ 256) := by
    intro c hc
    rcases hc with ⟨_, h⟩ | h <;> omega
  by_cases hidx0 : idx = 0
  · -- nothing buffered
    subst hidx0
    obtain ⟨f3, ev3, w3, _, ht⟩ := dec_emit_tail_spec ts fwd1 cc cb consumed hw hcc
    have ha := ht buf 0 [] (by omega)
    have hb := ht (List.replicate 256 0) 0 [] (by omega)
    rw [← dec_emit_noflush ts fwd1 buf 0 cc cb consumed (hnf0 cc)] at ha
    rw [← dec_emit_noflush ts fwd1 _ 0 cc cb consumed (hnf0 cc)] at hb
    cases consumed
    · obtain ⟨f, e, hr, wf, _⟩ := raw_data_total f3 [cb] w3 (by simp)
      refine ⟨_, _, fwd1, [], _, _, f, e, e, ha, w3, by simp [hl], by simp, settle_zero _ _, hw,
        rfl, hb, ?_, ?_, wf, by simp⟩
      · simp only [Bool.false_eq_true, if_false]
        rw [settle_one f3 buf cb (by omega), hr]
      · simp only [Bool.false_eq_true, if_false]
        rw [settle_one f3 _ cb (by omega), hr]
    · exact ⟨_, _, fwd1, [], _, _, f3, [], [], ha, w3, by simp [hl], by simp,
        settle_zero _ _, hw, rfl, hb, settle_zero _ _, settle_zero _ _, w3, by simp⟩
  · have hpos : 0 < idx := Nat.pos_of_ne_zero hidx0
    have hX : buf.take idx ≠ [] := by
      apply List.length_pos.1
      simp only [List.length_take]
      omega
    obtain ⟨f0, e0, hr0, w0, ie0⟩ := raw_data_total fwd1 (buf.take idx) hw hX
    have hs0 : dec_settle ⟨fwd1, buf, idx⟩ = some (f0, e0) := by
      simp [dec_settle, hpos, hr0]
    by_cases hfl : (cc ≠ FWC_NONE ∧ idx > 0) ∨ idx ≥ 256
    · -- the iteration itself hands the buffered data over
      obtain ⟨f3, ev3, w3, _, ht⟩ := dec_emit_tail_spec ts f0 cc cb consumed w0 hcc
      have ha := ht buf 0 e0 (by omega)
      have hb := ht (List.replicate 256 0) 0 [] (by omega)
      rw [← dec_emit_flush ts fwd1 f0 buf idx cc cb consumed e0 hfl hr0] at ha
      rw [← dec_emit_noflush ts f0 _ 0 cc cb consumed (hnf0 cc)] at hb
      cases consumed
      · obtain ⟨f, e, hr, wf, _⟩ := raw_data_total f3 [cb] w3 (by simp)
        refine ⟨_, _, f0, e0, _, _, f, e, e, ha, w3, by simp [hl], by simp, hs0, w0, ie0, hb,
          ?_, ?_, wf, by simp [trace_of_append]⟩
        · simp only [Bool.false_eq_true, if_false]
          rw [settle_one f3 buf cb (by omega), hr]
        · simp only [Bool.false_eq_true, if_false]
          rw [settle_one f3 _ cb (by omega), hr]
      · exact ⟨_, _, f0, e0, _, _, f3, [], [], ha, w3, by simp [hl], by simp, hs0, w0, ie0, hb,
          settle_zero _ _, settle_zero _ _, w3, by simp [trace_of_append]⟩
    · -- no flush: no control symbol, and room in `databuf`
      have hcc0 : cc = FWC_NONE := by
        by_contra hne
        exact hfl (Or.inl ⟨hne, hpos⟩)
      have hlt : idx < 256 := by
        by_contra hge
        exact hfl (Or.inr (by omega))
      subst hcc0
      have ha0 := dec_emit_tail_none ts fwd1 cb consumed buf idx [] (by omega)
      have hb0 := dec_emit_tail_none ts f0 cb consumed (List.replicate 256 0) 0 [] (by omega)
      rw [← dec_emit_noflush ts fwd1 buf idx FWC_NONE cb consumed hfl] at ha0
      rw [← dec_emit_noflush ts f0 _ 0 FWC_NONE cb consumed (hnf0 _)] at hb0
      cases consumed
      · obtain ⟨f1, e1, f, e2, e, a1, _, a3, a4, a5, a6⟩ :=
          raw_data_append fwd1 (buf.take idx) [cb] hw hX (by simp)
        rw [hr0] at a1
        simp only [Option.some.injEq, Prod.mk.injEq] at a1
        obtain ⟨k1, k2⟩ := a1
        subst k1 k2
        refine ⟨_, _, f0, e0, _, _, f, e, e2, ha0, hw, by simp [hl], by simp; omega, hs0, w0, ie0,
          hb0, ?_, ?_, a5, ?_⟩
        · simp only [Bool.false_eq_true, if_false, dec_settle]
          rw [take_succ_set buf idx cb (by omega)]
          simp [a4]
        · simp only [Bool.false_eq_true, if_false]
          rw [settle_one f0 _ cb (by omega), a3]
        · simp [a6, trace_of_append]
      · refine ⟨_, _, f0, e0, _, _, f0, e0, [], ha0, hw, by simp [hl], by simp; omega, hs0, w0,
          ie0, hb0, ?_, ?_, w0, by simp⟩
        · simpa using hs0
        · simp only [if_true]
          exact settle_zero _ _

theorem settle_total (s : dec_locals) (hw : dec_wf s.fwd) (hl : s.databuf.length = 256) :
    ∃ f e, dec_settle s = some (f, e) ∧ dec_wf f ∧ f.in_escape = s.fwd.in_escape := by
  by_cases h : s.db_index > 0
  · have hX : s.databuf.take s.db_index ≠ [] := by
      apply List.length_pos.1
      simp only [List.length_take]
      omega
    obtain ⟨f, e, h1, h2, h3⟩ := raw_data_total s.fwd _ hw hX
    exact ⟨f, e, by simp only [dec_settle, if_pos h, h1], h2, h3⟩
  · exact ⟨s.fwd, [], by simp only [dec_settle, if_neg h], hw, rfl⟩

theorem settle_in_escape (f : fw_decoder_t) (buf : List Nat) (idx : Nat) (e : Bool) :
    dec_settle ⟨{ f with in_escape := e }, buf, idx⟩ =
      match dec_settle ⟨f, buf, idx⟩ with
      | none => none
      | some (f1, ev) => some ({ f1 with in_escape := e }, ev) := by
  by_cases h : idx > 0
  · simp only [dec_settle, if_pos h]
    exact raw_data_in_escape f e _
  · simp only [dec_settle, if_neg h]

/-- A call of `fakewire_dec_decode` on one byte is one loop iteration on an empty `databuf`
and the final hand-over. -/
theorem decode_single_of (ts : Nat) (f : fw_decoder_t) (b : Nat) (s1 : dec_locals)
    (ev : List fw_event) (f1 : fw_decoder_t) (e : List fw_event)
    (h1 : dec_emit ts { f with in_escape := (dec_classify f.in_escape b).1 }
      (List.replicate 256 0) 0 (dec_classify f.in_escape b).2.1
      (dec_classify f.in_escape b).2.2.1 (dec_classify f.in_escape b).2.2.2 = some (s1, ev))
    (h2 : dec_settle s1 = some (f1, e)) :
    fakewire_dec_decode f [b] ts = some (f1, ev ++ e) := by
  have hstep : fakewire_dec_decode_step ts ⟨f, List.replicate 256 0, 0⟩ b = some (s1, ev) := by
    rw [dec_step_eq]
    exact h1
  have hloop : fakewire_dec_decode_loop ts [b] ⟨f, List.replicate 256 0, 0⟩ =
      some (s1, ev) := by
    simp only [fakewire_dec_decode_loop, hstep, List.append_nil]
  have hlen : ¬ ([b] : List Nat).length = 0 := by simp
  simp only [fakewire_dec_decode, if_neg hlen, hloop]
  by_cases h : s1.db_index > 0
  · simp only [dec_settle, if_pos h] at h2
    simp only [if_pos h, h2]
  · simp only [dec_settle, if_neg h, Option.some.injEq, Prod.mk.injEq] at h2
    obtain ⟨k1, k2⟩ := h2
    subst k1 k2
    simp only [if_neg h, List.append_nil]

/-- The loop of `fakewire_dec_decode` from any point, followed by the final hand-over, and
the bytes that remain decoded in calls of one byte each after the buffered data has been
handed over: same decoder, same observation. -/
theorem dec_loop_sim (ts : Nat) : ∀ (W : List Nat) (s : dec_locals), dec_wf s.fwd →
    s.databuf.length = 256 → s.db_index ≤ 256 →
    ∃ s2 ev f e f0 e0 ev',
      fakewire_dec_decode_loop ts W s = some (s2, ev) ∧ dec_settle s2 = some (f, e) ∧
      dec_settle s = some (f0, e0) ∧
      fakewire_dec_decode_chunks f0 (one_by_one W ts) = some (f, ev') ∧ dec_wf f ∧
      trace_of (ev ++ e) = trace_of (e0 ++ ev') := by
  intro W
  induction W with
  | nil =>
    intro s hw hl _
    obtain ⟨f, e, h1, h2, _⟩ := settle_total s hw hl
    exact ⟨s, [], f, e, f, e, [], rfl, h1, h1, rfl, h2, by simp⟩
  | cons b W ih =>
    intro s hw hl hi
    have hw1 : dec_wf { s.fwd with in_escape := (dec_classify s.fwd.in_escape b).1 } := hw
    obtain ⟨s1, ev, f0', e0', s1', ev', f1, e1, e1', a1, a2, a3, a4, a5, a6, a7, a8, a9, a10,
      a11, a12⟩ := dec_emit_sim ts _ s.databuf s.db_index (dec_classify s.fwd.in_escape b).2.1
        (dec_classify s.fwd.in_escape b).2.2.2 (dec_classify s.fwd.in_escape b).2.2.1 hw1 hl hi
        (dec_classify_ctrl _ _)
    obtain ⟨f0, e0, b1, b2, b3⟩ := settle_total s hw hl
    have b4 := settle_in_escape s.fwd s.databuf s.db_index (dec_classify s.fwd.in_escape b).1
    have hs : (⟨s.fwd, s.databuf, s.db_index⟩ : dec_locals) = s := rfl
    rw [hs, b1, a5] at b4
    simp only [Option.some.injEq, Prod.mk.injEq] at b4
    obtain ⟨k1, k2⟩ := b4
    subst k1 k2
    rw [← b3] at a8
    have hdec := decode_single_of ts f0 b s1' ev' f1 e1' a8 a10
    obtain ⟨s2, evr, f, e, g1, d1, evc, c1, c2, c3, c4, c5, c6⟩ := ih s1 a2 a3 a4
    rw [a9] at c3
    simp only [Option.some.injEq, Prod.mk.injEq] at c3
    obtain ⟨k1, k2⟩ := c3
    subst k1 k2
    have hstep : fakewire_dec_decode_step ts s b = some (s1, ev) := by
      rw [dec_step_eq]
      exact a1
    refine ⟨s2, ev ++ evr, f, e, f0, e0', (ev' ++ e1') ++ evc, ?_, c2, b1, ?_, c5, ?_⟩
    · simp only [fakewire_dec_decode_loop, hstep, c1]
    · simp only [one_by_one, List.map_cons, fakewire_dec_decode_chunks, hdec]
      simp only [one_by_one] at c4
      simp only [c4]
    · have t1 : trace_of (ev ++ evr ++ e) = trace_of (ev ++ e1) ++ trace_of evc := by
        have := c6
        simp only [trace_of_append] at this ⊢
        simp only [List.append_assoc, this]
      rw [t1, a12]
      simp only [trace_of_append, List.append_assoc]

/-- One call of `fakewire_dec_decode` on a chunk and calls of one byte each: same decoder,
same observation. -/
theorem decode_one_by_one (fwd : fw_decoder_t) (W : List Nat) (ts : Nat) (hw : dec_wf fwd)
    (hW : W ≠ []) :
    ∃ f ev ev', fakewire_dec_decode fwd W ts = some (f, ev) ∧
      fakewire_dec_decode_chunks fwd (one_by_one W ts) = some (f, ev') ∧ dec_wf f ∧
      trace_of ev = trace_of ev' := by
  obtain ⟨s2, ev, f, e, f0, e0, ev', c1, c2, c3, c4, c5, c6⟩ :=
    dec_loop_sim ts W ⟨fwd, List.replicate 256 0, 0⟩ hw (List.length_replicate _ _)
      (Nat.zero_le _)
  rw [settle_zero] at c3
  simp only [Option.some.injEq, Prod.mk.injEq] at c3
  obtain ⟨k1, k2⟩ := c3
  subst k1 k2
  have hlen : ¬ W.length = 0 := by
    intro h
    exact hW (List.length_eq_zero.1 h)
  refine ⟨f, ev ++ e, ev', ?_, c4, c5, by simpa using c6⟩
  simp only [fakewire_dec_decode, if_neg hlen, c1]
  by_cases h : s2.db_index > 0
  · simp only [dec_settle, if_pos h] at c2
    simp only [if_pos h, c2]
  · simp only [dec_settle, if_neg h, Option.some.injEq, Prod.mk.injEq] at c2
    obtain ⟨k1, k2⟩ := c2
    subst k1 k2
    simp only [if_neg h, List.append_nil]

theorem chunks_append_some (A B : List (List Nat × Nat)) : ∀ (fwd f1 f2 : fw_decoder_t)
    (e1 e2 : List fw_event), fakewire_dec_decode_chunks fwd A = some (f1, e1) →
    fakewire_dec_decode_chunks f1 B = some (f2, e2) →
    fakewire_dec_decode_chunks fwd (A ++ B) = some (f2, e1 ++ e2) := by
  induction A with
  | nil =>
    intro fwd f1 f2 e1 e2 h1 h2
    simp only [fakewire_dec_decode_chunks, Option.some.injEq, Prod.mk.injEq] at h1
    obtain ⟨k1, k2⟩ := h1
    subst k1 k2
    simpa using h2
  | cons c A ih =>
    intro fwd f1 f2 e1 e2 h1 h2
    obtain ⟨W, t⟩ := c
    simp only [fakewire_dec_decode_chunks] at h1
    cases hd : fakewire_dec_decode fwd W t with
    | none => simp [hd] at h1
    | some r =>
      obtain ⟨g, ev⟩ := r
      simp only [hd] at h1
      cases hc : fakewire_dec_decode_chunks g A with
      | none => simp [hc] at h1
      | some r2 =>
        obtain ⟨g2, ev2⟩ := r2
        simp only [hc, Option.some.injEq, Prod.mk.injEq] at h1
        obtain ⟨k1, k2⟩ := h1
        subst k1 k2
        have := ih g g2 f2 ev2 e2 hc h2
        show fakewire_dec_decode_chunks fwd ((W, t) :: (A ++ B)) = _
        simp only [fakewire_dec_decode_chunks, hd, this, List.append_assoc]

theorem with_in_escape_self (f : fw_decoder_t) (e : Bool) (h : f.in_escape = e) :
    { f with in_escape := e } = f := by
  obtain ⟨ie, cur, cnt, prm, rts⟩ := f
  simp only at h
  subst h
  rfl

theorem dec_emit_tail_ctrl (ts : Nat) (fwd2 f3 : fw_decoder_t) (buf : List Nat) (idx cc cb : Nat)
    (ev2 ev3 : List fw_event) (hne : cc ≠ FWC_NONE)
    (h : fakewire_dec_raw_ctrl fwd2 cc ts = some (f3, ev3)) :
    dec_emit_tail ts fwd2 buf idx ev2 cc true cb = some (⟨f3, buf, idx⟩, ev2 ++ ev3) := by
  simp [dec_emit_tail, hne, h]

theorem emit_at_zero (ts : Nat) (f : fw_decoder_t) (buf : List Nat) (cc cb : Nat)
    (consumed : Bool) :
    dec_emit ts f buf 0 cc consumed cb = dec_emit_tail ts f buf 0 [] cc consumed cb := by
  apply dec_emit_noflush
  intro hc
  rcases hc with ⟨_, h⟩ | h <;> omega

/-- One call on a byte that is not special, outside an escape: the byte is data. -/
theorem decode_single_plain (ts : Nat) (f f1 : fw_decoder_t) (b : Nat) (e : List fw_event)
    (hie : f.in_escape = false) (hb : fakewire_is_special b = false)
    (hr : fakewire_dec_raw_data f [b] = some (f1, e)) :
    fakewire_dec_decode f [b] ts = some (f1, e) := by
  have hc : dec_classify f.in_escape b = (false, FWC_NONE, false, b) := by
    simp [dec_classify, hie, hb]
  have := decode_single_of ts f b ⟨f, (List.replicate 256 0).set 0 b, 1⟩ [] f1 e
    (by
      rw [hc, emit_at_zero, with_in_escape_self f false hie]
      exact dec_emit_tail_none ts f b false _ 0 [] (by rw [List.length_replicate]; omega))
    (by rw [settle_one f _ b (by rw [List.length_replicate]; omega)]; exact hr)
  simpa using this

/-- One call on the escape byte, outside an escape: the decoder enters the escape. -/
theorem decode_single_escape (ts : Nat) (f : fw_decoder_t) (hie : f.in_escape = false) :
    fakewire_dec_decode f [0x86] ts = some ({ f with in_escape := true }, []) := by
  have hc : dec_classify f.in_escape 0x86 = (true, FWC_NONE, true, 0x86) := by
    rw [hie]
    rfl
  have := decode_single_of ts f 0x86 ⟨{ f with in_escape := true }, List.replicate 256 0, 0⟩ []
    { f with in_escape := true } []
    (by
      rw [hc, emit_at_zero]
      exact dec_emit_tail_none ts _ 0x86 true _ 0 [] (by rw [List.length_replicate]; omega))
    (settle_zero _ _)
  simpa using this

/-- One call on the byte after an escape byte, when it decodes to a special byte: the
decoded byte is data. -/
theorem decode_single_escaped (ts : Nat) (f f1 : fw_decoder_t) (b : Nat) (e : List fw_event)
    (hie : f.in_escape = true) (hb : fakewire_is_special ((b ^^^ 0x10) % 256) = true)
    (hr : fakewire_dec_raw_data { f with in_escape := false } [(b ^^^ 0x10) % 256] =
      some (f1, e)) :
    fakewire_dec_decode f [b] ts = some (f1, e) := by
  have hc : dec_classify f.in_escape b = (false, FWC_NONE, false, (b ^^^ 0x10) % 256) := by
    simp [dec_classify, hie, hb]
  have := decode_single_of ts f b
    ⟨{ f with in_escape := false }, (List.replicate 256 0).set 0 ((b ^^^ 0x10) % 256), 1⟩ [] f1 e
    (by
      rw [hc, emit_at_zero]
      exact dec_emit_tail_none ts _ _ false _ 0 [] (by rw [List.length_replicate]; omega))
    (by rw [settle_one _ _ _ (by rw [List.length_replicate]; omega)]; exact hr)
  simpa using this

/-- One call on a control symbol byte, outside an escape: the symbol goes to
`fakewire_dec_raw_ctrl`. -/
theorem decode_single_ctrl (ts : Nat) (f f1 : fw_decoder_t) (c : Nat) (e : List fw_event)
    (hie : f.in_escape = false) (hc1 : 0x80 ≤ c) (hc2 : c ≤ 0x85)
    (hr : fakewire_dec_raw_ctrl f c ts = some (f1, e)) :
    fakewire_dec_decode f [c] ts = some (f1, e) := by
  have hs : fakewire_is_special c = true := (is_special_iff c).2 ⟨hc1, by omega⟩
  have hne : c ≠ FWC_ESCAPE_SYM := by simp only [FWC_ESCAPE_SYM]; omega
  have hn0 : c ≠ FWC_NONE := by simp only [FWC_NONE]; omega
  have hc : dec_classify f.in_escape c = (false, c, true, c) := by
    simp [dec_classify, hie, hs, hne]
  have := decode_single_of ts f c ⟨f1, List.replicate 256 0, 0⟩ e f1 []
    (by
      rw [hc, emit_at_zero, with_in_escape_self f false hie]
      exact dec_emit_tail_ctrl ts f f1 (List.replicate 256 0) 0 c c [] e hn0 hr)
    (settle_zero _ _)
  simpa using this

/-- The wire form of one data byte, decoded in calls of one byte each with any timestamps:
the byte goes to `fakewire_dec_raw_data`. -/
theorem chunks_escaped_byte (f f1 : fw_decoder_t) (b : Nat) (e : List fw_event)
    (cs : List (List Nat × Nat)) (hie : f.in_escape = false)
    (hr : fakewire_dec_raw_data f [b] = some (f1, e))
    (hcs : cs.map Prod.fst = (wire_escape_byte b).map (fun x => [x])) :
    fakewire_dec_decode_chunks f cs = some (f1, e) := by
  cases hs : fakewire_is_special b
  · rw [wire_escape_byte_plain b hs] at hcs
    simp only [List.map_cons, List.map_nil] at hcs
    obtain ⟨c, cs1, rfl, hc, hcs1⟩ := List.map_eq_cons_iff.1 hcs
    obtain rfl := List.map_eq_nil_iff.1 hcs1
    obtain ⟨w, t⟩ := c
    simp only at hc
    subst hc
    simp only [fakewire_dec_decode_chunks, decode_single_plain t f f1 b e hie hs hr,
      List.append_nil]
  · rw [wire_escape_byte_special b hs] at hcs
    simp only [List.map_cons, List.map_nil] at hcs
    obtain ⟨c, cs1, rfl, hc, hcs1⟩ := List.map_eq_cons_iff.1 hcs
    obtain ⟨c2, cs2, rfl, hc2, hcs2⟩ := List.map_eq_cons_iff.1 hcs1
    obtain rfl := List.map_eq_nil_iff.1 hcs2
    obtain ⟨w, t⟩ := c
    obtain ⟨w2, t2⟩ := c2
    simp only at hc hc2
    subst hc hc2
    obtain ⟨x1, x2, x3⟩ := special_xor b hs
    have h2 : fakewire_dec_decode { f with in_escape := true } [b ^^^ 0x10] t2 = some (f1, e) := by
      apply decode_single_escaped t2 _ f1 (b ^^^ 0x10) e rfl
      · rw [x3]; exact hs
      · rw [x3]
        have : ({ ({ f with in_escape := true } : fw_decoder_t) with in_escape := false }) = f :=
          with_in_escape_self f false hie
        rw [this]
        exact hr
    simp only [fakewire_dec_decode_chunks, decode_single_escape t f hie, h2, List.nil_append,
      List.append_nil]

/-- The wire form of a data run, decoded in calls of one byte each with any timestamps: as
if the run had gone to `fakewire_dec_raw_data` in one piece. -/
theorem chunks_escaped_data : ∀ (B : List Nat) (f : fw_decoder_t) (cs : List (List Nat × Nat)),
    B ≠ [] → dec_wf f → f.in_escape = false →
    cs.map Prod.fst = (wire_escape B).map (fun x => [x]) →
    ∃ f1 ev e0, fakewire_dec_decode_chunks f cs = some (f1, ev) ∧
      fakewire_dec_raw_data f B = some (f1, e0) ∧ trace_of ev = trace_of e0 ∧ dec_wf f1 ∧
      f1.in_escape = false := by
  intro B
  induction B with
  | nil => intro f cs h; exact absurd rfl h
  | cons b B ih =>
    intro f cs _ hw hie hcs
    rw [wire_escape_cons, List.map_append] at hcs
    obtain ⟨cs1, cs2, rfl, h1, h2⟩ := List.map_eq_append_iff.1 hcs
    obtain ⟨f1, e1, r1, w1, i1⟩ := raw_data_total f [b] hw (by simp)
    have c1 := chunks_escaped_byte f f1 b e1 cs1 hie r1 h1
    by_cases hB : B = []
    · subst hB
      simp only [wire_escape, List.flatMap_nil, List.map_nil] at h2
      obtain rfl := List.map_eq_nil_iff.1 h2
      refine ⟨f1, e1, e1, ?_, r1, rfl, w1, by rw [i1, hie]⟩
      simpa using c1
    · obtain ⟨f2, ev2, e02, d1, d2, d3, d4, d5⟩ := ih f1 cs2 hB w1 (by rw [i1, hie]) h2
      obtain ⟨g1, k1, g, k2, k, a1, _, a3, a4, a5, a6⟩ := raw_data_append f [b] B hw (by simp) hB
      rw [r1] at a1
      simp only [Option.some.injEq, Prod.mk.injEq] at a1
      obtain ⟨x1, x2⟩ := a1
      subst x1 x2
      rw [d2] at a3
      simp only [Option.some.injEq, Prod.mk.injEq] at a3
      obtain ⟨x1, x2⟩ := a3
      subst x1 x2
      refine ⟨f2, e1 ++ ev2, k, chunks_append_some cs1 cs2 f f1 f2 e1 ev2 c1 d1, ?_, ?_, d4, d5⟩
      · simpa using a4
      · rw [a6]
        simp only [trace_of_append, d3]

/-! ## Encoder calls, their wire form and what it decodes to -/

theorem nothing_pending_wf (f : fw_decoder_t) (h : dec_nothing_pending f) : dec_wf f :=
  ⟨h.2.2, Or.inl h.2.1⟩

theorem one_by_one_fst (W : List Nat) (ts : Nat) :
    (one_by_one W ts).map Prod.fst = W.map (fun x => [x]) := by
  simp [one_by_one]

theorem one_by_one_append (A B : List Nat) (ts : Nat) :
    one_by_one (A ++ B) ts = one_by_one A ts ++ one_by_one B ts := by
  simp [one_by_one]

theorem one_by_one_chunks_fst (cs : List (List Nat × Nat)) :
    (one_by_one_chunks cs).map Prod.fst = (cs.map Prod.fst).flatten.map (fun x => [x]) := by
  induction cs with
  | nil => rfl
  | cons c cs ih =>
    obtain ⟨W, t⟩ := c
    simp [one_by_one_chunks, one_by_one_fst, ih]

/-- Escaped data on a decoder with nothing pending: the data, and the decoder as it was. -/
theorem chunks_data_call (f : fw_decoder_t) (B : List Nat) (cs : List (List Nat × Nat))
    (hB : B ≠ []) (hf : dec_nothing_pending f)
    (hcs : cs.map Prod.fst = (wire_escape B).map (fun x => [x])) :
    ∃ ev, fakewire_dec_decode_chunks f cs = some (f, ev) ∧
      trace_of ev = B.map fw_token.byte := by
  obtain ⟨f1, ev, e0, h1, h2, h3, _, _⟩ :=
    chunks_escaped_data B f cs hB (nothing_pending_wf f hf) hf.1 hcs
  obtain ⟨ie, cur, cnt, prm, rts⟩ := f
  obtain ⟨a1, a2, a3⟩ := hf
  simp only at a1 a2 a3
  subst a1 a2
  rw [raw_data_idle false cnt rts prm B hB] at h2
  simp only [Option.some.injEq, Prod.mk.injEq] at h2
  obtain ⟨k1, k2⟩ := h2
  subst k1 k2
  exact ⟨ev, h1, by rw [h3]; simp [trace_of]⟩

/-- A symbol without parameter on a decoder with nothing pending. -/
theorem chunks_plain_call (f : fw_decoder_t) (s ts : Nat) (hf : dec_nothing_pending f)
    (hs : s = FWC_START_PACKET ∨ s = FWC_END_PACKET ∨ s = FWC_ERROR_PACKET ∨
      s = FWC_FLOW_CONTROL) :
    fakewire_dec_decode_chunks f [([s], ts)] = some (f, [fw_event.recv_ctrl s 0 ts]) := by
  obtain ⟨_, _, hp, _⟩ := is_parametrized_plain s hs
  have hr : fakewire_dec_raw_ctrl f s ts = some (f, [fw_event.recv_ctrl s 0 ts]) := by
    simp [fakewire_dec_raw_ctrl, hf.2.1, hp]
  have hb : 0x80 ≤ s ∧ s ≤ 0x85 := by
    simp only [FWC_START_PACKET, FWC_END_PACKET, FWC_ERROR_PACKET, FWC_FLOW_CONTROL] at hs
    omega
  simp only [fakewire_dec_decode_chunks, decode_single_ctrl ts f f _ _ hf.1 hb.1 hb.2 hr,
    List.append_nil]

theorem memcpy_whole (prm X : List Nat) (hp : prm.length = 4) (hX : X.length = 4) :
    memcpy prm 0 X 4 = X := by
  simp only [memcpy, List.take_zero, List.nil_append, Nat.zero_add]
  rw [List.take_of_length_le (by omega), List.drop_of_length_le (by omega), List.append_nil]

/-- A handshake symbol and its escaped parameter on a decoder with nothing pending: one
control event, whatever the timestamps of the calls that brought the parameter bytes. -/
theorem chunks_handshake_call (f : fw_decoder_t) (s p ts : Nat) (cs : List (List Nat × Nat))
    (hf : dec_nothing_pending f) (hs : s = FWC_HANDSHAKE_1 ∨ s = FWC_HANDSHAKE_2)
    (hp : p < 2 ^ 32) (hcs : cs.map Prod.fst = (wire_escape (htobe32 p)).map (fun x => [x])) :
    ∃ f1 ev, fakewire_dec_decode_chunks f (([s], ts) :: cs) = some (f1, ev) ∧
      dec_nothing_pending f1 ∧ trace_of ev = [fw_token.ctrl s p ts] := by
  obtain ⟨_, _, hpar, _⟩ := is_parametrized_handshake s hs
  obtain ⟨ie, cur, cnt, prm, rts⟩ := f
  obtain ⟨a1, a2, a3⟩ := hf
  simp only at a1 a2 a3
  subst a1 a2
  have hr : fakewire_dec_raw_ctrl ⟨false, FWC_NONE, cnt, prm, rts⟩ s ts =
      some (⟨false, s, 0, prm, ts⟩, []) := by
    simp [fakewire_dec_raw_ctrl, hpar]
  have hb : 0x80 ≤ s ∧ s ≤ 0x85 := by
    simp only [FWC_HANDSHAKE_1, FWC_HANDSHAKE_2] at hs
    omega
  have hd := decode_single_ctrl ts _ _ s _ rfl hb.1 hb.2 hr
  have hlen : (htobe32 p).length = 4 := by simp [htobe32]
  have hne : htobe32 p ≠ [] := by
    intro h
    rw [h] at hlen
    simp at hlen
  have hw : dec_wf ⟨false, s, 0, prm, ts⟩ := ⟨a3, Or.inr ⟨hs, Nat.zero_lt_succ 3⟩⟩
  obtain ⟨f1, ev, e0, h1, h2, h3, _, _⟩ := chunks_escaped_data (htobe32 p) _ cs hne hw rfl hcs
  rw [raw_data_complete false s 0 ts prm (htobe32 p) hs (by decide) (by omega)] at h2
  simp only [Option.some.injEq, Prod.mk.injEq] at h2
  obtain ⟨k1, k2⟩ := h2
  subst k1 k2
  have hm : memcpy prm 0 (htobe32 p) (4 - 0) = htobe32 p := memcpy_whole prm _ a3 hlen
  have hdrop : (htobe32 p).drop (4 - 0) = [] := List.drop_of_length_le (by omega)
  refine ⟨⟨false, FWC_NONE, 4, memcpy prm 0 (htobe32 p) (4 - 0), ts⟩, [] ++ ev, ?_,
    ⟨rfl, rfl, ?_⟩, ?_⟩
  · simp only [fakewire_dec_decode_chunks, hd, h1]
  · simp only [hm, hlen]
  · simp only [List.nil_append, h3, hm, hdrop, if_true, trace_of, be32toh_htobe32 p hp]

/-- A list of non-empty chunks, and the same bytes in calls of one byte each: same decoder,
same observation. -/
theorem chunks_one_by_one : ∀ (cs : List (List Nat × Nat)) (fwd : fw_decoder_t), dec_wf fwd →
    (∀ c ∈ cs, c.1 ≠ []) →
    ∃ f ev ev', fakewire_dec_decode_chunks fwd cs = some (f, ev) ∧
      fakewire_dec_decode_chunks fwd (one_by_one_chunks cs) = some (f, ev') ∧ dec_wf f ∧
      trace_of ev = trace_of ev' := by
  intro cs
  induction cs with
  | nil => intro fwd hw _; exact ⟨fwd, [], [], rfl, rfl, hw, rfl⟩
  | cons c cs ih =>
    intro fwd hw hne
    obtain ⟨W, t⟩ := c
    obtain ⟨f1, e1, e1', a1, a2, a3, a4⟩ :=
      decode_one_by_one fwd W t hw (hne (W, t) (List.mem_cons_self _ _))
    obtain ⟨f, e2, e2', b1, b2, b3, b4⟩ :=
      ih f1 a3 (fun c hc => hne c (List.mem_cons_of_mem _ hc))
    refine ⟨f, e1 ++ e2, e1' ++ e2', ?_, ?_, b3, ?_⟩
    · simp only [fakewire_dec_decode_chunks, a1, b1]
    · exact chunks_append_some _ _ fwd f1 f e1' e2' a2 b2
    · simp only [trace_of_append, a4, b4]

/-- A permitted sequence of encoder calls never aborts, keeps the index within the buffer,
and hands to the sink, together with what is still buffered, exactly the wire form of the
calls after what was buffered before. -/
theorem enc_run_spec : ∀ (calls : List enc_call) (fwe : fw_encoder_t),
    fwe.enc_buffer.length = FSW_ENCODING_BUF_SIZE → fwe.enc_idx ≤ FSW_ENCODING_BUF_SIZE →
    (∀ c ∈ calls, enc_call_ok c) →
    ∃ fwe1 out, enc_run fwe calls = some (fwe1, out) ∧
      fwe1.enc_buffer.length = FSW_ENCODING_BUF_SIZE ∧ fwe1.enc_idx ≤ FSW_ENCODING_BUF_SIZE ∧
      out.flatten ++ fwe1.enc_buffer.take fwe1.enc_idx =
        fwe.enc_buffer.take fwe.enc_idx ++ wire_of_calls calls := by
  intro calls
  induction calls with
  | nil => intro fwe hl hi _; exact ⟨fwe, [], rfl, hl, hi, by simp [wire_of_calls]⟩
  | cons c calls ih =>
    intro fwe hl hi hok
    have hc := hok c (List.mem_cons_self _ _)
    have hrest : ∀ c ∈ calls, enc_call_ok c := fun c hc => hok c (List.mem_cons_of_mem _ hc)
    have key : ∃ fwe1 out1 w, enc_do fwe c = some (fwe1, out1) ∧
        fwe1.enc_buffer.length = FSW_ENCODING_BUF_SIZE ∧
        fwe1.enc_idx ≤ FSW_ENCODING_BUF_SIZE ∧
        out1.flatten ++ fwe1.enc_buffer.take fwe1.enc_idx =
          fwe.enc_buffer.take fwe.enc_idx ++ w ∧
        wire_of_calls (c :: calls) = w ++ wire_of_calls calls := by
      cases c with
      | data B =>
        obtain ⟨fwe1, out1, h1, h2, h3, h4⟩ := enc_data_spec fwe B hc hl hi
        exact ⟨fwe1, out1, wire_escape B, h1, h2, h3, h4, rfl⟩
      | ctrl s p =>
        rcases hc with ⟨hs, _⟩ | ⟨hs, hp0⟩
        · obtain ⟨fwe1, out1, h1, h2, h3, h4⟩ := enc_ctrl_param_spec fwe s p hs hl hi
          refine ⟨fwe1, out1, s :: wire_escape (htobe32 p), h1, h2, h3, ?_, ?_⟩
          · simpa using h4
          · simp only [wire_of_calls, if_pos hs]
        · subst hp0
          obtain ⟨fwe1, out1, h1, h2, h3, h4⟩ := enc_ctrl_plain_spec fwe s hs hl hi
          have hn : ¬ (s = FWC_HANDSHAKE_1 ∨ s = FWC_HANDSHAKE_2) := by
            simp only [FWC_START_PACKET, FWC_END_PACKET, FWC_ERROR_PACKET, FWC_FLOW_CONTROL,
              FWC_HANDSHAKE_1, FWC_HANDSHAKE_2] at hs ⊢
            omega
          refine ⟨fwe1, out1, [s], h1, h2, h3, h4, ?_⟩
          simp only [wire_of_calls, if_neg hn]
      | flush =>
        obtain ⟨h1, h2, h3⟩ := enc_flush_spec fwe
        refine ⟨(fakewire_enc_flush fwe).1, (fakewire_enc_flush fwe).2, [], rfl, ?_, ?_, ?_,
          ?_⟩
        · rw [h3]; exact hl
        · rw [h2]; exact Nat.zero_le _
        · rw [h1, h2]; simp
        · simp [wire_of_calls]
    obtain ⟨fwe1, out1, w, k1, k2, k3, k4, k5⟩ := key
    obtain ⟨fwe2, out2, j1, j2, j3, j4⟩ := ih fwe1 k2 k3 hrest
    refine ⟨fwe2, out1 ++ out2, ?_, j2, j3, ?_⟩
    · simp only [enc_run, k1, j1]
    · rw [k5, List.flatten_append, List.append_assoc, j4, ← List.append_assoc, k4,
        List.append_assoc]

/-- The wire form of a permitted sequence of encoder calls, decoded in calls of one byte
each on a decoder with nothing pending: the tokens of the calls, in order. -/
theorem chunks_of_calls (ts : Nat) : ∀ (calls : List enc_call) (f : fw_decoder_t),
    dec_nothing_pending f → (∀ c ∈ calls, enc_call_ok c) →
    ∃ f1 ev, fakewire_dec_decode_chunks f (one_by_one (wire_of_calls calls) ts) = some (f1, ev) ∧
      dec_nothing_pending f1 ∧ trace_of ev = tokens_of_calls ts calls := by
  intro calls
  induction calls with
  | nil => intro f hf _; exact ⟨f, [], rfl, hf, rfl⟩
  | cons c calls ih =>
    intro f hf hok
    have hc := hok c (List.mem_cons_self _ _)
    have hrest : ∀ c ∈ calls, enc_call_ok c := fun c hc => hok c (List.mem_cons_of_mem _ hc)
    cases c with
    | data B =>
      obtain ⟨ev, h1, h2⟩ := chunks_data_call f B (one_by_one (wire_escape B) ts) hc hf
        (one_by_one_fst _ _)
      obtain ⟨f2, ev2, j1, j2, j3⟩ := ih f hf hrest
      refine ⟨f2, ev ++ ev2, ?_, j2, ?_⟩
      · simp only [wire_of_calls, one_by_one_append]
        exact chunks_append_some _ _ f f f2 ev ev2 h1 j1
      · simp only [trace_of_append, h2, j3, tokens_of_calls]
    | ctrl s p =>
      rcases hc with ⟨hs, hp⟩ | ⟨hs, hp0⟩
      · obtain ⟨f1, ev, h1, h2, h3⟩ := chunks_handshake_call f s p ts
          (one_by_one (wire_escape (htobe32 p)) ts) hf hs hp (one_by_one_fst _ _)
        obtain ⟨f2, ev2, j1, j2, j3⟩ := ih f1 h2 hrest
        refine ⟨f2, ev ++ ev2, ?_, j2, ?_⟩
        · simp only [wire_of_calls, if_pos hs, one_by_one_append]
          exact chunks_append_some _ _ f f1 f2 ev ev2 h1 j1
        · simp only [trace_of_append, h3, j3, tokens_of_calls, List.singleton_append]
      · subst hp0
        have hn : ¬ (s = FWC_HANDSHAKE_1 ∨ s = FWC_HANDSHAKE_2) := by
          simp only [FWC_START_PACKET, FWC_END_PACKET, FWC_ERROR_PACKET, FWC_FLOW_CONTROL,
            FWC_HANDSHAKE_1, FWC_HANDSHAKE_2] at hs ⊢
          omega
        have h1 := chunks_plain_call f s ts hf hs
        obtain ⟨f2, ev2, j1, j2, j3⟩ := ih f hf hrest
        refine ⟨f2, [fw_event.recv_ctrl s 0 ts] ++ ev2, ?_, j2, ?_⟩
        · simp only [wire_of_calls, if_neg hn, one_by_one_append]
          exact chunks_append_some _ _ f f f2 _ ev2 h1 j1
        · rw [trace_of_append, j3]
          rfl
    | flush =>
      obtain ⟨f2, ev2, j1, j2, j3⟩ := ih f hf hrest
      exact ⟨f2, ev2, j1, j2, j3⟩

/-! ## Claims on mixed streams, chunking and timestamps -/

theorem wire_of_calls_ne_nil (calls : List enc_call) (hok : ∀ c ∈ calls, enc_call_ok c)
    (hne : ∃ c ∈ calls, c ≠ enc_call.flush) : wire_of_calls calls ≠ [] := by
  induction calls with
  | nil =>
    obtain ⟨c, hc, _⟩ := hne
    simp at hc
  | cons c calls ih =>
    cases c with
    | data B =>
      have hB : B ≠ [] := hok _ (List.mem_cons_self _ _)
      have hl := (wire_escape_length B).1
      intro h
      have h0 : (wire_of_calls (enc_call.data B :: calls)).length = 0 := by rw [h]; rfl
      simp only [wire_of_calls, List.length_append] at h0
      have : 0 < B.length := List.length_pos.2 hB
      omega
    | ctrl s p =>
      intro h
      have h0 : (wire_of_calls (enc_call.ctrl s p :: calls)).length = 0 := by rw [h]; rfl
      simp only [wire_of_calls, List.length_append] at h0
      split_ifs at h0 <;> simp at h0
    | flush =>
      have hrest : ∀ c ∈ calls, enc_call_ok c := fun c hc => hok c (List.mem_cons_of_mem _ hc)
      obtain ⟨c, hc, hcne⟩ := hne
      rcases List.mem_cons.1 hc with h | h
      · exact absurd h hcne
      · exact ih hrest ⟨c, h, hcne⟩

/-- C31 (wire order over mixed streams): for every sequence of permitted encoder calls with
at least one `encode_data` or `encode_ctrl` among them, on an initialised encoder, the calls
never abort, and decoding in one call everything the sink has received after the final
flush, on a decoder with nothing pending, returns and is observed as the tokens of the
calls in their order: the bytes of each `encode_data`, and for each `encode_ctrl` exactly
one control event with its symbol, its parameter (0 for a symbol without parameter) and
the timestamp of the decode call; so each data run comes before the control symbol that
follows it. -/
theorem C31_wire_order_mixed_streams (fwe : fw_encoder_t) (fwd : fw_decoder_t)
    (calls : List enc_call) (recv_timestamp_ns : Nat) (hinit : enc_initialised fwe)
    (hidle : dec_nothing_pending fwd) (hok : ∀ c ∈ calls, enc_call_ok c)
    (hne : ∃ c ∈ calls, c ≠ enc_call.flush) :
    ∃ fwe1 out fwd1 ev, enc_run fwe calls = some (fwe1, out) ∧
      fakewire_dec_decode fwd (out ++ (fakewire_enc_flush fwe1).2).flatten recv_timestamp_ns =
        some (fwd1, ev) ∧
      dec_nothing_pending fwd1 ∧ trace_of ev = tokens_of_calls recv_timestamp_ns calls := by
  obtain ⟨hl, hi⟩ := hinit
  obtain ⟨fwe1, out, h1, h2, h3, h4⟩ := enc_run_spec calls fwe hl (by rw [hi]; exact Nat.zero_le _) hok
  have hw : (out ++ (fakewire_enc_flush fwe1).2).flatten = wire_of_calls calls := by
    rw [List.flatten_append, (enc_flush_spec fwe1).1, h4, hi]
    simp
  obtain ⟨f1, ev1, j1, j2, j3⟩ := chunks_of_calls recv_timestamp_ns calls fwd hidle hok
  obtain ⟨f, ev, ev', k1, k2, _, k4⟩ := decode_one_by_one fwd (wire_of_calls calls)
    recv_timestamp_ns (nothing_pending_wf fwd hidle) (wire_of_calls_ne_nil calls hok hne)
  rw [j1] at k2
  simp only [Option.some.injEq, Prod.mk.injEq] at k2
  obtain ⟨x1, x2⟩ := k2
  subst x1 x2
  refine ⟨fwe1, out, f1, ev, h1, ?_, j2, by rw [k4, j3]⟩
  rw [hw]
  exact k1

/-- C31 on data with a special byte, a handshake with its parameter, a start-of-packet and
more data, encoded on a fresh encoder and decoded with timestamp 7. -/
theorem C31_wire_order_mixed_streams_witness :
    ∃ fwe1 out fwd1 ev,
      enc_run enc_fresh [enc_call.data [1, 0x80], enc_call.ctrl FWC_HANDSHAKE_1 0x12345678,
        enc_call.ctrl FWC_START_PACKET 0, enc_call.data [2]] = some (fwe1, out) ∧
      fakewire_dec_decode dec_idle (out ++ (fakewire_enc_flush fwe1).2).flatten 7 =
        some (fwd1, ev) ∧
      trace_of ev = [fw_token.byte 1, fw_token.byte 0x80,
        fw_token.ctrl FWC_HANDSHAKE_1 0x12345678 7, fw_token.ctrl FWC_START_PACKET 0 7,
        fw_token.byte 2] := by
  obtain ⟨fwe1, out, fwd1, ev, h1, h2, _, h4⟩ :=
    C31_wire_order_mixed_streams enc_fresh dec_idle
      [enc_call.data [1, 0x80], enc_call.ctrl FWC_HANDSHAKE_1 0x12345678,
        enc_call.ctrl FWC_START_PACKET 0, enc_call.data [2]] 7
      ⟨List.length_replicate _ _, rfl⟩ ⟨rfl, rfl, rfl⟩
      (by
        intro c hc
        simp only [List.mem_cons, List.mem_singleton, List.not_mem_nil, or_false] at hc
        rcases hc with rfl | rfl | rfl | rfl <;> simp [enc_call_ok])
      ⟨enc_call.data [2], by simp, by simp⟩
  exact ⟨fwe1, out, fwd1, ev, h1, h2, h4⟩

/-- C32 (chunk-split independence): from a decoder state as the code leaves it between
calls, for wire bytes split into two non-empty chunks `W1 ++ W2`, the single call on
`W1 ++ W2` and the two calls on `W1` and then `W2` with the same timestamp all return, end
in the same decoder state (all fields), and are observed alike: the same control events in
the same order and the same data bytes between them; only the cuts between data runs can
differ. -/
theorem C32_chunk_split_independence (fwd : fw_decoder_t) (W1 W2 : List Nat)
    (recv_timestamp_ns : Nat) (hw : dec_wf fwd) (h1 : W1 ≠ []) (h2 : W2 ≠ []) :
    ∃ fwd1 ev1 fwd2 ev2 ev,
      fakewire_dec_decode fwd W1 recv_timestamp_ns = some (fwd1, ev1) ∧
      fakewire_dec_decode fwd1 W2 recv_timestamp_ns = some (fwd2, ev2) ∧
      fakewire_dec_decode fwd (W1 ++ W2) recv_timestamp_ns = some (fwd2, ev) ∧
      trace_of ev = trace_of (ev1 ++ ev2) := by
  obtain ⟨f1, e1, e1', a1, a2, a3, a4⟩ := decode_one_by_one fwd W1 recv_timestamp_ns hw h1
  obtain ⟨f2, e2, e2', b1, b2, _, b4⟩ := decode_one_by_one f1 W2 recv_timestamp_ns a3 h2
  obtain ⟨f, e, e', c1, c2, _, c4⟩ := decode_one_by_one fwd (W1 ++ W2) recv_timestamp_ns hw
    (by simp [h1])
  have := chunks_append_some _ _ fwd f1 f2 e1' e2' a2 b2
  rw [← one_by_one_append, c2] at this
  simp only [Option.some.injEq, Prod.mk.injEq] at this
  obtain ⟨x1, x2⟩ := this
  subst x1 x2
  exact ⟨f1, e1, f, e2, e, a1, b1, c1, by rw [c4]; simp only [trace_of_append, a4, b4]⟩

/-- C32 on a stream cut inside an escape pair and inside a handshake parameter. -/
theorem C32_chunk_split_independence_witness :
    ∃ fwd1 ev1 fwd2 ev2 ev,
      fakewire_dec_decode dec_idle [5, 0x86] 3 = some (fwd1, ev1) ∧
      fakewire_dec_decode fwd1 [0x90, 0x81, 1, 2] 3 = some (fwd2, ev2) ∧
      fakewire_dec_decode dec_idle ([5, 0x86] ++ [0x90, 0x81, 1, 2]) 3 = some (fwd2, ev) ∧
      trace_of ev = trace_of (ev1 ++ ev2) :=
  C32_chunk_split_independence dec_idle [5, 0x86] [0x90, 0x81, 1, 2] 3
    ⟨rfl, Or.inl rfl⟩ (by simp) (by simp)

/-- C33 (control symbol while a parameter is pending): on a decoder outside an escape that
holds a pending handshake symbol, a control symbol `c` makes `fakewire_dec_raw_ctrl`, and
the decode call that brings the byte `c`, emit `CODEC_ERROR` with parameter 0 first and
drop the pending symbol, which is not emitted; then `c` is processed as usual: a symbol
without parameter is emitted with parameter 0 and nothing is pending afterwards, a
handshake symbol becomes the pending one with no parameter byte stored. -/
theorem C33_ctrl_interrupts_parameter (fwd : fw_decoder_t) (c recv_timestamp_ns : Nat)
    (hie : fwd.in_escape = false)
    (hpend : fwd.recv_current = FWC_HANDSHAKE_1 ∨ fwd.recv_current = FWC_HANDSHAKE_2)
    (hc : 0x80 ≤ c ∧ c ≤ 0x85) :
    fakewire_dec_raw_ctrl fwd c recv_timestamp_ns =
        some (if c = FWC_HANDSHAKE_1 ∨ c = FWC_HANDSHAKE_2 then
          ({ fwd with recv_current := c, recv_count := 0,
                      recv_timestamp_ns := recv_timestamp_ns },
            [fw_event.recv_ctrl FWC_CODEC_ERROR 0 fwd.recv_timestamp_ns])
        else
          ({ fwd with recv_current := FWC_NONE },
            [fw_event.recv_ctrl FWC_CODEC_ERROR 0 fwd.recv_timestamp_ns,
              fw_event.recv_ctrl c 0 recv_timestamp_ns])) ∧
      fakewire_dec_decode fwd [c] recv_timestamp_ns =
        fakewire_dec_raw_ctrl fwd c recv_timestamp_ns := by
  have hpar : fakewire_is_parametrized fwd.recv_current = some true :=
    (is_parametrized_handshake _ hpend).2.2.1
  have hcur : fwd.recv_current ≠ FWC_NONE := by
    rcases hpend with h | h <;> rw [h] <;> decide
  have hr : fakewire_dec_raw_ctrl fwd c recv_timestamp_ns =
      some (if c = FWC_HANDSHAKE_1 ∨ c = FWC_HANDSHAKE_2 then
        ({ fwd with recv_current := c, recv_count := 0,
                    recv_timestamp_ns := recv_timestamp_ns },
          [fw_event.recv_ctrl FWC_CODEC_ERROR 0 fwd.recv_timestamp_ns])
      else
        ({ fwd with recv_current := FWC_NONE },
          [fw_event.recv_ctrl FWC_CODEC_ERROR 0 fwd.recv_timestamp_ns,
            fw_event.recv_ctrl c 0 recv_timestamp_ns])) := by
    by_cases hh : c = FWC_HANDSHAKE_1 ∨ c = FWC_HANDSHAKE_2
    · have hp := (is_parametrized_handshake c hh).2.2.1
      simp [fakewire_dec_raw_ctrl, hcur, hpar, hp, hh]
    · have hs : c = FWC_START_PACKET ∨ c = FWC_END_PACKET ∨ c = FWC_ERROR_PACKET ∨
          c = FWC_FLOW_CONTROL := by
        simp only [FWC_START_PACKET, FWC_END_PACKET, FWC_ERROR_PACKET, FWC_FLOW_CONTROL,
          FWC_HANDSHAKE_1, FWC_HANDSHAKE_2] at hh ⊢
        omega
      have hp := (is_parametrized_plain c hs).2.2.1
      simp [fakewire_dec_raw_ctrl, hcur, hpar, hp, hh]
  refine ⟨hr, ?_⟩
  rw [hr]
  exact decode_single_ctrl recv_timestamp_ns fwd _ c _ hie hc.1 hc.2 hr

/-- C33 on a decoder that holds HANDSHAKE_1 with two parameter bytes, interrupted by
END_PACKET at timestamp 9. -/
theorem C33_ctrl_interrupts_parameter_witness :
    fakewire_dec_decode ⟨false, FWC_HANDSHAKE_1, 2, [1, 2, 0, 0], 4⟩ [FWC_END_PACKET] 9 =
      some (⟨false, FWC_NONE, 2, [1, 2, 0, 0], 4⟩,
        [fw_event.recv_ctrl FWC_CODEC_ERROR 0 4, fw_event.recv_ctrl FWC_END_PACKET 0 9]) := by
  have key := C33_ctrl_interrupts_parameter ⟨false, FWC_HANDSHAKE_1, 2, [1, 2, 0, 0], 4⟩
    FWC_END_PACKET 9 rfl (Or.inl rfl) (by decide)
  rw [key.2, key.1]
  rfl

/-- C34 (timestamp of a parametrized control event): when a handshake symbol and its
escaped parameter arrive, on a decoder with nothing pending, in a first decode call with
timestamp `t1` that brings at least the symbol and any number of later calls with any
timestamps that bring the rest, all calls return and exactly one control event is
observed, with the symbol, the parameter and the timestamp `t1` of the call that brought
the symbol. -/
theorem C34_timestamp_of_leading_symbol (fwd : fw_decoder_t) (symbol param t1 : Nat)
    (W1 : List Nat) (later : List (List Nat × Nat)) (hidle : dec_nothing_pending fwd)
    (hsym : symbol = FWC_HANDSHAKE_1 ∨ symbol = FWC_HANDSHAKE_2) (hp : param < 2 ^ 32)
    (hW1 : W1 ≠ []) (hlater : ∀ c ∈ later, c.1 ≠ [])
    (hwire : W1 ++ (later.map Prod.fst).flatten = symbol :: wire_escape (htobe32 param)) :
    ∃ fwd1 ev, fakewire_dec_decode_chunks fwd ((W1, t1) :: later) = some (fwd1, ev) ∧
      trace_of ev = [fw_token.ctrl symbol param t1] := by
  have hne : ∀ c ∈ (W1, t1) :: later, c.1 ≠ [] := by
    intro c hc
    rcases List.mem_cons.1 hc with h | h
    · rw [h]; exact hW1
    · exact hlater c h
  obtain ⟨f, ev, ev', a1, a2, _, a4⟩ :=
    chunks_one_by_one ((W1, t1) :: later) fwd (nothing_pending_wf fwd hidle) hne
  cases W1 with
  | nil => exact absurd rfl hW1
  | cons b W1 =>
    simp only [List.cons_append, List.cons.injEq] at hwire
    obtain ⟨hb, hrest⟩ := hwire
    subst hb
    have hcs : (one_by_one W1 t1 ++ one_by_one_chunks later).map Prod.fst =
        (wire_escape (htobe32 param)).map (fun x => [x]) := by
      rw [List.map_append, one_by_one_fst, one_by_one_chunks_fst, ← List.map_append, hrest]
    obtain ⟨f1, e1, b1, _, b3⟩ := chunks_handshake_call fwd b param t1 _ hidle hsym hp hcs
    have hobc : one_by_one_chunks ((b :: W1, t1) :: later) =
        ([b], t1) :: (one_by_one W1 t1 ++ one_by_one_chunks later) := rfl
    rw [hobc, b1] at a2
    simp only [Option.some.injEq, Prod.mk.injEq] at a2
    obtain ⟨x1, x2⟩ := a2
    subst x1 x2
    exact ⟨f1, ev, a1, by rw [a4, b3]⟩

/-- C34 on HANDSHAKE_1 with parameter `0x12860034`: the symbol and one parameter byte at
timestamp 5, the start of an escape pair at 6, the rest at 9. -/
theorem C34_timestamp_of_leading_symbol_witness :
    ∃ fwd1 ev,
      fakewire_dec_decode_chunks dec_idle [([0x80, 0x12, 0x86], 5), ([0x96], 6), ([0, 0x34], 9)] =
        some (fwd1, ev) ∧
      trace_of ev = [fw_token.ctrl FWC_HANDSHAKE_1 0x12860034 5] :=
  C34_timestamp_of_leading_symbol dec_idle FWC_HANDSHAKE_1 0x12860034 5 [0x80, 0x12, 0x86]
    [([0x96], 6), ([0, 0x34], 9)] ⟨rfl, rfl, rfl⟩ (Or.inl rfl) (by norm_num) (by simp)
    (by simp) (by decide)

/-! ## Claims on what the exchange receives -/

/-- C35, the code at the failing input: after `sched_handshaking_awaiting` the only symbol
ever received is a `HANDSHAKE_1`, whose ID bytes are still awaited, and flow-TX has entered
HANDSHAKING with the ID `0x80000001`; the four ID bytes `80 00 00 01` of that `HANDSHAKE_1`
then move the exchange from HANDSHAKING to OPERATING, no `HANDSHAKE_2` having been
received. -/
theorem C35_primary_id_taken_as_secondary :
    (exc_run exc_sys_init sched_handshaking_awaiting).map
        (fun s => (s.fwe.state, s.fwe.is_recv_handshake_id, s.fwe.send_handshake_id,
          (fakewire_exc_on_recv_data s.fwe [0x80, 0, 0, 1]).map (fun fwe1 => fwe1.state))) =
      some (FW_EXC_HANDSHAKING, true, [0x80, 0, 0, 1], some FW_EXC_OPERATING) := by
  decide

/-- C36: a DISCONNECTED exchange ignores what it receives: for every control symbol and
every non-empty data run, the callback returns and leaves every field of the exchange as it
was. -/
theorem C36_disconnected_ignores (fwe : fw_exchange_t) (symbol : Nat) (bytes_in : List Nat)
    (hst : fwe.state = FW_EXC_DISCONNECTED) (hne : bytes_in ≠ []) :
    fakewire_exc_on_recv_ctrl fwe symbol = some fwe ∧
      fakewire_exc_on_recv_data fwe bytes_in = some fwe := by
  have hlen : bytes_in.length ≠ 0 := by simpa using hne
  constructor
  · simp [fakewire_exc_on_recv_ctrl, fakewire_exc_check_invariants, hst]
  · simp [fakewire_exc_on_recv_data, fakewire_exc_check_invariants, hst, hlen]

/-- C36 on the exchange that `fakewire_exc_init` creates. -/
theorem C36_disconnected_ignores_witness :
    fakewire_exc_on_recv_ctrl fakewire_exc_init FWC_HANDSHAKE_1 = some fakewire_exc_init ∧
      fakewire_exc_on_recv_data fakewire_exc_init [1, 2, 3] = some fakewire_exc_init :=
  C36_disconnected_ignores fakewire_exc_init FWC_HANDSHAKE_1 [1, 2, 3] rfl (by decide)

/-- C37: in every reachable state other than DISCONNECTED, `is_recv_handshake_id` implies
that the state is CONNECTING or HANDSHAKING and that `recv_handshake_offset` is below 4, and
a state other than OPERATING implies that no buffer is registered; so `fakewire_exc_on_recv_data`
returns, for every non-empty data run, whenever a handshake ID is awaited or the state is
not OPERATING (the branches whose assertions state these facts). -/
theorem C37_receive_assertions_hold (acts : List exc_action) (s : exc_sys)
    (h : exc_run exc_sys_init acts = some s) (hst : s.fwe.state ≠ FW_EXC_DISCONNECTED) :
    (s.fwe.is_recv_handshake_id = true →
        (s.fwe.state = FW_EXC_CONNECTING ∨ s.fwe.state = FW_EXC_HANDSHAKING) ∧
          s.fwe.recv_handshake_offset < 4) ∧
      (s.fwe.state ≠ FW_EXC_OPERATING → s.fwe.inbound_buffer = none) ∧
      (∀ bytes_in : List Nat, bytes_in ≠ [] →
        s.fwe.is_recv_handshake_id = true ∨ s.fwe.state ≠ FW_EXC_OPERATING →
        ∃ fwe1, fakewire_exc_on_recv_data s.fwe bytes_in = some fwe1 ∧
          fwe1.recv_handshake_offset ≤ 4) := by
  obtain ⟨hf, _, _⟩ := reachable_inv acts s h
  obtain ⟨fwe, pc, w, pk, fc⟩ := s
  obtain ⟨st, txb, det, sid, rid, isr, ss, off, buf, boff, bmax, done, hs, rs, rip⟩ := fwe
  simp only [flags_inv] at hf
  simp only at hst
  obtain ⟨f1, f2, f3, f4, f5, f6, f7, f8⟩ := hf
  have hstate : st = FW_EXC_CONNECTING ∨ st = FW_EXC_HANDSHAKING ∨ st = FW_EXC_OPERATING := by
    cases st <;> simp_all
  refine ⟨fun hr => ?_, fun ho => ?_, fun bytes_in hne hc => ?_⟩
  · obtain ⟨g1, g2, _⟩ := f6 hr
    refine ⟨?_, g2⟩
    rcases hstate with k | k | k
    · exact Or.inl k
    · exact Or.inr k
    · exact absurd k g1
  · rcases hstate with k | k | k
    · exact (f5 (Or.inl k)).2.2.2.2
    · exact (f5 (Or.inr k)).2.2.2.2
    · exact absurd k ho
  · have hlen : bytes_in.length ≠ 0 := by simpa using hne
    cases isr
    · have ho : st ≠ FW_EXC_OPERATING := by
        rcases hc with k | k
        · simp at k
        · exact k
      have hb : buf = none := by
        rcases hstate with k | k | k
        · exact (f5 (Or.inl k)).2.2.2.2
        · exact (f5 (Or.inr k)).2.2.2.2
        · exact absurd k ho
      subst hb
      refine ⟨fakewire_exc_reset ⟨st, txb, det, sid, rid, false, ss, off, none, boff, bmax, done,
        hs, rs, rip⟩, ?_, by simp [fakewire_exc_reset]⟩
      simp [fakewire_exc_on_recv_data, fakewire_exc_check_invariants, hlen, hst, f1, ho]
    · obtain ⟨g1, g2, _⟩ := f6 rfl
      have hch : st = FW_EXC_CONNECTING ∨ st = FW_EXC_HANDSHAKING := by
        rcases hstate with k | k | k
        · exact Or.inl k
        · exact Or.inr k
        · exact absurd k g1
      cases hr : fakewire_exc_on_recv_data ⟨st, txb, det, sid, rid, true, ss, off, buf, boff,
          bmax, done, hs, rs, rip⟩ bytes_in with
      | none =>
        exfalso
        simp only [fakewire_exc_on_recv_data, fakewire_exc_check_invariants] at hr
        rcases hch with k | k <;> subst k <;> simp [hlen, g2] at hr <;> split_ifs at hr <;>
          simp_all <;> omega
      | some fwe1 =>
        refine ⟨fwe1, rfl, ?_⟩
        obtain ⟨_, _, hcases⟩ := on_recv_data_cases _ _ _ hr
        rcases hcases with ⟨_, e⟩ | ⟨_, e⟩ | ⟨_, _, k, e⟩ | ⟨_, _, k, e⟩ | ⟨_, _, k, _, e⟩ |
          ⟨k, _⟩
        · subst e; simp only; omega
        · subst e; simp [fakewire_exc_reset]
        · subst e; simp only at k ⊢; omega
        · subst e; simp only at k ⊢; omega
        · subst e; simp only at k ⊢; omega
        · simp at k

/-- C37 on a concrete schedule, in which the ID bytes of a `HANDSHAKE_1` are awaited. -/
theorem C37_receive_assertions_hold_witness :
    ∃ s, exc_run exc_sys_init sched_awaiting_id = some s ∧
      s.fwe.state ≠ FW_EXC_DISCONNECTED ∧ s.fwe.is_recv_handshake_id = true ∧
      (s.fwe.state = FW_EXC_CONNECTING ∨ s.fwe.state = FW_EXC_HANDSHAKING) ∧
      s.fwe.recv_handshake_offset < 4 ∧
      ∃ fwe1, fakewire_exc_on_recv_data s.fwe [1, 2] = some fwe1 ∧
        fwe1.recv_handshake_offset ≤ 4 := by
  obtain ⟨s, hs⟩ : ∃ s, exc_run exc_sys_init sched_awaiting_id = some s := ⟨_, rfl⟩
  have hv : (exc_run exc_sys_init sched_awaiting_id).map
      (fun s => (s.fwe.state, s.fwe.is_recv_handshake_id)) =
      some (FW_EXC_CONNECTING, true) := by decide
  rw [hs] at hv
  simp only [Option.map_some', Option.some.injEq, Prod.mk.injEq] at hv
  have hd : s.fwe.state ≠ FW_EXC_DISCONNECTED := by rw [hv.1]; decide
  have key := C37_receive_assertions_hold sched_awaiting_id s hs hd
  exact ⟨s, hs, hd, hv.2, (key.1 hv.2).1, (key.1 hv.2).2,
    key.2.2 [1, 2] (by decide) (Or.inl hv.2)⟩

/-! ## Claim on the encoder buffer -/

/-- C38 (encoder buffer safety): on an initialised encoder, after any number of the calls
of a sequence of permitted `encode_data`, `encode_ctrl` and flush calls, no call has
aborted (so every store was inside the buffer and the byte-count assertion that closes
`encode_data` held each time), the buffer still has its 1024 bytes, `enc_idx` is at most
1024, and the bytes handed to the sink followed by the bytes still buffered are exactly the
wire form of the calls made, in order; after a flush the sink holds all of them. -/
theorem C38_encoder_buffer_safe (fwe : fw_encoder_t) (calls : List enc_call) (k : Nat)
    (hinit : enc_initialised fwe) (hok : ∀ c ∈ calls, enc_call_ok c) :
    ∃ fwe1 out, enc_run fwe (calls.take k) = some (fwe1, out) ∧
      fwe1.enc_buffer.length = FSW_ENCODING_BUF_SIZE ∧ fwe1.enc_idx ≤ FSW_ENCODING_BUF_SIZE ∧
      out.flatten ++ fwe1.enc_buffer.take fwe1.enc_idx = wire_of_calls (calls.take k) ∧
      (out ++ (fakewire_enc_flush fwe1).2).flatten = wire_of_calls (calls.take k) ∧
      (fakewire_enc_flush fwe1).1.enc_idx = 0 := by
  obtain ⟨hl, hi⟩ := hinit
  obtain ⟨fwe1, out, h1, h2, h3, h4⟩ := enc_run_spec (calls.take k) fwe hl
    (by rw [hi]; exact Nat.zero_le _) (fun c hc => hok c (List.mem_of_mem_take hc))
  rw [hi, List.take_zero, List.nil_append] at h4
  refine ⟨fwe1, out, h1, h2, h3, h4, ?_, (enc_flush_spec fwe1).2.1⟩
  rw [List.flatten_append, (enc_flush_spec fwe1).1, h4]

/-- C38 on a fresh encoder after the first three of four calls. -/
theorem C38_encoder_buffer_safe_witness :
    ∃ fwe1 out,
      enc_run enc_fresh [enc_call.ctrl FWC_HANDSHAKE_2 0x86, enc_call.flush,
        enc_call.data [0x85, 7]] = some (fwe1, out) ∧
      fwe1.enc_idx ≤ FSW_ENCODING_BUF_SIZE ∧
      out.flatten ++ fwe1.enc_buffer.take fwe1.enc_idx =
        [0x81, 0, 0, 0, 0x86, 0x96, 0x86, 0x95, 7] := by
  obtain ⟨fwe1, out, h1, _, h3, h4, _, _⟩ :=
    C38_encoder_buffer_safe enc_fresh [enc_call.ctrl FWC_HANDSHAKE_2 0x86, enc_call.flush,
      enc_call.data [0x85, 7], enc_call.ctrl FWC_END_PACKET 0] 3
      ⟨List.length_replicate _ _, rfl⟩
      (by
        intro c hc
        simp only [List.mem_cons, List.mem_singleton, List.not_mem_nil, or_false] at hc
        rcases hc with rfl | rfl | rfl | rfl <;> simp [enc_call_ok])
  exact ⟨fwe1, out, h1, h3, h4⟩

/-! ## Ring buffer: the two copies and the queue -/

theorem mod_wrap (x C : Nat) (h : x < 2 * C) :
    x % C = if x < C then x else x - C := by
  split_ifs with hc
  · exact Nat.mod_eq_of_lt hc
  · rw [Nat.mod_eq_sub_mod (by omega)]
    exact Nat.mod_eq_of_lt (by omega)

theorem memcpy_getD (dst src : List Nat) (off n j : Nat) (h1 : off + n ≤ dst.length)
    (h2 : n ≤ src.length) :
    (memcpy dst off src n).getD j 0 =
      if j < off then dst.getD j 0
      else if j < off + n then src.getD (j - off) 0 else dst.getD j 0 := by
  have l1 : (dst.take off).length = off := by simp only [List.length_take]; omega
  have l2 : (src.take n).length = n := by simp only [List.length_take]; omega
  simp only [memcpy, List.getD_eq_getElem?_getD, List.append_assoc]
  split_ifs with c1 c2
  · rw [List.getElem?_append_left (by omega), List.getElem?_take_of_lt c1]
  · rw [List.getElem?_append_right (by omega), l1,
      List.getElem?_append_left (by omega), List.getElem?_take_of_lt (by omega)]
  · rw [List.getElem?_append_right (by omega), l1,
      List.getElem?_append_right (by omega), l2, List.getElem?_drop]
    congr 2
    omega

theorem memcpy_length_le (dst src : List Nat) (off n : Nat) (h1 : off + n ≤ dst.length)
    (h2 : n ≤ src.length) : (memcpy dst off src n).length = dst.length := by
  simp only [memcpy, List.length_append, List.length_take, List.length_drop]
  omega

theorem getD_drop (l : List Nat) (k j : Nat) : (l.drop k).getD j 0 = l.getD (k + j) 0 := by
  simp only [List.getD_eq_getElem?_getD, List.getElem?_drop]

/-- What a well-formed ring buffer gives on its capacity and on `mask`. -/
theorem ringbuf_wf_facts (rb : ringbuf_t) (h : ringbuf_wf rb) :
    0 < rb.capacity ∧ rb.capacity ≤ 2 ^ 62 ∧ (∀ x, mask rb x = x % rb.capacity) ∧
      (∀ x, x % 2 ^ 64 % rb.capacity = x % rb.capacity) := by
  obtain ⟨⟨e, he, hc⟩, _⟩ := h
  have h0 : 0 < rb.capacity := by rw [hc]; exact Nat.two_pow_pos e
  have h1 : rb.capacity ≤ 2 ^ 62 := by
    rw [hc]; exact Nat.pow_le_pow_right (by decide) (by omega)
  refine ⟨h0, h1, ?_, ?_⟩
  · intro x
    have : (rb.capacity + 2 ^ 64 - 1) % 2 ^ 64 = rb.capacity - 1 := by omega
    rw [mask, this, hc]
    exact Nat.and_pow_two_sub_one_eq_mod x e
  · intro x
    have hd : rb.capacity ∣ 2 ^ 64 := by
      rw [hc]; exact Nat.pow_dvd_pow 2 (by omega)
    exact Nat.mod_mod_of_dvd x hd

/-- The two copies of `ringbuf_write` put the first `n` new elements right after the `sz`
elements in the queue and leave those as they are. -/
theorem write_memory (mem data : List Nat) (C a sz n ti tc : Nat) (hm : mem.length = C)
    (ha : a < C) (hsz : sz + n ≤ C) (hn : n ≤ data.length) (hti : ti = (a + sz) % C)
    (htc : tc = if ti + n > C then C - ti else n) :
    tc ≤ n ∧
    (if n - tc > 0 then memcpy (memcpy mem ti data tc) 0 (data.drop tc) (n - tc)
      else memcpy mem ti data tc).length = C ∧
    ∀ i, i < sz + n →
      (if n - tc > 0 then memcpy (memcpy mem ti data tc) 0 (data.drop tc) (n - tc)
        else memcpy mem ti data tc).getD ((a + i) % C) 0 =
      if i < sz then mem.getD ((a + i) % C) 0 else data.getD (i - sz) 0 := by
  rw [mod_wrap (a + sz) C (by omega)] at hti
  have hti2 : ti < C := by
    split_ifs at hti <;> omega
  have htc2 : tc ≤ n ∧ ti + tc ≤ C := by
    split_ifs at htc <;> omega
  have l1 : (memcpy mem ti data tc).length = C := by
    rw [memcpy_length_le _ _ _ _ (by omega) (by omega), hm]
  have l2 : (data.drop tc).length = data.length - tc := List.length_drop _ _
  refine ⟨htc2.1, ?_, ?_⟩
  · split_ifs with hh
    · rw [memcpy_length_le _ _ _ _ (by rw [l1]; split_ifs at hti htc <;> omega)
        (by rw [l2]; omega), l1]
    · exact l1
  · intro i hi
    rw [mod_wrap (a + i) C (by omega)]
    have g1 := fun j => memcpy_getD mem data ti tc j (by omega) (by omega)
    have g2 := fun j => memcpy_getD (memcpy mem ti data tc) (data.drop tc) 0 (n - tc) j
      (by rw [l1]; split_ifs at hti htc <;> omega) (by rw [l2]; omega)
    by_cases hh : n - tc > 0
    · simp only [if_pos hh, g2, g1, getD_drop]
      split_ifs at hti htc ⊢ <;> first | rfl | omega | (congr 1; omega)
    · simp only [if_neg hh, g1]
      split_ifs at hti htc ⊢ <;> first | rfl | omega | (congr 1; omega)

/-- The two copies of `ringbuf_read` take the oldest `n` elements in order. -/
theorem read_memory (mem : List Nat) (C a n tc : Nat) (hm : mem.length = C) (ha : a < C)
    (hn : n ≤ C) (htc : tc = if a + n > C then C - a else n) :
    tc ≤ n ∧
    (if n - tc > 0 then (mem.drop a).take tc ++ mem.take (n - tc)
      else (mem.drop a).take tc) = (List.range n).map (fun i => mem.getD ((a + i) % C) 0) := by
  have htc2 : tc ≤ n ∧ a + tc ≤ C := by
    split_ifs at htc <;> omega
  refine ⟨htc2.1, ?_⟩
  apply List.ext_getElem
  · split_ifs <;> simp only [List.length_append, List.length_take, List.length_drop,
      List.length_map, List.length_range] <;> split_ifs at htc <;> omega
  · intro i h1 h2
    simp only [List.length_map, List.length_range] at h2
    simp only [List.getElem_map, List.getElem_range]
    rw [mod_wrap (a + i) C (by omega)]
    have e1 : ∀ (l : List Nat) (h : i < l.length), l[i] = l.getD i 0 := by
      intro l h
      simp [List.getD_eq_getElem?_getD, List.getElem?_eq_getElem h]
    rw [e1]
    have l1 : ((mem.drop a).take tc).length = tc := by
      simp only [List.length_take, List.length_drop]; omega
    by_cases hh : n - tc > 0
    · simp only [if_pos hh, List.getD_eq_getElem?_getD]
      by_cases hi : i < tc
      · rw [List.getElem?_append_left (by omega), List.getElem?_take_of_lt hi,
          List.getElem?_drop]
        split_ifs at htc ⊢ <;> first | rfl | omega
      · rw [List.getElem?_append_right (by omega), l1, List.getElem?_take_of_lt (by omega)]
        split_ifs at htc ⊢ <;> first | rfl | omega | (congr 2; omega)
    · simp only [if_neg hh, List.getD_eq_getElem?_getD]
      rw [List.getElem?_take_of_lt (by omega), List.getElem?_drop]
      split_ifs at htc ⊢ <;> first | rfl | omega

theorem ringbuf_contents_length (rb : ringbuf_t) :
    (ringbuf_contents rb).length = (rb.write_idx + 2 ^ 64 - rb.read_idx) % 2 ^ 64 := by
  simp only [ringbuf_contents, List.length_map, List.length_range]

theorem ringbuf_contents_eq (rb : ringbuf_t) (h : ringbuf_wf rb) :
    ringbuf_contents rb =
      (List.range ((rb.write_idx + 2 ^ 64 - rb.read_idx) % 2 ^ 64)).map
        (fun i => rb.memory.getD ((rb.read_idx % rb.capacity + i) % rb.capacity) 0) := by
  obtain ⟨_, _, hmask, hmod⟩ := ringbuf_wf_facts rb h
  simp only [ringbuf_contents, hmask, hmod, Nat.mod_add_mod]

theorem ringbuf_size_of_wf (rb : ringbuf_t) (h : ringbuf_wf rb) :
    ringbuf_size_locked rb = some (ringbuf_contents rb).length ∧
      ringbuf_space_locked rb = some (rb.capacity - (ringbuf_contents rb).length) := by
  have hs : ringbuf_size_locked rb = some (ringbuf_contents rb).length := by
    rw [ringbuf_contents_length]
    simp only [ringbuf_size_locked, if_pos h.2.2.2.2]
  exact ⟨hs, by simp only [ringbuf_space_locked, hs]⟩

theorem getElem_eq_getD (l : List Nat) (i : Nat) (h : i < l.length) : l[i] = l.getD i 0 := by
  simp [List.getD_eq_getElem?_getD, List.getElem?_eq_getElem h]

theorem range_map_append (f g : Nat → Nat) (data : List Nat) (sz n : Nat)
    (hn : n ≤ data.length)
    (h : ∀ i, i < sz + n → g i = if i < sz then f i else data.getD (i - sz) 0) :
    (List.range (sz + n)).map g = (List.range sz).map f ++ data.take n := by
  apply List.ext_getElem
  · simp only [List.length_append, List.length_take, List.length_map, List.length_range]
    omega
  · intro i h1 h2
    simp only [List.length_map, List.length_range] at h1
    simp only [List.getElem_map, List.getElem_range, List.getElem_append, List.length_map,
      List.length_range]
    rw [h i h1]
    split_ifs with c
    · rfl
    · simp only [List.getElem_take]
      rw [getElem_eq_getD]

/-- `ringbuf_write` on a well-formed ring buffer: it returns, the count is the smaller of
the number of elements offered and the space, the new elements follow the queue. -/
theorem ringbuf_write_spec (rb : ringbuf_t) (data_in : List Nat) (h : ringbuf_wf rb) :
    ∃ rb1, ringbuf_write rb data_in =
        some (rb1, min data_in.length (rb.capacity - (ringbuf_contents rb).length)) ∧
      ringbuf_wf rb1 ∧ rb1.capacity = rb.capacity ∧
      ringbuf_contents rb1 = ringbuf_contents rb ++
        data_in.take (min data_in.length (rb.capacity - (ringbuf_contents rb).length)) := by
  obtain ⟨hC0, hC, hmask, hmod⟩ := ringbuf_wf_facts rb h
  obtain ⟨hsize, hspace⟩ := ringbuf_size_of_wf rb h
  have hlen := ringbuf_contents_length rb
  obtain ⟨hpow, hm, hr, hw, hsz⟩ := h
  rw [← hlen] at hsz
  generalize hn : min data_in.length (rb.capacity - (ringbuf_contents rb).length) = n
  have hcount : (if data_in.length > rb.capacity - (ringbuf_contents rb).length then
      rb.capacity - (ringbuf_contents rb).length else data_in.length) = n := by
    rw [← hn]
    split_ifs <;> omega
  by_cases hn0 : n = 0
  · subst hn0
    refine ⟨rb, ?_, ⟨hpow, hm, hr, hw, by rw [← hlen]; exact hsz⟩, rfl, by simp⟩
    simp only [ringbuf_write, hspace, hcount]
    simp [hspace]
  · have hpos : n > 0 := Nat.pos_of_ne_zero hn0
    have hwr : rb.write_idx = (rb.read_idx + (ringbuf_contents rb).length) % 2 ^ 64 := by
      rw [hlen]; omega
    have hti : mask rb rb.write_idx =
        (rb.read_idx % rb.capacity + (ringbuf_contents rb).length) % rb.capacity := by
      rw [hmask]
      conv_lhs => rw [hwr]
      rw [hmod, Nat.mod_add_mod]
    obtain ⟨k1, k2, k3⟩ := write_memory rb.memory data_in rb.capacity
      (rb.read_idx % rb.capacity) (ringbuf_contents rb).length n (mask rb rb.write_idx)
      (if mask rb rb.write_idx + n > rb.capacity then rb.capacity - mask rb rb.write_idx else n)
      hm (Nat.mod_lt _ hC0) (by omega) (by omega) hti rfl
    have hsz1 : ((rb.write_idx + n) % 2 ^ 64 + 2 ^ 64 - rb.read_idx) % 2 ^ 64 =
        (ringbuf_contents rb).length + n := by
      rw [hlen]; rw [hlen] at hsz; omega
    have hwf1 : ringbuf_wf { rb with
        memory := (if n - (if mask rb rb.write_idx + n > rb.capacity then
            rb.capacity - mask rb rb.write_idx else n) > 0 then
          memcpy (memcpy rb.memory (mask rb rb.write_idx) data_in
            (if mask rb rb.write_idx + n > rb.capacity then
              rb.capacity - mask rb rb.write_idx else n)) 0
            (data_in.drop (if mask rb rb.write_idx + n > rb.capacity then
              rb.capacity - mask rb rb.write_idx else n))
            (n - (if mask rb rb.write_idx + n > rb.capacity then
              rb.capacity - mask rb rb.write_idx else n))
          else memcpy rb.memory (mask rb rb.write_idx) data_in
            (if mask rb rb.write_idx + n > rb.capacity then
              rb.capacity - mask rb rb.write_idx else n)),
        write_idx := (rb.write_idx + n) % 2 ^ 64 } := by
      refine ⟨hpow, k2, hr, Nat.mod_lt _ (by decide), ?_⟩
      show ((rb.write_idx + n) % 2 ^ 64 + 2 ^ 64 - rb.read_idx) % 2 ^ 64 ≤ rb.capacity
      rw [hsz1]; omega
    refine ⟨_, ?_, hwf1, rfl, ?_⟩
    · obtain ⟨_, hspace1⟩ := ringbuf_size_of_wf _ hwf1
      rw [ringbuf_contents_length] at hspace1
      simp only [hsz1] at hspace1
      simp only [ringbuf_write, hspace, hcount, if_pos hpos, k1, not_true_eq_false, if_false,
        hspace1]
      rw [if_pos (by omega)]
    · rw [ringbuf_contents_eq _ hwf1, ringbuf_contents_eq rb ⟨hpow, hm, hr, hw, by rw [← hlen]; exact hsz⟩]
      simp only [hsz1, ← hlen]
      exact range_map_append _ _ data_in _ n (by omega) k3

theorem range_map_take (f : Nat → Nat) (sz n : Nat) (hn : n ≤ sz) :
    ((List.range sz).map f).take n = (List.range n).map f := by
  apply List.ext_getElem
  · simp only [List.length_take, List.length_map, List.length_range]
    omega
  · intro i h1 h2
    simp only [List.getElem_take, List.getElem_map, List.getElem_range]

theorem range_map_drop (f g : Nat → Nat) (sz n : Nat)
    (h : ∀ i, i < sz - n → g i = f (n + i)) :
    (List.range (sz - n)).map g = ((List.range sz).map f).drop n := by
  apply List.ext_getElem
  · simp only [List.length_drop, List.length_map, List.length_range]
  · intro i h1 h2
    simp only [List.length_map, List.length_range] at h1
    simp only [List.getElem_drop, List.getElem_map, List.getElem_range]
    exact h i h1

/-- `ringbuf_read` on a well-formed ring buffer: it returns, the elements copied out are
the oldest ones, as many as asked for or as there are, and the rest stays queued. -/
theorem ringbuf_read_spec (rb : ringbuf_t) (elem_count : Nat) (h : ringbuf_wf rb) :
    ∃ rb1, ringbuf_read rb elem_count =
        some (rb1, (ringbuf_contents rb).take (min elem_count (ringbuf_contents rb).length)) ∧
      ringbuf_wf rb1 ∧ rb1.capacity = rb.capacity ∧
      ringbuf_contents rb1 =
        (ringbuf_contents rb).drop (min elem_count (ringbuf_contents rb).length) := by
  obtain ⟨hC0, hC, hmask, hmod⟩ := ringbuf_wf_facts rb h
  obtain ⟨hsize, _⟩ := ringbuf_size_of_wf rb h
  have hlen := ringbuf_contents_length rb
  have hwf := h
  obtain ⟨hpow, hm, hr, hw, hsz⟩ := h
  rw [← hlen] at hsz
  generalize hn : min elem_count (ringbuf_contents rb).length = n
  have hcount : (if elem_count > (ringbuf_contents rb).length then
      (ringbuf_contents rb).length else elem_count) = n := by
    rw [← hn]
    split_ifs <;> omega
  have hnle : n ≤ (ringbuf_contents rb).length := by omega
  by_cases hn0 : n = 0
  · subst hn0
    refine ⟨rb, ?_, hwf, rfl, by simp⟩
    simp only [ringbuf_read, hsize, hcount]
    simp [hsize]
  · have hpos : n > 0 := Nat.pos_of_ne_zero hn0
    obtain ⟨k1, k2⟩ := read_memory rb.memory rb.capacity (mask rb rb.read_idx) n
      (if mask rb rb.read_idx + n > rb.capacity then rb.capacity - mask rb rb.read_idx else n)
      hm (by rw [hmask]; exact Nat.mod_lt _ hC0) (by omega) rfl
    have hsz1 : (rb.write_idx + 2 ^ 64 - (rb.read_idx + n) % 2 ^ 64) % 2 ^ 64 =
        (ringbuf_contents rb).length - n := by
      rw [hlen]; rw [hlen] at hsz hnle; omega
    have hwf1 : ringbuf_wf { rb with read_idx := (rb.read_idx + n) % 2 ^ 64 } := by
      refine ⟨hpow, hm, Nat.mod_lt _ (by decide), hw, ?_⟩
      show (rb.write_idx + 2 ^ 64 - (rb.read_idx + n) % 2 ^ 64) % 2 ^ 64 ≤ rb.capacity
      rw [hsz1]; omega
    refine ⟨_, ?_, hwf1, rfl, ?_⟩
    · obtain ⟨hsize1, _⟩ := ringbuf_size_of_wf _ hwf1
      rw [ringbuf_contents_length] at hsize1
      simp only [hsz1] at hsize1
      have hout : (ringbuf_contents rb).take n =
          (List.range n).map (fun i => rb.memory.getD ((mask rb rb.read_idx + i) % rb.capacity) 0) := by
        rw [ringbuf_contents_eq rb hwf, ← hlen, range_map_take _ _ _ hnle, hmask]
      rw [hout, ← k2]
      simp only [ringbuf_read, hsize, hcount, if_pos hpos, k1, not_true_eq_false, if_false,
        hsize1]
      rw [if_pos (by omega)]
    · rw [ringbuf_contents_eq _ hwf1, ringbuf_contents_eq rb hwf]
      simp only [hsz1, ← hlen]
      apply range_map_drop
      intro i _
      simp only [hmod, Nat.mod_add_mod]
      rw [Nat.add_assoc]

/-- `ringbuf_init` on a power of two below `2^63` and an element size whose product with
it is below `2^64`: when `malloc` returns a block, an empty, well-formed ring buffer; when
`malloc` returns `NULL`, an abort. -/
theorem ringbuf_init_spec (e elem_size : Nat) (he : e < 63) (hs : 1 ≤ elem_size)
    (hb : 2 ^ e * elem_size < 2 ^ 64) :
    ringbuf_init (2 ^ e) elem_size true =
        some ⟨List.replicate (2 ^ e) 0, 2 ^ e, 0, 0⟩ ∧
      ringbuf_wf ⟨List.replicate (2 ^ e) 0, 2 ^ e, 0, 0⟩ ∧
      ringbuf_contents ⟨List.replicate (2 ^ e) 0, 2 ^ e, 0, 0⟩ = [] ∧
      ringbuf_init (2 ^ e) elem_size false = none := by
  have h0 : 0 < 2 ^ e := Nat.two_pow_pos e
  have h1 : 2 ^ e ≤ 2 ^ 62 := Nat.pow_le_pow_right (by decide) (by omega)
  have hm : (2 ^ e + 2 ^ 64 - 1) % 2 ^ 64 = 2 ^ e - 1 := by omega
  have ha : 2 ^ e &&& ((2 ^ e + 2 ^ 64 - 1) % 2 ^ 64) = 0 := by
    rw [hm, Nat.and_pow_two_sub_one_eq_mod, Nat.mod_self]
  have hsh : (2 ^ e <<< 1) % 2 ^ 64 ≠ 0 := by
    rw [Nat.shiftLeft_eq]
    omega
  have hbytes : (2 ^ e * elem_size) % 2 ^ 64 / elem_size = 2 ^ e := by
    rw [Nat.mod_eq_of_lt hb]
    exact Nat.mul_div_cancel _ (by omega)
  refine ⟨?_, ⟨⟨e, he, rfl⟩, List.length_replicate _ _, Nat.two_pow_pos 64,
    Nat.two_pow_pos 64, ?_⟩, ?_, ?_⟩
  · simp only [ringbuf_init, ha, hsh, hs, hbytes, not_true_eq_false, ne_eq,
      not_false_eq_true, if_false, ge_iff_le]
  · show (0 + 2 ^ 64 - 0) % 2 ^ 64 ≤ 2 ^ e
    omega
  · have hz : (0 + 2 ^ 64 - 0) % 2 ^ 64 = 0 := by omega
    simp only [ringbuf_contents, hz, List.range_zero, List.map_nil]
  · simp only [ringbuf_init, ha, hsh, hs, not_true_eq_false, ne_eq, not_false_eq_true,
      if_false, ge_iff_le, Bool.false_eq_true, if_true]

/-- C39 (the ring buffer refines a bounded FIFO queue): on every ring buffer as
`ringbuf_init` and the operations leave it, with capacity `C` a power of two and with the
queue read off `memory` from the read index to the write index through `mask`, a
non-blocking `ringbuf_write` returns, appends to the queue the first `min n (C - size)` of
the `n` elements offered and returns that count; a non-blocking `ringbuf_read` of `n`
elements returns, removes the oldest `min n size` elements and hands them out in the order
they were written; both leave such a ring buffer again, with the same capacity; the size
reported is the length of the queue, at most `C`, and size plus space is `C`; and
`ringbuf_init` with a power of two below `2^63` and an element size for which
`capacity * elem_size` does not wrap gives such a ring buffer with an empty queue when
`malloc` returns a block, and aborts when `malloc` returns `NULL`. The indices are kept
modulo `2^64` and offsets go through `mask`, so this covers data that wraps around the end
of `memory` and indices that overflow. -/
theorem C39_ringbuf_refines_fifo (rb : ringbuf_t) (data_in : List Nat) (elem_count : Nat)
    (hwf : ringbuf_wf rb) :
    (∃ rb1, ringbuf_write rb data_in =
        some (rb1, (fifo_write rb.capacity (ringbuf_contents rb) data_in).2) ∧
      ringbuf_wf rb1 ∧ rb1.capacity = rb.capacity ∧
      ringbuf_contents rb1 = (fifo_write rb.capacity (ringbuf_contents rb) data_in).1) ∧
    (∃ rb1, ringbuf_read rb elem_count =
        some (rb1, (fifo_read (ringbuf_contents rb) elem_count).2) ∧
      ringbuf_wf rb1 ∧ rb1.capacity = rb.capacity ∧
      ringbuf_contents rb1 = (fifo_read (ringbuf_contents rb) elem_count).1) ∧
    (ringbuf_size_locked rb = some (ringbuf_contents rb).length ∧
      ringbuf_space_locked rb = some (rb.capacity - (ringbuf_contents rb).length) ∧
      (ringbuf_contents rb).length ≤ rb.capacity ∧
      (ringbuf_contents rb).length + (rb.capacity - (ringbuf_contents rb).length) =
        rb.capacity) ∧
    (∀ e elem_size, e < 63 → 1 ≤ elem_size → 2 ^ e * elem_size < 2 ^ 64 →
      (∃ rb0, ringbuf_init (2 ^ e) elem_size true = some rb0 ∧ ringbuf_wf rb0 ∧
        rb0.capacity = 2 ^ e ∧ ringbuf_contents rb0 = []) ∧
      ringbuf_init (2 ^ e) elem_size false = none) := by
  have hle : (ringbuf_contents rb).length ≤ rb.capacity := by
    rw [ringbuf_contents_length]; exact hwf.2.2.2.2
  refine ⟨ringbuf_write_spec rb data_in hwf, ringbuf_read_spec rb elem_count hwf,
    ⟨(ringbuf_size_of_wf rb hwf).1, (ringbuf_size_of_wf rb hwf).2, hle, by omega⟩, ?_⟩
  intro e elem_size he hs hb
  obtain ⟨h1, h2, h3, h4⟩ := ringbuf_init_spec e elem_size he hs hb
  exact ⟨⟨_, h1, h2, rfl, h3⟩, h4⟩

/-- C39 on a ring buffer of capacity 4 with its indices just below `2^64`: a write of four
elements onto a queue of two stores two of them, one at the end of `memory` and one at its
start, and takes the write index past `2^64`; a read of four elements from the ring buffer
that this write leaves copies from the end and then from the start of `memory`, and takes
the read index past `2^64`; `ringbuf_init` for 4 elements of 8 bytes gives an empty queue
when `malloc` returns a block and aborts when it returns `NULL`. -/
theorem C39_ringbuf_refines_fifo_witness :
    ringbuf_contents ⟨[10, 20, 30, 40], 4, 2 ^ 64 - 3, 2 ^ 64 - 1⟩ = [20, 30] ∧
    ringbuf_write ⟨[10, 20, 30, 40], 4, 2 ^ 64 - 3, 2 ^ 64 - 1⟩ [7, 8, 9, 5] =
      some (⟨[8, 20, 30, 7], 4, 2 ^ 64 - 3, 1⟩, 2) ∧
    ringbuf_contents ⟨[8, 20, 30, 7], 4, 2 ^ 64 - 3, 1⟩ = [20, 30, 7, 8] ∧
    (∃ rb1, ringbuf_read ⟨[8, 20, 30, 7], 4, 2 ^ 64 - 3, 1⟩ 4 = some (rb1, [20, 30, 7, 8]) ∧
      ringbuf_contents rb1 = [] ∧ rb1.read_idx = 1) ∧
    (∃ rb0, ringbuf_init (2 ^ 2) 8 true = some rb0 ∧ rb0.capacity = 2 ^ 2 ∧
      ringbuf_contents rb0 = []) ∧
    ringbuf_init (2 ^ 2) 8 false = none := by
  have hc : ringbuf_contents ⟨[10, 20, 30, 40], 4, 2 ^ 64 - 3, 2 ^ 64 - 1⟩ = [20, 30] := by
    decide
  have hd : ringbuf_contents ⟨[8, 20, 30, 7], 4, 2 ^ 64 - 3, 1⟩ = [20, 30, 7, 8] := by decide
  obtain ⟨⟨rb1, a1, _, _, a4⟩, _, _⟩ :=
    C39_ringbuf_refines_fifo ⟨[10, 20, 30, 40], 4, 2 ^ 64 - 3, 2 ^ 64 - 1⟩ [7, 8, 9, 5] 0
      ⟨⟨2, by decide, rfl⟩, rfl, by decide, by decide, by decide⟩
  obtain ⟨_, ⟨rb2, b1, _, _, b4⟩, _, hinit⟩ :=
    C39_ringbuf_refines_fifo ⟨[8, 20, 30, 7], 4, 2 ^ 64 - 3, 1⟩ [] 4
      ⟨⟨2, by decide, rfl⟩, rfl, by decide, by decide, by decide⟩
  obtain ⟨⟨rb0, i1, _, i3, i4⟩, i5⟩ := hinit 2 8 (by decide) (by decide) (by norm_num)
  rw [hc] at a1
  rw [hd] at b1 b4
  have hw : ringbuf_write ⟨[10, 20, 30, 40], 4, 2 ^ 64 - 3, 2 ^ 64 - 1⟩ [7, 8, 9, 5] =
      some (⟨[8, 20, 30, 7], 4, 2 ^ 64 - 3, 1⟩, 2) := by decide
  have hr : (ringbuf_read ⟨[8, 20, 30, 7], 4, 2 ^ 64 - 3, 1⟩ 4).map (fun r => r.1.read_idx) =
      some 1 := by decide
  rw [b1] at hr
  simp only [Option.map_some', Option.some.injEq] at hr
  exact ⟨hc, hw, hd, ⟨rb2, b1, b4, hr⟩, ⟨rb0, i1, i3, i4⟩, i5⟩

end Fakewire
